import Mathlib

/-!
# Window-tree engine of sway (`sway/tree/layout.c`)

A shallow embedding of the tree mutators, the split operation and the
workspace ordering of `sway/tree/layout.c`, with the properties proved
about them.

Nodes live in a heap indexed by natural numbers; a C pointer to a
`struct sway_container` is an `Option Nat` (`none` is `NULL`).  An
operation that dereferences `NULL`, indexes a list outside its bounds or
does not finish within its fuel yields `none`.
-/

namespace Sway

/-! ## Data model -/

/-- Variant tag of a node (`enum sway_container_type`). -/
inductive sway_container_type where
  | C_ROOT
  | C_OUTPUT
  | C_WORKSPACE
  | C_CONTAINER
  | C_VIEW
  deriving DecidableEq, Repr

/-- Layout mode of a node (`enum sway_container_layout`). -/
inductive sway_container_layout where
  | L_NONE
  | L_HORIZ
  | L_VERT
  | L_STACKED
  | L_TABBED
  | L_FLOATING
  deriving DecidableEq, Repr

open sway_container_type sway_container_layout

/-- The fields of `struct sway_container` that `layout.c` reads or writes.
The geometry fields are `double` in C; the operations embedded here only
copy them or store zero, so they are carried as integers.  The field
`fullscreen` is `sway_workspace->fullscreen` (meaningful for workspaces) and
the `view_` fields are the geometry of `sway_view` (meaningful for views). -/
structure sway_container where
  type : sway_container_type
  layout : sway_container_layout
  prev_layout : sway_container_layout
  name : List Char
  x : Int
  y : Int
  width : Int
  height : Int
  saved_x : Int
  saved_y : Int
  saved_width : Int
  saved_height : Int
  is_fullscreen : Bool
  dirty : Bool
  parent : Option Nat
  children : List Nat
  fullscreen : Option Nat
  view_x : Int
  view_y : Int
  view_width : Int
  view_height : Int
  deriving DecidableEq, Repr

/-- The heap of nodes, the allocation counter used by `container_create`,
and the focus stack of the default seat (most recently focused first). -/
structure State where
  nodes : Nat → sway_container
  next_id : Nat
  focus_stack : List Nat

/-- Overwrite the node stored at `id`. -/
def State.set (s : State) (id : Nat) (c : sway_container) : State :=
  { s with nodes := fun n => if n = id then c else s.nodes n }

/-- Apply `f` to the node stored at `id`. -/
def State.upd (s : State) (id : Nat) (f : sway_container → sway_container) : State :=
  s.set id (f (s.nodes id))

/-- A node with every field cleared, as `calloc` returns it. -/
def blank_node : sway_container :=
  { type := C_ROOT, layout := L_NONE, prev_layout := L_NONE, name := [],
    x := 0, y := 0, width := 0, height := 0,
    saved_x := 0, saved_y := 0, saved_width := 0, saved_height := 0,
    is_fullscreen := false, dirty := false, parent := none, children := [],
    fullscreen := none, view_x := 0, view_y := 0, view_width := 0, view_height := 0 }

/-- Assign the child sequence of a node. -/
def set_children (n : sway_container) (l : List Nat) : sway_container :=
  { n with children := l }

/-- Assign the parent pointer of a node. -/
def set_parent (n : sway_container) (p : Option Nat) : sway_container :=
  { n with parent := p }

/-- Assign the fullscreen slot of a workspace. -/
def set_slot (n : sway_container) (f : Option Nat) : sway_container :=
  { n with fullscreen := f }

/-- Set the dirty flag of a node. -/
def set_dirty (n : sway_container) : sway_container :=
  { n with dirty := true }

/-- Assign `width` and `height` of a node. -/
def set_size (n : sway_container) (width height : Int) : sway_container :=
  { n with width := width, height := height }

/-- Assign the layout mode of a node. -/
def set_layout (n : sway_container) (l : sway_container_layout) : sway_container :=
  { n with layout := l }

/-- Assign the previous layout mode of a node. -/
def set_prev_layout (n : sway_container) (l : sway_container_layout) : sway_container :=
  { n with prev_layout := l }

/-- Assign `x`, `y`, `width` and `height` of a node. -/
def set_geometry (n : sway_container) (x y width height : Int) : sway_container :=
  { n with x := x, y := y, width := width, height := height }

/-- Assign `x`, `y`, `width` and `height` of the view of a node. -/
def set_view_geometry (n : sway_container) (x y width height : Int) : sway_container :=
  { n with view_x := x, view_y := y, view_width := width, view_height := height }

/-- Set the fullscreen flag of a node after saving its geometry. -/
def enter_fullscreen (n : sway_container) : sway_container :=
  { n with is_fullscreen := true, saved_x := n.x, saved_y := n.y, saved_width := n.width, saved_height := n.height }

/-- Clear the fullscreen flag of a node and restore its saved geometry. -/
def leave_fullscreen (n : sway_container) : sway_container :=
  { n with is_fullscreen := false, x := n.saved_x, y := n.saved_y, width := n.saved_width, height := n.saved_height }

/-! ## Workspace ordering -/

/-- C `isdigit` on a character. -/
def isdigit (c : Char) : Bool := decide (48 ≤ c.toNat ∧ c.toNat ≤ 57)

/-- C `isspace` on a character (the "C" locale). -/
def isspace (c : Char) : Bool :=
  decide (c.toNat = 32 ∨ (9 ≤ c.toNat ∧ c.toNat ≤ 13))

/-- The test `isdigit(name[0])`; `name[0]` of the empty string is the
terminating NUL, which is not a digit. -/
def name_starts_with_digit (name : List Char) : Bool :=
  match name with
  | [] => false
  | c :: _ => isdigit c

/-- The constant `LONG_MAX` of an LP64 target. -/
def LONG_MAX : Int := 2 ^ 63 - 1

/-- The constant `LONG_MIN` of an LP64 target. -/
def LONG_MIN : Int := -(2 ^ 63)

/-- The digit loop of `strtol` in base 10: the value of the longest prefix of
decimal digits, accumulated from `acc`. -/
def strtol_digits : Nat → List Char → Nat
  | acc, [] => acc
  | acc, c :: cs => if isdigit c then strtol_digits (acc * 10 + (c.toNat - 48)) cs else acc

/-- C `strtol(s, NULL, 10)`: skip white space, read an optional sign, read
decimal digits, and clamp the result to the range of `long`. -/
def strtol (s : List Char) : Int :=
  let t := s.dropWhile isspace
  match t with
  | '-' :: r => max LONG_MIN (-(strtol_digits 0 r : Int))
  | '+' :: r => min LONG_MAX (strtol_digits 0 r : Int)
  | _ => min LONG_MAX (strtol_digits 0 t : Int)

/-- Conversion of a `long` to `int` (two's complement, 32 bits). -/
def long_to_int (v : Int) : Int := (v + 2 ^ 31) % 2 ^ 32 - 2 ^ 31

/-- The value `int a_num = strtol(a->name, NULL, 10)` of a name. -/
def name_num (name : List Char) : Int := long_to_int (strtol name)

/-- The function `sort_workspace_cmp_qsort`, on the names of the two workspaces. -/
def sort_workspace_cmp_names (a b : List Char) : Int :=
  if name_starts_with_digit a && name_starts_with_digit b then
    let a_num := name_num a
    let b_num := name_num b
    if a_num < b_num then -1 else (if a_num > b_num then 1 else 0)
  else if name_starts_with_digit a then
    -1
  else if name_starts_with_digit b then
    1
  else
    0

/-- The function `sort_workspace_cmp_qsort(a, b)` for two workspaces of the heap. -/
def sort_workspace_cmp_qsort (s : State) (a b : Nat) : Int :=
  sort_workspace_cmp_names (s.nodes a).name (s.nodes b).name

/-- Insertion step of the stable sort: `a` is placed in front of the first
element that does not compare below it. -/
def stable_insert (cmp : Nat → Nat → Int) (a : Nat) : List Nat → List Nat
  | [] => [a]
  | b :: l => if cmp a b ≤ 0 then a :: b :: l else b :: stable_insert cmp a l

/-- Modelled from the spec: `list_stable_sort` (`common/list.c`) is not in the
sources; the spec calls it a stable sort of the list by the comparator, which
is what the insertion sort below is (elements that compare equal keep their
order). -/
def list_stable_sort (cmp : Nat → Nat → Int) : List Nat → List Nat
  | [] => []
  | a :: l => stable_insert cmp a (list_stable_sort cmp l)

/-- The function `container_sort_workspaces(output)`. -/
def container_sort_workspaces (s : State) (output : Nat) : State :=
  s.upd output fun o =>
    set_children o (list_stable_sort (sort_workspace_cmp_qsort s) o.children)

/-! ## Lists of children (`list_t`) -/

/-- Modelled from the spec: `list_insert` (`common/list.c`) is not in the
sources; it splices `item` into the sequence at `index`.  An index outside
`0 .. length` is outside the bounds of the list and gives no result. -/
def list_insert (l : List Nat) (index : Int) (item : Nat) : Option (List Nat) :=
  if 0 ≤ index ∧ index ≤ (l.length : Int) then
    some (l.take index.toNat ++ item :: l.drop index.toNat)
  else
    none

/-- Modelled from the spec: `list_add` (`common/list.c`) is not in the
sources; it appends `item` to the sequence. -/
def list_add (l : List Nat) (item : Nat) : List Nat := l ++ [item]

/-- Modelled from the spec: `list_del` (`common/list.c`) is not in the
sources; it erases the element at `index`. -/
def list_del (l : List Nat) (index : Nat) : List Nat := l.eraseIdx index

/-- The scan `for (i = 0; i < length; ++i) if (items[i] == item)`: the first
index at which `item` is stored, if any. -/
def list_find (l : List Nat) (item : Nat) : Option Nat :=
  match l with
  | [] => none
  | a :: t => if a = item then some 0 else (list_find t item).map fun i => i + 1

/-- The store `items[i] = item`; outside the bounds of the list it gives no
result. -/
def list_store (l : List Nat) (i : Int) (item : Nat) : Option (List Nat) :=
  if 0 ≤ i ∧ i < (l.length : Int) then some (l.set i.toNat item) else none

/-! ## Collaborators of the tree mutators -/

/-- The loop `do { c = c->parent; } while (c && c->type != type)` of
`container_parent`, entered with the pointer `c->parent`. -/
def container_parent_loop (s : State) (type : sway_container_type) :
    Nat → Option Nat → Option (Option Nat)
  | _, none => some none
  | 0, some _ => none
  | fuel + 1, some p =>
    if (s.nodes p).type = type then some (some p)
    else container_parent_loop s type fuel (s.nodes p).parent

/-- Modelled from the spec: `container_parent` (`sway/tree/container.c`) is not
in the sources; it is the parent-of-type lookup, the nearest proper ancestor of
`con` with the given type, or `NULL`.  The fuel is the number of allocated
nodes, which bounds the length of a parent chain without a cycle. -/
def container_parent (s : State) (con : Nat) (type : sway_container_type) :
    Option (Option Nat) :=
  container_parent_loop s type s.next_id (s.nodes con).parent

/-- The nodes met when following parent pointers from `p`, at most `fuel` of
them. -/
def ancestors (s : State) : Nat → Option Nat → List Nat
  | 0, _ => []
  | _ + 1, none => []
  | fuel + 1, some p => p :: ancestors s fuel (s.nodes p).parent

/-- Modelled from the spec: `container_set_dirty` (`sway/tree/container.c`) is
not in the sources; it marks the node dirty. -/
def container_set_dirty (s : State) (con : Nat) : State :=
  s.upd con fun n => set_dirty n

/-- Modelled from the spec: `container_notify_subtree_changed`
(`sway/tree/container.c`) is not in the sources; it emits the subtree-changed
notification and leaves the tree as it is. -/
def container_notify_subtree_changed (s : State) (_con : Nat) : State := s

/-- Modelled from the spec: `arrange_windows` (`sway/tree/arrange.c`) is not in
the sources; the spec places the computation of geometry in the arrangement
collaborator, outside the engine, so it leaves the tree as it is. -/
def arrange_windows (s : State) (_con : Nat) : State := s

/-- Modelled from the spec: `container_set_fullscreen` (`sway/tree/container.c`)
is not in the sources.  Entering fullscreen saves the geometry of the node,
demotes the node recorded in the fullscreen slot of its workspace, records the
node there and sets its flag; leaving fullscreen restores the saved geometry,
clears the flag and empties the slot of its workspace. -/
def container_set_fullscreen (s : State) (con : Nat) (enable : Bool) : State :=
  if (s.nodes con).is_fullscreen = enable then s
  else
    let workspace : Option Nat :=
      match container_parent s con C_WORKSPACE with
      | some (some w) => some w
      | _ => none
    if enable then
      let s1 : State :=
        match workspace with
        | some w =>
          match (s.nodes w).fullscreen with
          | some f =>
            if (s.nodes f).is_fullscreen then
              s.upd f leave_fullscreen
            else s
          | none => s
        | none => s
      let s2 := s1.upd con enter_fullscreen
      match workspace with
      | some w => s2.upd w fun n => set_slot n (some con)
      | none => s2
    else
      let s1 := s.upd con leave_fullscreen
      match workspace with
      | some w => s1.upd w fun n => set_slot n none
      | none => s1

/-- Modelled from the spec: `seat_get_focus` (`sway/input/seat.c`) is declared
in `seat.h` only; the focused node is the most recent entry of the focus
stack. -/
def seat_get_focus (s : State) : Option Nat := s.focus_stack.head?

/-- Modelled from the spec: `seat_set_focus` (`sway/input/seat.c`) is declared
in `seat.h` only; the node becomes the most recent entry of the focus stack. -/
def seat_set_focus (s : State) (con : Nat) : State :=
  { s with focus_stack := con :: s.focus_stack.filter fun n => n != con }

/-- Modelled from the spec: `container_create` (`sway/tree/container.c`) is not
in the sources; it allocates a node of the given type that has no parent and no
children, and returns it together with the new heap. -/
def container_create (s : State) (type : sway_container_type) : State × Nat :=
  ({ (s.set s.next_id { blank_node with type := type }) with next_id := s.next_id + 1 },
    s.next_id)

/-- Modelled from the spec: `remove_gaps` and `add_gaps` are not in the sources
and the spec has no gaps; with no gaps configured they leave the node as it
is. -/
def remove_gaps (s : State) (_con : Nat) : State := s

/-- See `remove_gaps`. -/
def add_gaps (s : State) (_con : Nat) : State := s

/-! ## Tree mutators -/

/-- The function `index_child(child)`: the index of `child` among the children of its
parent, -1 when it is not listed there. -/
def index_child (s : State) (child : Nat) : Option Int :=
  match (s.nodes child).parent with
  | none => none
  | some parent =>
    match list_find (s.nodes parent).children child with
    | some i => some (i : Int)
    | none => some (-1)

/-- The function `container_remove_child(child)`; the result holds the former parent. -/
def container_remove_child (s : State) (child : Nat) : Option (State × Nat) :=
  let s1 : Option State :=
    if (s.nodes child).is_fullscreen then
      match container_parent s child C_WORKSPACE with
      | some (some workspace) => some (s.upd workspace fun n => set_slot n none)
      | _ => none
    else some s
  match s1 with
  | none => none
  | some s1 =>
    match (s1.nodes child).parent with
    | none => none
    | some parent =>
      let s2 :=
        match list_find (s1.nodes parent).children child with
        | some i => s1.upd parent fun n => set_children n (list_del n.children i)
        | none => s1
      let s3 := s2.upd child fun n => set_parent n none
      let s4 := container_notify_subtree_changed s3 parent
      let s5 := container_set_dirty s4 parent
      let s6 := container_set_dirty s5 child
      some (s6, parent)

/-- The function `container_handle_fullscreen_reparent(con, old_parent)`. -/
def container_handle_fullscreen_reparent (s : State) (con : Nat) (old_parent : Option Nat) :
    Option State :=
  if (s.nodes con).is_fullscreen = false then some s
  else
    let old_workspace : Option (Option Nat) :=
      match old_parent with
      | none => some none
      | some op =>
        if (s.nodes op).type ≠ C_WORKSPACE then container_parent s op C_WORKSPACE
        else some (some op)
    match old_workspace with
    | none => none
    | some old_workspace =>
      match container_parent s con C_WORKSPACE with
      | none => none
      | some new_workspace =>
        if old_workspace = new_workspace then some s
        else
          let s1 :=
            match old_workspace with
            | some ow => s.upd ow fun n => set_slot n none
            | none => s
          match new_workspace with
          | none => none
          | some nw =>
            let s2 :=
              match (s1.nodes nw).fullscreen with
              | some f => container_set_fullscreen s1 f false
              | none => s1
            let s3 := s2.upd nw fun n => set_slot n (some con)
            match (s3.nodes nw).parent with
            | none => none
            | some output =>
              let o := s3.nodes output
              let s4 := s3.upd con fun n => set_geometry n o.x o.y o.width o.height
              if (s4.nodes con).type = C_VIEW then
                some (s4.upd con fun n => set_view_geometry n o.x o.y o.width o.height)
              else
                some (arrange_windows s4 nw)

/-- The function `container_insert_child(parent, child, i)`. -/
def container_insert_child (s : State) (parent child : Nat) (i : Int) : Option State :=
  let old_parent := (s.nodes child).parent
  let s1 : Option State :=
    match old_parent with
    | some _ => (container_remove_child s child).map fun r => r.1
    | none => some s
  match s1 with
  | none => none
  | some s1 =>
    match list_insert (s1.nodes parent).children i child with
    | none => none
    | some l =>
      let s2 := s1.upd parent fun n => set_children n l
      let s3 := s2.upd child fun n => set_parent n (some parent)
      container_handle_fullscreen_reparent s3 child old_parent

/-- The function `container_add_sibling(fixed, active)`; the result holds the returned
pointer `active->parent`. -/
def container_add_sibling (s : State) (fixed active : Nat) : Option (State × Option Nat) :=
  let old_parent := (s.nodes active).parent
  let s1 : Option State :=
    match old_parent with
    | some _ => (container_remove_child s active).map fun r => r.1
    | none => some s
  match s1 with
  | none => none
  | some s1 =>
    match (s1.nodes fixed).parent, index_child s1 fixed with
    | some parent, some i =>
      match list_insert (s1.nodes parent).children (i + 1) active with
      | none => none
      | some l =>
        let s2 := s1.upd parent fun n => set_children n l
        let s3 := s2.upd active fun n => set_parent n (some parent)
        match container_handle_fullscreen_reparent s3 active old_parent with
        | none => none
        | some s4 => some (s4, (s4.nodes active).parent)
    | _, _ => none

/-- The function `container_add_child(parent, child)`. -/
def container_add_child (s : State) (parent child : Nat) : Option State :=
  let old_parent := (s.nodes child).parent
  let s1 := s.upd parent fun n => set_children n (list_add n.children child)
  let s2 := s1.upd child fun n => set_parent n (some parent)
  match container_handle_fullscreen_reparent s2 child old_parent with
  | none => none
  | some s3 =>
    let s4 :=
      match old_parent with
      | some op => container_set_dirty s3 op
      | none => s3
    some (container_set_dirty s4 child)

/-- The function `container_replace_child(child, new_child)`; the result holds the returned
pointer (`NULL` when `child` has no parent, in which case nothing is done). -/
def container_replace_child (s : State) (child new_child : Nat) :
    Option (State × Option Nat) :=
  match (s.nodes child).parent with
  | none => some (s, none)
  | some parent =>
    match index_child s child with
    | none => none
    | some i =>
      let s1 : Option State :=
        match (s.nodes new_child).parent with
        | some _ => (container_remove_child s new_child).map fun r => r.1
        | none => some s
      match s1 with
      | none => none
      | some s1 =>
        match list_store (s1.nodes parent).children i new_child with
        | none => none
        | some l =>
          let s2 := s1.upd parent fun n => set_children n l
          let s3 := s2.upd new_child fun n => set_parent n (some parent)
          let s4 := s3.upd child fun n => set_parent n none
          let c := s4.nodes child
          let s5 := s4.upd new_child fun n => set_geometry n c.x c.y c.width c.height
          let s6 := s5.upd child fun n => set_size n 0 0
          some (s6, some parent)

/-! ## Split -/

/-- The loop of `container_split` that moves the children of the workspace into
the new container: while the workspace has a child, the first one is removed
and added to `cont`. -/
def container_split_loop (workspace cont : Nat) : Nat → State → Option State
  | 0, s => if (s.nodes workspace).children = [] then some s else none
  | fuel + 1, s =>
    match (s.nodes workspace).children with
    | [] => some s
    | ws_child :: _ =>
      match container_remove_child s ws_child with
      | none => none
      | some (s1, _) =>
        match container_add_child s1 cont ws_child with
        | none => none
        | some s2 => container_split_loop workspace cont fuel s2

/-- The function `container_split(child, layout)`; the result holds the returned node.  The
loop over the children of a workspace runs on a fuel equal to their number. -/
def container_split (s : State) (child : Nat) (layout : sway_container_layout) :
    Option (State × Nat) :=
  if (s.nodes child).type = C_WORKSPACE ∧ (s.nodes child).children.length = 0 then
    let s1 := s.upd child fun n => set_prev_layout n n.layout
    let s2 := s1.upd child fun n => set_layout n layout
    some (s2, child)
  else
    let (s0, cont) := container_create s C_CONTAINER
    let s1 := remove_gaps s0 child
    let s2 := s1.upd cont fun n => set_prev_layout n L_NONE
    let c := s2.nodes child
    let s3 := s2.upd cont fun n => set_geometry n c.x c.y c.width c.height
    let set_focus : Bool := decide (seat_get_focus s3 = some child)
    let s4 := add_gaps s3 cont
    let s5 : Option State :=
      if (s4.nodes child).type = C_WORKSPACE then
        match container_split_loop child cont (s4.nodes child).children.length s4 with
        | none => none
        | some t1 =>
          match container_add_child t1 child cont with
          | none => none
          | some t2 =>
            let old_layout := (t2.nodes child).layout
            let t3 := t2.upd child fun n => set_layout n layout
            some (t3.upd cont fun n => set_layout n old_layout)
      else
        let t1 := s4.upd cont fun n => set_layout n layout
        match container_replace_child t1 child cont with
        | none => none
        | some (t2, _) => container_add_child t2 cont child
    match s5 with
    | none => none
    | some s5 =>
      let s6 := if set_focus then seat_set_focus (seat_set_focus s5 cont) child else s5
      some (container_notify_subtree_changed s6 cont, cont)

/-! ## Specification of the detachment -/

/-- The heap after `child` has been detached from `parent`: `parent` lists it
no longer, its parent pointer is cleared, both nodes are dirty, and the
fullscreen slot of `workspace` (when given) is empty. -/
def detach (s : State) (child parent : Nat) (workspace : Option Nat) : State :=
  { s with nodes := fun n =>
      { s.nodes n with
        fullscreen := if some n = workspace then none else (s.nodes n).fullscreen
        children := if n = parent then (s.nodes n).children.erase child else (s.nodes n).children
        parent := if n = child then none else (s.nodes n).parent
        dirty := if n = parent ∨ n = child then true else (s.nodes n).dirty } }

/-- The heap `t` has the tree of `s`: the same allocation counter and focus
stack, and every node has the same type, parent, children, layout modes, name
and dirty flag. -/
def same_tree (s t : State) : Prop :=
  t.next_id = s.next_id ∧ t.focus_stack = s.focus_stack ∧
  ∀ n, (t.nodes n).type = (s.nodes n).type ∧ (t.nodes n).parent = (s.nodes n).parent ∧
    (t.nodes n).children = (s.nodes n).children ∧ (t.nodes n).layout = (s.nodes n).layout ∧
    (t.nodes n).prev_layout = (s.nodes n).prev_layout ∧ (t.nodes n).dirty = (s.nodes n).dirty ∧
    (t.nodes n).name = (s.nodes n).name

/-- The computation of `old_workspace` in
`container_handle_fullscreen_reparent`. -/
def old_workspace_of (s : State) (old_parent : Option Nat) : Option (Option Nat) :=
  match old_parent with
  | none => some none
  | some op =>
    if (s.nodes op).type ≠ C_WORKSPACE then container_parent s op C_WORKSPACE
    else some (some op)

/-- The step `if (old_workspace) old_workspace->sway_workspace->fullscreen = NULL`
of `container_handle_fullscreen_reparent`. -/
def clear_old_slot (s : State) (ow : Option Nat) : State :=
  match ow with
  | some w => s.upd w fun n => set_slot n none
  | none => s

/-- The step of `container_handle_fullscreen_reparent` in which the occupant of
the fullscreen slot of the new workspace leaves fullscreen. -/
def demote_occupant (s : State) (nw : Nat) : State :=
  match (s.nodes nw).fullscreen with
  | some f => container_set_fullscreen s f false
  | none => s

/-- The heap of `container_handle_fullscreen_reparent` once the fullscreen
slots have been updated: the slot of the old workspace is empty, the former
occupant of the slot of the new workspace has left fullscreen, and that slot
holds `con`. -/
def cross_slots (s : State) (con : Nat) (ow : Option Nat) (nw : Nat) : State :=
  (demote_occupant (clear_old_slot s ow) nw).upd nw fun n => set_slot n (some con)

/-- The tail of `container_handle_fullscreen_reparent` after the slots have
been updated, as it stands in the source. -/
def resize_step (s : State) (con nw output : Nat) : Option State :=
  let o := s.nodes output
  let s4 := s.upd con fun n => set_geometry n o.x o.y o.width o.height
  if (s4.nodes con).type = C_VIEW then
    some (s4.upd con fun n => set_view_geometry n o.x o.y o.width o.height)
  else
    some (arrange_windows s4 nw)

/-- The last step of `container_handle_fullscreen_reparent`: `con` takes the
geometry of `output`, and so does its view when it is a view. -/
def resized (s : State) (con output : Nat) : State :=
  let o := s.nodes output
  let s4 := s.upd con fun n => set_geometry n o.x o.y o.width o.height
  if (s4.nodes con).type = C_VIEW then
    s4.upd con fun n => set_view_geometry n o.x o.y o.width o.height
  else
    arrange_windows s4 con

/-- The workspace whose fullscreen slot `container_remove_child(child)`
empties: the workspace of `child` when `child` is fullscreen. -/
def removal_slot (s : State) (child : Nat) : Option Nat :=
  if (s.nodes child).is_fullscreen then
    match container_parent s child C_WORKSPACE with
    | some (some w) => some w
    | _ => none
  else none

/-- The heap after the step `if (child->parent) container_remove_child(child)`
that opens `container_insert_child` and `container_add_sibling`. -/
def detached (s : State) (child : Nat) : State :=
  match (s.nodes child).parent with
  | none => s
  | some q => detach s child q (removal_slot s child)

/-- The heap after `child` has been detached, the children of `parent` have
become `l`, and the parent pointer of `child` has been set to `parent`. -/
def reattached (s : State) (parent child : Nat) (l : List Nat) : State :=
  ((detached s child).upd parent fun n => set_children n l).upd child fun n =>
    set_parent n (some parent)

/-- The conditions under which the fullscreen bookkeeping of a node `c` that is
moved under `P` is defined: `c` is neither `P` nor an ancestor of `P` nor its
own ancestor, `c` lies in a workspace when it is attached, and `P` lies in a
workspace that has a parent (its output). -/
def fullscreen_reparent_ready (s : State) (P c : Nat) : Prop :=
  c ∉ ancestors s s.next_id (some P) ∧
  c ∉ ancestors s s.next_id (s.nodes c).parent ∧
  ((s.nodes c).parent ≠ none → ∃ W1, container_parent s c C_WORKSPACE = some (some W1)) ∧
  ∃ W2 O, container_parent_loop s C_WORKSPACE s.next_id (some P) = some (some W2) ∧
    (s.nodes W2).parent = some O

/-- The heap of `container_split` once the new container has been created and
given the geometry of `child`, before the children are moved. -/
def split_start (s : State) (child : Nat) : State :=
  let s2 := (remove_gaps (container_create s C_CONTAINER).1 child).upd s.next_id fun n =>
    set_prev_layout n L_NONE
  add_gaps (s2.upd s.next_id fun n =>
    set_geometry n (s2.nodes child).x (s2.nodes child).y (s2.nodes child).width
      (s2.nodes child).height) s.next_id

/-- The end of `container_split`: the focus is moved to the new container and
back when `child` was focused, and the change of the subtree is notified. -/
def split_finish (s5 : State) (child cont : Nat) (set_focus : Bool) : State :=
  container_notify_subtree_changed
    (if set_focus then seat_set_focus (seat_set_focus s5 cont) child else s5) cont

/-- A workspace (node 2) without children, in horizontal layout, on the output
1 under the root 0. -/
def empty_workspace_tree : State :=
  { nodes := fun n =>
      match n with
      | 0 => { blank_node with type := C_ROOT, children := [1] }
      | 1 => { blank_node with type := C_OUTPUT, parent := some 0, children := [2], width := 1920, height := 1080 }
      | 2 => { blank_node with type := C_WORKSPACE, name := "1".toList, parent := some 1, layout := L_HORIZ, prev_layout := L_NONE, width := 1920, height := 1080 }
      | _ => blank_node,
    next_id := 3,
    focus_stack := [2] }

/-! ## Movement: directions and collaborators -/

/-- Direction of a move (`enum movement_direction`). -/
inductive movement_direction where
  | MOVE_LEFT
  | MOVE_RIGHT
  | MOVE_UP
  | MOVE_DOWN
  | MOVE_PARENT
  | MOVE_CHILD
  deriving DecidableEq, Repr

/-- Direction in the layout of the outputs (`enum wlr_direction`). -/
inductive wlr_direction where
  | WLR_DIRECTION_UP
  | WLR_DIRECTION_DOWN
  | WLR_DIRECTION_LEFT
  | WLR_DIRECTION_RIGHT
  deriving DecidableEq, Repr

/-- Wrap policy of the configuration (`enum focus_wrapping_mode`). -/
inductive focus_wrapping_mode where
  | WRAP_NO
  | WRAP_YES
  | WRAP_FORCE
  deriving DecidableEq, Repr

open movement_direction wlr_direction focus_wrapping_mode

/-- The collaborators outside the tree engine, taken as parameters: the wrap
policy of the configuration (`config->focus_wrapping`); the output adjacent to
an output in a direction, as `wlr_output_layout_adjacent_output` answers from
the centre of that output; the focus-inactive query of the seat
(`seat_get_focus_inactive`, `NULL` is `none`); `workspace_is_visible`; the
creation of a workspace on an output (`workspace_next_name` followed by
`workspace_create`), which returns the new heap and the workspace; and the
focus-inactive view query of the seat (`seat_get_focus_inactive_view`). -/
structure Env where
  focus_wrapping : focus_wrapping_mode
  adjacent_output : State → wlr_direction → Nat → Option Nat
  seat_get_focus_inactive : State → Nat → Option Nat
  workspace_is_visible : State → Option Nat → Bool
  workspace_create : State → Nat → State × Nat
  seat_get_focus_inactive_view : State → Nat → Option Nat

/-- The global `root_container`; `layout_init` gives it the id 0. -/
def root_container : Nat := 0

/-- The function `sway_dir_to_wlr`; `none` is the result `false`. -/
def sway_dir_to_wlr (dir : movement_direction) : Option wlr_direction :=
  match dir with
  | MOVE_UP => some WLR_DIRECTION_UP
  | MOVE_DOWN => some WLR_DIRECTION_DOWN
  | MOVE_LEFT => some WLR_DIRECTION_LEFT
  | MOVE_RIGHT => some WLR_DIRECTION_RIGHT
  | _ => none

/-- The function `is_parallel`. -/
def is_parallel (layout : sway_container_layout) (dir : movement_direction) : Bool :=
  match layout with
  | L_TABBED => decide (dir = MOVE_LEFT ∨ dir = MOVE_RIGHT)
  | L_HORIZ => decide (dir = MOVE_LEFT ∨ dir = MOVE_RIGHT)
  | L_STACKED => decide (dir = MOVE_UP ∨ dir = MOVE_DOWN)
  | L_VERT => decide (dir = MOVE_UP ∨ dir = MOVE_DOWN)
  | _ => false

/-- The function `invert_movement`; on a direction that is not cardinal the
assertion fails and `MOVE_LEFT` is returned. -/
def invert_movement (dir : movement_direction) : movement_direction :=
  match dir with
  | MOVE_LEFT => MOVE_RIGHT
  | MOVE_RIGHT => MOVE_LEFT
  | MOVE_UP => MOVE_DOWN
  | MOVE_DOWN => MOVE_UP
  | _ => MOVE_LEFT

/-- The function `move_offs`. -/
def move_offs (move_dir : movement_direction) : Int :=
  if move_dir = MOVE_LEFT ∨ move_dir = MOVE_UP then -1 else 1

/-- The function `container_limit`. -/
def container_limit (s : State) (container : Nat) (move_dir : movement_direction) : Int :=
  if move_offs move_dir < 0 then 0 else ((s.nodes container).children.length : Int)

/-- The layout a split takes for a move: `move_dir == MOVE_LEFT || move_dir ==
MOVE_RIGHT ? L_HORIZ : L_VERT`. -/
def split_layout_of (move_dir : movement_direction) : sway_container_layout :=
  if move_dir = MOVE_LEFT ∨ move_dir = MOVE_RIGHT then L_HORIZ else L_VERT

/-- The read `items[i]` of a list; outside the bounds it gives no result. -/
def list_get (l : List Nat) (i : Int) : Option Nat :=
  if 0 ≤ i ∧ i < (l.length : Int) then l[i.toNat]? else none

/-- The lookup `container_parent` on a pointer that may be `NULL`, for which
the assertion of `container_parent` fails and `NULL` is returned. -/
def container_parent_ptr (s : State) (con : Option Nat) (type : sway_container_type) :
    Option (Option Nat) :=
  match con with
  | none => some none
  | some c => container_parent s c type

/-- The pattern `if (c->type != C_WORKSPACE) c = container_parent(c,
C_WORKSPACE)`: the workspace of a node, the node itself when it is one. -/
def workspace_of (s : State) (c : Nat) : Option (Option Nat) :=
  if (s.nodes c).type ≠ C_WORKSPACE then container_parent s c C_WORKSPACE else some (some c)

/-- The loop of `container_has_ancestor`. -/
def container_has_ancestor_loop (s : State) (ancestor : Nat) : Nat → Nat → Option Bool
  | 0, _ => none
  | fuel + 1, descendant =>
    if (s.nodes descendant).type = C_ROOT then some false
    else
      match (s.nodes descendant).parent with
      | none => none
      | some p => if p = ancestor then some true else container_has_ancestor_loop s ancestor fuel p

/-- Modelled from the spec: `container_has_ancestor` (`sway/tree/container.c`)
is not in the sources; it is the ancestor test, which follows the parent
pointers of `descendant` up to the root and tells whether `ancestor` is met. -/
def container_has_ancestor (s : State) (descendant ancestor : Nat) : Option Bool :=
  container_has_ancestor_loop s ancestor (s.next_id + 1) descendant

/-- Modelled from the spec: `container_is_floating` (`sway/tree/container.c`)
is not in the sources; a node is floating when its parent is a floating
container, the node whose layout is the floating layout. -/
def container_is_floating (s : State) (container : Nat) : Bool :=
  match (s.nodes container).parent with
  | none => false
  | some p => decide ((s.nodes p).layout = L_FLOATING)

/-- The loop of `container_is_floating_or_child`. -/
def container_is_floating_or_child_loop (s : State) : Nat → Nat → Option Bool
  | 0, _ => none
  | fuel + 1, container =>
    match (s.nodes container).parent with
    | none => some false
    | some p =>
      if (s.nodes p).layout = L_FLOATING then some true
      else if (s.nodes p).type ≠ C_WORKSPACE then container_is_floating_or_child_loop s fuel p
      else some false

/-- Modelled from the spec: `container_is_floating_or_child`
(`sway/tree/container.c`) is not in the sources; it tells whether the node or
one of its ancestors below the workspace is floating. -/
def container_is_floating_or_child (s : State) (container : Nat) : Option Bool :=
  container_is_floating_or_child_loop s (s.next_id + 1) container

/-- The loop of `container_is_fullscreen_or_child`. -/
def container_is_fullscreen_or_child_loop (s : State) : Nat → Nat → Option Bool
  | 0, _ => none
  | fuel + 1, container =>
    if (s.nodes container).is_fullscreen then some true
    else
      match (s.nodes container).parent with
      | none => some false
      | some p =>
        if (s.nodes p).type ≠ C_WORKSPACE then container_is_fullscreen_or_child_loop s fuel p
        else some false

/-- Modelled from the spec: `container_is_fullscreen_or_child`
(`sway/tree/container.c`) is not in the sources; it tells whether the node or
one of its ancestors below the workspace is fullscreen. -/
def container_is_fullscreen_or_child (s : State) (container : Nat) : Option Bool :=
  container_is_fullscreen_or_child_loop s (s.next_id + 1) container

/-- Modelled from the spec: `seat_set_focus` on a pointer that may be `NULL`;
with `NULL` the focus stack is left as it is. -/
def seat_set_focus_ptr (s : State) (con : Option Nat) : State :=
  match con with
  | some c => seat_set_focus s c
  | none => s

/-- Modelled from the spec: the notifications and hints sent to the external
event sink (`ipc_event_window`, `ipc_event_workspace`, `container_create_notify`,
`workspace_detect_urgent`, `workspace_output_raise_priority`) and
`container_end_mouse_operation` are not in the sources; they leave the tree and
the focus stack as they are. -/
def notify_external (s : State) : State := s

/-- Modelled from the spec: `container_destroy` (`sway/tree/container.c`) is
not in the sources; a destroyed node is detached from its parent, if it has
one, and leaves the focus stack. -/
def container_destroy (s : State) (con : Nat) : Option State :=
  let s1 : Option State :=
    match (s.nodes con).parent with
    | some _ => (container_remove_child s con).map fun r => r.1
    | none => some s
  s1.map fun t => { t with focus_stack := t.focus_stack.filter fun n => n != con }

/-- The loop of `container_flatten`; the result holds the returned node. -/
def container_flatten_loop : Nat → State → Nat → Option (State × Nat)
  | 0, s, container =>
    if (s.nodes container).type = C_CONTAINER ∧ (s.nodes container).children.length = 1 then none
    else some (s, container)
  | fuel + 1, s, container =>
    if (s.nodes container).type = C_CONTAINER ∧ (s.nodes container).children.length = 1 then
      match (s.nodes container).children.head?, (s.nodes container).parent with
      | some child, parent =>
        match container_replace_child s container child with
        | none => none
        | some (s1, _) =>
          match container_destroy s1 container with
          | none => none
          | some s2 =>
            match parent with
            | none => none
            | some p => container_flatten_loop fuel s2 p
      | none, _ => none
    else some (s, container)

/-- Modelled from the spec: `container_flatten` (`sway/tree/container.c`) is
not in the sources; while the node is a container with a single child, the
child is spliced into the slot of the node in its parent, the node is
discarded, and the parent is looked at; the node reached is returned.  A `NULL`
node is dereferenced. -/
def container_flatten (s : State) (container : Option Nat) : Option (State × Nat) :=
  match container with
  | none => none
  | some c => container_flatten_loop (s.next_id + 1) s c

/-- Modelled from the spec: `container_reap_empty` (`sway/tree/container.c`) is
not in the sources; a container without children is removed, and so is a
workspace without children unless it is the last workspace of its output; the
result tells whether the node was removed. -/
def container_reap_empty (s : State) (con : Nat) : Option (State × Bool) :=
  match (s.nodes con).type with
  | C_CONTAINER =>
    if (s.nodes con).children.length = 0 then (container_destroy s con).map fun t => (t, true)
    else some (s, false)
  | C_WORKSPACE =>
    let last : Bool :=
      match (s.nodes con).parent with
      | some o => decide ((s.nodes o).children.length ≤ 1)
      | none => true
    if (s.nodes con).children.length = 0 ∧ last = false then
      (container_destroy s con).map fun t => (t, true)
    else some (s, false)
  | _ => some (s, false)

/-- The loop of `container_reap_empty_recursive`. -/
def container_reap_empty_recursive_loop : Nat → State → Option Nat → Option State
  | _, s, none => some s
  | 0, _, some _ => none
  | fuel + 1, s, some con =>
    let next := (s.nodes con).parent
    match container_reap_empty s con with
    | none => none
    | some (s1, true) => container_reap_empty_recursive_loop fuel s1 next
    | some (s1, false) => some s1

/-- Modelled from the spec: `container_reap_empty_recursive`
(`sway/tree/container.c`) is not in the sources; walking upward from the node,
it removes the chain of nodes left without children. -/
def container_reap_empty_recursive (s : State) (con : Option Nat) : Option State :=
  container_reap_empty_recursive_loop (s.next_id + 1) s con

/-! ## Movement: `container_move_to`, rejigger and promotion -/

/-- Assign `saved_width` and `saved_height` of a node. -/
def set_saved_size (n : sway_container) (width height : Int) : sway_container :=
  { n with saved_width := width, saved_height := height }

/-- The end of `container_move_to`: when the workspace now holding `container`
has a fullscreen node and holds the focus of the seat, the focus goes to the
focus-inactive node of that fullscreen node; then the workspace of the former
parent is looked up for the urgency hints.  The model has one seat. -/
def container_move_to_finish (env : Env) (s : State) (container old_parent : Nat) :
    Option State :=
  match workspace_of s container with
  | some (some new_workspace) =>
    let s1 : Option State :=
      match (s.nodes new_workspace).fullscreen with
      | some fs =>
        match seat_get_focus s with
        | none => none
        | some focus =>
          match workspace_of s focus with
          | none => none
          | some focus_ws =>
            if focus_ws = some new_workspace then
              some (seat_set_focus_ptr s (env.seat_get_focus_inactive s fs))
            else some s
      | none => some s
    match s1 with
    | none => none
    | some s1 =>
      match workspace_of s1 old_parent with
      | none => none
      | some _ => some (notify_external s1)
  | _ => none

/-- The function `container_move_to(container, destination)`. -/
def container_move_to (env : Env) (s : State) (container destination : Nat) : Option State :=
  if container = destination then some s
  else
    match container_has_ancestor s container destination with
    | none => none
    | some true => some s
    | some false =>
      if container_is_floating s container then some s
      else
        match container_remove_child s container with
        | none => none
        | some (s1, old_parent) =>
          let s2 := s1.upd container fun n => set_size n 0 0
          let s3 := s2.upd container fun n => set_saved_size n 0 0
          let new_parent_focus := env.seat_get_focus_inactive s3 destination
          let r : Option (State × Option Nat) :=
            if (s3.nodes destination).type = C_VIEW then
              container_add_sibling s3 destination container
            else
              (container_add_child s3 destination container).map fun t => (t, some destination)
          match r with
          | none => none
          | some (s4, new_parent) =>
            let s5 : Option State :=
              if (s4.nodes container).type = C_WORKSPACE then
                let t1 :=
                  if (s4.nodes old_parent).children.length = 0 then
                    seat_set_focus (env.workspace_create s4 old_parent).1
                      (env.workspace_create s4 old_parent).2
                  else s4
                match container_reap_empty_recursive t1 new_parent_focus, new_parent with
                | some t2, some np =>
                  some (notify_external (seat_set_focus (container_sort_workspaces t2 np) np))
                | _, _ => none
              else some (notify_external s4)
            match s5 with
            | none => none
            | some s5 =>
              let s6 :=
                match new_parent with
                | some np =>
                  container_notify_subtree_changed
                    (container_notify_subtree_changed s5 old_parent) np
                | none => container_notify_subtree_changed s5 old_parent
              container_move_to_finish env s6 container old_parent

/-- The loop `for (i = 0; i < ws->children->length; ++i)` of
`workspace_rejigger`, which calls `container_move_to(new_parent, _child)` on
each child of the workspace. -/
def workspace_rejigger_loop (env : Env) (ws new_parent : Nat) : Nat → Nat → State → Option State
  | 0, i, s => if i < (s.nodes ws).children.length then none else some s
  | fuel + 1, i, s =>
    match (s.nodes ws).children[i]? with
    | none => some s
    | some child =>
      match container_move_to env s new_parent child with
      | none => none
      | some s1 => workspace_rejigger_loop env ws new_parent fuel (i + 1) s1

/-- The function `workspace_rejigger(ws, child, move_dir)`. -/
def workspace_rejigger (env : Env) (s : State) (ws child : Nat) (move_dir : movement_direction) :
    Option State :=
  let original_parent := (s.nodes child).parent
  match container_split s ws (s.nodes ws).layout with
  | none => none
  | some (s1, new_parent) =>
    match container_remove_child s1 child with
    | none => none
    | some (s2, _) =>
      match workspace_rejigger_loop env ws new_parent (s2.next_id + 1) 0 s2 with
      | none => none
      | some s3 =>
        let index := move_offs move_dir
        match container_insert_child s3 ws child (if index < 0 then 0 else 1) with
        | none => none
        | some s4 =>
          let s5 := s4.upd ws fun n => set_layout n (split_layout_of move_dir)
          match container_flatten s5 (some ws) with
          | none => none
          | some (s6, _) =>
            match container_reap_empty_recursive s6 original_parent with
            | none => none
            | some s7 => some (notify_external s7)

/-- The function `move_out_of_tabs_stacks(container, current, move_dir, offs)`. -/
def move_out_of_tabs_stacks (s : State) (container current : Nat)
    (move_dir : movement_direction) (offs : Int) : Option State :=
  match (s.nodes current).parent with
  | none => none
  | some cp =>
    if (s.nodes container).parent = some cp ∧ (s.nodes cp).children.length = 1 then
      some (s.upd cp fun n => set_layout n (split_layout_of move_dir))
    else
      let is_workspace : Bool := decide ((s.nodes cp).type = C_WORKSPACE)
      match container_split s cp (split_layout_of move_dir) with
      | none => none
      | some (s1, new_parent) =>
        let s2 : Option State :=
          if is_workspace then
            match (s1.nodes new_parent).parent with
            | none => none
            | some npp => container_insert_child s1 npp container (if offs < 0 then 0 else 1)
          else
            match container_insert_child s1 new_parent container (if offs < 0 then 0 else 1) with
            | none => none
            | some t1 =>
              match container_reap_empty_recursive t1 (t1.nodes new_parent).parent with
              | none => none
              | some t2 => (container_flatten t2 (t2.nodes new_parent).parent).map fun r => r.1
        match s2 with
        | none => none
        | some s2 => some (container_notify_subtree_changed (notify_external s2) new_parent)

/-! ## Movement: `container_move` -/

/-- The first loop of `container_move`, which looks for the destination from
`current`.  The result holds the heap and the sibling found; no sibling means
that `container_move` has returned. -/
def container_move_search (env : Env) (container : Nat) (move_dir : movement_direction)
    (offs : Int) (top : Option Nat) : Nat → State → Option Nat → Option (State × Option Nat)
  | 0, _, _ => none
  | fuel + 1, s, current =>
    if current = top then some (s, none)
    else
      match current with
      | none => none
      | some cur =>
        match index_child s cur, (s.nodes cur).parent with
        | some index, some parent =>
          match (s.nodes cur).type with
          | C_OUTPUT =>
            match sway_dir_to_wlr move_dir with
            | none => some (s, none)
            | some wlr_dir =>
              match env.adjacent_output s wlr_dir cur with
              | none => some (s, none)
              | some next =>
                match env.seat_get_focus_inactive s next with
                | none => none
                | some focus =>
                  match workspace_of s focus with
                  | none => none
                  | some (some sibling) => some (s, some sibling)
                  | some none => container_move_search env container move_dir offs top fuel s none
          | C_WORKSPACE =>
            if is_parallel (s.nodes cur).layout move_dir = false then
              if (s.nodes cur).children.length ≥ 2 then
                (workspace_rejigger env s cur container move_dir).map fun t => (t, none)
              else
                container_move_search env container move_dir offs top fuel s (some parent)
            else if (s.nodes cur).layout = L_TABBED ∨ (s.nodes cur).layout = L_STACKED then
              match workspace_rejigger env s cur container move_dir with
              | none => none
              | some t => container_move_search env container move_dir offs top fuel t (some cur)
            else
              container_move_search env container move_dir offs top fuel s (some parent)
          | C_ROOT => some (s, none)
          | _ =>
            if is_parallel (s.nodes parent).layout move_dir then
              if (index = ((s.nodes parent).children.length : Int) - 1 ∧ offs > 0)
                  ∨ (index = 0 ∧ offs < 0) then
                if (s.nodes cur).parent = (s.nodes container).parent then
                  match (s.nodes parent).parent with
                  | none => none
                  | some pp =>
                    if (s.nodes pp).layout = L_FLOATING then some (s, none)
                    else if (s.nodes parent).is_fullscreen = false ∧
                        ((s.nodes parent).layout = L_TABBED ∨
                          (s.nodes parent).layout = L_STACKED) then
                      (move_out_of_tabs_stacks s container cur move_dir offs).map fun t =>
                        (t, none)
                    else
                      container_move_search env container move_dir offs top fuel s (some parent)
                else
                  match container_insert_child s parent container
                      (index + (if offs < 0 then 0 else 1)) with
                  | none => none
                  | some t => some (t.upd container fun n => set_size n 0 0, none)
              else
                match list_get (s.nodes parent).children (index + offs) with
                | none => none
                | some sibling => some (s, some sibling)
            else
              match (s.nodes parent).parent with
              | none => none
              | some pp =>
                if (s.nodes parent).is_fullscreen = false ∧ (s.nodes pp).layout ≠ L_FLOATING ∧
                    ((s.nodes parent).layout = L_TABBED ∨ (s.nodes parent).layout = L_STACKED) then
                  (move_out_of_tabs_stacks s container cur move_dir offs).map fun t => (t, none)
                else if (s.nodes pp).layout = L_FLOATING then some (s, none)
                else container_move_search env container move_dir offs top fuel s (some parent)
        | _, _ => none

/-- The loop `while (focus_inactive->parent != sibling)` of `container_move`. -/
def focus_inactive_child (s : State) (sibling : Nat) : Nat → Nat → Option Nat
  | 0, _ => none
  | fuel + 1, focus_inactive =>
    match (s.nodes focus_inactive).parent with
    | none => none
    | some p =>
      if p = sibling then some focus_inactive else focus_inactive_child s sibling fuel p

/-- The second loop of `container_move`, which moves `container` next to or
into `sibling`; `index` is the index of `container` in its parent.  The result
tells whether the code after the loop is run: it is not when the type of the
sibling is unexpected. -/
def container_move_relocate (env : Env) (container : Nat) (move_dir : movement_direction)
    (offs : Int) (index : Int) : Nat → State → Nat → Option (State × Bool)
  | 0, _, _ => none
  | fuel + 1, s, sibling =>
    match (s.nodes sibling).type with
    | C_VIEW =>
      if (s.nodes sibling).parent = (s.nodes container).parent then
        match (s.nodes sibling).parent with
        | none => none
        | some sp =>
          match list_store (s.nodes sp).children (index + offs) container with
          | none => none
          | some l1 =>
            match list_store l1 index sibling with
            | none => none
            | some l2 => some (s.upd sp fun n => set_children n l2, true)
      else
        match (s.nodes sibling).parent, index_child s sibling with
        | some sp, some i =>
          match container_insert_child s sp container (i + (if offs > 0 then 0 else 1)) with
          | none => none
          | some t => some (t.upd container fun n => set_size n 0 0, true)
        | _, _ => none
    | C_ROOT => some (s, false)
    | C_OUTPUT => some (s, false)
    | _ =>
      if is_parallel (s.nodes sibling).layout move_dir then
        match container_insert_child s sibling container
            (container_limit s sibling (invert_movement move_dir)) with
        | none => none
        | some t => some (t.upd container fun n => set_size n 0 0, true)
      else
        let focus_inactive := env.seat_get_focus_inactive s sibling
        if focus_inactive ≠ none ∧ focus_inactive ≠ some sibling then
          match focus_inactive with
          | none => none
          | some fi =>
            match focus_inactive_child s sibling (s.next_id + 1) fi with
            | none => none
            | some child => container_move_relocate env container move_dir offs index fuel s child
        else
          let r : Option State :=
            match (s.nodes sibling).children.head? with
            | some first =>
              match container_remove_child s container with
              | none => none
              | some (t, _) => (container_add_sibling t first container).map fun r => r.1
            | none =>
              match container_remove_child s container with
              | none => none
              | some (t, _) => container_add_child t sibling container
          r.map fun t => (t.upd container fun n => set_size n 0 0, true)

/-- The code of `container_move` after the second loop: notifications, the
focus of the seat goes to the former parent and back to `container`, and the
workspaces of the former and of the new parent are looked up for the
workspace event. -/
def container_move_finish (s : State) (container : Nat) (old_parent : Option Nat) :
    Option State :=
  let s1 := notify_external s
  let s2 :=
    match old_parent with
    | some op => seat_set_focus (seat_set_focus s1 op) container
    | none => s1
  let last_ws : Option (Option Nat) :=
    match old_parent with
    | some op => workspace_of s2 op
    | none => some none
  let next_ws : Option (Option Nat) :=
    match (s2.nodes container).parent with
    | some np => workspace_of s2 np
    | none => some none
  match last_ws, next_ws with
  | some _, some _ => some (notify_external s2)
  | _, _ => none

/-- The function `container_move(container, move_dir, move_amt)`; the amount is
not used by the code.  The assertion at the entry, `container->type !=
C_CONTAINER || container->type != C_VIEW`, is as in the source. -/
def container_move (env : Env) (s : State) (container : Nat) (move_dir : movement_direction) :
    Option State :=
  if ¬ ((s.nodes container).type ≠ C_CONTAINER ∨ (s.nodes container).type ≠ C_VIEW) then some s
  else
    let offs := move_offs move_dir
    let parent := (s.nodes container).parent
    let start : Option (Option Nat × Option Nat) :=
      if (s.nodes container).is_fullscreen then
        (container_parent s container C_OUTPUT).map fun c => (c, some root_container)
      else
        let bounded : Option Bool :=
          match container_is_fullscreen_or_child s container with
          | none => none
          | some true => some true
          | some false => container_is_floating_or_child s container
        match bounded with
        | none => none
        | some true =>
          match container_parent s container C_WORKSPACE with
          | some (some ws) => some (some container, (s.nodes ws).fullscreen)
          | _ => none
        | some false => some (some container, some root_container)
    match start with
    | none => none
    | some (current, top) =>
      match container_flatten s parent with
      | none => none
      | some (s1, new_parent) =>
        if some new_parent ≠ parent then some s1
        else
          match container_move_search env container move_dir offs top (s1.next_id + 1) s1
              current with
          | none => none
          | some (s2, none) => some s2
          | some (s2, some sibling) =>
            match index_child s2 container with
            | none => none
            | some index =>
              let old_parent := (s2.nodes container).parent
              match container_move_relocate env container move_dir offs index (s2.next_id + 1)
                  s2 sibling with
              | none => none
              | some (s3, false) => some s3
              | some (s3, true) => container_move_finish s3 container old_parent

/-! ## Swap -/

/-- The function `swap_places(con1, con2)`. -/
def swap_places (s : State) (con1 con2 : Nat) : Option State :=
  let temp := s.nodes con1
  let s1 := s.upd con1 fun n =>
    set_geometry n (s.nodes con2).x (s.nodes con2).y (s.nodes con2).width (s.nodes con2).height
  let s2 := s1.upd con2 fun n => set_geometry n temp.x temp.y temp.width temp.height
  match index_child s2 con1, (s2.nodes con2).parent, index_child s2 con2 with
  | some temp_index, some p2, some i2 =>
    match container_insert_child s2 p2 con1 i2 with
    | none => none
    | some s3 =>
      match temp.parent with
      | none => none
      | some p1 => container_insert_child s3 p1 con2 temp_index
  | _, _, _ => none

/-- The test `con->parent->layout == L_TABBED || con->parent->layout ==
L_STACKED` of `swap_focus`. -/
def parent_is_tabbed_or_stacked (s : State) (con : Nat) : Option Bool :=
  match (s.nodes con).parent with
  | none => none
  | some p => some (decide ((s.nodes p).layout = L_TABBED ∨ (s.nodes p).layout = L_STACKED))

/-- The function `swap_focus(con1, con2, seat, focus)`; `seat_set_focus_warp`
is taken as `seat_set_focus`. -/
def swap_focus (env : Env) (s : State) (con1 con2 : Nat) (focus : Option Nat) : Option State :=
  if focus = some con1 ∨ focus = some con2 then
    match container_parent s con1 C_WORKSPACE, container_parent s con2 C_WORKSPACE with
    | some ws1, some ws2 =>
      let first : Option Bool :=
        if focus = some con1 then parent_is_tabbed_or_stacked s con2 else some false
      match first with
      | none => none
      | some true =>
        let s1 := if env.workspace_is_visible s ws2 then seat_set_focus s con2 else s
        some (seat_set_focus s1 (if ws1 ≠ ws2 then con2 else con1))
      | some false =>
        let second : Option Bool :=
          if focus = some con2 then parent_is_tabbed_or_stacked s con1 else some false
        match second with
        | none => none
        | some true =>
          let s1 := if env.workspace_is_visible s ws1 then seat_set_focus s con1 else s
          some (seat_set_focus s1 (if ws1 ≠ ws2 then con1 else con2))
        | some false =>
          if ws1 ≠ ws2 then some (seat_set_focus s (if focus = some con1 then con2 else con1))
          else some (seat_set_focus_ptr s focus)
    | _, _ => none
  else some (seat_set_focus_ptr s focus)

/-- The workspace shown on the output of `con`: `container_parent(
seat_get_focus_inactive(seat, container_parent(con, C_OUTPUT)), C_WORKSPACE)`. -/
def visible_workspace (env : Env) (s : State) (con : Nat) : Option (Option Nat) :=
  match container_parent s con C_OUTPUT with
  | some (some output) => container_parent_ptr s (env.seat_get_focus_inactive s output) C_WORKSPACE
  | _ => none

/-- The step `if (!workspace_is_visible(vis)) seat_set_focus(seat,
seat_get_focus_inactive(seat, vis))` of `container_swap`. -/
def refocus_hidden (env : Env) (s : State) (vis : Option Nat) : Option State :=
  if env.workspace_is_visible s vis then some s
  else
    match vis with
    | none => none
    | some v => some (seat_set_focus_ptr s (env.seat_get_focus_inactive s v))

/-- The function `container_swap(con1, con2)`.  A failed assertion makes the
function return.  The name of the previous workspace, which the code saves and
restores, is outside the model. -/
def container_swap (env : Env) (s : State) (con1 con2 : Nat) : Option State :=
  if ¬ ((s.nodes con1).type = C_CONTAINER ∨ (s.nodes con1).type = C_VIEW) ∨
      ¬ ((s.nodes con2).type = C_CONTAINER ∨ (s.nodes con2).type = C_VIEW) then some s
  else
    let related : Option Bool :=
      match container_has_ancestor s con1 con2 with
      | none => none
      | some true => some true
      | some false => container_has_ancestor s con2 con1
    match related with
    | none => none
    | some true => some s
    | some false =>
      if ¬ ((s.nodes con1).layout ≠ L_FLOATING ∧ (s.nodes con2).layout ≠ L_FLOATING) then some s
      else
        let fs1 := (s.nodes con1).is_fullscreen
        let fs2 := (s.nodes con2).is_fullscreen
        let s1 := if fs1 then container_set_fullscreen s con1 false else s
        let s2 := if fs2 then container_set_fullscreen s1 con2 false else s1
        let focus := seat_get_focus s2
        match visible_workspace env s2 con1, visible_workspace env s2 con2 with
        | some vis1, some vis2 =>
          match swap_places s2 con1 con2 with
          | none => none
          | some s3 =>
            match refocus_hidden env s3 vis1 with
            | none => none
            | some s4 =>
              match refocus_hidden env s4 vis2 with
              | none => none
              | some s5 =>
                match swap_focus env s5 con1 con2 focus with
                | none => none
                | some s6 =>
                  let s7 := if fs1 then container_set_fullscreen s6 con2 true else s6
                  some (if fs2 then container_set_fullscreen s7 con1 true else s7)
        | _, _ => none

/-! ## Example collaborators and trees for the movement -/

/-- Modelled from the spec: the focus-inactive node of `con` is the most recent
entry of the focus stack that is `con` or lies below it. -/
def focus_inactive_of (s : State) (con : Nat) : Option Nat :=
  s.focus_stack.find? fun f => f == con || container_has_ancestor s f con == some true

/-- Modelled from the spec: the focus-inactive view of `con` is `con` itself
when it is a view, and otherwise the most recent entry of the focus stack that
is a view and lies below `con`. -/
def focus_inactive_view_of (s : State) (con : Nat) : Option Nat :=
  if (s.nodes con).type = C_VIEW then some con
  else
    s.focus_stack.find? fun f =>
      decide ((s.nodes f).type = C_VIEW) && container_has_ancestor s f con == some true

/-- Collaborators for the examples: the given wrap policy, the given answer of
the output layout, the focus-inactive node and view read from the focus stack,
every workspace visible, and a workspace created as a new child of the
output. -/
def example_env (wrap : focus_wrapping_mode)
    (adjacent : wlr_direction → Nat → Option Nat) : Env :=
  { focus_wrapping := wrap,
    adjacent_output := fun _ dir output => adjacent dir output,
    seat_get_focus_inactive := focus_inactive_of,
    workspace_is_visible := fun _ _ => true,
    workspace_create := fun s output =>
      ((((container_create s C_WORKSPACE).1.upd output fun n =>
          set_children n (list_add n.children s.next_id)).upd s.next_id fun n =>
            set_parent n (some output)), s.next_id),
    seat_get_focus_inactive_view := focus_inactive_view_of }

/-- An output layout with a single output: no output has a neighbour. -/
def no_adjacent_output : wlr_direction → Nat → Option Nat := fun _ _ => none

/-- A root (node 0) with one output (node 1) and one workspace (node 2) in
horizontal layout, whose children are the given views among A (node 3), B
(node 4) and C (node 5); A is focused. -/
def views_tree (children : List Nat) : State :=
  { nodes := fun n =>
      match n with
      | 0 => { blank_node with type := C_ROOT, children := [1] }
      | 1 => { blank_node with type := C_OUTPUT, parent := some 0, children := [2], width := 1920, height := 1080 }
      | 2 => { blank_node with type := C_WORKSPACE, name := "1".toList, parent := some 1, children := children, layout := L_HORIZ, width := 1920, height := 1080 }
      | 3 => { blank_node with type := C_VIEW, parent := some 2, width := 640, height := 1080 }
      | 4 => { blank_node with type := C_VIEW, parent := some 2, x := 640, width := 640, height := 1080 }
      | 5 => { blank_node with type := C_VIEW, parent := some 2, x := 1280, width := 640, height := 1080 }
      | _ => blank_node,
    next_id := 6,
    focus_stack := [3, 2] }

/-- A workspace (node 2) with the tiled view 4 and a floating container (node
3, in floating layout, whose parent is the workspace but which is not listed
among the tiled children) that holds the view 5. -/
def floating_tree : State :=
  { nodes := fun n =>
      match n with
      | 0 => { blank_node with type := C_ROOT, children := [1] }
      | 1 => { blank_node with type := C_OUTPUT, parent := some 0, children := [2], width := 1920, height := 1080 }
      | 2 => { blank_node with type := C_WORKSPACE, name := "1".toList, parent := some 1, children := [4], layout := L_HORIZ, width := 1920, height := 1080 }
      | 3 => { blank_node with type := C_CONTAINER, parent := some 2, children := [5], layout := L_FLOATING }
      | 4 => { blank_node with type := C_VIEW, parent := some 2, width := 1920, height := 1080 }
      | 5 => { blank_node with type := C_VIEW, parent := some 3, x := 100, y := 100, width := 400, height := 300 }
      | _ => blank_node,
    next_id := 6,
    focus_stack := [4, 2] }

/-! ## Specification of the movement -/

/-- The heap `t` has the links of `s`: the same allocation counter, and every
node has the same type, parent, layout and fullscreen flag.  The lookups along
parent pointers give the same results in both. -/
def same_links (s t : State) : Prop :=
  t.next_id = s.next_id ∧
  ∀ n, (t.nodes n).type = (s.nodes n).type ∧ (t.nodes n).parent = (s.nodes n).parent ∧
    (t.nodes n).layout = (s.nodes n).layout ∧
    (t.nodes n).is_fullscreen = (s.nodes n).is_fullscreen

/-- The heap after `container_move` has exchanged the node `n`, at index `i` of
its parent `P`, with the sibling `sib` at index `j`: the two entries of the
child sequence of `P` are exchanged, and the focus of the seat has gone to `P`
and back to `n`. -/
def siblings_swapped (s : State) (P n sib : Nat) (i j : Nat) : State :=
  seat_set_focus
    (seat_set_focus (s.upd P fun m => set_children m (((s.nodes P).children.set j n).set i sib))
      P) n

/-- The heap `container_replace_child(child, new_child)` builds once
`new_child` is unattached: the children of `parent` have become `l`, and the
assignments of parent pointers and geometry that end the function have been
made. -/
def replaced (t : State) (child new_child parent : Nat) (l : List Nat) : State :=
  let s2 := t.upd parent fun n => set_children n l
  let s3 := s2.upd new_child fun n => set_parent n (some parent)
  let s4 := s3.upd child fun n => set_parent n none
  let c := s4.nodes child
  let s5 := s4.upd new_child fun n => set_geometry n c.x c.y c.width c.height
  s5.upd child fun n => set_size n 0 0

/-- The first two assignments of `container_add_child(parent, child)`. -/
def adopted (t : State) (parent child : Nat) : State :=
  (t.upd parent fun n => set_children n (list_add n.children child)).upd child fun n =>
    set_parent n (some parent)

/-- The heap of `swap_places(con1, con2)` once the two nodes have exchanged
their x, y, width and height, before they change places. -/
def geometry_swapped (s : State) (con1 con2 : Nat) : State :=
  (s.upd con1 fun n =>
    set_geometry n (s.nodes con2).x (s.nodes con2).y (s.nodes con2).width
      (s.nodes con2).height).upd con2 fun n =>
    set_geometry n (s.nodes con1).x (s.nodes con1).y (s.nodes con1).width (s.nodes con1).height

/-! ## Focus in a direction: `container_get_in_direction` -/

/-- The function `get_swayc_in_output_direction(output, dir, seat)`; the outer
`none` is a dereference of `NULL` or a read outside a list. -/
def get_swayc_in_output_direction (env : Env) (s : State) (output : Option Nat)
    (dir : movement_direction) : Option (Option Nat) :=
  match output with
  | none => some none
  | some o =>
    match env.seat_get_focus_inactive s o with
    | none => none
    | some f =>
      match workspace_of s f with
      | none => none
      | some none => some none
      | some (some ws) =>
        if (s.nodes ws).children.length > 0 then
          match dir with
          | MOVE_LEFT =>
            if (s.nodes ws).layout = L_HORIZ ∨ (s.nodes ws).layout = L_TABBED then
              (list_get (s.nodes ws).children (((s.nodes ws).children.length : Int) - 1)).map
                some
            else some (env.seat_get_focus_inactive s ws)
          | MOVE_RIGHT =>
            if (s.nodes ws).layout = L_HORIZ ∨ (s.nodes ws).layout = L_TABBED then
              (list_get (s.nodes ws).children 0).map some
            else some (env.seat_get_focus_inactive s ws)
          | MOVE_PARENT => some (some ws)
          | MOVE_CHILD => some (some ws)
          | _ =>
            match env.seat_get_focus_inactive s ws with
            | none => some (some ws)
            | some focused =>
              match (s.nodes focused).parent with
              | none => some (some ws)
              | some parent =>
                if (s.nodes parent).layout = L_VERT then
                  if dir = MOVE_UP then
                    (list_get (s.nodes parent).children
                      (((s.nodes parent).children.length : Int) - 1)).map some
                  else if dir = MOVE_DOWN then
                    (list_get (s.nodes parent).children 0).map some
                  else some (some focused)
                else some (some focused)
        else some (some ws)

/-- The function `sway_output_from_wlr(output)`: the output among the children of the
root that stands for the given output of the layout, `NULL` when there is
none.  An output of the layout is named by the node that stands for it. -/
def sway_output_from_wlr (s : State) (output : Option Nat) : Option Nat :=
  match output with
  | none => none
  | some o =>
    (s.nodes root_container).children.find? fun c =>
      decide ((s.nodes c).type = C_OUTPUT) && c == o

/-- The loop `while (true)` of `container_get_in_direction`. -/
def container_get_in_direction_loop (env : Env) (s : State) (dir : movement_direction) :
    Nat → Nat → Option Nat → Option Nat → Option (Option Nat)
  | 0, _, _, _ => none
  | fuel + 1, container, parent, wrap_candidate =>
    match index_child s container, parent with
    | some idx, some p =>
      if idx = -1 then some none
      else if (s.nodes p).type = C_ROOT then
        match sway_dir_to_wlr dir with
        | none => some none
        | some wlr_dir =>
          let adjacent := sway_output_from_wlr s (env.adjacent_output s wlr_dir container)
          if adjacent = none ∨ adjacent = some container then
            match wrap_candidate with
            | none => some none
            | some w => some (env.seat_get_focus_inactive_view s w)
          else
            match get_swayc_in_output_direction env s adjacent dir with
            | none => none
            | some none => some none
            | some (some next) =>
              match workspace_of s next with
              | some (some next_workspace) =>
                match (s.nodes next_workspace).fullscreen with
                | some f => some (env.seat_get_focus_inactive s f)
                | none =>
                  if (s.nodes next).children.length > 0 then
                    some (env.seat_get_focus_inactive_view s next)
                  else some (some next)
              | _ => none
      else
        let desired : Option Int :=
          if dir = MOVE_LEFT ∨ dir = MOVE_RIGHT then
            if (s.nodes p).layout = L_HORIZ ∨ (s.nodes p).layout = L_TABBED then
              some (idx + (if dir = MOVE_LEFT then -1 else 1))
            else none
          else
            if (s.nodes p).layout = L_VERT ∨ (s.nodes p).layout = L_STACKED then
              some (idx + (if dir = MOVE_UP then -1 else 1))
            else none
        let len := (s.nodes p).children.length
        let climb (wrap : Option Nat) : Option (Option Nat) :=
          match (s.nodes p).parent with
          | none =>
            match wrap with
            | none => some none
            | some w => some (env.seat_get_focus_inactive_view s w)
          | some pp => container_get_in_direction_loop env s dir fuel p (some pp) wrap
        match desired with
        | none => climb wrap_candidate
        | some desired =>
          if desired < 0 ∨ desired ≥ (len : Int) then
            if env.focus_wrapping ≠ WRAP_NO ∧ wrap_candidate = none ∧ len > 1 then
              match list_get (s.nodes p).children (if desired < 0 then (len : Int) - 1 else 0) with
              | none => none
              | some w =>
                if env.focus_wrapping = WRAP_FORCE then
                  some (env.seat_get_focus_inactive_view s w)
                else climb (some w)
            else climb wrap_candidate
          else
            match list_get (s.nodes p).children desired with
            | none => none
            | some desired_con => some (env.seat_get_focus_inactive_view s desired_con)
    | _, _ => none

/-- The function `container_get_in_direction(container, seat, dir)`; the outer `none` is
a dereference of `NULL`, the inner one the result `NULL`. -/
def container_get_in_direction (env : Env) (s : State) (container : Nat)
    (dir : movement_direction) : Option (Option Nat) :=
  if dir = MOVE_CHILD then some (env.seat_get_focus_inactive s container)
  else if (s.nodes container).is_fullscreen then
    if dir = MOVE_PARENT then some none
    else
      match container_parent s container C_OUTPUT with
      | some (some output) =>
        container_get_in_direction_loop env s dir (s.next_id + 1) output (s.nodes output).parent
          none
      | _ => none
  else
    if dir = MOVE_PARENT then
      match (s.nodes container).parent with
      | none => none
      | some p =>
        if (s.nodes p).type = C_OUTPUT ∨ container_is_floating s container then some none
        else some (some p)
    else
      container_get_in_direction_loop env s dir (s.next_id + 1) container
        (s.nodes container).parent none

/-- The start of the search of `container_move(container, move_dir)`: the node
`current` the search starts at and the node `top` that bounds it. -/
def container_move_start (s : State) (container : Nat) : Option (Option Nat × Option Nat) :=
  if (s.nodes container).is_fullscreen then
    (container_parent s container C_OUTPUT).map fun c => (c, some root_container)
  else
    let bounded : Option Bool :=
      match container_is_fullscreen_or_child s container with
      | none => none
      | some true => some true
      | some false => container_is_floating_or_child s container
    match bounded with
    | none => none
    | some true =>
      match container_parent s container C_WORKSPACE with
      | some (some ws) => some (some container, (s.nodes ws).fullscreen)
      | _ => none
    | some false => some (some container, some root_container)

/-- The first part of `container_move(container, move_dir)`, up to the end of
the search: the heap it leaves and the destination found, if any. -/
def container_move_phase_one (env : Env) (s : State) (container : Nat)
    (move_dir : movement_direction) : Option (State × Option Nat) :=
  match container_move_start s container with
  | none => none
  | some (current, top) =>
    match container_flatten s (s.nodes container).parent with
    | none => none
    | some (s1, new_parent) =>
      if some new_parent ≠ (s.nodes container).parent then some (s1, none)
      else
        container_move_search env container move_dir (move_offs move_dir) top (s1.next_id + 1)
          s1 current

/-- The workspace of `x` can be looked up and `n` is neither `x` nor one of its
ancestors: the lookup gives the same result wherever `n` is attached. -/
def workspace_lookup_ready (s : State) (n x : Nat) : Prop :=
  workspace_of s x ≠ none ∧ n ∉ ancestors s (s.next_id + 1) (some x)

/-- A workspace (node 2) in horizontal layout with the view 3 and then a
container (node 6) of the given layout that holds the views 4 and 5. -/
def nested_tree (layout : sway_container_layout) : State :=
  { nodes := fun n =>
      match n with
      | 0 => { blank_node with type := C_ROOT, children := [1] }
      | 1 => { blank_node with type := C_OUTPUT, parent := some 0, children := [2], width := 1920, height := 1080 }
      | 2 => { blank_node with type := C_WORKSPACE, name := "1".toList, parent := some 1, children := [3, 6], layout := L_HORIZ, width := 1920, height := 1080 }
      | 3 => { blank_node with type := C_VIEW, parent := some 2, width := 960, height := 1080 }
      | 4 => { blank_node with type := C_VIEW, parent := some 6, x := 960, width := 480, height := 1080 }
      | 5 => { blank_node with type := C_VIEW, parent := some 6, x := 1440, width := 480, height := 1080 }
      | 6 => { blank_node with type := C_CONTAINER, parent := some 2, children := [4, 5], layout := layout, x := 960, width := 960, height := 1080 }
      | _ => blank_node,
    next_id := 7,
    focus_stack := [3, 2] }

/-- A round of the search of `container_move(container, move_dir)` at the
container or view `cur` goes on to the parent of `cur`: `cur` is not `top`,
and either the parent is parallel to the direction, `cur` stands at its edge,
the parent is the parent of `container`, the grandparent is not floating and
the parent is fullscreen or neither tabbed nor stacked; or the parent is not
parallel, the grandparent is not floating and the parent is fullscreen or
neither tabbed nor stacked. -/
def search_climbs (s : State) (container : Nat) (move_dir : movement_direction)
    (top : Option Nat) (cur : Nat) : Bool :=
  decide (some cur ≠ top) &&
  (decide ((s.nodes cur).type = C_CONTAINER) || decide ((s.nodes cur).type = C_VIEW)) &&
  match index_child s cur, (s.nodes cur).parent with
  | some index, some parent =>
    match (s.nodes parent).parent with
    | none => false
    | some pp =>
      if is_parallel (s.nodes parent).layout move_dir then
        decide ((index = ((s.nodes parent).children.length : Int) - 1 ∧ move_offs move_dir > 0)
          ∨ (index = 0 ∧ move_offs move_dir < 0)) &&
        decide ((s.nodes cur).parent = (s.nodes container).parent) &&
        decide ((s.nodes pp).layout ≠ L_FLOATING) &&
        !(decide ((s.nodes parent).is_fullscreen = false ∧
            ((s.nodes parent).layout = L_TABBED ∨ (s.nodes parent).layout = L_STACKED)))
      else
        !(decide ((s.nodes parent).is_fullscreen = false ∧ (s.nodes pp).layout ≠ L_FLOATING ∧
            ((s.nodes parent).layout = L_TABBED ∨ (s.nodes parent).layout = L_STACKED))) &&
        decide ((s.nodes pp).layout ≠ L_FLOATING)
  | _, _ => false

/-- The search of `container_move(container, move_dir)` goes from `cur` to its
ancestor `c` in `k` rounds at containers or views, each of which goes on to the
parent. -/
def search_reaches (s : State) (container : Nat) (move_dir : movement_direction)
    (top : Option Nat) : Nat → Nat → Nat → Bool
  | 0, cur, c => decide (cur = c)
  | k + 1, cur, c =>
    search_climbs s container move_dir top cur &&
    match (s.nodes cur).parent with
    | some p => search_reaches s container move_dir top k p c
    | none => false

/-- A workspace (node 2) in tabbed layout with the views 3, 4 and 5; the view
3 is fullscreen, and recorded as such in the workspace, when `fs` is set. -/
def tabbed_tree (fs : Bool) : State :=
  { nodes := fun n =>
      match n with
      | 0 => { blank_node with type := C_ROOT, children := [1] }
      | 1 => { blank_node with type := C_OUTPUT, parent := some 0, children := [2], width := 1920, height := 1080 }
      | 2 => { blank_node with type := C_WORKSPACE, name := "1".toList, parent := some 1, children := [3, 4, 5], layout := L_TABBED, width := 1920, height := 1080, fullscreen := if fs then some 3 else none }
      | 3 => { blank_node with type := C_VIEW, parent := some 2, width := 1920, height := 1080, is_fullscreen := fs }
      | 4 => { blank_node with type := C_VIEW, parent := some 2, width := 1920, height := 1080 }
      | 5 => { blank_node with type := C_VIEW, parent := some 2, width := 1920, height := 1080 }
      | _ => blank_node,
    next_id := 6,
    focus_stack := [3, 2] }

/-! ## Specification of tree integrity -/

/-- A node is attached when it is linked into the tree: it has a parent, or
some child sequence lists it.  (A node that is linked from one side only is
half-removed; a removed node has no parent and is listed nowhere.) -/
def attached (s : State) (c : Nat) : Prop :=
  (s.nodes c).parent ≠ none ∨ ∃ Q, c ∈ (s.nodes Q).children

/-- Tree integrity: every attached node has a parent, is listed exactly once
among the children of its parent, and is in no other child sequence.  The root
has no parent and is listed nowhere, so the condition does not bear on it. -/
def tree_integrity (s : State) : Prop :=
  ∀ c, attached s c → ∃ P, (s.nodes c).parent = some P ∧
    (s.nodes P).children.count c = 1 ∧ ∀ Q, Q ≠ P → c ∉ (s.nodes Q).children

/-- The memory beyond the allocation counter is fresh: a node that has not been
allocated yet has no parent and no children (the memory `calloc` hands out). -/
def unallocated_unlinked (s : State) : Prop :=
  ∀ m, s.next_id ≤ m → (s.nodes m).parent = none ∧ (s.nodes m).children = []

/-- The links of the tree agree in both directions: a node is listed among the
children of `P` exactly when its parent is `P`, no child sequence lists a node
twice, and the nodes not yet allocated have no parent and no children. -/
def tree_links_ok (s : State) : Prop :=
  (∀ c P, (s.nodes c).parent = some P ↔ c ∈ (s.nodes P).children) ∧
  (∀ P, (s.nodes P).children.Nodup) ∧
  (∀ m, s.next_id ≤ m → (s.nodes m).parent = none ∧ (s.nodes m).children = [])

/-- The heap `t` has the links of the tree of `s`: the same allocation counter,
parents and child sequences. -/
def links_agree (s t : State) : Prop :=
  t.next_id = s.next_id ∧
  ∀ n, (t.nodes n).parent = (s.nodes n).parent ∧ (t.nodes n).children = (s.nodes n).children

/-- The step `if (child->parent) container_remove_child(child)` that opens
`container_insert_child` and `container_add_sibling`. -/
def detach_first (s : State) (child : Nat) : Option State :=
  match (s.nodes child).parent with
  | some _ => (container_remove_child s child).map fun r => r.1
  | none => some s

/-- The node `p` is the parent of `c`. -/
def parent_of (s : State) (c p : Nat) : Prop := (s.nodes c).parent = some p

/-- The node `x` is `c` or one of its ancestors. -/
def above (s : State) (c x : Nat) : Prop := Relation.ReflTransGen (parent_of s) c x

/-- No node is its own ancestor. -/
def acyclic_tree (s : State) : Prop := ∀ n, ¬ Relation.TransGen (parent_of s) n n

/-- Workspaces are plain: none is fullscreen and none is the child of a
workspace. -/
def workspaces_plain (s : State) : Prop :=
  (∀ w, (s.nodes w).type = C_WORKSPACE → (s.nodes w).is_fullscreen = false) ∧
  (∀ w p, (s.nodes w).type = C_WORKSPACE → (s.nodes w).parent = some p →
    (s.nodes p).type ≠ C_WORKSPACE)

/-- The workspace that the seat and the output layout pick on the output
adjacent to `O` is an allocated node on another branch of the tree: it is
neither `O`, nor above `O`, nor below `O`. -/
def picks_other_branch (env : Env) (s : State) : Prop :=
  ∀ dir O next focus W, env.adjacent_output s dir O = some next →
    env.seat_get_focus_inactive s next = some focus →
    workspace_of s focus = some (some W) →
    W < s.next_id ∧ ¬ above s O W ∧ ¬ above s W O

/-- The destination `S` is safe for the relocation of `n`, which stands at
`index` in its parent: a view in the parent of `n` is the neighbour of `n` at
`index + offs`, and a node that is not a view is not the parent of `n` nor above
it. -/
def relocation_safe (s : State) (n : Nat) (index offs : Int) (S : Nat) : Prop :=
  ∀ Q, (s.nodes n).parent = some Q →
    ((s.nodes S).type = C_VIEW → (s.nodes S).parent = some Q →
      list_get (s.nodes Q).children (index + offs) = some S) ∧
    ((s.nodes S).type ≠ C_VIEW → ¬ above s Q S)

/-! ## Example trees -/

/-- An output (node 0) holding the workspaces "2", "10", "1" and "web"
(nodes 1 to 4), in that order. -/
def sort_example : State :=
  { nodes := fun n =>
      match n with
      | 0 => { blank_node with type := C_OUTPUT, children := [1, 2, 3, 4] }
      | 1 => { blank_node with type := C_WORKSPACE, name := "2".toList, parent := some 0 }
      | 2 => { blank_node with type := C_WORKSPACE, name := "10".toList, parent := some 0 }
      | 3 => { blank_node with type := C_WORKSPACE, name := "1".toList, parent := some 0 }
      | 4 => { blank_node with type := C_WORKSPACE, name := "web".toList, parent := some 0 }
      | _ => blank_node,
    next_id := 5,
    focus_stack := [] }

/-- An output (node 0) holding the workspaces "1" and "2147483648" (nodes 1
and 2), in that order. -/
def sort_wrap_example : State :=
  { nodes := fun n =>
      match n with
      | 0 => { blank_node with type := C_OUTPUT, children := [1, 2] }
      | 1 => { blank_node with type := C_WORKSPACE, name := "1".toList, parent := some 0 }
      | 2 => { blank_node with type := C_WORKSPACE, name := "2147483648".toList, parent := some 0 }
      | _ => blank_node,
    next_id := 3,
    focus_stack := [] }

/-- A tree with a root (node 0), one output (node 1) of geometry
(0, 0, 1920, 1080) and two workspaces.  Workspace 2 holds the views 4, 5, 6,
of which 5 is fullscreen; workspace 3 holds the container 7 with the views
8 (fullscreen) and 9. -/
def example_tree : State :=
  { nodes := fun n =>
      match n with
      | 0 => { blank_node with type := C_ROOT, children := [1] }
      | 1 => { blank_node with type := C_OUTPUT, parent := some 0, children := [2, 3], width := 1920, height := 1080 }
      | 2 => { blank_node with type := C_WORKSPACE, name := "1".toList, parent := some 1, children := [4, 5, 6], layout := L_HORIZ, fullscreen := some 5, width := 1920, height := 1080 }
      | 3 => { blank_node with type := C_WORKSPACE, name := "2".toList, parent := some 1, children := [7], layout := L_HORIZ, fullscreen := some 8, width := 1920, height := 1080 }
      | 4 => { blank_node with type := C_VIEW, parent := some 2, x := 0, y := 0, width := 640, height := 1080 }
      | 5 => { blank_node with type := C_VIEW, parent := some 2, x := 0, y := 0, width := 1920, height := 1080, is_fullscreen := true, saved_x := 640, saved_width := 640, saved_height := 1080 }
      | 6 => { blank_node with type := C_VIEW, parent := some 2, x := 1280, y := 0, width := 640, height := 1080 }
      | 7 => { blank_node with type := C_CONTAINER, parent := some 3, children := [8, 9], layout := L_VERT, width := 1920, height := 1080 }
      | 8 => { blank_node with type := C_VIEW, parent := some 7, x := 0, y := 0, width := 1920, height := 1080, is_fullscreen := true, saved_width := 1920, saved_height := 540 }
      | 9 => { blank_node with type := C_VIEW, parent := some 7, x := 0, y := 540, width := 1920, height := 540 }
      | _ => blank_node,
    next_id := 10,
    focus_stack := [4, 2, 9, 7, 3] }

/-! ## Properties of the workspace ordering -/

theorem cmp_digit_digit (a b : List Char) (ha : name_starts_with_digit a = true)
    (hb : name_starts_with_digit b = true) :
    sort_workspace_cmp_names a b = Int.sign (name_num a - name_num b) := by
  unfold sort_workspace_cmp_names
  simp only [ha, hb, Bool.and_self, if_true]
  rcases lt_trichotomy (name_num a) (name_num b) with h | h | h
  · rw [if_pos h, Int.sign_eq_neg_one_of_neg (by omega)]
  · rw [if_neg (by omega), if_neg (by omega), h, sub_self, Int.sign_zero]
  · rw [if_neg (by omega), if_pos (by omega), Int.sign_eq_one_of_pos (by omega)]

theorem cmp_digit_other (a b : List Char) (ha : name_starts_with_digit a = true)
    (hb : name_starts_with_digit b = false) : sort_workspace_cmp_names a b = -1 := by
  simp [sort_workspace_cmp_names, ha, hb]

theorem cmp_other_digit (a b : List Char) (ha : name_starts_with_digit a = false)
    (hb : name_starts_with_digit b = true) : sort_workspace_cmp_names a b = 1 := by
  simp [sort_workspace_cmp_names, ha, hb]

theorem cmp_other_other (a b : List Char) (ha : name_starts_with_digit a = false)
    (hb : name_starts_with_digit b = false) : sort_workspace_cmp_names a b = 0 := by
  simp [sort_workspace_cmp_names, ha, hb]

theorem cmp_le_iff_of_digit (a b : List Char) (ha : name_starts_with_digit a = true)
    (hb : name_starts_with_digit b = true) :
    sort_workspace_cmp_names a b ≤ 0 ↔ name_num a ≤ name_num b := by
  unfold sort_workspace_cmp_names
  simp only [ha, hb, Bool.and_self, if_true]
  by_cases h1 : name_num a < name_num b
  · simp only [if_pos h1]; omega
  · by_cases h2 : name_num a > name_num b
    · simp only [if_neg h1, if_pos h2]; omega
    · simp only [if_neg h1, if_neg h2]; omega

/-- The comparator is a total relation. -/
theorem cmp_total (a b : List Char) :
    sort_workspace_cmp_names a b ≤ 0 ∨ sort_workspace_cmp_names b a ≤ 0 := by
  cases ha : name_starts_with_digit a <;> cases hb : name_starts_with_digit b
  · left; rw [cmp_other_other a b ha hb]
  · right; rw [cmp_digit_other b a hb ha]; decide
  · left; rw [cmp_digit_other a b ha hb]; decide
  · rw [cmp_le_iff_of_digit a b ha hb, cmp_le_iff_of_digit b a hb ha]; omega

/-- The comparator is transitive. -/
theorem cmp_trans (a b c : List Char) (hab : sort_workspace_cmp_names a b ≤ 0)
    (hbc : sort_workspace_cmp_names b c ≤ 0) : sort_workspace_cmp_names a c ≤ 0 := by
  cases ha : name_starts_with_digit a <;> cases hb : name_starts_with_digit b <;>
    cases hc : name_starts_with_digit c
  · rw [cmp_other_other a c ha hc]
  · rw [cmp_other_digit b c hb hc] at hbc; omega
  · rw [cmp_other_digit a b ha hb] at hab; omega
  · rw [cmp_other_digit a b ha hb] at hab; omega
  · rw [cmp_digit_other a c ha hc]; decide
  · rw [cmp_other_digit b c hb hc] at hbc; omega
  · rw [cmp_digit_other a c ha hc]; decide
  · rw [cmp_le_iff_of_digit a b ha hb] at hab
    rw [cmp_le_iff_of_digit b c hb hc] at hbc
    rw [cmp_le_iff_of_digit a c ha hc]; omega

theorem stable_insert_perm (cmp : Nat → Nat → Int) (a : Nat) (l : List Nat) :
    (stable_insert cmp a l).Perm (a :: l) := by
  induction l with
  | nil => exact List.Perm.refl _
  | cons b l ih =>
    unfold stable_insert
    split
    · exact List.Perm.refl _
    · exact (List.Perm.cons b ih).trans (List.Perm.swap a b l)

theorem list_stable_sort_perm (cmp : Nat → Nat → Int) (l : List Nat) :
    (list_stable_sort cmp l).Perm l := by
  induction l with
  | nil => exact List.Perm.refl _
  | cons a l ih =>
    exact (stable_insert_perm cmp a _).trans (List.Perm.cons a ih)

theorem stable_insert_pairwise (cmp : Nat → Nat → Int)
    (htot : ∀ a b, cmp a b ≤ 0 ∨ cmp b a ≤ 0)
    (htr : ∀ a b c, cmp a b ≤ 0 → cmp b c ≤ 0 → cmp a c ≤ 0)
    (a : Nat) (l : List Nat) (hl : l.Pairwise (fun x y => cmp x y ≤ 0)) :
    (stable_insert cmp a l).Pairwise (fun x y => cmp x y ≤ 0) := by
  induction l with
  | nil => simp [stable_insert]
  | cons b l ih =>
    rw [List.pairwise_cons] at hl
    unfold stable_insert
    split
    · rename_i hab
      refine List.pairwise_cons.mpr ⟨?_, List.pairwise_cons.mpr hl⟩
      intro y hy
      rcases List.mem_cons.mp hy with rfl | hy
      · exact hab
      · exact htr a b y hab (hl.1 y hy)
    · rename_i hab
      have hba : cmp b a ≤ 0 := (htot a b).resolve_left hab
      refine List.pairwise_cons.mpr ⟨?_, ih hl.2⟩
      intro y hy
      rcases List.mem_cons.mp ((stable_insert_perm cmp a l).subset hy) with rfl | hy
      · exact hba
      · exact hl.1 y hy

theorem list_stable_sort_pairwise (cmp : Nat → Nat → Int)
    (htot : ∀ a b, cmp a b ≤ 0 ∨ cmp b a ≤ 0)
    (htr : ∀ a b c, cmp a b ≤ 0 → cmp b c ≤ 0 → cmp a c ≤ 0) (l : List Nat) :
    (list_stable_sort cmp l).Pairwise (fun x y => cmp x y ≤ 0) := by
  induction l with
  | nil => exact List.Pairwise.nil
  | cons a l ih => exact stable_insert_pairwise cmp htot htr a _ ih

theorem stable_insert_digit_append (s : State) (x : Nat) (D N : List Nat)
    (hx : name_starts_with_digit (s.nodes x).name = true)
    (hN : ∀ n ∈ N, name_starts_with_digit (s.nodes n).name = false) :
    stable_insert (sort_workspace_cmp_qsort s) x (D ++ N)
      = stable_insert (sort_workspace_cmp_qsort s) x D ++ N := by
  induction D with
  | nil =>
    cases N with
    | nil => rfl
    | cons b N =>
      have hb := hN b (List.mem_cons_self _ _)
      simp [stable_insert, sort_workspace_cmp_qsort, cmp_digit_other _ _ hx hb]
  | cons d D ih =>
    simp only [List.cons_append, stable_insert]
    split
    · rfl
    · exact congrArg (List.cons d) ih

theorem stable_insert_other_append (s : State) (x : Nat) (D N : List Nat)
    (hx : name_starts_with_digit (s.nodes x).name = false)
    (hD : ∀ d ∈ D, name_starts_with_digit (s.nodes d).name = true)
    (hN : ∀ n ∈ N, name_starts_with_digit (s.nodes n).name = false) :
    stable_insert (sort_workspace_cmp_qsort s) x (D ++ N) = D ++ x :: N := by
  induction D with
  | nil =>
    cases N with
    | nil => rfl
    | cons b N =>
      have hb := hN b (List.mem_cons_self _ _)
      simp [stable_insert, sort_workspace_cmp_qsort, cmp_other_other _ _ hx hb]
  | cons d D ih =>
    have hd := hD d (List.mem_cons_self _ _)
    have ih2 := ih (fun e he => hD e (List.mem_cons_of_mem _ he))
    simp only [List.cons_append, stable_insert, sort_workspace_cmp_qsort,
      cmp_other_digit _ _ hx hd]
    rw [if_neg (by decide)]
    exact congrArg (List.cons d) ih2

/-- The sorted list is the sorted numeric workspaces followed by the other
workspaces in their original order. -/
theorem list_stable_sort_split (s : State) (l : List Nat) :
    list_stable_sort (sort_workspace_cmp_qsort s) l
      = list_stable_sort (sort_workspace_cmp_qsort s)
          (l.filter fun a => name_starts_with_digit (s.nodes a).name)
        ++ l.filter (fun a => !name_starts_with_digit (s.nodes a).name) := by
  induction l with
  | nil => rfl
  | cons a l ih =>
    have hD : ∀ d ∈ list_stable_sort (sort_workspace_cmp_qsort s)
        (l.filter fun a => name_starts_with_digit (s.nodes a).name),
        name_starts_with_digit (s.nodes d).name = true := by
      intro d hd
      have := (list_stable_sort_perm _ _).subset hd
      exact (List.mem_filter.mp this).2
    have hN : ∀ n ∈ l.filter (fun a => !name_starts_with_digit (s.nodes a).name),
        name_starts_with_digit (s.nodes n).name = false := by
      intro n hn
      simpa using (List.mem_filter.mp hn).2
    cases ha : name_starts_with_digit (s.nodes a).name
    · rw [list_stable_sort, ih, stable_insert_other_append s a _ _ ha hD hN]
      simp [List.filter_cons, ha]
    · rw [list_stable_sort, ih, stable_insert_digit_append s a _ _ ha hN]
      simp [List.filter_cons, ha, list_stable_sort]

theorem filter_append_of_split (p : Nat → Bool) (D N : List Nat)
    (hD : ∀ d ∈ D, p d = true) (hN : ∀ n ∈ N, p n = false) :
    (D ++ N).filter p = D := by
  rw [List.filter_append, List.filter_eq_self.mpr hD, List.filter_eq_nil_iff.mpr, List.append_nil]
  intro n hn
  simp [hN n hn]

/-- The function `container_sort_workspaces` leaves on the output a permutation
of its workspaces in which the workspaces whose name begins with a digit come
first, in non-decreasing order of the 32-bit `int` that the comparator stores
(`name_num`, which is the leading decimal number only below 2^31), followed by
the other workspaces in their original order; no name changes, and the names
"2", "10", "1", "web" are sorted to "1", "2", "10", "web". -/
theorem container_sort_workspaces_sorted (s : State) (output : Nat) :
    let dig := fun a => name_starts_with_digit (s.nodes a).name
    let l := (s.nodes output).children
    let r := ((container_sort_workspaces s output).nodes output).children
    r.Perm l ∧
    r = r.filter dig ++ l.filter (fun a => !dig a) ∧
    ((r.filter dig).map fun a => name_num (s.nodes a).name).Pairwise (fun m n => m ≤ n) ∧
    (∀ a, ((container_sort_workspaces s output).nodes a).name = (s.nodes a).name) ∧
    (((container_sort_workspaces sort_example 0).nodes 0).children.map
        fun a => String.mk ((container_sort_workspaces sort_example 0).nodes a).name)
      = ["1", "2", "10", "web"] := by
  intro dig l r
  have hr : r = list_stable_sort (sort_workspace_cmp_qsort s) l := by
    simp [r, l, container_sort_workspaces, State.upd, State.set, set_children]
  have hD : ∀ d ∈ list_stable_sort (sort_workspace_cmp_qsort s) (l.filter dig),
      dig d = true := by
    intro d hd
    exact (List.mem_filter.mp ((list_stable_sort_perm _ _).subset hd)).2
  have hN : ∀ n ∈ l.filter (fun a => !dig a), dig n = false := by
    intro n hn
    simpa using (List.mem_filter.mp hn).2
  have hsplit : r = list_stable_sort (sort_workspace_cmp_qsort s) (l.filter dig)
      ++ l.filter (fun a => !dig a) := by
    rw [hr]; exact list_stable_sort_split s l
  have hfil : r.filter dig = list_stable_sort (sort_workspace_cmp_qsort s) (l.filter dig) := by
    rw [hsplit]; exact filter_append_of_split dig _ _ hD hN
  refine ⟨?_, ?_, ?_, ?_, ?_⟩
  · rw [hr]; exact list_stable_sort_perm _ _
  · rw [hfil]; exact hsplit
  · rw [hfil, List.pairwise_map]
    have hpw := list_stable_sort_pairwise (sort_workspace_cmp_qsort s)
      (fun a b => cmp_total _ _) (fun a b c => cmp_trans _ _ _) (l.filter dig)
    refine List.Pairwise.imp_of_mem ?_ hpw
    intro a b ha hb hab
    exact (cmp_le_iff_of_digit _ _ (hD a ha) (hD b hb)).mp hab
  · intro a
    simp only [container_sort_workspaces, State.upd, State.set, set_children]
    split <;> simp_all
  · decide

/-- The four cases of `sort_workspace_cmp_qsort(a, b)`: the sign of the
comparison of the two 32-bit `int` values `name_num` when both names begin with
a digit, -1 when only the name of `a` does, 1 when only the name of `b` does,
and 0 when neither does. -/
theorem sort_workspace_cmp_qsort_cases (s : State) (a b : Nat) :
    let da := name_starts_with_digit (s.nodes a).name
    let db := name_starts_with_digit (s.nodes b).name
    (da = true ∧ db = true → sort_workspace_cmp_qsort s a b
        = Int.sign (name_num (s.nodes a).name - name_num (s.nodes b).name)) ∧
    (da = true ∧ db = false → sort_workspace_cmp_qsort s a b = -1) ∧
    (da = false ∧ db = true → sort_workspace_cmp_qsort s a b = 1) ∧
    (da = false ∧ db = false → sort_workspace_cmp_qsort s a b = 0) := by
  intro da db
  refine ⟨fun h => cmp_digit_digit _ _ h.1 h.2, fun h => cmp_digit_other _ _ h.1 h.2,
    fun h => cmp_other_digit _ _ h.1 h.2, fun h => cmp_other_other _ _ h.1 h.2⟩

/-! ## Heap updates -/

@[simp] theorem State.upd_nodes (s : State) (a : Nat) (f : sway_container → sway_container)
    (n : Nat) : (s.upd a f).nodes n = if n = a then f (s.nodes a) else s.nodes n := rfl

@[simp] theorem State.upd_next_id (s : State) (a : Nat) (f : sway_container → sway_container) :
    (s.upd a f).next_id = s.next_id := rfl

@[simp] theorem State.upd_focus_stack (s : State) (a : Nat) (f : sway_container → sway_container) :
    (s.upd a f).focus_stack = s.focus_stack := rfl

theorem State.ext_nodes {s t : State} (h1 : ∀ n, s.nodes n = t.nodes n)
    (h2 : s.next_id = t.next_id) (h3 : s.focus_stack = t.focus_stack) : s = t := by
  cases s; cases t
  simp only [State.mk.injEq]
  exact ⟨funext h1, h2, h3⟩

/-! ## Removal of a child -/

/-- The scan of `container_remove_child` followed by `list_del` erases the
first occurrence of the child. -/
theorem list_find_del (l : List Nat) (c : Nat) :
    (match list_find l c with
      | some i => list_del l i
      | none => l) = l.erase c := by
  induction l with
  | nil => rfl
  | cons a t ih =>
    by_cases h : a = c
    · subst h
      simp [list_find, list_del]
    · have hne : (a == c) = false := by simpa using h
      rw [List.erase_cons, hne]
      simp only [list_find, if_neg h]
      cases hf : list_find t c with
      | none =>
        rw [hf] at ih
        simp only [Option.map_none']
        simp at ih ⊢
        exact ih
      | some i =>
        rw [hf] at ih
        simp only [Option.map_some', list_del, List.eraseIdx_cons_succ] at ih ⊢
        simp
        exact ih

theorem remove_list_step (s1 : State) (parent child : Nat) :
    (match list_find (s1.nodes parent).children child with
      | some i => s1.upd parent fun n => set_children n (list_del n.children i)
      | none => s1)
      = s1.upd parent fun n => set_children n (n.children.erase child) := by
  have h := list_find_del (s1.nodes parent).children child
  cases hf : list_find (s1.nodes parent).children child with
  | none =>
    rw [hf] at h
    simp only at h ⊢
    apply State.ext_nodes
    · intro n
      simp only [State.upd_nodes]
      split
      · subst n; rw [← h]; rfl
      · rfl
    · rfl
    · rfl
  | some i =>
    rw [hf] at h
    simp only at h ⊢
    simp only [State.upd]
    rw [h]

/-- The result of `container_remove_child` on an attached node. -/
theorem container_remove_child_eq (s : State) (c P : Nat) (ws : Option Nat)
    (hP : (s.nodes c).parent = some P)
    (hws : if (s.nodes c).is_fullscreen = true
      then ∃ W, container_parent s c C_WORKSPACE = some (some W) ∧ ws = some W
      else ws = none) :
    container_remove_child s c = some (detach s c P ws, P) := by
  unfold container_remove_child
  by_cases hfs : (s.nodes c).is_fullscreen = true
  · rw [if_pos hfs] at hws
    obtain ⟨W, hW, rfl⟩ := hws
    have hP1 : ((s.upd W fun n => set_slot n none).nodes c).parent = some P := by
      simp only [State.upd_nodes]; split
      · subst c; exact hP
      · exact hP
    simp only [hfs, if_true, hW, hP1, remove_list_step]
    congr 2
    apply State.ext_nodes
    · intro n
      rcases eq_or_ne n P with rfl | h1 <;> rcases eq_or_ne n c with rfl | h2 <;>
        rcases eq_or_ne n W with rfl | h3
      all_goals try have h1' := Ne.symm h1
      all_goals try have h2' := Ne.symm h2
      all_goals try have h3' := Ne.symm h3
      all_goals simp [detach, container_set_dirty, container_notify_subtree_changed, *,
          set_slot, set_children, set_parent, set_dirty]
    · rfl
    · rfl
  · rw [if_neg hfs] at hws
    subst hws
    simp only [hfs, hP, remove_list_step, Bool.false_eq_true, if_false]
    congr 2
    apply State.ext_nodes
    · intro n
      rcases eq_or_ne n P with rfl | h1 <;> rcases eq_or_ne n c with rfl | h2
      all_goals try have h1' := Ne.symm h1
      all_goals try have h2' := Ne.symm h2
      all_goals simp [detach, container_set_dirty, container_notify_subtree_changed, *,
          set_slot, set_children, set_parent, set_dirty]
    · rfl
    · rfl

@[simp] theorem detach_children (s : State) (c P : Nat) (ws : Option Nat) (q : Nat) :
    ((detach s c P ws).nodes q).children
      = if q = P then (s.nodes q).children.erase c else (s.nodes q).children := rfl

@[simp] theorem detach_parent (s : State) (c P : Nat) (ws : Option Nat) (n : Nat) :
    ((detach s c P ws).nodes n).parent = if n = c then none else (s.nodes n).parent := rfl

@[simp] theorem detach_dirty (s : State) (c P : Nat) (ws : Option Nat) (n : Nat) :
    ((detach s c P ws).nodes n).dirty
      = if n = P ∨ n = c then true else (s.nodes n).dirty := rfl

@[simp] theorem detach_slot (s : State) (c P : Nat) (ws : Option Nat) (n : Nat) :
    ((detach s c P ws).nodes n).fullscreen
      = if some n = ws then none else (s.nodes n).fullscreen := rfl

@[simp] theorem detach_type (s : State) (c P : Nat) (ws : Option Nat) (n : Nat) :
    ((detach s c P ws).nodes n).type = (s.nodes n).type := rfl

@[simp] theorem detach_is_fullscreen (s : State) (c P : Nat) (ws : Option Nat) (n : Nat) :
    ((detach s c P ws).nodes n).is_fullscreen = (s.nodes n).is_fullscreen := rfl

@[simp] theorem detach_next_id (s : State) (c P : Nat) (ws : Option Nat) :
    (detach s c P ws).next_id = s.next_id := rfl

/-- Claim C4: for a node `c` with parent `P`, `container_remove_child(c)` returns
`P`; afterwards the children of `P` are the former ones with `c` erased, `c`
has no parent, `P` and `c` are dirty, the fullscreen slot of the workspace of
`c` is empty when `c` is fullscreen, and every node other than `P` (those of
the subtree of `c` among them) keeps its child sequence and every node other
than `c` its parent. -/
theorem container_remove_child_spec (s : State) (c P : Nat)
    (hP : (s.nodes c).parent = some P)
    (hfs : (s.nodes c).is_fullscreen = true →
      ∃ W, container_parent s c C_WORKSPACE = some (some W)) :
    ∃ s', container_remove_child s c = some (s', P) ∧
      (s'.nodes P).children = (s.nodes P).children.erase c ∧
      (s'.nodes c).parent = none ∧
      (s'.nodes P).dirty = true ∧ (s'.nodes c).dirty = true ∧
      ((s.nodes c).is_fullscreen = true →
        ∀ W, container_parent s c C_WORKSPACE = some (some W) → (s'.nodes W).fullscreen = none) ∧
      (∀ q, q ≠ P → (s'.nodes q).children = (s.nodes q).children) ∧
      (∀ n, n ≠ c → (s'.nodes n).parent = (s.nodes n).parent) := by
  by_cases hf : (s.nodes c).is_fullscreen = true
  · obtain ⟨W, hW⟩ := hfs hf
    refine ⟨detach s c P (some W), ?_, ?_⟩
    · exact container_remove_child_eq s c P (some W) hP (by rw [if_pos hf]; exact ⟨W, hW, rfl⟩)
    · refine ⟨by simp, by simp, by simp, by simp, ?_, ?_, ?_⟩
      · intro _ W' hW'
        rw [hW] at hW'
        have : W = W' := by simpa using hW'
        subst this
        simp
      · intro q hq; simp [hq]
      · intro n hn; simp [hn]
  · refine ⟨detach s c P none, ?_, ?_⟩
    · exact container_remove_child_eq s c P none hP (by rw [if_neg hf])
    · refine ⟨by simp, by simp, by simp, by simp, ?_, ?_, ?_⟩
      · intro h; exact absurd h hf
      · intro q hq; simp [hq]
      · intro n hn; simp [hn]

/-- Witness of `container_remove_child_spec`: the fullscreen view 5 of
`example_tree` is removed from workspace 2. -/
theorem container_remove_child_spec_witness :
    ∃ s', container_remove_child example_tree 5 = some (s', 2) ∧
      (s'.nodes 2).children = (example_tree.nodes 2).children.erase 5 ∧
      (s'.nodes 5).parent = none ∧
      (s'.nodes 2).dirty = true ∧ (s'.nodes 5).dirty = true ∧
      ((example_tree.nodes 5).is_fullscreen = true →
        ∀ W, container_parent example_tree 5 C_WORKSPACE = some (some W) →
          (s'.nodes W).fullscreen = none) ∧
      (∀ q, q ≠ 2 → (s'.nodes q).children = (example_tree.nodes q).children) ∧
      (∀ n, n ≠ 5 → (s'.nodes n).parent = (example_tree.nodes n).parent) :=
  container_remove_child_spec example_tree 5 2 (by decide) (fun _ => ⟨2, by decide⟩)

/-! ## Parent chains -/

theorem same_tree_refl (s : State) : same_tree s s :=
  ⟨rfl, rfl, fun _ => ⟨rfl, rfl, rfl, rfl, rfl, rfl, rfl⟩⟩

theorem same_tree_trans {s t u : State} (h1 : same_tree s t) (h2 : same_tree t u) :
    same_tree s u := by
  refine ⟨h2.1.trans h1.1, h2.2.1.trans h1.2.1, fun n => ?_⟩
  obtain ⟨a1, a2, a3, a4, a5, a6, a7⟩ := h1.2.2 n
  obtain ⟨b1, b2, b3, b4, b5, b6, b7⟩ := h2.2.2 n
  exact ⟨b1.trans a1, b2.trans a2, b3.trans a3, b4.trans a4, b5.trans a5, b6.trans a6,
    b7.trans a7⟩

/-- A lookup that succeeds in `s` succeeds with the same result, on any larger
fuel, in a heap that agrees with `s` on the nodes the lookup visits. -/
theorem container_parent_loop_transfer (s t : State) (ty : sway_container_type) :
    ∀ (f : Nat) (p : Option Nat) (r : Option Nat) (g : Nat),
      container_parent_loop s ty f p = some r →
      (∀ n ∈ ancestors s f p,
        (t.nodes n).type = (s.nodes n).type ∧ (t.nodes n).parent = (s.nodes n).parent) →
      f ≤ g → container_parent_loop t ty g p = some r := by
  intro f
  induction f with
  | zero =>
    intro p r g h _ _
    cases p with
    | none =>
      cases g <;> simpa [container_parent_loop] using h
    | some q => simp [container_parent_loop] at h
  | succ f ih =>
    intro p r g h hag hfg
    cases p with
    | none =>
      cases g <;> simpa [container_parent_loop] using h
    | some q =>
      obtain ⟨g, rfl⟩ : ∃ g', g = g' + 1 := ⟨g - 1, by omega⟩
      have hq := hag q (by simp [ancestors])
      simp only [container_parent_loop, hq.1] at h ⊢
      by_cases hty : (s.nodes q).type = ty
      · simpa [hty] using h
      · simp only [hty, if_false] at h ⊢
        rw [hq.2]
        refine ih _ r g h ?_ (by omega)
        intro n hn
        exact hag n (by simp [ancestors, hn])

/-- The node found by a lookup is one of the visited nodes and has the type
looked for. -/
theorem container_parent_loop_found (s : State) (ty : sway_container_type) :
    ∀ (f : Nat) (p : Option Nat) (w : Nat),
      container_parent_loop s ty f p = some (some w) →
      w ∈ ancestors s f p ∧ (s.nodes w).type = ty := by
  intro f
  induction f with
  | zero =>
    intro p w h
    cases p <;> simp [container_parent_loop] at h
  | succ f ih =>
    intro p w h
    cases p with
    | none => simp [container_parent_loop] at h
    | some q =>
      simp only [container_parent_loop] at h
      by_cases hty : (s.nodes q).type = ty
      · simp only [hty, if_true, Option.some.injEq] at h
        subst h
        exact ⟨by simp [ancestors], hty⟩
      · simp only [hty, if_false] at h
        obtain ⟨h1, h2⟩ := ih _ w h
        exact ⟨by simp [ancestors, h1], h2⟩

/-! ## Leaving fullscreen -/

/-- The effect of `container_set_fullscreen(f, false)` on a node `n`. -/
theorem container_set_fullscreen_false_nodes (s : State) (f n : Nat) :
    ((container_set_fullscreen s f false).nodes n).is_fullscreen
        = (if n = f then false else (s.nodes n).is_fullscreen) ∧
    (((container_set_fullscreen s f false).nodes n).fullscreen = none ∨
      ((container_set_fullscreen s f false).nodes n).fullscreen = (s.nodes n).fullscreen) ∧
    (n ≠ f → ((container_set_fullscreen s f false).nodes n).x = (s.nodes n).x ∧
      ((container_set_fullscreen s f false).nodes n).y = (s.nodes n).y ∧
      ((container_set_fullscreen s f false).nodes n).width = (s.nodes n).width ∧
      ((container_set_fullscreen s f false).nodes n).height = (s.nodes n).height) := by
  unfold container_set_fullscreen
  by_cases hf : (s.nodes f).is_fullscreen = false
  · rw [if_pos hf]
    refine ⟨?_, Or.inr rfl, fun _ => ⟨rfl, rfl, rfl, rfl⟩⟩
    split
    · subst n; exact hf
    · rfl
  · rw [if_neg hf]
    simp only [Bool.false_eq_true, if_false]
    generalize (match container_parent s f C_WORKSPACE with
      | some (some w) => some w
      | _ => none) = ws
    cases ws with
    | none =>
      rcases eq_or_ne n f with rfl | h1 <;> simp [leave_fullscreen, *]
    | some w =>
      rcases eq_or_ne n f with rfl | h1 <;> rcases eq_or_ne n w with rfl | h2 <;>
        simp [leave_fullscreen, set_slot, *]

theorem container_set_fullscreen_same_tree (s : State) (f : Nat) (e : Bool) :
    same_tree s (container_set_fullscreen s f e) := by
  unfold container_set_fullscreen
  split
  · exact same_tree_refl s
  · generalize (match container_parent s f C_WORKSPACE with
      | some (some w) => some w
      | _ => none) = ws
    cases e with
    | false =>
      simp only [Bool.false_eq_true, if_false]
      cases ws with
      | none =>
        refine ⟨rfl, rfl, fun n => ?_⟩
        rcases eq_or_ne n f with rfl | h1 <;> simp [leave_fullscreen, *]
      | some w =>
        refine ⟨rfl, rfl, fun n => ?_⟩
        rcases eq_or_ne n f with rfl | h1 <;> rcases eq_or_ne n w with rfl | h2 <;>
          simp [leave_fullscreen, set_slot, *]
    | true =>
      simp only [if_true]
      cases ws with
      | none =>
        refine ⟨rfl, rfl, fun n => ?_⟩
        rcases eq_or_ne n f with rfl | h1 <;> simp [enter_fullscreen, *]
      | some w =>
        have key : same_tree s (match (s.nodes w).fullscreen with
          | some f => if (s.nodes f).is_fullscreen = true then s.upd f leave_fullscreen else s
          | none => s) := by
          split
          · split
            · rename_i g _ _
              refine ⟨rfl, rfl, fun n => ?_⟩
              rcases eq_or_ne n g with rfl | h1 <;> simp [leave_fullscreen, *]
            · exact same_tree_refl s
          · exact same_tree_refl s
        refine same_tree_trans key ⟨rfl, rfl, fun n => ?_⟩
        rcases eq_or_ne n f with rfl | h1 <;> rcases eq_or_ne n w with rfl | h2 <;>
          simp [enter_fullscreen, set_slot, *]

/-! ## Fullscreen bookkeeping of a reparented node -/

theorem same_tree_upd_slot (s : State) (a : Nat) (v : Option Nat) :
    same_tree s (s.upd a fun n => set_slot n v) := by
  refine ⟨rfl, rfl, fun n => ?_⟩
  rcases eq_or_ne n a with rfl | h <;> simp [set_slot, *]

theorem same_tree_upd_geometry (s : State) (a : Nat) (x y w h : Int) :
    same_tree s (s.upd a fun n => set_geometry n x y w h) := by
  refine ⟨rfl, rfl, fun n => ?_⟩
  rcases eq_or_ne n a with rfl | h <;> simp [set_geometry, *]

theorem same_tree_upd_view_geometry (s : State) (a : Nat) (x y w h : Int) :
    same_tree s (s.upd a fun n => set_view_geometry n x y w h) := by
  refine ⟨rfl, rfl, fun n => ?_⟩
  rcases eq_or_ne n a with rfl | h <;> simp [set_view_geometry, *]

theorem clear_old_slot_same_tree (s : State) (ow : Option Nat) :
    same_tree s (clear_old_slot s ow) := by
  cases ow with
  | none => exact same_tree_refl s
  | some w => exact same_tree_upd_slot s w none

theorem demote_occupant_same_tree (s : State) (nw : Nat) :
    same_tree s (demote_occupant s nw) := by
  unfold demote_occupant
  cases (s.nodes nw).fullscreen with
  | none => exact same_tree_refl s
  | some f => exact container_set_fullscreen_same_tree s f false

theorem cross_slots_same_tree (s : State) (con : Nat) (ow : Option Nat) (nw : Nat) :
    same_tree s (cross_slots s con ow nw) :=
  same_tree_trans (clear_old_slot_same_tree s ow)
    (same_tree_trans (demote_occupant_same_tree _ nw) (same_tree_upd_slot _ nw (some con)))

/-- The structure of `container_handle_fullscreen_reparent` for a fullscreen
node. -/
theorem container_handle_fullscreen_reparent_eq (s : State) (con : Nat) (op : Option Nat)
    (hfs : (s.nodes con).is_fullscreen = true) :
    container_handle_fullscreen_reparent s con op =
      match old_workspace_of s op with
      | none => none
      | some ow =>
        match container_parent s con C_WORKSPACE with
        | none => none
        | some new_workspace =>
          if ow = new_workspace then some s
          else
            match new_workspace with
            | none => none
            | some nw =>
              match ((cross_slots s con ow nw).nodes nw).parent with
              | none => none
              | some output => some (resized (cross_slots s con ow nw) con output) := by
  have tail : ∀ (u : State) (nw output : Nat),
      resize_step u con nw output = some (resized u con output) := by
    intro u nw output
    simp only [resize_step, resized, arrange_windows]
    split <;> rfl
  have base : container_handle_fullscreen_reparent s con op =
      match old_workspace_of s op with
      | none => none
      | some ow =>
        match container_parent s con C_WORKSPACE with
        | none => none
        | some new_workspace =>
          if ow = new_workspace then some s
          else
            match new_workspace with
            | none => none
            | some nw =>
              match ((cross_slots s con ow nw).nodes nw).parent with
              | none => none
              | some output => resize_step (cross_slots s con ow nw) con nw output := by
    unfold container_handle_fullscreen_reparent
    rw [if_neg (by simp [hfs])]
    rfl
  rw [base]
  simp only [tail]

theorem resized_same_tree (s : State) (con output : Nat) :
    same_tree s (resized s con output) := by
  unfold resized
  simp only []
  split
  · exact same_tree_trans (same_tree_upd_geometry _ _ _ _ _ _)
      (same_tree_upd_view_geometry _ _ _ _ _ _)
  · exact same_tree_upd_geometry _ _ _ _ _ _

/-- The fields of a node after the resize: the slots and flags are kept, `con`
has the geometry of `output`, the other nodes keep theirs. -/
theorem resized_fields (s : State) (con output n : Nat) :
    ((resized s con output).nodes n).fullscreen = (s.nodes n).fullscreen ∧
    ((resized s con output).nodes n).is_fullscreen = (s.nodes n).is_fullscreen ∧
    ((resized s con output).nodes n).x
      = (if n = con then (s.nodes output).x else (s.nodes n).x) ∧
    ((resized s con output).nodes n).y
      = (if n = con then (s.nodes output).y else (s.nodes n).y) ∧
    ((resized s con output).nodes n).width
      = (if n = con then (s.nodes output).width else (s.nodes n).width) ∧
    ((resized s con output).nodes n).height
      = (if n = con then (s.nodes output).height else (s.nodes n).height) := by
  unfold resized
  simp only []
  split <;> rcases eq_or_ne n con with rfl | h <;>
    simp [set_geometry, set_view_geometry, arrange_windows, *]

theorem container_handle_fullscreen_reparent_of_not_fullscreen (s : State) (con : Nat)
    (op : Option Nat) (hfs : (s.nodes con).is_fullscreen = false) :
    container_handle_fullscreen_reparent s con op = some s := by
  unfold container_handle_fullscreen_reparent
  rw [if_pos hfs]

/-- The function `container_handle_fullscreen_reparent` changes no link of the tree. -/
theorem container_handle_fullscreen_reparent_same_tree (s : State) (con : Nat)
    (op : Option Nat) (s' : State)
    (h : container_handle_fullscreen_reparent s con op = some s') : same_tree s s' := by
  by_cases hfs : (s.nodes con).is_fullscreen = true
  · rw [container_handle_fullscreen_reparent_eq s con op hfs] at h
    cases how : old_workspace_of s op with
    | none => simp [how] at h
    | some ow =>
      cases hnw : container_parent s con C_WORKSPACE with
      | none => simp [how, hnw] at h
      | some new_workspace =>
        simp only [how, hnw] at h
        by_cases heq : ow = new_workspace
        · simp only [heq, if_true, Option.some.injEq] at h
          subst h; exact same_tree_refl s
        · simp only [heq, if_false] at h
          cases new_workspace with
          | none => simp at h
          | some nw =>
            simp only at h
            cases hpar : ((cross_slots s con ow nw).nodes nw).parent with
            | none => simp [hpar] at h
            | some output =>
              simp only [hpar, Option.some.injEq] at h
              subst h
              exact same_tree_trans (cross_slots_same_tree s con ow nw)
                (resized_same_tree _ _ _)
  · have hfs' : (s.nodes con).is_fullscreen = false := by simpa using hfs
    rw [container_handle_fullscreen_reparent_of_not_fullscreen s con op hfs'] at h
    simp only [Option.some.injEq] at h
    subst h; exact same_tree_refl s

/-! ## Detaching and reattaching a node -/

/-- The first step of `container_insert_child` and `container_add_sibling`. -/
theorem detach_step (s : State) (c : Nat)
    (hok : (s.nodes c).is_fullscreen = true → (s.nodes c).parent ≠ none →
      ∃ W1, container_parent s c C_WORKSPACE = some (some W1)) :
    (match (s.nodes c).parent with
      | some _ => (container_remove_child s c).map fun r => r.1
      | none => some s) = some (detached s c) := by
  unfold detached
  cases hP : (s.nodes c).parent with
  | none => rfl
  | some Q =>
    simp only
    rw [container_remove_child_eq s c Q (removal_slot s c) hP]
    · rfl
    · unfold removal_slot
      by_cases hfs : (s.nodes c).is_fullscreen = true
      · obtain ⟨W1, hW1⟩ := hok hfs (by simp [hP])
        simp only [hfs, if_true, hW1]
        exact ⟨W1, rfl, rfl⟩
      · simp [hfs]

@[simp] theorem detached_type (s : State) (c n : Nat) :
    ((detached s c).nodes n).type = (s.nodes n).type := by
  unfold detached; split <;> rfl

@[simp] theorem detached_is_fullscreen (s : State) (c n : Nat) :
    ((detached s c).nodes n).is_fullscreen = (s.nodes n).is_fullscreen := by
  unfold detached; split <;> rfl

@[simp] theorem detached_next_id (s : State) (c : Nat) :
    (detached s c).next_id = s.next_id := by
  unfold detached; split <;> rfl

theorem detached_parent (s : State) (c n : Nat) :
    ((detached s c).nodes n).parent = if n = c then none else (s.nodes n).parent := by
  unfold detached
  cases hP : (s.nodes c).parent with
  | none =>
    simp only
    split
    · subst n; exact hP
    · rfl
  | some Q => rfl

theorem detached_children (s : State) (c q : Nat) :
    ((detached s c).nodes q).children
      = if (s.nodes c).parent = some q then (s.nodes q).children.erase c
        else (s.nodes q).children := by
  unfold detached
  cases hP : (s.nodes c).parent with
  | none => simp
  | some Q =>
    simp only [detach_children, Option.some.injEq]
    rcases eq_or_ne q Q with rfl | h
    · simp
    · simp [h, Ne.symm h]

theorem reattached_type (s : State) (P c : Nat) (l : List Nat) (n : Nat) :
    ((reattached s P c l).nodes n).type = (s.nodes n).type := by
  unfold reattached
  rcases eq_or_ne n c with rfl | h1 <;> rcases eq_or_ne n P with rfl | h2 <;>
    simp [set_children, set_parent, *]

theorem reattached_is_fullscreen (s : State) (P c : Nat) (l : List Nat) (n : Nat) :
    ((reattached s P c l).nodes n).is_fullscreen = (s.nodes n).is_fullscreen := by
  unfold reattached
  rcases eq_or_ne n c with rfl | h1 <;> rcases eq_or_ne n P with rfl | h2 <;>
    simp [set_children, set_parent, *]

theorem reattached_next_id (s : State) (P c : Nat) (l : List Nat) :
    (reattached s P c l).next_id = s.next_id := by
  simp [reattached]

theorem reattached_parent (s : State) (P c : Nat) (l : List Nat) (n : Nat) :
    ((reattached s P c l).nodes n).parent
      = if n = c then some P else (s.nodes n).parent := by
  unfold reattached
  rcases eq_or_ne n c with rfl | h1 <;> rcases eq_or_ne n P with rfl | h2 <;>
    simp [set_children, set_parent, detached_parent, *]

theorem reattached_children (s : State) (P c : Nat) (l : List Nat) (q : Nat) :
    ((reattached s P c l).nodes q).children
      = if q = P then l
        else if (s.nodes c).parent = some q then (s.nodes q).children.erase c
        else (s.nodes q).children := by
  unfold reattached
  rcases eq_or_ne q c with rfl | h1 <;> rcases eq_or_ne q P with rfl | h2 <;>
    simp [set_children, set_parent, detached_children, *]

/-- The workspace found from a node `c` that has been put under `P` is the
workspace of `P`. -/
theorem new_workspace_after (s t : State) (P c W2 : Nat)
    (hid : t.next_id = s.next_id)
    (hty : ∀ n, (t.nodes n).type = (s.nodes n).type)
    (hpar : ∀ n, n ≠ c → (t.nodes n).parent = (s.nodes n).parent)
    (hpc : (t.nodes c).parent = some P)
    (hanc : c ∉ ancestors s s.next_id (some P))
    (hW2 : container_parent_loop s C_WORKSPACE s.next_id (some P) = some (some W2)) :
    container_parent t c C_WORKSPACE = some (some W2) ∧ W2 ≠ c := by
  constructor
  · unfold container_parent
    rw [hpc, hid]
    refine container_parent_loop_transfer s t _ _ _ _ _ hW2 ?_ (le_refl _)
    intro n hn
    exact ⟨hty n, hpar n (fun h => hanc (h ▸ hn))⟩
  · intro h
    exact hanc (h ▸ (container_parent_loop_found s _ _ _ _ hW2).1)

/-- The old workspace computed after the move of `c` is the workspace `c` was
in. -/
theorem old_workspace_after (s t : State) (c Q W1 : Nat)
    (hid : t.next_id = s.next_id)
    (hty : ∀ n, (t.nodes n).type = (s.nodes n).type)
    (hpar : ∀ n, n ≠ c → (t.nodes n).parent = (s.nodes n).parent)
    (hQ : (s.nodes c).parent = some Q)
    (hacyc : c ∉ ancestors s s.next_id (some Q))
    (hW1 : container_parent s c C_WORKSPACE = some (some W1)) :
    old_workspace_of t (some Q) = some (some W1) := by
  unfold container_parent at hW1
  rw [hQ] at hW1
  obtain ⟨f, hf⟩ : ∃ f, s.next_id = f + 1 := by
    cases h : s.next_id with
    | zero => rw [h] at hW1; simp [container_parent_loop] at hW1
    | succ f => exact ⟨f, rfl⟩
  rw [hf] at hW1 hacyc
  simp only [ancestors, List.mem_cons, not_or] at hacyc
  simp only [container_parent_loop] at hW1
  unfold old_workspace_of
  simp only [hty Q]
  by_cases hQt : (s.nodes Q).type = C_WORKSPACE
  · simp only [hQt, if_true, Option.some.injEq] at hW1
    subst hW1
    simp [hQt]
  · simp only [hQt, if_false] at hW1
    simp only [ne_eq, hQt, not_false_eq_true, if_true]
    unfold container_parent
    rw [hpar Q (Ne.symm hacyc.1), hid, hf]
    refine container_parent_loop_transfer s t _ _ _ _ _ hW1 ?_ (Nat.le_succ f)
    intro n hn
    exact ⟨hty n, hpar n (fun h => hacyc.2 (h ▸ hn))⟩

/-- The fullscreen bookkeeping that follows the reattachment of `c` under `P`
returns, and changes no link of the tree. -/
theorem reparent_defined (s : State) (P c : Nat) (l : List Nat)
    (hready : (s.nodes c).is_fullscreen = true → fullscreen_reparent_ready s P c) :
    ∃ s', container_handle_fullscreen_reparent (reattached s P c l) c (s.nodes c).parent
        = some s' ∧ same_tree (reattached s P c l) s' := by
  suffices h : ∃ s', container_handle_fullscreen_reparent (reattached s P c l) c
      (s.nodes c).parent = some s' by
    obtain ⟨s', hs'⟩ := h
    exact ⟨s', hs', container_handle_fullscreen_reparent_same_tree _ _ _ _ hs'⟩
  by_cases hfs : (s.nodes c).is_fullscreen = true
  · obtain ⟨hanc, hacyc, hW1, W2, O, hW2, hO⟩ := hready hfs
    have hfs' : ((reattached s P c l).nodes c).is_fullscreen = true := by
      rw [reattached_is_fullscreen]; exact hfs
    have hpar : ∀ n, n ≠ c →
        ((reattached s P c l).nodes n).parent = (s.nodes n).parent := by
      intro n hn; rw [reattached_parent, if_neg hn]
    have hpc : ((reattached s P c l).nodes c).parent = some P := by
      rw [reattached_parent, if_pos rfl]
    obtain ⟨hnw, hW2c⟩ := new_workspace_after s _ P c W2 (reattached_next_id s P c l)
      (reattached_type s P c l) hpar hpc hanc hW2
    have how : ∃ ow, old_workspace_of (reattached s P c l) (s.nodes c).parent = some ow := by
      cases hQ : (s.nodes c).parent with
      | none => exact ⟨none, rfl⟩
      | some Q =>
        obtain ⟨W1, hW1⟩ := hW1 (by simp [hQ])
        rw [hQ] at hacyc
        exact ⟨some W1, old_workspace_after s _ c Q W1 (reattached_next_id s P c l)
          (reattached_type s P c l) hpar hQ hacyc hW1⟩
    obtain ⟨ow, how⟩ := how
    rw [container_handle_fullscreen_reparent_eq _ _ _ hfs', how, hnw]
    simp only
    by_cases heq : ow = some W2
    · exact ⟨_, if_pos heq⟩
    · rw [if_neg heq]
      have hp : ((cross_slots (reattached s P c l) c ow W2).nodes W2).parent = some O := by
        rw [((cross_slots_same_tree (reattached s P c l) c ow W2).2.2 W2).2.1, hpar W2 hW2c, hO]
      simp only [hp]
      exact ⟨_, rfl⟩
  · have hfs' : ((reattached s P c l).nodes c).is_fullscreen = false := by
      rw [reattached_is_fullscreen]; simpa using hfs
    exact ⟨_, container_handle_fullscreen_reparent_of_not_fullscreen _ _ _ hfs'⟩

/-! ## Facts about child sequences -/

theorem list_insert_eq (l : List Nat) (i : Nat) (c : Nat) (hi : i ≤ l.length) :
    list_insert l (i : Int) c = some (l.take i ++ c :: l.drop i) := by
  unfold list_insert
  rw [if_pos ⟨Int.natCast_nonneg i, by exact_mod_cast hi⟩]
  simp

theorem splice_getElem (l : List Nat) (i : Nat) (c : Nat) (hi : i ≤ l.length) :
    (l.take i ++ c :: l.drop i)[i]? = some c := by
  have hlen : (l.take i).length = i := by simp [hi]
  rw [List.getElem?_append_right (by omega), hlen]
  simp

theorem splice_count (l : List Nat) (i : Nat) (c : Nat) (hc : c ∉ l) :
    (l.take i ++ c :: l.drop i).count c = 1 := by
  have h1 : (l.take i).count c = 0 :=
    List.count_eq_zero.mpr fun h => hc (List.mem_of_mem_take h)
  have h2 : (l.drop i).count c = 0 :=
    List.count_eq_zero.mpr fun h => hc (List.mem_of_mem_drop h)
  simp [List.count_append, h1, h2]

theorem splice_erase (l : List Nat) (i : Nat) (c : Nat) (hc : c ∉ l) :
    (l.take i ++ c :: l.drop i).erase c = l := by
  rw [List.erase_append_right _ (fun h => hc (List.mem_of_mem_take h)), List.erase_cons_head,
    List.take_append_drop]

theorem erase_of_count_one (l : List Nat) (c : Nat) (h : l.count c = 1) : c ∉ l.erase c := by
  intro hm
  have h1 : (l.erase c).count c = 0 := by
    rw [List.count_erase_self, h]
  exact (List.count_eq_zero.mp h1) hm

theorem list_find_some_iff (l : List Nat) (f : Nat) (j : Nat) :
    list_find l f = some j → l[j]? = some f ∧ f ∉ l.take j := by
  induction l generalizing j with
  | nil => intro h; simp [list_find] at h
  | cons a t ih =>
    intro h
    by_cases ha : a = f
    · subst ha
      simp only [list_find, if_true, Option.some.injEq] at h
      subst h
      simp
    · simp only [list_find, if_neg ha] at h
      cases hf : list_find t f with
      | none => simp [hf] at h
      | some k =>
        simp only [hf, Option.map_some', Option.some.injEq] at h
        subst h
        obtain ⟨h1, h2⟩ := ih k hf
        refine ⟨by simpa using h1, ?_⟩
        simp only [List.take_succ_cons, List.mem_cons, not_or]
        exact ⟨fun h => ha h.symm, h2⟩

theorem list_find_of_mem (l : List Nat) (f : Nat) (h : f ∈ l) :
    ∃ j, list_find l f = some j ∧ j < l.length := by
  induction l with
  | nil => simp at h
  | cons a t ih =>
    by_cases ha : a = f
    · exact ⟨0, by simp [list_find, ha], by simp⟩
    · have ht : f ∈ t := by
        rcases List.mem_cons.mp h with h | h
        · exact absurd h.symm ha
        · exact h
      obtain ⟨j, hj, hlt⟩ := ih ht
      exact ⟨j + 1, by simp [list_find, ha, hj], by simpa using hlt⟩

/-- Erasing a node that does not stand before `f` keeps the index of `f`. -/
theorem list_find_erase (l : List Nat) (f m : Nat) (j : Nat) (hfm : f ≠ m)
    (hj : list_find l f = some j) (hm : m ∉ l.take j) :
    list_find (l.erase m) f = some j := by
  induction l generalizing j with
  | nil => simp [list_find] at hj
  | cons a t ih =>
    by_cases ha : a = f
    · subst ha
      simp only [list_find, if_true, Option.some.injEq] at hj
      subst hj
      have : (a == m) = false := by simpa using hfm
      rw [List.erase_cons, this]
      simp [list_find]
    · simp only [list_find, if_neg ha] at hj
      cases hf : list_find t f with
      | none => simp [hf] at hj
      | some k =>
        simp only [hf, Option.map_some', Option.some.injEq] at hj
        subst hj
        simp only [List.take_succ_cons, List.mem_cons, not_or] at hm
        have : (a == m) = false := by simpa using (Ne.symm hm.1)
        rw [List.erase_cons, this]
        simp only [Bool.false_eq_true, if_false, list_find, if_neg ha, ih k hf hm.2,
          Option.map_some']

/-! ## Insertion of a child -/

/-- The opening step of `container_insert_child` and `container_add_sibling`
either fails, when the node is attached and fullscreen and has no workspace, or
gives `detached`. -/
theorem detach_step_cases (s : State) (c : Nat) :
    (match (s.nodes c).parent with
      | some _ => (container_remove_child s c).map fun r => r.1
      | none => some s) = none ∨
    (match (s.nodes c).parent with
      | some _ => (container_remove_child s c).map fun r => r.1
      | none => some s) = some (detached s c) := by
  by_cases hok : (s.nodes c).is_fullscreen = true → (s.nodes c).parent ≠ none →
      ∃ W1, container_parent s c C_WORKSPACE = some (some W1)
  · exact Or.inr (detach_step s c hok)
  · left
    simp only [not_forall, not_exists] at hok
    obtain ⟨hfs, hpar, hno⟩ := hok
    cases hP : (s.nodes c).parent with
    | none => exact absurd hP hpar
    | some Q =>
      simp only [Option.map_eq_none']
      unfold container_remove_child
      rw [if_pos hfs]
      cases hcp : container_parent s c C_WORKSPACE with
      | none => rfl
      | some w =>
        cases w with
        | none => rfl
        | some W => exact absurd hcp (hno W)

/-- The function `container_insert_child` as a reattachment followed by the fullscreen
bookkeeping. -/
theorem container_insert_child_eq (s : State) (P c : Nat) (i : Nat)
    (hok : (s.nodes c).is_fullscreen = true → (s.nodes c).parent ≠ none →
      ∃ W1, container_parent s c C_WORKSPACE = some (some W1))
    (hi : i ≤ ((detached s c).nodes P).children.length) :
    container_insert_child s P c (i : Int) =
      container_handle_fullscreen_reparent
        (reattached s P c (((detached s c).nodes P).children.take i ++
          c :: ((detached s c).nodes P).children.drop i)) c (s.nodes c).parent := by
  unfold container_insert_child
  simp only [detach_step s c hok, list_insert_eq _ i c hi]
  rfl

/-- The children of the new parent once the node is detached, under tree
integrity. -/
theorem detached_children_new_parent (s : State) (P c : Nat)
    (hother : (s.nodes c).parent ≠ some P → c ∉ (s.nodes P).children) :
    ((detached s c).nodes P).children = (s.nodes P).children.erase c := by
  rw [detached_children]
  split
  · rfl
  · rename_i h
    exact (List.erase_of_not_mem (hother h)).symm

/-- Claim C3: `container_insert_child(P, c, i)` with `0 ≤ i ≤` the number of
children of `P` once `c` is detached returns, and afterwards the parent of `c`
is `P`, `c` is the element at position `i` of the children of `P` and occurs
exactly once there, the other children of `P` are the former ones in the same
order, the previous parent of `c` lists its former children without `c`, and no
other child sequence or parent pointer has changed.  When `c` is fullscreen it
must be neither `P` nor an ancestor of `P` and the workspaces involved must
exist (`fullscreen_reparent_ready`). -/
theorem container_insert_child_spec (s : State) (P c : Nat) (i : Nat)
    (hcount : ∀ Q, (s.nodes c).parent = some Q → (s.nodes Q).children.count c = 1)
    (hother : (s.nodes c).parent ≠ some P → c ∉ (s.nodes P).children)
    (hi : i ≤ ((s.nodes P).children.erase c).length)
    (hfs : (s.nodes c).is_fullscreen = true → fullscreen_reparent_ready s P c) :
    ∃ s', container_insert_child s P c (i : Int) = some s' ∧
      (s'.nodes c).parent = some P ∧
      (s'.nodes P).children
        = ((s.nodes P).children.erase c).take i ++ c :: ((s.nodes P).children.erase c).drop i ∧
      (s'.nodes P).children[i]? = some c ∧
      (s'.nodes P).children.count c = 1 ∧
      (s'.nodes P).children.erase c = (s.nodes P).children.erase c ∧
      (∀ Q, (s.nodes c).parent = some Q → Q ≠ P →
        c ∉ (s'.nodes Q).children ∧ (s'.nodes Q).children = (s.nodes Q).children.erase c) ∧
      (∀ q, q ≠ P → (s.nodes c).parent ≠ some q →
        (s'.nodes q).children = (s.nodes q).children) ∧
      (∀ n, n ≠ c → (s'.nodes n).parent = (s.nodes n).parent) := by
  have hL := detached_children_new_parent s P c hother
  have hok : (s.nodes c).is_fullscreen = true → (s.nodes c).parent ≠ none →
      ∃ W1, container_parent s c C_WORKSPACE = some (some W1) :=
    fun h1 h2 => (hfs h1).2.2.1 h2
  have hcL : c ∉ (s.nodes P).children.erase c := by
    by_cases hp : (s.nodes c).parent = some P
    · exact erase_of_count_one _ _ (hcount P hp)
    · rw [List.erase_of_not_mem (hother hp)]; exact hother hp
  obtain ⟨s', hs', htree⟩ := reparent_defined s P c
    (((s.nodes P).children.erase c).take i ++ c :: ((s.nodes P).children.erase c).drop i) hfs
  have hch : ∀ q, (s'.nodes q).children = ((reattached s P c
      (((s.nodes P).children.erase c).take i ++ c :: ((s.nodes P).children.erase c).drop i)).nodes
        q).children := fun q => (htree.2.2 q).2.2.1
  have hpa : ∀ n, (s'.nodes n).parent = ((reattached s P c
      (((s.nodes P).children.erase c).take i ++ c :: ((s.nodes P).children.erase c).drop i)).nodes
        n).parent := fun n => (htree.2.2 n).2.1
  refine ⟨s', ?_, ?_, ?_, ?_, ?_, ?_, ?_, ?_, ?_⟩
  · rw [container_insert_child_eq s P c i hok (by rw [hL]; exact hi), hL]
    exact hs'
  · rw [hpa, reattached_parent, if_pos rfl]
  · rw [hch, reattached_children, if_pos rfl]
  · rw [hch, reattached_children, if_pos rfl]
    exact splice_getElem _ i c hi
  · rw [hch, reattached_children, if_pos rfl]
    exact splice_count _ i c hcL
  · rw [hch, reattached_children, if_pos rfl]
    exact splice_erase _ i c hcL
  · intro Q hQ hQP
    have : (s'.nodes Q).children = (s.nodes Q).children.erase c := by
      rw [hch, reattached_children, if_neg hQP, if_pos hQ]
    exact ⟨this ▸ erase_of_count_one _ _ (hcount Q hQ), this⟩
  · intro q hq hpq
    rw [hch, reattached_children, if_neg hq, if_neg hpq]
  · intro n hn
    rw [hpa, reattached_parent, if_neg hn]

/-- Witness of `container_insert_child_spec`: the fullscreen view 5 of
workspace 2 of `example_tree` is inserted at index 1 of the container 7 of
workspace 3. -/
theorem container_insert_child_spec_witness :
    ∃ s', container_insert_child example_tree 7 5 ((1 : Nat) : Int) = some s' ∧
      (s'.nodes 5).parent = some 7 ∧
      (s'.nodes 7).children
        = ((example_tree.nodes 7).children.erase 5).take 1 ++
            5 :: ((example_tree.nodes 7).children.erase 5).drop 1 ∧
      (s'.nodes 7).children[1]? = some 5 ∧
      (s'.nodes 7).children.count 5 = 1 ∧
      (s'.nodes 7).children.erase 5 = (example_tree.nodes 7).children.erase 5 ∧
      (∀ Q, (example_tree.nodes 5).parent = some Q → Q ≠ 7 →
        5 ∉ (s'.nodes Q).children ∧
          (s'.nodes Q).children = (example_tree.nodes Q).children.erase 5) ∧
      (∀ q, q ≠ 7 → (example_tree.nodes 5).parent ≠ some q →
        (s'.nodes q).children = (example_tree.nodes q).children) ∧
      (∀ n, n ≠ 5 → (s'.nodes n).parent = (example_tree.nodes n).parent) :=
  container_insert_child_spec example_tree 7 5 1
    (fun Q hQ => by
      have h : Q = 2 := by
        have h2 : (example_tree.nodes 5).parent = some 2 := by decide
        rw [h2] at hQ
        exact (Option.some.inj hQ).symm
      subst h; decide)
    (fun _ => by decide) (by decide)
    (fun _ => ⟨by decide, by decide, fun _ => ⟨2, by decide⟩, 3, 1, by decide, by decide⟩)

/-! ## A fullscreen node that changes workspace -/

theorem detached_slot_of_ne (s : State) (c n : Nat) (h : removal_slot s c ≠ some n) :
    ((detached s c).nodes n).fullscreen = (s.nodes n).fullscreen := by
  unfold detached
  split
  · rfl
  · rw [detach_slot, if_neg (fun h' => h h'.symm)]

theorem reattached_slot_of_ne (s : State) (P c : Nat) (l : List Nat) (n : Nat)
    (h : removal_slot s c ≠ some n) :
    ((reattached s P c l).nodes n).fullscreen = (s.nodes n).fullscreen := by
  unfold reattached
  rcases eq_or_ne n c with rfl | h1 <;> rcases eq_or_ne n P with rfl | h2 <;>
    simp [set_children, set_parent, detached_slot_of_ne _ _ _ h, *]

/-- The fields of a node after a fullscreen slot has been assigned. -/
theorem upd_slot_fields (s : State) (a : Nat) (v : Option Nat) (n : Nat) :
    ((s.upd a fun m => set_slot m v).nodes n).fullscreen
        = (if n = a then v else (s.nodes n).fullscreen) ∧
    ((s.upd a fun m => set_slot m v).nodes n).is_fullscreen = (s.nodes n).is_fullscreen ∧
    ((s.upd a fun m => set_slot m v).nodes n).x = (s.nodes n).x ∧
    ((s.upd a fun m => set_slot m v).nodes n).y = (s.nodes n).y ∧
    ((s.upd a fun m => set_slot m v).nodes n).width = (s.nodes n).width ∧
    ((s.upd a fun m => set_slot m v).nodes n).height = (s.nodes n).height := by
  rcases eq_or_ne n a with rfl | h <;> simp [set_slot, *]

theorem clear_old_slot_fields (s : State) (ow : Option Nat) (n : Nat) :
    ((clear_old_slot s ow).nodes n).fullscreen
        = (if ow = some n then none else (s.nodes n).fullscreen) ∧
    ((clear_old_slot s ow).nodes n).is_fullscreen = (s.nodes n).is_fullscreen ∧
    ((clear_old_slot s ow).nodes n).x = (s.nodes n).x ∧
    ((clear_old_slot s ow).nodes n).y = (s.nodes n).y ∧
    ((clear_old_slot s ow).nodes n).width = (s.nodes n).width ∧
    ((clear_old_slot s ow).nodes n).height = (s.nodes n).height := by
  cases ow with
  | none => simp [clear_old_slot]
  | some w =>
    have h := upd_slot_fields s w none n
    simp only [clear_old_slot, Option.some.injEq]
    refine ⟨?_, h.2⟩
    rw [h.1]
    rcases eq_or_ne n w with rfl | hn
    · simp
    · simp [hn, Ne.symm hn]

theorem demote_occupant_fields (s : State) (nw n : Nat) :
    ((demote_occupant s nw).nodes n).is_fullscreen
        = (if (s.nodes nw).fullscreen = some n then false else (s.nodes n).is_fullscreen) ∧
    (((demote_occupant s nw).nodes n).fullscreen = none ∨
      ((demote_occupant s nw).nodes n).fullscreen = (s.nodes n).fullscreen) ∧
    ((s.nodes nw).fullscreen ≠ some n →
      ((demote_occupant s nw).nodes n).x = (s.nodes n).x ∧
      ((demote_occupant s nw).nodes n).y = (s.nodes n).y ∧
      ((demote_occupant s nw).nodes n).width = (s.nodes n).width ∧
      ((demote_occupant s nw).nodes n).height = (s.nodes n).height) := by
  unfold demote_occupant
  cases hf : (s.nodes nw).fullscreen with
  | none => simp
  | some f =>
    have h := container_set_fullscreen_false_nodes s f n
    simp only [Option.some.injEq]
    refine ⟨?_, h.2.1, fun hne => h.2.2 (fun e => hne (by rw [e]))⟩
    rw [h.1]
    rcases eq_or_ne n f with rfl | hn
    · simp
    · simp [hn, Ne.symm hn]

theorem cross_slots_new_slot (t : State) (c : Nat) (ow : Option Nat) (nw : Nat) :
    ((cross_slots t c ow nw).nodes nw).fullscreen = some c := by
  unfold cross_slots
  rw [(upd_slot_fields _ nw (some c) nw).1, if_pos rfl]

theorem cross_slots_old_slot (t : State) (c W1 nw : Nat) (h : W1 ≠ nw) :
    ((cross_slots t c (some W1) nw).nodes W1).fullscreen = none := by
  unfold cross_slots
  rw [(upd_slot_fields _ nw (some c) W1).1, if_neg h]
  rcases (demote_occupant_fields (clear_old_slot t (some W1)) nw W1).2.1 with h1 | h1
  · exact h1
  · rw [h1, (clear_old_slot_fields t (some W1) W1).1, if_pos rfl]

theorem cross_slots_is_fullscreen (t : State) (c : Nat) (ow : Option Nat) (nw : Nat)
    (h : ow ≠ some nw) (n : Nat) :
    ((cross_slots t c ow nw).nodes n).is_fullscreen
      = if (t.nodes nw).fullscreen = some n then false else (t.nodes n).is_fullscreen := by
  unfold cross_slots
  rw [(upd_slot_fields _ nw (some c) n).2.1, (demote_occupant_fields _ nw n).1,
    (clear_old_slot_fields t ow nw).1, if_neg h, (clear_old_slot_fields t ow n).2.1]

theorem cross_slots_geometry (t : State) (c : Nat) (ow : Option Nat) (nw : Nat)
    (h : ow ≠ some nw) (n : Nat) (hn : (t.nodes nw).fullscreen ≠ some n) :
    ((cross_slots t c ow nw).nodes n).x = (t.nodes n).x ∧
    ((cross_slots t c ow nw).nodes n).y = (t.nodes n).y ∧
    ((cross_slots t c ow nw).nodes n).width = (t.nodes n).width ∧
    ((cross_slots t c ow nw).nodes n).height = (t.nodes n).height := by
  unfold cross_slots
  have h1 := (upd_slot_fields (demote_occupant (clear_old_slot t ow) nw) nw (some c) n).2.2
  have h2 := (demote_occupant_fields (clear_old_slot t ow) nw n).2.2
    (by rw [(clear_old_slot_fields t ow nw).1, if_neg h]; exact hn)
  have h3 := (clear_old_slot_fields t ow n).2.2
  exact ⟨h1.1.trans (h2.1.trans h3.1), h1.2.1.trans (h2.2.1.trans h3.2.1),
    h1.2.2.1.trans (h2.2.2.1.trans h3.2.2.1), h1.2.2.2.trans (h2.2.2.2.trans h3.2.2.2)⟩

theorem removal_slot_eq (s : State) (c W1 : Nat) (hfs : (s.nodes c).is_fullscreen = true)
    (hW1 : container_parent s c C_WORKSPACE = some (some W1)) :
    removal_slot s c = some W1 := by
  simp [removal_slot, hfs, hW1]

/-- Claim C8: for a fullscreen node `c` of workspace `W1` and a parent `P` of
another workspace `W2`, `container_insert_child(P, c, i)` returns, and
afterwards the fullscreen slot of `W1` is empty, the slot of `W2` holds `c`,
the fullscreen flag is cleared on the former occupant of the slot of `W2` and
is as before on every other node (so `c` is still fullscreen and no other node
of `W2` has become fullscreen), and `c` has the x, y, width and height of the
parent of `W2`, its output. -/
theorem container_insert_child_fullscreen (s : State) (P c W1 W2 O : Nat) (i : Nat)
    (hfs : (s.nodes c).is_fullscreen = true)
    (hW1 : container_parent s c C_WORKSPACE = some (some W1))
    (hW2 : container_parent_loop s C_WORKSPACE s.next_id (some P) = some (some W2))
    (hne : W1 ≠ W2)
    (hO : (s.nodes W2).parent = some O)
    (hOc : O ≠ c)
    (hanc : c ∉ ancestors s s.next_id (some P))
    (hacyc : c ∉ ancestors s s.next_id (s.nodes c).parent)
    (hslot : (s.nodes W2).fullscreen ≠ some c)
    (hi : i ≤ (s.nodes P).children.length) :
    ∃ s', container_insert_child s P c (i : Int) = some s' ∧
      (s'.nodes W1).fullscreen = none ∧
      (s'.nodes W2).fullscreen = some c ∧
      (∀ f, (s.nodes W2).fullscreen = some f → (s'.nodes f).is_fullscreen = false) ∧
      (s'.nodes c).is_fullscreen = true ∧
      (∀ n, (s.nodes W2).fullscreen ≠ some n →
        (s'.nodes n).is_fullscreen = (s.nodes n).is_fullscreen) ∧
      (s'.nodes W2).parent = some O ∧
      (s'.nodes c).x = (s'.nodes O).x ∧ (s'.nodes c).y = (s'.nodes O).y ∧
      (s'.nodes c).width = (s'.nodes O).width ∧ (s'.nodes c).height = (s'.nodes O).height := by
  -- the former parent of `c`
  obtain ⟨Q, hQ⟩ : ∃ Q, (s.nodes c).parent = some Q := by
    cases h : (s.nodes c).parent with
    | none =>
      unfold container_parent at hW1
      rw [h] at hW1
      cases hn : s.next_id <;> simp [hn, container_parent_loop] at hW1
    | some Q => exact ⟨Q, rfl⟩
  have hQP : Q ≠ P := by
    rintro rfl
    unfold container_parent at hW1
    rw [hQ, hW2] at hW1
    exact hne (Option.some.inj (Option.some.inj hW1)).symm
  have hok : (s.nodes c).is_fullscreen = true → (s.nodes c).parent ≠ none →
      ∃ W, container_parent s c C_WORKSPACE = some (some W) := fun _ _ => ⟨W1, hW1⟩
  have hL : ((detached s c).nodes P).children = (s.nodes P).children := by
    rw [detached_children, if_neg]
    rw [hQ]
    exact fun h => hQP (Option.some.inj h)
  have hrs := removal_slot_eq s c W1 hfs hW1
  -- the heap before the fullscreen bookkeeping
  generalize hl : ((s.nodes P).children.take i ++ c :: (s.nodes P).children.drop i) = l
  have hpar : ∀ n, n ≠ c → ((reattached s P c l).nodes n).parent = (s.nodes n).parent := by
    intro n hn; rw [reattached_parent, if_neg hn]
  have hpc : ((reattached s P c l).nodes c).parent = some P := by
    rw [reattached_parent, if_pos rfl]
  have hfs' : ((reattached s P c l).nodes c).is_fullscreen = true := by
    rw [reattached_is_fullscreen]; exact hfs
  obtain ⟨hnw, hW2c⟩ := new_workspace_after s _ P c W2 (reattached_next_id s P c l)
    (reattached_type s P c l) hpar hpc hanc hW2
  have how := old_workspace_after s (reattached s P c l) c Q W1 (reattached_next_id s P c l)
    (reattached_type s P c l) hpar hQ (by rw [hQ] at hacyc; exact hacyc) hW1
  have hne' : (some W1 : Option Nat) ≠ some W2 := fun h => hne (Option.some.inj h)
  have hp : ((cross_slots (reattached s P c l) c (some W1) W2).nodes W2).parent = some O := by
    rw [((cross_slots_same_tree (reattached s P c l) c (some W1) W2).2.2 W2).2.1,
      hpar W2 hW2c, hO]
  have hslot2 : ((reattached s P c l).nodes W2).fullscreen = (s.nodes W2).fullscreen :=
    reattached_slot_of_ne s P c l W2 (by rw [hrs]; exact hne')
  have hflag : ∀ n, ((resized (cross_slots (reattached s P c l) c (some W1) W2) c O).nodes
      n).is_fullscreen
        = if (s.nodes W2).fullscreen = some n then false else (s.nodes n).is_fullscreen := by
    intro n
    rw [(resized_fields _ c O n).2.1, cross_slots_is_fullscreen _ _ _ _ hne', hslot2,
      reattached_is_fullscreen]
  refine ⟨resized (cross_slots (reattached s P c l) c (some W1) W2) c O, ?_, ?_, ?_, ?_, ?_,
    ?_, ?_, ?_⟩
  · rw [container_insert_child_eq s P c i hok (by rw [hL]; exact hi), hL, hl, hQ,
      container_handle_fullscreen_reparent_eq _ _ _ hfs', how, hnw]
    simp only [if_neg hne', hp]
  · rw [(resized_fields _ c O W1).1]
    exact cross_slots_old_slot _ c W1 W2 hne
  · rw [(resized_fields _ c O W2).1]
    exact cross_slots_new_slot _ c _ W2
  · intro f hf
    rw [hflag f, if_pos hf]
  · rw [hflag c, if_neg hslot, hfs]
  · intro n hn
    rw [hflag n, if_neg hn]
  · rw [((resized_same_tree _ c O).2.2 W2).2.1]
    exact hp
  · have h1 := (resized_fields (cross_slots (reattached s P c l) c (some W1) W2) c O c).2.2
    have h2 := (resized_fields (cross_slots (reattached s P c l) c (some W1) W2) c O O).2.2
    simp only [if_pos rfl, if_neg hOc] at h1 h2
    exact ⟨h1.1.trans h2.1.symm, h1.2.1.trans h2.2.1.symm, h1.2.2.1.trans h2.2.2.1.symm,
      h1.2.2.2.trans h2.2.2.2.symm⟩

/-- Witness of `container_insert_child_fullscreen`: the fullscreen view 5 of
workspace 2 of `example_tree` is inserted into the container 7 of workspace 3,
whose slot holds the view 8. -/
theorem container_insert_child_fullscreen_witness :
    ∃ s', container_insert_child example_tree 7 5 ((1 : Nat) : Int) = some s' ∧
      (s'.nodes 2).fullscreen = none ∧
      (s'.nodes 3).fullscreen = some 5 ∧
      (∀ f, (example_tree.nodes 3).fullscreen = some f → (s'.nodes f).is_fullscreen = false) ∧
      (s'.nodes 5).is_fullscreen = true ∧
      (∀ n, (example_tree.nodes 3).fullscreen ≠ some n →
        (s'.nodes n).is_fullscreen = (example_tree.nodes n).is_fullscreen) ∧
      (s'.nodes 3).parent = some 1 ∧
      (s'.nodes 5).x = (s'.nodes 1).x ∧ (s'.nodes 5).y = (s'.nodes 1).y ∧
      (s'.nodes 5).width = (s'.nodes 1).width ∧ (s'.nodes 5).height = (s'.nodes 1).height :=
  container_insert_child_fullscreen example_tree 7 5 2 3 1 1 (by decide) (by decide)
    (by decide) (by decide) (by decide) (by decide) (by decide) (by decide) (by decide)
    (by decide)

/-! ## Insertion of a sibling -/

theorem list_find_take (l : List Nat) (f j : Nat) (h : list_find l f = some j) :
    list_find (l.take (j + 1)) f = some j := by
  induction l generalizing j with
  | nil => simp [list_find] at h
  | cons a t ih =>
    by_cases ha : a = f
    · simp only [list_find, if_pos ha, Option.some.injEq] at h
      subst h
      simp [list_find, ha]
    · simp only [list_find, if_neg ha] at h
      cases hf : list_find t f with
      | none => simp [hf] at h
      | some k =>
        simp only [hf, Option.map_some', Option.some.injEq] at h
        subst h
        simp [list_find, ha, ih k hf]

theorem list_find_append (l1 l2 : List Nat) (f j : Nat) (h : list_find l1 f = some j) :
    list_find (l1 ++ l2) f = some j := by
  induction l1 generalizing j with
  | nil => simp [list_find] at h
  | cons a t ih =>
    by_cases ha : a = f
    · simp only [list_find, if_pos ha, Option.some.injEq] at h
      subst h
      simp [list_find, ha]
    · simp only [list_find, if_neg ha] at h
      cases hf : list_find t f with
      | none => simp [hf] at h
      | some k =>
        simp only [hf, Option.map_some', Option.some.injEq] at h
        subst h
        simp [list_find, ha, ih k hf]

theorem index_child_eq (s : State) (f P : Nat) (hP : (s.nodes f).parent = some P) :
    index_child s f =
      match list_find (s.nodes P).children f with
      | some i => some (i : Int)
      | none => some (-1) := by
  unfold index_child
  rw [hP]

/-- The function `container_add_sibling` once its opening step has given `detached`: a
reattachment after `fixed`, then the fullscreen bookkeeping. -/
theorem container_add_sibling_of_detached (s : State) (f m P : Nat) (j : Nat)
    (hfm : f ≠ m) (hP : (s.nodes f).parent = some P)
    (hX : (match (s.nodes m).parent with
      | some _ => (container_remove_child s m).map fun r => r.1
      | none => some s) = some (detached s m))
    (hj : list_find ((detached s m).nodes P).children f = some j) :
    container_add_sibling s f m =
      match container_handle_fullscreen_reparent
        (reattached s P m (((detached s m).nodes P).children.take (j + 1) ++
          m :: ((detached s m).nodes P).children.drop (j + 1))) m (s.nodes m).parent with
      | none => none
      | some s4 => some (s4, (s4.nodes m).parent) := by
  have hP' : ((detached s m).nodes f).parent = some P := by
    rw [detached_parent, if_neg hfm, hP]
  have hidx : index_child (detached s m) f = some (j : Int) := by
    rw [index_child_eq _ f P hP', hj]
  have hlen : j + 1 ≤ ((detached s m).nodes P).children.length := by
    have := (list_find_some_iff _ _ _ hj).1
    have := (List.getElem?_eq_some_iff.mp this).1
    omega
  have hins := list_insert_eq ((detached s m).nodes P).children (j + 1) m hlen
  rw [Nat.cast_add, Nat.cast_one] at hins
  unfold container_add_sibling
  simp only [hX, hP', hidx, hins]
  rfl

/-- The function `container_insert_child` once its opening step has given `detached`. -/
theorem container_insert_child_of_detached (s : State) (P c : Nat) (i : Nat)
    (hX : (match (s.nodes c).parent with
      | some _ => (container_remove_child s c).map fun r => r.1
      | none => some s) = some (detached s c))
    (hi : i ≤ ((detached s c).nodes P).children.length) :
    container_insert_child s P c (i : Int) =
      container_handle_fullscreen_reparent
        (reattached s P c (((detached s c).nodes P).children.take i ++
          c :: ((detached s c).nodes P).children.drop i)) c (s.nodes c).parent := by
  unfold container_insert_child
  simp only [hX, list_insert_eq _ i c hi]
  rfl

/-- Claim C5: for a node `fixed` listed under its parent `P` and another node
`moving`, `container_add_sibling(fixed, moving)` returns `P`, and afterwards
the parent of `moving` is `P`, `moving` occurs exactly once among the children
of `P` and stands immediately after `fixed` there, and the other children of
`P` are the former ones in the same order.  `moving` may be attached anywhere,
also under `P` on either side of `fixed`, or unattached; when it is fullscreen
the workspaces involved must exist (`fullscreen_reparent_ready`). -/
theorem container_add_sibling_spec (s : State) (f m P : Nat)
    (hfm : f ≠ m) (hP : (s.nodes f).parent = some P)
    (hmem : f ∈ (s.nodes P).children)
    (hcount : ∀ Q, (s.nodes m).parent = some Q → (s.nodes Q).children.count m = 1)
    (hother : (s.nodes m).parent ≠ some P → m ∉ (s.nodes P).children)
    (hfs : (s.nodes m).is_fullscreen = true → fullscreen_reparent_ready s P m) :
    ∃ s', container_add_sibling s f m = some (s', some P) ∧
      (s'.nodes m).parent = some P ∧
      (s'.nodes P).children.count m = 1 ∧
      (∃ j, list_find (s'.nodes P).children f = some j ∧
        (s'.nodes P).children[j]? = some f ∧ (s'.nodes P).children[j + 1]? = some m) ∧
      (s'.nodes P).children.erase m = (s.nodes P).children.erase m := by
  have hL := detached_children_new_parent s P m hother
  have hok : (s.nodes m).is_fullscreen = true → (s.nodes m).parent ≠ none →
      ∃ W1, container_parent s m C_WORKSPACE = some (some W1) :=
    fun h1 h2 => (hfs h1).2.2.1 h2
  have hmL : m ∉ (s.nodes P).children.erase m := by
    by_cases hp : (s.nodes m).parent = some P
    · exact erase_of_count_one _ _ (hcount P hp)
    · rw [List.erase_of_not_mem (hother hp)]; exact hother hp
  have hfL : f ∈ (s.nodes P).children.erase m := (List.mem_erase_of_ne hfm).mpr hmem
  obtain ⟨j, hj, hjlt⟩ := list_find_of_mem _ _ hfL
  obtain ⟨s', hs', htree⟩ := reparent_defined s P m
    (((s.nodes P).children.erase m).take (j + 1) ++ m ::
      ((s.nodes P).children.erase m).drop (j + 1)) hfs
  have hch : (s'.nodes P).children = ((s.nodes P).children.erase m).take (j + 1) ++ m ::
      ((s.nodes P).children.erase m).drop (j + 1) := by
    rw [(htree.2.2 P).2.2.1, reattached_children, if_pos rfl]
  have hpa : (s'.nodes m).parent = some P := by
    rw [(htree.2.2 m).2.1, reattached_parent, if_pos rfl]
  refine ⟨s', ?_, hpa, ?_, ⟨j, ?_, ?_, ?_⟩, ?_⟩
  · rw [container_add_sibling_of_detached s f m P j hfm hP (detach_step s m hok)
      (by rw [hL]; exact hj), hL, hs']
    simp only [hpa]
  · rw [hch]; exact splice_count _ _ m hmL
  · rw [hch]
    exact list_find_append _ _ f j (list_find_take _ f j hj)
  · rw [hch]
    exact (list_find_some_iff _ _ _
      (list_find_append _ _ f j (list_find_take _ f j hj))).1
  · rw [hch]; exact splice_getElem _ (j + 1) m (by omega)
  · rw [hch]; exact splice_erase _ _ m hmL

/-- Witness of `container_add_sibling_spec`: in `example_tree` the view 4, which
stands before the fullscreen view 5 in workspace 2, is made the sibling after
it. -/
theorem container_add_sibling_spec_witness :
    ∃ s', container_add_sibling example_tree 5 4 = some (s', some 2) ∧
      (s'.nodes 4).parent = some 2 ∧
      (s'.nodes 2).children.count 4 = 1 ∧
      (∃ j, list_find (s'.nodes 2).children 5 = some j ∧
        (s'.nodes 2).children[j]? = some 5 ∧ (s'.nodes 2).children[j + 1]? = some 4) ∧
      (s'.nodes 2).children.erase 4 = (example_tree.nodes 2).children.erase 4 :=
  container_add_sibling_spec example_tree 5 4 2 (by decide) (by decide) (by decide)
    (fun Q hQ => by
      have h : Q = 2 := by
        have h2 : (example_tree.nodes 4).parent = some 2 := by decide
        rw [h2] at hQ
        exact (Option.some.inj hQ).symm
      subst h; decide)
    (fun h => absurd (by decide) h)
    (fun h => absurd h (by decide))

/-- The function `container_add_sibling(fixed, moving)` is `container_insert_child` at the
index after the one `fixed` has once `moving` is detached. -/
theorem container_add_sibling_insert_core (s : State) (f m P : Nat) (j : Nat)
    (hfm : f ≠ m) (hP : (s.nodes f).parent = some P)
    (hj : list_find ((detached s m).nodes P).children f = some j) :
    container_add_sibling s f m
      = (container_insert_child s P m ((j : Int) + 1)).map fun s' => (s', some P) := by
  rcases detach_step_cases s m with hX | hX
  · unfold container_add_sibling container_insert_child
    simp only [hX, Option.map_none']
  · have hlen : j + 1 ≤ ((detached s m).nodes P).children.length := by
      have := (List.getElem?_eq_some_iff.mp (list_find_some_iff _ _ _ hj).1).1
      omega
    have hins := container_insert_child_of_detached s P m (j + 1) hX hlen
    rw [Nat.cast_add, Nat.cast_one] at hins
    rw [container_add_sibling_of_detached s f m P j hfm hP hX hj, hins]
    cases hh : container_handle_fullscreen_reparent
        (reattached s P m (((detached s m).nodes P).children.take (j + 1) ++
          m :: ((detached s m).nodes P).children.drop (j + 1))) m (s.nodes m).parent with
    | none => rfl
    | some s4 =>
      have htree := container_handle_fullscreen_reparent_same_tree _ _ _ _ hh
      have hpa : (s4.nodes m).parent = some P := by
        rw [(htree.2.2 m).2.1, reattached_parent, if_pos rfl]
      simp only [hpa, Option.map_some']

/-- Counterexample to claim C6 as stated: in `example_tree` the view 5 is at
index 1 of workspace 2 and the view 4 stands before it.
`container_add_sibling(5, 4)` leaves the children 5, 4, 6, whereas
`container_insert_child(2, 4, 1 + 1)` leaves 5, 6, 4. -/
theorem container_add_sibling_insert_child_differ :
    index_child example_tree 5 = some 1 ∧
    (container_add_sibling example_tree 5 4).map (fun r => (r.1.nodes 2).children)
      = some [5, 4, 6] ∧
    (container_insert_child example_tree 2 4 (1 + 1)).map (fun t => (t.nodes 2).children)
      = some [5, 6, 4] ∧
    (container_add_sibling example_tree 5 4).map (fun r => (r.1.nodes 2).children)
      ≠ (container_insert_child example_tree 2 4 (1 + 1)).map (fun t => (t.nodes 2).children) := by
  decide

/-- Claim C6, amended: for a node `fixed` with parent `P` and another node
`moving`, `container_add_sibling(fixed, moving)` and
`container_insert_child(P, moving, j + 1)` give the same heap (or both give
none) and `container_add_sibling` returns `P`, where `j` is the index of
`fixed` among the children of `P` once `moving` is detached: the children of
`P` without `moving` when `P` is the parent of `moving`, the children of `P`
otherwise. -/
theorem container_add_sibling_eq_insert_child (s : State) (f m P : Nat) (j : Nat)
    (hfm : f ≠ m) (hP : (s.nodes f).parent = some P)
    (hj : list_find (if (s.nodes m).parent = some P then (s.nodes P).children.erase m
      else (s.nodes P).children) f = some j) :
    container_add_sibling s f m
      = (container_insert_child s P m ((j : Int) + 1)).map fun s' => (s', some P) :=
  container_add_sibling_insert_core s f m P j hfm hP (by rw [detached_children]; exact hj)

/-- Witness of `container_add_sibling_eq_insert_child`: in `example_tree` the
view 4, which stands before the view 5 in workspace 2, is made its sibling; the
view 5 is at index 0 once the view 4 is detached. -/
theorem container_add_sibling_eq_insert_child_witness :
    container_add_sibling example_tree 5 4
      = (container_insert_child example_tree 2 4 (((0 : Nat) : Int) + 1)).map
          fun s' => (s', some 2) :=
  container_add_sibling_eq_insert_child example_tree 5 4 2 0 (by decide) (by decide)
    (by decide)

/-- The index of `fixed` when `container_add_sibling` is called is the index
used by the insertion unless `moving` is a child of the same parent that stands
before `fixed`. -/
theorem add_sibling_call_index (s : State) (f m P : Nat)
    (i : Nat) (hfm : f ≠ m) (hP : (s.nodes f).parent = some P)
    (hidx : index_child s f = some (i : Int))
    (hnb : (s.nodes m).parent = some P → m ∉ (s.nodes P).children.take i) :
    container_add_sibling s f m
      = (container_insert_child s P m ((i : Int) + 1)).map fun s' => (s', some P) := by
  have hfind : list_find (s.nodes P).children f = some i := by
    rw [index_child_eq s f P hP] at hidx
    cases h : list_find (s.nodes P).children f with
    | none => rw [h] at hidx; simp at hidx
    | some k =>
      rw [h] at hidx
      simp only [Option.some.injEq, Nat.cast_inj] at hidx
      rw [hidx]
  refine container_add_sibling_insert_core s f m P i hfm hP ?_
  rw [detached_children]
  split
  · rename_i hp
    exact list_find_erase _ f m i hfm hfind (hnb hp)
  · exact hfind

/-! ## Replacement of a child -/

theorem list_store_eq (l : List Nat) (i : Nat) (c : Nat) (hi : i < l.length) :
    list_store l (i : Int) c = some (l.set i c) := by
  unfold list_store
  rw [if_pos ⟨Int.natCast_nonneg i, by exact_mod_cast hi⟩]
  simp

theorem not_mem_set_of_count_one (l : List Nat) (i : Nat) (a b : Nat) (hab : a ≠ b)
    (hi : l[i]? = some a) (hc : l.count a = 1) : a ∉ l.set i b := by
  obtain ⟨hlt, hget⟩ := List.getElem?_eq_some_iff.mp hi
  have h := List.count_set b a l i hlt
  have hba : (b == a) = false := by simpa using (Ne.symm hab)
  rw [hget, hc] at h
  simp only [beq_self_eq_true, if_true, hba, Bool.false_eq_true, if_false] at h
  exact List.count_eq_zero.mp (by omega)

/-- The heap built by `container_replace_child` from the heap `t` in which
`new_child` is already in the slot of `child`. -/
theorem replace_tail_fields (t : State) (child new_child : Nat) (hne : child ≠ new_child)
    (n : Nat) :
    let u := ((((t.upd child fun n => set_parent n none)).upd new_child fun n =>
        set_geometry n (((t.upd child fun n => set_parent n none)).nodes child).x
          (((t.upd child fun n => set_parent n none)).nodes child).y
          (((t.upd child fun n => set_parent n none)).nodes child).width
          (((t.upd child fun n => set_parent n none)).nodes child).height).upd child fun n =>
        set_size n 0 0)
    (u.nodes n).children = (t.nodes n).children ∧
    (u.nodes n).parent = (if n = child then none else (t.nodes n).parent) ∧
    (u.nodes n).x = (if n = new_child then (t.nodes child).x else (t.nodes n).x) ∧
    (u.nodes n).y = (if n = new_child then (t.nodes child).y else (t.nodes n).y) ∧
    (u.nodes n).width = (if n = child then 0 else if n = new_child then (t.nodes child).width
      else (t.nodes n).width) ∧
    (u.nodes n).height = (if n = child then 0 else if n = new_child then (t.nodes child).height
      else (t.nodes n).height) := by
  intro u
  have hne' := Ne.symm hne
  rcases eq_or_ne n child with rfl | h1 <;> rcases eq_or_ne n new_child with rfl | h2
  all_goals try have h1' := Ne.symm h1
  all_goals try have h2' := Ne.symm h2
  all_goals simp [u, set_parent, set_geometry, set_size, *]

theorem reattached_geometry (s : State) (P c : Nat) (l : List Nat) (n : Nat) :
    ((reattached s P c l).nodes n).x = (s.nodes n).x ∧
    ((reattached s P c l).nodes n).y = (s.nodes n).y ∧
    ((reattached s P c l).nodes n).width = (s.nodes n).width ∧
    ((reattached s P c l).nodes n).height = (s.nodes n).height := by
  have hd' : ∀ k, ((detached s c).nodes k).x = (s.nodes k).x ∧
      ((detached s c).nodes k).y = (s.nodes k).y ∧
      ((detached s c).nodes k).width = (s.nodes k).width ∧
      ((detached s c).nodes k).height = (s.nodes k).height := by
    intro k
    unfold detached
    split <;> exact ⟨rfl, rfl, rfl, rfl⟩
  unfold reattached
  rcases eq_or_ne n c with rfl | h1 <;> rcases eq_or_ne n P with rfl | h2 <;>
    simp [set_children, set_parent, hd', *]

/-- Counterexample to claim C7 as stated: in `example_tree` the view 9 (at
x 0, y 540) is replaced by the view 4 of another workspace; afterwards the
width and height of the view 9 are 0 but its x and y are still 0 and 540, so
its geometry is not zeroed. -/
theorem container_replace_child_keeps_position :
    (container_replace_child example_tree 9 4).map
        (fun r => ((r.1.nodes 9).x, (r.1.nodes 9).y, (r.1.nodes 9).width, (r.1.nodes 9).height))
      = some (0, 540, 0, 0) ∧
    (container_replace_child example_tree 9 4).map
        (fun r => ((r.1.nodes 9).x, (r.1.nodes 9).y, (r.1.nodes 9).width, (r.1.nodes 9).height))
      ≠ some (0, 0, 0, 0) := by
  decide

/-- Claim C7, amended: for a node `old` at index `i` of its parent `P`, listed
there once, and another node `new` that is not a child of `P` (attached
elsewhere or unattached), `container_replace_child(old, new)` returns `P`, and
afterwards `new` is in the slot of `old` (the child of `P` at index `i` is
`new` and the parent of `new` is `P`), `new` has the x, y, width and height
that `old` had, `old` is no longer among the children of `P`, `old` has no
parent, the width and height of `old` are 0 while its x and y are kept, and
every other child of `P` is where it was. -/
theorem container_replace_child_spec (s : State) (old new P : Nat) (i : Nat)
    (hne : old ≠ new) (hP : (s.nodes old).parent = some P)
    (hidx : index_child s old = some (i : Int))
    (hcount : (s.nodes P).children.count old = 1)
    (hnew : new ∉ (s.nodes P).children)
    (hfs : (s.nodes new).is_fullscreen = true → (s.nodes new).parent ≠ none →
      ∃ W, container_parent s new C_WORKSPACE = some (some W)) :
    ∃ s', container_replace_child s old new = some (s', some P) ∧
      (s'.nodes P).children = (s.nodes P).children.set i new ∧
      (s'.nodes P).children[i]? = some new ∧
      (s'.nodes new).parent = some P ∧
      (s'.nodes new).x = (s.nodes old).x ∧ (s'.nodes new).y = (s.nodes old).y ∧
      (s'.nodes new).width = (s.nodes old).width ∧
      (s'.nodes new).height = (s.nodes old).height ∧
      old ∉ (s'.nodes P).children ∧
      (s'.nodes old).parent = none ∧
      (s'.nodes old).width = 0 ∧ (s'.nodes old).height = 0 ∧
      (s'.nodes old).x = (s.nodes old).x ∧ (s'.nodes old).y = (s.nodes old).y ∧
      (∀ j, j ≠ i → (s'.nodes P).children[j]? = (s.nodes P).children[j]?) := by
  have hfind : list_find (s.nodes P).children old = some i := by
    rw [index_child_eq s old P hP] at hidx
    cases h : list_find (s.nodes P).children old with
    | none => rw [h] at hidx; simp at hidx
    | some k =>
      rw [h] at hidx
      simp only [Option.some.injEq, Nat.cast_inj] at hidx
      rw [hidx]
  have hget := (list_find_some_iff _ _ _ hfind).1
  have hlt : i < (s.nodes P).children.length := (List.getElem?_eq_some_iff.mp hget).1
  have hL : ((detached s new).nodes P).children = (s.nodes P).children := by
    rw [detached_children]
    split
    · exact List.erase_of_not_mem hnew
    · rfl
  have hne' := Ne.symm hne
  have hcall : container_replace_child s old new = some
      (((((reattached s P new ((s.nodes P).children.set i new)).upd old fun n =>
          set_parent n none)).upd new fun n =>
        set_geometry n
          (((reattached s P new ((s.nodes P).children.set i new)).upd old fun n =>
            set_parent n none).nodes old).x
          (((reattached s P new ((s.nodes P).children.set i new)).upd old fun n =>
            set_parent n none).nodes old).y
          (((reattached s P new ((s.nodes P).children.set i new)).upd old fun n =>
            set_parent n none).nodes old).width
          (((reattached s P new ((s.nodes P).children.set i new)).upd old fun n =>
            set_parent n none).nodes old).height).upd old fun n => set_size n 0 0,
        some P) := by
    unfold container_replace_child
    simp only [hP, hidx, detach_step s new hfs, hL, list_store_eq _ i new hlt]
    rfl
  have hf := replace_tail_fields (reattached s P new ((s.nodes P).children.set i new)) old new hne
  simp only at hf
  have hgo := reattached_geometry s P new ((s.nodes P).children.set i new) old
  refine ⟨_, hcall, ?_, ?_, ?_, ?_, ?_, ?_, ?_, ?_, ?_, ?_, ?_, ?_, ?_, ?_⟩
  · rw [(hf P).1, reattached_children, if_pos rfl]
  · rw [(hf P).1, reattached_children, if_pos rfl]
    exact List.getElem?_set_self hlt
  · rw [(hf new).2.1, if_neg hne', reattached_parent, if_pos rfl]
  · rw [(hf new).2.2.1, if_pos rfl]; exact hgo.1
  · rw [(hf new).2.2.2.1, if_pos rfl]; exact hgo.2.1
  · rw [(hf new).2.2.2.2.1, if_neg hne', if_pos rfl]; exact hgo.2.2.1
  · rw [(hf new).2.2.2.2.2, if_neg hne', if_pos rfl]; exact hgo.2.2.2
  · rw [(hf P).1, reattached_children, if_pos rfl]
    exact not_mem_set_of_count_one _ i old new hne hget hcount
  · rw [(hf old).2.1, if_pos rfl]
  · rw [(hf old).2.2.2.2.1, if_pos rfl]
  · rw [(hf old).2.2.2.2.2, if_pos rfl]
  · rw [(hf old).2.2.1, if_neg hne]; exact hgo.1
  · rw [(hf old).2.2.2.1, if_neg hne]; exact hgo.2.1
  · intro j hj
    rw [(hf P).1, reattached_children, if_pos rfl]
    exact List.getElem?_set_ne (Ne.symm hj)

/-- Witness of `container_replace_child_spec`: in `example_tree` the view 9, at
index 1 of the container 7, is replaced by the view 4 of workspace 2. -/
theorem container_replace_child_spec_witness :
    ∃ s', container_replace_child example_tree 9 4 = some (s', some 7) ∧
      (s'.nodes 7).children = (example_tree.nodes 7).children.set 1 4 ∧
      (s'.nodes 7).children[1]? = some 4 ∧
      (s'.nodes 4).parent = some 7 ∧
      (s'.nodes 4).x = (example_tree.nodes 9).x ∧ (s'.nodes 4).y = (example_tree.nodes 9).y ∧
      (s'.nodes 4).width = (example_tree.nodes 9).width ∧
      (s'.nodes 4).height = (example_tree.nodes 9).height ∧
      9 ∉ (s'.nodes 7).children ∧
      (s'.nodes 9).parent = none ∧
      (s'.nodes 9).width = 0 ∧ (s'.nodes 9).height = 0 ∧
      (s'.nodes 9).x = (example_tree.nodes 9).x ∧ (s'.nodes 9).y = (example_tree.nodes 9).y ∧
      (∀ j, j ≠ 1 → (s'.nodes 7).children[j]? = (example_tree.nodes 7).children[j]?) :=
  container_replace_child_spec example_tree 9 4 7 1 (by decide) (by decide) (by decide)
    (by decide) (by decide) (fun h => absurd h (by decide))

/-- When `new` is a child of the same parent standing before `old`, the index
of `old` is taken before `new` is removed: in `example_tree`, replacing the
view 5 by the view 4 leaves workspace 2 with the children 5, 4, so `old` is
still listed and the view 6 is lost. -/
theorem container_replace_child_sibling_before :
    (container_replace_child example_tree 5 4).map (fun r => (r.1.nodes 2).children)
      = some [5, 4] := by
  decide

/-! ## Split -/

/-- Claim C9: `container_split(w, l)` on a workspace `w` without children
creates no container and returns `w`; afterwards the layout of `w` is `l`, its
previous layout is its former layout, and nothing else has changed: every other
node is as before, `w` keeps its parent and its (empty) child sequence, and the
allocation counter is the same. -/
theorem container_split_empty_workspace (s : State) (w : Nat) (l : sway_container_layout)
    (hty : (s.nodes w).type = C_WORKSPACE) (hch : (s.nodes w).children = []) :
    ∃ s', container_split s w l = some (s', w) ∧
      s'.next_id = s.next_id ∧
      (s'.nodes w).layout = l ∧
      (s'.nodes w).prev_layout = (s.nodes w).layout ∧
      (s'.nodes w).children = [] ∧
      (s'.nodes w).parent = (s.nodes w).parent ∧
      (s'.nodes w).type = C_WORKSPACE ∧
      (∀ n, n ≠ w → s'.nodes n = s.nodes n) := by
  refine ⟨(s.upd w fun n => set_prev_layout n n.layout).upd w fun n => set_layout n l, ?_, rfl,
    ?_, ?_, ?_, ?_, ?_, ?_⟩
  · unfold container_split
    rw [if_pos ⟨hty, by rw [hch]; rfl⟩]
  · simp [set_layout]
  · simp [set_layout, set_prev_layout]
  · simp [set_layout, set_prev_layout, hch]
  · simp [set_layout, set_prev_layout]
  · simp [set_layout, set_prev_layout, hty]
  · intro n hn
    simp [hn]

/-- Witness of `container_split_empty_workspace`: the empty workspace 2 of
`empty_workspace_tree` is split vertically. -/
theorem container_split_empty_workspace_witness :
    ∃ s', container_split empty_workspace_tree 2 L_VERT = some (s', 2) ∧
      s'.next_id = empty_workspace_tree.next_id ∧
      (s'.nodes 2).layout = L_VERT ∧
      (s'.nodes 2).prev_layout = (empty_workspace_tree.nodes 2).layout ∧
      (s'.nodes 2).children = [] ∧
      (s'.nodes 2).parent = (empty_workspace_tree.nodes 2).parent ∧
      (s'.nodes 2).type = C_WORKSPACE ∧
      (∀ n, n ≠ 2 → s'.nodes n = empty_workspace_tree.nodes n) :=
  container_split_empty_workspace empty_workspace_tree 2 L_VERT (by decide) (by decide)

/-- The function `container_split` on a workspace that has children. -/
theorem split_workspace_unfold (s : State) (w : Nat) (l : sway_container_layout)
    (hty : (s.nodes w).type = C_WORKSPACE) (hch : (s.nodes w).children ≠ [])
    (hw : w ≠ s.next_id) :
    container_split s w l =
      match container_split_loop w s.next_id (s.nodes w).children.length (split_start s w) with
      | none => none
      | some t1 =>
        match container_add_child t1 w s.next_id with
        | none => none
        | some t2 =>
          some (split_finish
            ((t2.upd w fun n => set_layout n l).upd s.next_id fun n =>
              set_layout n (t2.nodes w).layout)
            w s.next_id (decide (seat_get_focus (split_start s w) = some w)), s.next_id) := by
  have h0 : ((split_start s w).nodes w) = s.nodes w := by
    simp [split_start, container_create, remove_gaps, add_gaps, State.set, hw]
  unfold container_split
  rw [if_neg (by simp [hch])]
  show (match (if ((split_start s w).nodes w).type = C_WORKSPACE then
      (match container_split_loop w s.next_id ((split_start s w).nodes w).children.length
          (split_start s w) with
        | none => none
        | some t1 =>
          match container_add_child t1 w s.next_id with
          | none => none
          | some t2 =>
            some ((t2.upd w fun n => set_layout n l).upd s.next_id fun n =>
              set_layout n (t2.nodes w).layout))
      else _ : Option State) with
    | none => none
    | some s5 => some (split_finish s5 w s.next_id
        (decide (seat_get_focus (split_start s w) = some w)), s.next_id)) = _
  rw [h0, if_pos hty]
  cases container_split_loop w s.next_id (s.nodes w).children.length (split_start s w) with
  | none => rfl
  | some t1 =>
    simp only
    cases container_add_child t1 w s.next_id with
    | none => rfl
    | some t2 => rfl

/-- The function `container_add_child` of an unattached node to an unattached node that is
not a workspace. -/
theorem container_add_child_unattached (t : State) (k c : Nat)
    (hc : (t.nodes c).parent = none) (hkc : k ≠ c)
    (hk1 : (t.nodes k).type ≠ C_WORKSPACE) (hk2 : (t.nodes k).parent = none)
    (hid : 1 ≤ t.next_id) :
    container_add_child t k c = some (container_set_dirty
      ((t.upd k fun n => set_children n (list_add n.children c)).upd c fun n =>
        set_parent n (some k)) c) := by
  have hck : c ≠ k := Ne.symm hkc
  have hh : container_handle_fullscreen_reparent
      ((t.upd k fun n => set_children n (list_add n.children c)).upd c fun n =>
        set_parent n (some k)) c none
      = some ((t.upd k fun n => set_children n (list_add n.children c)).upd c fun n =>
        set_parent n (some k)) := by
    by_cases hfs : (((t.upd k fun n => set_children n (list_add n.children c)).upd c fun n =>
        set_parent n (some k)).nodes c).is_fullscreen = true
    · rw [container_handle_fullscreen_reparent_eq _ _ _ hfs]
      have hnew : container_parent ((t.upd k fun n => set_children n (list_add n.children c)).upd
          c fun n => set_parent n (some k)) c C_WORKSPACE = some none := by
        obtain ⟨f, hf⟩ : ∃ f, t.next_id = f + 1 := ⟨t.next_id - 1, by omega⟩
        unfold container_parent
        simp only [State.upd_nodes, State.upd_next_id, if_true, set_parent, hf,
          container_parent_loop, if_neg hkc, set_children, hk1, if_false, hk2]
      have hold : old_workspace_of ((t.upd k fun n => set_children n (list_add n.children c)).upd
          c fun n => set_parent n (some k)) none = some none := rfl
      rw [hold, hnew]
      simp
    · exact container_handle_fullscreen_reparent_of_not_fullscreen _ _ _ (by simpa using hfs)
  unfold container_add_child
  simp only [hc, hh]

/-- The function `container_add_child` of a node that is not fullscreen. -/
theorem container_add_child_of_not_fullscreen (t : State) (P c : Nat)
    (hfs : (t.nodes c).is_fullscreen = false) :
    container_add_child t P c = some (container_set_dirty
      (match (t.nodes c).parent with
        | some op => container_set_dirty
            ((t.upd P fun n => set_children n (list_add n.children c)).upd c fun n =>
              set_parent n (some P)) op
        | none => (t.upd P fun n => set_children n (list_add n.children c)).upd c fun n =>
              set_parent n (some P)) c) := by
  have hfs' : (((t.upd P fun n => set_children n (list_add n.children c)).upd c fun n =>
      set_parent n (some P)).nodes c).is_fullscreen = false := by
    rcases eq_or_ne c P with rfl | h <;> simp [set_parent, set_children, hfs, *]
  unfold container_add_child
  simp only [container_handle_fullscreen_reparent_of_not_fullscreen _ _ _ hfs']

/-- The fields of a node after one round of the loop of `container_split`: the
child `c` of the workspace `w` has been removed and added to `k`. -/
theorem split_step_fields (t : State) (w k c : Nat) (ws : Option Nat) (hkw : k ≠ w)
    (hck : c ≠ k) (n : Nat) :
    let t2 := container_set_dirty
      (((detach t c w ws).upd k fun n => set_children n (list_add n.children c)).upd c fun n =>
        set_parent n (some k)) c
    (t2.nodes n).children
        = (if n = k then (t.nodes k).children ++ [c]
          else if n = w then (t.nodes w).children.erase c else (t.nodes n).children) ∧
    (t2.nodes n).parent = (if n = c then some k else (t.nodes n).parent) ∧
    (t2.nodes n).type = (t.nodes n).type ∧ (t2.nodes n).layout = (t.nodes n).layout ∧
    (t2.nodes n).is_fullscreen = (t.nodes n).is_fullscreen := by
  intro t2
  have hkw' := Ne.symm hkw
  have hck' := Ne.symm hck
  rcases eq_or_ne n k with rfl | h1 <;> rcases eq_or_ne n w with rfl | h2 <;>
    rcases eq_or_ne n c with rfl | h3
  all_goals try contradiction
  all_goals try have h1' := Ne.symm h1
  all_goals try have h2' := Ne.symm h2
  all_goals try have h3' := Ne.symm h3
  all_goals simp [t2, container_set_dirty, set_dirty, set_children, set_parent, list_add,
    detach, *]

/-- The loop of `container_split` moves the children of the workspace `w`, in
order, behind the children of the new container `k`. -/
theorem container_split_loop_spec (w k : Nat) (hkw : k ≠ w) :
    ∀ (rest : List Nat) (t : State) (done : List Nat),
      (t.nodes w).type = C_WORKSPACE → (t.nodes w).children = rest →
      (t.nodes k).children = done → (t.nodes k).parent = none →
      (t.nodes k).type = C_CONTAINER → rest.Nodup →
      (∀ c ∈ rest, (t.nodes c).parent = some w ∧ c ≠ k) → 1 ≤ t.next_id →
      ∃ t', container_split_loop w k rest.length t = some t' ∧
        (t'.nodes w).children = [] ∧ (t'.nodes k).children = done ++ rest ∧
        (∀ c ∈ rest, (t'.nodes c).parent = some k) ∧
        (∀ n, n ∉ rest → (t'.nodes n).parent = (t.nodes n).parent) ∧
        (∀ n, (t'.nodes n).type = (t.nodes n).type ∧ (t'.nodes n).layout = (t.nodes n).layout ∧
          (t'.nodes n).is_fullscreen = (t.nodes n).is_fullscreen) ∧
        (∀ n, n ≠ w → n ≠ k → (t'.nodes n).children = (t.nodes n).children) ∧
        t'.next_id = t.next_id := by
  intro rest
  induction rest with
  | nil =>
    intro t done _ hch hk _ _ _ _ _
    refine ⟨t, ?_, hch, by simpa using hk, by simp, fun _ _ => rfl,
      fun _ => ⟨rfl, rfl, rfl⟩, fun _ _ _ => rfl, rfl⟩
    simp [container_split_loop, hch]
  | cons c rest ih =>
    intro t done hty hch hk hkp hkt hnd hpar hid
    obtain ⟨hcp, hck⟩ := hpar c (List.mem_cons_self _ _)
    -- the removal of the first child
    have hws : ∃ ws, container_remove_child t c = some (detach t c w ws, w) := by
      by_cases hfs : (t.nodes c).is_fullscreen = true
      · refine ⟨some w, container_remove_child_eq t c w (some w) hcp ?_⟩
        rw [if_pos hfs]
        refine ⟨w, ?_, rfl⟩
        obtain ⟨f, hf⟩ : ∃ f, t.next_id = f + 1 := ⟨t.next_id - 1, by omega⟩
        unfold container_parent
        rw [hcp, hf]
        simp [container_parent_loop, hty]
      · exact ⟨none, container_remove_child_eq t c w none hcp (by rw [if_neg hfs])⟩
    obtain ⟨ws, hrem⟩ := hws
    -- the addition to the new container
    have hadd := container_add_child_unattached (detach t c w ws) k c (by simp) (Ne.symm hck)
      (by simp [hkt]) (by simp [Ne.symm hck, hkp]) (by simpa using hid)
    have hf := split_step_fields t w k c ws hkw hck
    have hid2 : (container_set_dirty
      (((detach t c w ws).upd k fun n => set_children n (list_add n.children c)).upd c fun n =>
        set_parent n (some k)) c).next_id = t.next_id := rfl
    simp only at hf
    generalize container_set_dirty
      (((detach t c w ws).upd k fun n => set_children n (list_add n.children c)).upd c fun n =>
        set_parent n (some k)) c = t2 at hadd hf hid2
    have hnd' := List.nodup_cons.mp hnd
    have hstep : container_split_loop w k (c :: rest).length t
        = container_split_loop w k rest.length t2 := by
      simp only [List.length_cons, container_split_loop, hch, hrem, hadd]
    obtain ⟨t', h1, h2, h3, h4, h5, h6, h7, h8⟩ := ih t2 (done ++ [c])
      (by rw [(hf w).2.2.1]; exact hty)
      (by rw [(hf w).1, if_neg (Ne.symm hkw), if_pos rfl, hch]; simp)
      (by rw [(hf k).1, if_pos rfl, hk])
      (by rw [(hf k).2.1, if_neg (Ne.symm hck)]; exact hkp)
      (by rw [(hf k).2.2.1]; exact hkt)
      hnd'.2
      (fun x hx => by
        have hxc : x ≠ c := fun e => hnd'.1 (e ▸ hx)
        rw [(hf x).2.1, if_neg hxc]
        exact hpar x (List.mem_cons_of_mem _ hx))
      (by rw [hid2]; exact hid)
    refine ⟨t', by rw [hstep]; exact h1, h2, by rw [h3]; simp, ?_, ?_, ?_, ?_, by rw [h8, hid2]⟩
    · intro x hx
      rcases List.mem_cons.mp hx with rfl | hx
      · rw [h5 x hnd'.1, (hf x).2.1, if_pos rfl]
      · exact h4 x hx
    · intro n hn
      simp only [List.mem_cons, not_or] at hn
      rw [h5 n hn.2, (hf n).2.1, if_neg hn.1]
    · intro n
      obtain ⟨a1, a2, a3⟩ := h6 n
      exact ⟨a1.trans (hf n).2.2.1, a2.trans (hf n).2.2.2.1, a3.trans (hf n).2.2.2.2⟩
    · intro n hnw hnk
      rw [h7 n hnw hnk, (hf n).1, if_neg hnk, if_neg hnw]

theorem split_start_fields (s : State) (w : Nat) :
    (∀ n, n ≠ s.next_id → (split_start s w).nodes n = s.nodes n) ∧
    ((split_start s w).nodes s.next_id).children = [] ∧
    ((split_start s w).nodes s.next_id).parent = none ∧
    ((split_start s w).nodes s.next_id).type = C_CONTAINER ∧
    ((split_start s w).nodes s.next_id).is_fullscreen = false ∧
    (split_start s w).next_id = s.next_id + 1 := by
  refine ⟨fun n hn => ?_, ?_, ?_, ?_, ?_, rfl⟩ <;>
    simp [split_start, container_create, remove_gaps, add_gaps, State.set, set_prev_layout,
      set_geometry, blank_node, *]

theorem split_finish_nodes (s5 : State) (child cont : Nat) (foc : Bool) :
    (split_finish s5 child cont foc).nodes = s5.nodes ∧
    (split_finish s5 child cont foc).next_id = s5.next_id := by
  unfold split_finish container_notify_subtree_changed
  split <;> exact ⟨rfl, rfl⟩

/-- The fields of a node at the end of `container_split` on a workspace `w`,
from the heap `t1` in which the children have been moved to `k`. -/
theorem split_tail_fields (t1 : State) (w k : Nat) (l : sway_container_layout) (hkw : k ≠ w)
    (foc : Bool) (n : Nat) :
    let t2 := container_set_dirty
      ((t1.upd w fun n => set_children n (list_add n.children k)).upd k fun n =>
        set_parent n (some w)) k
    let s' := split_finish
      ((t2.upd w fun n => set_layout n l).upd k fun n => set_layout n (t2.nodes w).layout)
      w k foc
    (s'.nodes n).children
        = (if n = w then (t1.nodes w).children ++ [k] else (t1.nodes n).children) ∧
    (s'.nodes n).parent = (if n = k then some w else (t1.nodes n).parent) ∧
    (s'.nodes n).layout
        = (if n = k then (t1.nodes w).layout else if n = w then l else (t1.nodes n).layout) ∧
    (s'.nodes n).type = (t1.nodes n).type ∧ s'.next_id = t1.next_id := by
  intro t2 s'
  have hkw' := Ne.symm hkw
  have e : s'.nodes = ((t2.upd w fun n => set_layout n l).upd k fun n =>
      set_layout n (t2.nodes w).layout).nodes := (split_finish_nodes _ _ _ _).1
  have e2 : s'.next_id = t1.next_id := (split_finish_nodes _ _ _ _).2
  rw [e]
  refine ⟨?_, ?_, ?_, ?_, e2⟩
  all_goals
    rcases eq_or_ne n k with rfl | h1 <;> rcases eq_or_ne n w with rfl | h2
  all_goals try contradiction
  all_goals try have h1' := Ne.symm h1
  all_goals try have h2' := Ne.symm h2
  all_goals simp [t2, container_set_dirty, set_dirty, set_children, set_parent, set_layout,
    list_add, *]

/-- Claim C10: `container_split(w, l)` on a workspace `w` that has children
returns a new container `k`; afterwards `k` is the only child of `w`, the
children of `k` are the former children of `w` in their order, each with
parent `k`, the layout of `w` is `l` and the layout of `k` is the former
layout of `w`. -/
theorem container_split_workspace (s : State) (w : Nat) (l : sway_container_layout)
    (hty : (s.nodes w).type = C_WORKSPACE) (hne : (s.nodes w).children ≠ [])
    (hnd : (s.nodes w).children.Nodup)
    (hpar : ∀ c ∈ (s.nodes w).children, (s.nodes c).parent = some w)
    (hfresh : ∀ c ∈ (s.nodes w).children, c ≠ s.next_id) (hw : w ≠ s.next_id) :
    ∃ s', container_split s w l = some (s', s.next_id) ∧
      s'.next_id = s.next_id + 1 ∧
      (s'.nodes s.next_id).type = C_CONTAINER ∧
      (s'.nodes w).children = [s.next_id] ∧
      (s'.nodes s.next_id).parent = some w ∧
      (s'.nodes s.next_id).children = (s.nodes w).children ∧
      (∀ c ∈ (s.nodes w).children, (s'.nodes c).parent = some s.next_id) ∧
      (s'.nodes w).layout = l ∧
      (s'.nodes s.next_id).layout = (s.nodes w).layout := by
  obtain ⟨g1, g2, g3, g4, g5, g6⟩ := split_start_fields s w
  have hkw : s.next_id ≠ w := Ne.symm hw
  obtain ⟨t1, h1, h2, h3, h4, h5, h6, h7, h8⟩ :=
    container_split_loop_spec w s.next_id hkw (s.nodes w).children (split_start s w) []
      (by rw [g1 w hw]; exact hty) (by rw [g1 w hw]) g2 g3 g4 hnd
      (fun c hc => ⟨by rw [g1 c (hfresh c hc)]; exact hpar c hc, hfresh c hc⟩)
      (by rw [g6]; omega)
  have hkfs : (t1.nodes s.next_id).is_fullscreen = false := by rw [(h6 _).2.2]; exact g5
  have hkpar : (t1.nodes s.next_id).parent = none := by
    rw [h5 _ (fun h => hfresh _ h rfl)]; exact g3
  have hadd := container_add_child_of_not_fullscreen t1 w s.next_id hkfs
  rw [hkpar] at hadd
  simp only at hadd
  have hf := split_tail_fields t1 w s.next_id l hkw
    (decide (seat_get_focus (split_start s w) = some w))
  simp only at hf
  have hcall := split_workspace_unfold s w l hty hne hw
  rw [h1] at hcall
  simp only [hadd] at hcall
  generalize split_finish _ w s.next_id _ = sfin at hcall hf
  refine ⟨sfin, hcall, ?_, ?_, ?_, ?_, ?_, ?_, ?_, ?_⟩
  · rw [(hf w).2.2.2.2, h8, g6]
  · rw [(hf s.next_id).2.2.2.1, (h6 _).1, g4]
  · rw [(hf w).1, if_pos rfl, h2]; rfl
  · rw [(hf s.next_id).2.1, if_pos rfl]
  · rw [(hf s.next_id).1, if_neg hkw, h3]; rfl
  · intro c hc
    rw [(hf c).2.1, if_neg (hfresh c hc), h4 c hc]
  · rw [(hf w).2.2.1, if_neg hw, if_pos rfl]
  · rw [(hf s.next_id).2.2.1, if_pos rfl, (h6 w).2.1, g1 w hw]

/-- Witness of `container_split_workspace`: workspace 2 of `example_tree`, with
the views 4, 5 (fullscreen) and 6, is split vertically. -/
theorem container_split_workspace_witness :
    ∃ s', container_split example_tree 2 L_VERT = some (s', example_tree.next_id) ∧
      s'.next_id = example_tree.next_id + 1 ∧
      (s'.nodes example_tree.next_id).type = C_CONTAINER ∧
      (s'.nodes 2).children = [example_tree.next_id] ∧
      (s'.nodes example_tree.next_id).parent = some 2 ∧
      (s'.nodes example_tree.next_id).children = (example_tree.nodes 2).children ∧
      (∀ c ∈ (example_tree.nodes 2).children,
        (s'.nodes c).parent = some example_tree.next_id) ∧
      (s'.nodes 2).layout = L_VERT ∧
      (s'.nodes example_tree.next_id).layout = (example_tree.nodes 2).layout :=
  container_split_workspace example_tree 2 L_VERT (by decide) (by decide) (by decide)
    (by decide) (by decide) (by decide)

/-! ## The parsed integer of a numeric name -/

/-- For a name that begins with a digit and whose leading decimal number is
below 2^31, the integer that the comparator parses is that number. -/
theorem name_num_eq_decimal (name : List Char) (h : name_starts_with_digit name = true)
    (hlt : strtol_digits 0 name < 2 ^ 31) :
    name_num name = (strtol_digits 0 name : Int) := by
  cases name with
  | nil => simp [name_starts_with_digit] at h
  | cons c cs =>
    simp only [name_starts_with_digit, isdigit, decide_eq_true_eq] at h
    have hsp : isspace c = false := by
      simp only [isspace, decide_eq_false_iff_not]
      omega
    have hminus : c ≠ '-' := by
      rintro rfl
      revert h; decide
    have hplus : c ≠ '+' := by
      rintro rfl
      revert h; decide
    have hs : strtol (c :: cs) = min LONG_MAX (strtol_digits 0 (c :: cs) : Int) := by
      unfold strtol
      simp only [List.dropWhile_cons, hsp, Bool.false_eq_true, if_false]
      split
      · rename_i heq
        exact absurd (List.cons.inj heq).1 hminus
      · rename_i heq
        exact absurd (List.cons.inj heq).1 hplus
      · rfl
    have hv : ((strtol_digits 0 (c :: cs) : Nat) : Int) < 2 ^ 31 := by exact_mod_cast hlt
    have hv0 : (0 : Int) ≤ (strtol_digits 0 (c :: cs) : Nat) := Int.natCast_nonneg _
    unfold name_num long_to_int
    rw [hs]
    unfold LONG_MAX
    have e31 : (2 : Int) ^ 31 = 2147483648 := by norm_num
    have e32 : (2 : Int) ^ 32 = 4294967296 := by norm_num
    have e63 : (2 : Int) ^ 63 = 9223372036854775808 := by norm_num
    rw [e31] at hv ⊢
    rw [e32, e63]
    rw [min_eq_right (by omega)]
    omega

/-- For two names that begin with a digit and whose leading decimal numbers are
below 2^31, the comparator returns the sign of the comparison of these
numbers. -/
theorem cmp_digit_digit_decimal (a b : List Char) (ha : name_starts_with_digit a = true)
    (hb : name_starts_with_digit b = true) (hla : strtol_digits 0 a < 2 ^ 31)
    (hlb : strtol_digits 0 b < 2 ^ 31) :
    sort_workspace_cmp_names a b
      = Int.sign ((strtol_digits 0 a : Int) - (strtol_digits 0 b : Int)) := by
  rw [cmp_digit_digit a b ha hb, name_num_eq_decimal a ha hla, name_num_eq_decimal b hb hlb]

/-- Claim C1: on an output whose workspaces are named "1" and "2147483648", in
that order, both names begin with a digit and `strtol` parses 1 and 2147483648,
yet `container_sort_workspaces` puts the workspace "2147483648" first: the
result is not in non-decreasing order of the parsed leading integer. -/
theorem container_sort_workspaces_wraps :
    (sort_wrap_example.nodes 0).children.map
        (fun a => String.mk (sort_wrap_example.nodes a).name) = ["1", "2147483648"] ∧
    (sort_wrap_example.nodes 0).children.map
        (fun a => name_starts_with_digit (sort_wrap_example.nodes a).name) = [true, true] ∧
    (sort_wrap_example.nodes 0).children.map
        (fun a => strtol (sort_wrap_example.nodes a).name) = [1, 2147483648] ∧
    ((container_sort_workspaces sort_wrap_example 0).nodes 0).children = [2, 1] ∧
    ((container_sort_workspaces sort_wrap_example 0).nodes 0).children.map
        (fun a => String.mk ((container_sort_workspaces sort_wrap_example 0).nodes a).name)
      = ["2147483648", "1"] := by
  decide

/-- Claim C2: for the workspaces named "2147483648" and "1" both names begin
with a digit and `strtol` parses 2147483648 and 1, yet
`sort_workspace_cmp_qsort` returns -1 for the pair and 1 for the swapped pair,
the opposite of the sign of the comparison of the parsed integers: the first
number is stored in an `int` as -2147483648. -/
theorem sort_workspace_cmp_qsort_wraps :
    name_starts_with_digit (sort_wrap_example.nodes 2).name = true ∧
    name_starts_with_digit (sort_wrap_example.nodes 1).name = true ∧
    strtol (sort_wrap_example.nodes 2).name = 2147483648 ∧
    strtol (sort_wrap_example.nodes 1).name = 1 ∧
    name_num (sort_wrap_example.nodes 2).name = -2147483648 ∧
    name_num (sort_wrap_example.nodes 1).name = 1 ∧
    sort_workspace_cmp_qsort sort_wrap_example 2 1 = -1 ∧
    sort_workspace_cmp_qsort sort_wrap_example 1 2 = 1 := by
  decide

/-! ## Rejections of `container_swap` and the entry assertion of `container_move` -/

/-- Claim C18: `container_swap(a, b)` returns without changing anything (the
heap afterwards is the heap before: child sequences, parent pointers,
geometry and fullscreen flags are as they were) when `a` or `b` is a root, an
output or a workspace, when `b` is an ancestor of `a`, and when `a` is an
ancestor of `b`; in the last case the test whether `b` is an ancestor of `a`,
which the code makes first, has to return. -/
theorem container_swap_rejects (env : Env) (s : State) (a b : Nat)
    (h : ((s.nodes a).type = C_ROOT ∨ (s.nodes a).type = C_OUTPUT ∨
          (s.nodes a).type = C_WORKSPACE) ∨
      ((s.nodes b).type = C_ROOT ∨ (s.nodes b).type = C_OUTPUT ∨
          (s.nodes b).type = C_WORKSPACE) ∨
      container_has_ancestor s a b = some true ∨
      (container_has_ancestor s b a = some true ∧ (container_has_ancestor s a b).isSome)) :
    container_swap env s a b = some s := by
  unfold container_swap
  rcases h with h | h | h | ⟨h1, h2⟩
  · rcases h with h | h | h <;> simp [h]
  · rcases h with h | h | h <;> simp [h]
  · split
    · rfl
    · simp [h]
  · split
    · rfl
    · cases hab : container_has_ancestor s a b with
      | none => simp [hab] at h2
      | some r => cases r <;> simp [h1]

/-- Witness of `container_swap_rejects`: in `example_tree` the container 7 is
an ancestor of the view 9. -/
theorem container_swap_rejects_witness :
    container_swap (example_env WRAP_NO no_adjacent_output) example_tree 7 9
      = some example_tree :=
  container_swap_rejects (example_env WRAP_NO no_adjacent_output) example_tree 7 9
    (Or.inr (Or.inr (Or.inr (by decide))))

/-- Claim C19, the code on a failing input: in `floating_tree` the view 5 is
inside the floating container 3 (its parent has the floating layout), yet
`container_swap(5, 4)` is not rejected: the test of the code reads the layout
of the nodes themselves, so the views 5 and 4 change places, the view 5
becomes a tiled child of the workspace 2 and the view 4 a child of the floating
container. -/
theorem container_swap_floating_not_rejected :
    container_is_floating floating_tree 5 = true ∧
    (floating_tree.nodes 5).layout ≠ L_FLOATING ∧ (floating_tree.nodes 4).layout ≠ L_FLOATING ∧
    (container_swap (example_env WRAP_NO no_adjacent_output) floating_tree 5 4).map
        (fun t => ((t.nodes 2).children, (t.nodes 3).children, (t.nodes 5).parent,
          (t.nodes 4).parent))
      = some ([5], [4], some 2, some 3) := by
  decide

/-- Claim C20, the code on a failing input: the assertion at the entry of
`container_move`, `type != C_CONTAINER || type != C_VIEW`, holds for every
node, so no node is rejected; in `views_tree` with the views 3, 4, 5 the move
of the workspace 2 downward goes on to rejigger the workspace around itself:
afterwards the output 1 has no child, and the workspace 2 is its own parent and
is listed among its own children behind the new container 6. -/
theorem container_move_workspace_not_rejected :
    (∀ (s : State) (n : Nat),
      (s.nodes n).type ≠ C_CONTAINER ∨ (s.nodes n).type ≠ C_VIEW) ∧
    ((views_tree [3, 4, 5]).nodes 2).type = C_WORKSPACE ∧
    (container_move (example_env WRAP_NO no_adjacent_output) (views_tree [3, 4, 5]) 2
        MOVE_DOWN).map
        (fun t => ((t.nodes 1).children, (t.nodes 2).children, (t.nodes 2).parent))
      = some ([], [6, 2], some 2) := by
  refine ⟨fun s n => ?_, by decide, by decide⟩
  cases h : (s.nodes n).type <;> simp

/-! ## The search of `container_move` -/

theorem entry_assertion_holds (t : sway_container_type) : t ≠ C_CONTAINER ∨ t ≠ C_VIEW := by
  cases t <;> simp

/-- The function `container_flatten` returns its argument when that is not a container with
a single child. -/
theorem container_flatten_of_not_single (s : State) (c : Nat)
    (h : ¬ ((s.nodes c).type = C_CONTAINER ∧ (s.nodes c).children.length = 1)) :
    container_flatten s (some c) = some (s, c) := by
  simp only [container_flatten, container_flatten_loop, if_neg h]

/-- The function `container_move` on a node that is not fullscreen, not below a fullscreen
or floating node, and whose parent is not flattened: the search starts at the
node and is bounded by the root. -/
theorem container_move_unbounded (env : Env) (s : State) (n P : Nat) (d : movement_direction)
    (hfs : (s.nodes n).is_fullscreen = false)
    (hfc : container_is_fullscreen_or_child s n = some false)
    (hfl : container_is_floating_or_child s n = some false)
    (hP : (s.nodes n).parent = some P)
    (hflat : ¬ ((s.nodes P).type = C_CONTAINER ∧ (s.nodes P).children.length = 1)) :
    container_move env s n d =
      match container_move_search env n d (move_offs d) (some root_container) (s.next_id + 1) s
          (some n) with
      | none => none
      | some (s2, none) => some s2
      | some (s2, some sibling) =>
        match index_child s2 n with
        | none => none
        | some index =>
          match container_move_relocate env n d (move_offs d) index (s2.next_id + 1) s2
              sibling with
          | none => none
          | some (s3, false) => some s3
          | some (s3, true) => container_move_finish s3 n (s2.nodes n).parent := by
  unfold container_move
  rw [if_neg (not_not.mpr (entry_assertion_holds _))]
  simp only [hfs, hfc, hfl, hP, container_flatten_of_not_single s P hflat]
  simp

/-- One round of the search at a container or view `c` that stands at the edge
of its parent `P`, a sibling of the moving node or the moving node itself: the
search goes on at `P`. -/
theorem search_step_edge (env : Env) (s : State) (n c P pp : Nat) (d : movement_direction)
    (top : Option Nat) (fuel : Nat) (i : Nat)
    (htop : some c ≠ top)
    (hty : (s.nodes c).type = C_VIEW ∨ (s.nodes c).type = C_CONTAINER)
    (hP : (s.nodes c).parent = some P) (hnP : (s.nodes n).parent = some P)
    (hidx : list_find (s.nodes P).children c = some i)
    (hpar : is_parallel (s.nodes P).layout d = true)
    (hedge : (i + 1 = (s.nodes P).children.length ∧ move_offs d > 0) ∨
      (i = 0 ∧ move_offs d < 0))
    (hpp : (s.nodes P).parent = some pp) (hfl : (s.nodes pp).layout ≠ L_FLOATING)
    (htab : (s.nodes P).layout ≠ L_TABBED ∧ (s.nodes P).layout ≠ L_STACKED) :
    container_move_search env n d (move_offs d) top (fuel + 1) s (some c)
      = container_move_search env n d (move_offs d) top fuel s (some P) := by
  have hi : index_child s c = some (i : Int) := by rw [index_child_eq s c P hP, hidx]
  have hedge' : ((i : Int) = ((s.nodes P).children.length : Int) - 1 ∧ move_offs d > 0) ∨
      ((i : Int) = 0 ∧ move_offs d < 0) := by
    rcases hedge with ⟨h1, h2⟩ | ⟨h1, h2⟩
    · exact Or.inl ⟨by omega, h2⟩
    · exact Or.inr ⟨by omega, h2⟩
  rw [container_move_search]
  rw [if_neg htop]
  rcases hty with hty | hty <;>
    simp only [hi, hP, hty, hpar, if_true, hedge', hnP, hpp, if_neg hfl, htab.1, htab.2,
      or_self, and_false, if_false]

/-- One round of the search at a workspace whose layout is parallel to the
direction and is neither tabbed nor stacked: the search goes on at the parent
of the workspace. -/
theorem search_step_workspace (env : Env) (s : State) (n W O : Nat) (d : movement_direction)
    (top : Option Nat) (fuel : Nat)
    (htop : some W ≠ top)
    (hty : (s.nodes W).type = C_WORKSPACE)
    (hO : (s.nodes W).parent = some O)
    (hpar : is_parallel (s.nodes W).layout d = true)
    (htab : (s.nodes W).layout ≠ L_TABBED ∧ (s.nodes W).layout ≠ L_STACKED) :
    container_move_search env n d (move_offs d) top (fuel + 1) s (some W)
      = container_move_search env n d (move_offs d) top fuel s (some O) := by
  have hi : ∃ i, index_child s W = some i := by
    rw [index_child_eq s W O hO]
    cases list_find (s.nodes O).children W <;> exact ⟨_, rfl⟩
  obtain ⟨i, hi⟩ := hi
  rw [container_move_search]
  rw [if_neg htop]
  simp only [hi, hO, hty, hpar, htab.1, htab.2, or_self, if_false]
  simp

/-- One round of the search at an output that has no adjacent output in the
direction of the move: the search ends without a destination. -/
theorem search_step_output_edge (env : Env) (s : State) (n O R : Nat) (d : movement_direction)
    (top : Option Nat) (fuel : Nat)
    (htop : some O ≠ top)
    (hty : (s.nodes O).type = C_OUTPUT)
    (hR : (s.nodes O).parent = some R)
    (hadj : ∀ wd, sway_dir_to_wlr d = some wd → env.adjacent_output s wd O = none) :
    container_move_search env n d (move_offs d) top (fuel + 1) s (some O) = some (s, none) := by
  have hi : ∃ i, index_child s O = some i := by
    rw [index_child_eq s O R hR]
    cases list_find (s.nodes R).children O <;> exact ⟨_, rfl⟩
  obtain ⟨i, hi⟩ := hi
  rw [container_move_search]
  rw [if_neg htop]
  simp only [hi, hR, hty]
  cases hwd : sway_dir_to_wlr d with
  | none => rfl
  | some wd => simp only [hadj wd hwd]

/-- A move toward the edge of the outputs is without effect: the moving node
`n` stands at the edge of a workspace `W` whose layout is parallel to the
direction and neither tabbed nor stacked, and the output `O` of the workspace
has no adjacent output in that direction.  The wrap policy plays no part. -/
theorem container_move_at_edge (env : Env) (s : State) (n W O R : Nat) (d : movement_direction)
    (i : Nat)
    (hty : (s.nodes n).type = C_VIEW ∨ (s.nodes n).type = C_CONTAINER)
    (hfs : (s.nodes n).is_fullscreen = false)
    (hfc : container_is_fullscreen_or_child s n = some false)
    (hfl : container_is_floating_or_child s n = some false)
    (hn0 : n ≠ root_container) (hW0 : W ≠ root_container) (hO0 : O ≠ root_container)
    (hid : 2 ≤ s.next_id)
    (hW : (s.nodes n).parent = some W) (hWt : (s.nodes W).type = C_WORKSPACE)
    (hO : (s.nodes W).parent = some O) (hOt : (s.nodes O).type = C_OUTPUT)
    (hR : (s.nodes O).parent = some R)
    (hpar : is_parallel (s.nodes W).layout d = true)
    (htab : (s.nodes W).layout ≠ L_TABBED ∧ (s.nodes W).layout ≠ L_STACKED)
    (hOl : (s.nodes O).layout ≠ L_FLOATING)
    (hidx : list_find (s.nodes W).children n = some i)
    (hedge : (i + 1 = (s.nodes W).children.length ∧ move_offs d > 0) ∨
      (i = 0 ∧ move_offs d < 0))
    (hadj : ∀ wd, sway_dir_to_wlr d = some wd → env.adjacent_output s wd O = none) :
    container_move env s n d = some s := by
  obtain ⟨f, hf⟩ : ∃ f, s.next_id + 1 = f + 3 := ⟨s.next_id - 2, by omega⟩
  rw [container_move_unbounded env s n W d hfs hfc hfl hW (by simp [hWt]), hf,
    search_step_edge env s n n W O d _ _ i (by simpa using hn0) hty hW hW hidx hpar hedge hO hOl
      htab,
    search_step_workspace env s n W O d _ _ (by simpa using hW0) hWt hO hpar htab,
    search_step_output_edge env s n O R d _ _ (by simpa using hO0) hOt hR hadj]

/-- Claim C13: with the wrap policy disabled, on the horizontal workspace 2
with the views B, C, A (4, 5, 3) whose output 1 has no adjacent output to the
right, `container_move(A, right)` returns and leaves the heap as it is: every
child sequence, parent pointer and layout mode is unchanged. -/
theorem container_move_last_child_no_wrap (env : Env)
    (hadj : env.adjacent_output (views_tree [4, 5, 3]) WLR_DIRECTION_RIGHT 1 = none) :
    container_move { env with focus_wrapping := WRAP_NO } (views_tree [4, 5, 3]) 3 MOVE_RIGHT
      = some (views_tree [4, 5, 3]) :=
  container_move_at_edge { env with focus_wrapping := WRAP_NO } (views_tree [4, 5, 3]) 3 2 1 0
    MOVE_RIGHT 2 (by decide) (by decide)
    (by decide) (by decide) (by decide) (by decide) (by decide) (by decide) (by decide)
    (by decide) (by decide) (by decide) (by decide) (by decide) (by decide) (by decide)
    (by decide) (by decide)
    (fun wd h => by
      have e : wd = WLR_DIRECTION_RIGHT := by
        simp only [sway_dir_to_wlr, Option.some.injEq] at h
        exact h.symm
      rw [e]; exact hadj)

/-- Witness of `container_move_last_child_no_wrap`: the collaborators of the
examples with a single output. -/
theorem container_move_last_child_no_wrap_witness :
    container_move { example_env WRAP_YES no_adjacent_output with focus_wrapping := WRAP_NO }
      (views_tree [4, 5, 3]) 3 MOVE_RIGHT = some (views_tree [4, 5, 3]) :=
  container_move_last_child_no_wrap (example_env WRAP_YES no_adjacent_output) rfl

/-- Counterexample to claim C14 as stated: with the wrap policy forced, on the
horizontal workspace 2 with the views B, C, A (4, 5, 3) and a single output,
`container_move(A, right)` leaves the children B, C, A; it does not yield
A, B, C. -/
theorem container_move_forced_wrap_stays :
    (example_env WRAP_FORCE no_adjacent_output).focus_wrapping = WRAP_FORCE ∧
    (container_move (example_env WRAP_FORCE no_adjacent_output) (views_tree [4, 5, 3]) 3
        MOVE_RIGHT).map (fun t => (t.nodes 2).children) = some [4, 5, 3] ∧
    (container_move (example_env WRAP_FORCE no_adjacent_output) (views_tree [4, 5, 3]) 3
        MOVE_RIGHT).map (fun t => (t.nodes 2).children) ≠ some [3, 4, 5] := by
  decide

/-! ## The wrap policy and `container_move` -/

theorem container_move_to_wrap (env : Env) (w : focus_wrapping_mode) (s : State) (c dst : Nat) :
    container_move_to { env with focus_wrapping := w } s c dst = container_move_to env s c dst :=
  rfl

theorem workspace_rejigger_loop_wrap (env : Env) (w : focus_wrapping_mode) (ws np : Nat) :
    ∀ (fuel i : Nat) (s : State),
      workspace_rejigger_loop { env with focus_wrapping := w } ws np fuel i s
        = workspace_rejigger_loop env ws np fuel i s := by
  intro fuel
  induction fuel with
  | zero => intro i s; rfl
  | succ f ih =>
    intro i s
    simp only [workspace_rejigger_loop, container_move_to_wrap, ih]

theorem workspace_rejigger_wrap (env : Env) (w : focus_wrapping_mode) (s : State) (ws c : Nat)
    (d : movement_direction) :
    workspace_rejigger { env with focus_wrapping := w } s ws c d
      = workspace_rejigger env s ws c d := by
  simp only [workspace_rejigger, workspace_rejigger_loop_wrap]

theorem container_move_search_wrap (env : Env) (w : focus_wrapping_mode) (n : Nat)
    (d : movement_direction) (offs : Int) (top : Option Nat) :
    ∀ (fuel : Nat) (s : State) (cur : Option Nat),
      container_move_search { env with focus_wrapping := w } n d offs top fuel s cur
        = container_move_search env n d offs top fuel s cur := by
  intro fuel
  induction fuel with
  | zero => intro s cur; rfl
  | succ f ih =>
    intro s cur
    simp only [container_move_search, workspace_rejigger_wrap, ih]

theorem container_move_relocate_wrap (env : Env) (w : focus_wrapping_mode) (n : Nat)
    (d : movement_direction) (offs index : Int) :
    ∀ (fuel : Nat) (s : State) (sibling : Nat),
      container_move_relocate { env with focus_wrapping := w } n d offs index fuel s sibling
        = container_move_relocate env n d offs index fuel s sibling := by
  intro fuel
  induction fuel with
  | zero => intro s sibling; rfl
  | succ f ih =>
    intro s sibling
    simp only [container_move_relocate, ih]

/-- The function `container_move` does not read the wrap policy. -/
theorem container_move_wrap (env : Env) (w : focus_wrapping_mode) (s : State) (n : Nat)
    (d : movement_direction) :
    container_move { env with focus_wrapping := w } s n d = container_move env s n d := by
  simp only [container_move, container_move_search_wrap, container_move_relocate_wrap]

/-- Claim C14, amended: `container_move` does not consult the wrap policy, so
with the policy forced every move does what it does with the policy disabled;
on the horizontal workspace 2 with the views B, C, A (4, 5, 3) whose output 1
has no adjacent output to the right, `container_move(A, right)` with the
policy forced returns and leaves the heap as it is: the child sequence stays
B, C, A. -/
theorem container_move_ignores_wrap (env : Env)
    (hadj : env.adjacent_output (views_tree [4, 5, 3]) WLR_DIRECTION_RIGHT 1 = none) :
    (∀ (s : State) (n : Nat) (d : movement_direction),
      container_move { env with focus_wrapping := WRAP_FORCE } s n d
        = container_move { env with focus_wrapping := WRAP_NO } s n d) ∧
    container_move { env with focus_wrapping := WRAP_FORCE } (views_tree [4, 5, 3]) 3 MOVE_RIGHT
      = some (views_tree [4, 5, 3]) ∧
    ((views_tree [4, 5, 3]).nodes 2).children = [4, 5, 3] := by
  refine ⟨fun s n d => ?_, ?_, rfl⟩
  · rw [container_move_wrap env WRAP_FORCE, container_move_wrap env WRAP_NO]
  · exact container_move_at_edge { env with focus_wrapping := WRAP_FORCE } (views_tree [4, 5, 3])
      3 2 1 0 MOVE_RIGHT 2 (by decide) (by decide)
      (by decide) (by decide) (by decide) (by decide) (by decide) (by decide) (by decide)
      (by decide) (by decide) (by decide) (by decide) (by decide) (by decide) (by decide)
      (by decide) (by decide)
      (fun wd h => by
        have e : wd = WLR_DIRECTION_RIGHT := by
          simp only [sway_dir_to_wlr, Option.some.injEq] at h
          exact h.symm
        rw [e]; exact hadj)

/-- Witness of `container_move_ignores_wrap`: the collaborators of the examples
with a single output. -/
theorem container_move_ignores_wrap_witness :
    (∀ (s : State) (n : Nat) (d : movement_direction),
      container_move { example_env WRAP_YES no_adjacent_output with focus_wrapping := WRAP_FORCE }
          s n d
        = container_move { example_env WRAP_YES no_adjacent_output with focus_wrapping := WRAP_NO }
          s n d) ∧
    container_move { example_env WRAP_YES no_adjacent_output with focus_wrapping := WRAP_FORCE }
      (views_tree [4, 5, 3]) 3 MOVE_RIGHT = some (views_tree [4, 5, 3]) ∧
    ((views_tree [4, 5, 3]).nodes 2).children = [4, 5, 3] :=
  container_move_ignores_wrap (example_env WRAP_YES no_adjacent_output) rfl


/-! ## Lookups in heaps with the same links -/

theorem same_links_refl (s : State) : same_links s s :=
  ⟨rfl, fun _ => ⟨rfl, rfl, rfl, rfl⟩⟩

theorem same_links_trans {s t u : State} (h1 : same_links s t) (h2 : same_links t u) :
    same_links s u := by
  refine ⟨h2.1.trans h1.1, fun n => ?_⟩
  obtain ⟨a1, a2, a3, a4⟩ := h1.2 n
  obtain ⟨b1, b2, b3, b4⟩ := h2.2 n
  exact ⟨b1.trans a1, b2.trans a2, b3.trans a3, b4.trans a4⟩

theorem container_parent_loop_links {s t : State} (h : same_links s t)
    (ty : sway_container_type) :
    ∀ (f : Nat) (p : Option Nat),
      container_parent_loop t ty f p = container_parent_loop s ty f p := by
  intro f
  induction f with
  | zero => intro p; cases p <;> rfl
  | succ f ih =>
    intro p
    cases p with
    | none => rfl
    | some p =>
      simp only [container_parent_loop, (h.2 p).1, (h.2 p).2.1, ih]

theorem container_parent_links {s t : State} (h : same_links s t) (c : Nat)
    (ty : sway_container_type) : container_parent t c ty = container_parent s c ty := by
  unfold container_parent
  rw [h.1, (h.2 c).2.1, container_parent_loop_links h]

theorem workspace_of_links {s t : State} (h : same_links s t) (c : Nat) :
    workspace_of t c = workspace_of s c := by
  unfold workspace_of
  rw [(h.2 c).1, container_parent_links h]

theorem container_is_fullscreen_or_child_links {s t : State} (h : same_links s t) (c : Nat) :
    container_is_fullscreen_or_child t c = container_is_fullscreen_or_child s c := by
  have key : ∀ (f c : Nat), container_is_fullscreen_or_child_loop t f c
      = container_is_fullscreen_or_child_loop s f c := by
    intro f
    induction f with
    | zero => intro c; rfl
    | succ f ih =>
      intro c
      simp only [container_is_fullscreen_or_child_loop, (h.2 c).2.2.2, (h.2 c).2.1]
      cases (s.nodes c).parent with
      | none => rfl
      | some p => simp only [(h.2 p).1, ih]
  unfold container_is_fullscreen_or_child
  rw [h.1, key]

theorem container_is_floating_or_child_links {s t : State} (h : same_links s t) (c : Nat) :
    container_is_floating_or_child t c = container_is_floating_or_child s c := by
  have key : ∀ (f c : Nat), container_is_floating_or_child_loop t f c
      = container_is_floating_or_child_loop s f c := by
    intro f
    induction f with
    | zero => intro c; rfl
    | succ f ih =>
      intro c
      simp only [container_is_floating_or_child_loop, (h.2 c).2.1]
      cases (s.nodes c).parent with
      | none => rfl
      | some p => simp only [(h.2 p).1, (h.2 p).2.2.1, ih]
  unfold container_is_floating_or_child
  rw [h.1, key]

theorem container_has_ancestor_links {s t : State} (h : same_links s t) (c a : Nat) :
    container_has_ancestor t c a = container_has_ancestor s c a := by
  have key : ∀ (f c : Nat), container_has_ancestor_loop t a f c
      = container_has_ancestor_loop s a f c := by
    intro f
    induction f with
    | zero => intro c; rfl
    | succ f ih =>
      intro c
      simp only [container_has_ancestor_loop, (h.2 c).1, (h.2 c).2.1, ih]
  unfold container_has_ancestor
  rw [h.1, key]

theorem same_links_upd_children (s : State) (a : Nat) (l : List Nat) :
    same_links s (s.upd a fun n => set_children n l) := by
  refine ⟨rfl, fun n => ?_⟩
  rcases eq_or_ne n a with rfl | h <;> simp [set_children, *]

theorem same_links_seat_set_focus (s : State) (c : Nat) : same_links s (seat_set_focus s c) :=
  ⟨rfl, fun _ => ⟨rfl, rfl, rfl, rfl⟩⟩

theorem siblings_swapped_links (s : State) (P n sib : Nat) (i j : Nat) :
    same_links s (siblings_swapped s P n sib i j) :=
  same_links_trans (same_links_trans (same_links_upd_children s P _)
    (same_links_seat_set_focus _ P)) (same_links_seat_set_focus _ n)

theorem siblings_swapped_children (s : State) (P n sib : Nat) (i j : Nat) (m : Nat) :
    ((siblings_swapped s P n sib i j).nodes m).children
      = if m = P then ((s.nodes P).children.set j n).set i sib else (s.nodes m).children := by
  unfold siblings_swapped seat_set_focus
  rcases eq_or_ne m P with rfl | h <;> simp [set_children, *]

/-! ## A move that exchanges two siblings -/

theorem move_offs_cases (d : movement_direction) : move_offs d = -1 ∨ move_offs d = 1 := by
  unfold move_offs
  split <;> simp

/-- One round of the search at the moving node when the neighbouring index is
inside the child sequence: the sibling there is the destination. -/
theorem search_step_sibling (env : Env) (s : State) (n P sib : Nat) (d : movement_direction)
    (top : Option Nat) (fuel : Nat) (i j : Nat)
    (htop : some n ≠ top)
    (hty : (s.nodes n).type = C_VIEW ∨ (s.nodes n).type = C_CONTAINER)
    (hP : (s.nodes n).parent = some P)
    (hidx : list_find (s.nodes P).children n = some i)
    (hpar : is_parallel (s.nodes P).layout d = true)
    (hj : (j : Int) = (i : Int) + move_offs d)
    (hsib : (s.nodes P).children[j]? = some sib) :
    container_move_search env n d (move_offs d) top (fuel + 1) s (some n)
      = some (s, some sib) := by
  have hi : index_child s n = some (i : Int) := by rw [index_child_eq s n P hP, hidx]
  have hjlt : j < (s.nodes P).children.length := by
    by_contra hc
    rw [List.getElem?_eq_none (by omega)] at hsib
    cases hsib
  have hedge : ¬ (((i : Int) = ((s.nodes P).children.length : Int) - 1 ∧ move_offs d > 0) ∨
      ((i : Int) = 0 ∧ move_offs d < 0)) := by
    rcases move_offs_cases d with h | h <;> rw [h] at hj ⊢ <;> omega
  have hget : list_get (s.nodes P).children ((i : Int) + move_offs d) = some sib := by
    rw [← hj]
    unfold list_get
    rw [if_pos (by omega)]
    simpa using hsib
  rw [container_move_search]
  rw [if_neg htop]
  rcases hty with hty | hty <;>
    simp only [hi, hP, hty, hpar, if_true, if_neg hedge, hget]

/-- The relocation next to a view that is a sibling of the moving node: the two
entries of the child sequence are exchanged. -/
theorem relocate_sibling_view (env : Env) (s : State) (n P sib : Nat) (d : movement_direction)
    (fuel : Nat) (i j : Nat)
    (hP : (s.nodes n).parent = some P)
    (hi : i < (s.nodes P).children.length)
    (hj : (j : Int) = (i : Int) + move_offs d)
    (hjlt : j < (s.nodes P).children.length)
    (hsty : (s.nodes sib).type = C_VIEW) (hsp : (s.nodes sib).parent = some P) :
    container_move_relocate env n d (move_offs d) (i : Int) (fuel + 1) s sib
      = some (s.upd P fun m => set_children m (((s.nodes P).children.set j n).set i sib),
          true) := by
  rw [container_move_relocate]
  simp only [hsty, hsp, hP, if_true, ← hj]
  rw [list_store_eq _ j n hjlt]
  simp only
  rw [list_store_eq _ i sib (by simpa using hi)]

/-- The function `container_move` on a node whose neighbour in the direction of the move is
a view of the same parent: the heap afterwards is `siblings_swapped`. -/
theorem container_move_sibling (env : Env) (s : State) (n P sib : Nat) (d : movement_direction)
    (i j : Nat)
    (hty : (s.nodes n).type = C_VIEW ∨ (s.nodes n).type = C_CONTAINER)
    (hfs : (s.nodes n).is_fullscreen = false)
    (hfc : container_is_fullscreen_or_child s n = some false)
    (hfl : container_is_floating_or_child s n = some false)
    (hn0 : n ≠ root_container)
    (hP : (s.nodes n).parent = some P)
    (hlen : 2 ≤ (s.nodes P).children.length)
    (hpar : is_parallel (s.nodes P).layout d = true)
    (hidx : list_find (s.nodes P).children n = some i)
    (hj : (j : Int) = (i : Int) + move_offs d)
    (hsib : (s.nodes P).children[j]? = some sib)
    (hsty : (s.nodes sib).type = C_VIEW) (hsp : (s.nodes sib).parent = some P)
    (hws : ∃ w, workspace_of s P = some w) :
    container_move env s n d = some (siblings_swapped s P n sib i j) := by
  have hi : index_child s n = some (i : Int) := by rw [index_child_eq s n P hP, hidx]
  have hilt : i < (s.nodes P).children.length := by
    have h := (list_find_some_iff _ _ _ hidx).1
    by_contra hc
    rw [List.getElem?_eq_none (by omega)] at h
    cases h
  have hjlt : j < (s.nodes P).children.length := by
    by_contra hc
    rw [List.getElem?_eq_none (by omega)] at hsib
    cases hsib
  rw [container_move_unbounded env s n P d hfs hfc hfl hP (by omega),
    search_step_sibling env s n P sib d _ _ i j (by simpa using hn0) hty hP hidx hpar hj hsib]
  simp only [hi]
  rw [relocate_sibling_view env s n P sib d _ i j hP hilt hj hjlt hsty hsp]
  simp only [hP]
  obtain ⟨w, hw⟩ := hws
  have hl := siblings_swapped_links s P n sib i j
  have e1 : workspace_of (siblings_swapped s P n sib i j) P = some w := by
    rw [workspace_of_links hl, hw]
  have e2 : ((siblings_swapped s P n sib i j).nodes n).parent = some P := by
    rw [(hl.2 n).2.1, hP]
  unfold container_move_finish
  simp only [notify_external]
  change (match workspace_of (siblings_swapped s P n sib i j) P,
      (match ((siblings_swapped s P n sib i j).nodes n).parent with
        | some np => workspace_of (siblings_swapped s P n sib i j) np
        | none => some none) with
    | some _, some _ => some (siblings_swapped s P n sib i j)
    | _, _ => none) = _
  rw [e2]
  simp only [e1]

/-- The scan finds `f` at `j` exactly when `f` is stored at `j` and at no
earlier index. -/
theorem list_find_iff_index (l : List Nat) (f : Nat) :
    ∀ (j : Nat), list_find l f = some j ↔ (l[j]? = some f ∧ ∀ k, k < j → l[k]? ≠ some f) := by
  induction l with
  | nil => intro j; simp [list_find]
  | cons a t ih =>
    intro j
    unfold list_find
    by_cases h : a = f
    · rw [if_pos h]
      constructor
      · intro e
        cases e
        exact ⟨by simp [h], fun k hk => by omega⟩
      · rintro ⟨h1, h2⟩
        rcases Nat.eq_zero_or_pos j with rfl | hj
        · rfl
        · exact absurd (by simp [h]) (h2 0 hj)
    · rw [if_neg h]
      cases j with
      | zero =>
        constructor
        · intro e
          cases hq : list_find t f <;> simp [hq] at e
        · rintro ⟨h1, _⟩
          simp at h1
          exact absurd h1 h
      | succ j =>
        constructor
        · intro e
          have e' : list_find t f = some j := by
            cases hq : list_find t f with
            | none => simp [hq] at e
            | some q => simp [hq] at e; rw [e]
          obtain ⟨h1, h2⟩ := (ih j).1 e'
          refine ⟨by simpa using h1, fun k hk => ?_⟩
          cases k with
          | zero => simpa using h
          | succ k => simpa using h2 k (by omega)
        · rintro ⟨h1, h2⟩
          have e' : list_find t f = some j :=
            (ih j).2 ⟨by simpa using h1, fun k hk => by simpa using h2 (k + 1) (by omega)⟩
          simp [e']

/-- Exchanging two neighbouring entries twice gives the sequence back. -/
theorem swap_back (l : List Nat) (i : Nat) (v sib : Nat) (hv : l[i]? = some v)
    (hs : l[i + 1]? = some sib) :
    (((l.set (i + 1) v).set i sib).set i v).set (i + 1) sib = l := by
  apply List.ext_getElem?
  intro k
  simp only [List.getElem?_set, List.length_set]
  by_cases h1 : i + 1 = k
  · subst h1
    have : i + 1 < l.length := by
      by_contra hc
      rw [List.getElem?_eq_none (by omega)] at hs
      cases hs
    simp [this, hs]
  · by_cases h2 : i = k
    · subst h2
      have : i < l.length := by
        by_contra hc
        rw [List.getElem?_eq_none (by omega)] at hv
        cases hv
      simp [this, hv]
    · simp [h1, h2]

/-- Claim C12: for a node `n` (container or view, not fullscreen, not below a
fullscreen or floating node, not the root) at index `i` of a parent `P` that
has at least two children and a layout parallel to the direction `d`, when the
child of `P` at index `j = i + offs` exists and is a view with parent `P`,
`container_move(n, d)` returns, and afterwards the child sequence of `P` is
the former one with `n` stored at `j` and the sibling at `i`; every other
entry of that sequence, the child sequence of every other node, and every
parent pointer are as before.  The lookup of the workspace of `P`, made for
the workspace event, has to return. -/
theorem container_move_swaps_sibling (env : Env) (s : State) (n P sib : Nat)
    (d : movement_direction) (i j : Nat)
    (hty : (s.nodes n).type = C_VIEW ∨ (s.nodes n).type = C_CONTAINER)
    (hfs : (s.nodes n).is_fullscreen = false)
    (hfc : container_is_fullscreen_or_child s n = some false)
    (hfl : container_is_floating_or_child s n = some false)
    (hn0 : n ≠ root_container)
    (hP : (s.nodes n).parent = some P)
    (hlen : 2 ≤ (s.nodes P).children.length)
    (hpar : is_parallel (s.nodes P).layout d = true)
    (hidx : list_find (s.nodes P).children n = some i)
    (hj : (j : Int) = (i : Int) + move_offs d)
    (hsib : (s.nodes P).children[j]? = some sib)
    (hsty : (s.nodes sib).type = C_VIEW) (hsp : (s.nodes sib).parent = some P)
    (hws : ∃ w, workspace_of s P = some w) :
    ∃ s', container_move env s n d = some s' ∧
      (s'.nodes P).children = ((s.nodes P).children.set j n).set i sib ∧
      (s'.nodes P).children[j]? = some n ∧
      (s'.nodes P).children[i]? = some sib ∧
      (∀ k, k ≠ i → k ≠ j → (s'.nodes P).children[k]? = (s.nodes P).children[k]?) ∧
      (∀ m, m ≠ P → (s'.nodes m).children = (s.nodes m).children) ∧
      (∀ m, (s'.nodes m).parent = (s.nodes m).parent) := by
  have hilt : i < (s.nodes P).children.length := by
    have h := (list_find_some_iff _ _ _ hidx).1
    by_contra hc
    rw [List.getElem?_eq_none (by omega)] at h
    cases h
  have hjlt : j < (s.nodes P).children.length := by
    by_contra hc
    rw [List.getElem?_eq_none (by omega)] at hsib
    cases hsib
  have hij : i ≠ j := by
    rcases move_offs_cases d with h | h <;> rw [h] at hj <;> omega
  refine ⟨siblings_swapped s P n sib i j,
    container_move_sibling env s n P sib d i j hty hfs hfc hfl hn0 hP hlen hpar hidx hj hsib
      hsty hsp hws, ?_, ?_, ?_, ?_, ?_, ?_⟩
  · rw [siblings_swapped_children, if_pos rfl]
  · rw [siblings_swapped_children, if_pos rfl]
    simp [List.getElem?_set, hij, hjlt]
  · rw [siblings_swapped_children, if_pos rfl]
    simp [List.getElem?_set, hilt]
  · intro k hki hkj
    rw [siblings_swapped_children, if_pos rfl]
    simp [List.getElem?_set, Ne.symm hki, Ne.symm hkj]
  · intro m hm
    rw [siblings_swapped_children, if_neg hm]
  · intro m
    exact ((siblings_swapped_links s P n sib i j).2 m).2.1

/-- Witness of `container_move_swaps_sibling`: on the horizontal workspace 2
with the views A, B, C (3, 4, 5), `container_move(A, right)` exchanges A and
B; the scenario of the claim is evaluated as well: the first move gives
B, A, C and a second one B, C, A. -/
theorem container_move_swaps_sibling_witness :
    (∃ s', container_move (example_env WRAP_NO no_adjacent_output) (views_tree [3, 4, 5]) 3
        MOVE_RIGHT = some s' ∧
      (s'.nodes 2).children = (((views_tree [3, 4, 5]).nodes 2).children.set 1 3).set 0 4 ∧
      (s'.nodes 2).children[1]? = some 3 ∧
      (s'.nodes 2).children[0]? = some 4 ∧
      (∀ k, k ≠ 0 → k ≠ 1 →
        (s'.nodes 2).children[k]? = ((views_tree [3, 4, 5]).nodes 2).children[k]?) ∧
      (∀ m, m ≠ 2 → (s'.nodes m).children = ((views_tree [3, 4, 5]).nodes m).children) ∧
      (∀ m, (s'.nodes m).parent = ((views_tree [3, 4, 5]).nodes m).parent)) ∧
    (container_move (example_env WRAP_NO no_adjacent_output) (views_tree [3, 4, 5]) 3
        MOVE_RIGHT).map (fun t => (t.nodes 2).children) = some [4, 3, 5] ∧
    ((container_move (example_env WRAP_NO no_adjacent_output) (views_tree [3, 4, 5]) 3
        MOVE_RIGHT).bind fun t =>
          container_move (example_env WRAP_NO no_adjacent_output) t 3 MOVE_RIGHT).map
        (fun t => (t.nodes 2).children) = some [4, 5, 3] :=
  ⟨container_move_swaps_sibling (example_env WRAP_NO no_adjacent_output) (views_tree [3, 4, 5])
      3 2 4 MOVE_RIGHT 0 1 (by decide) (by decide) (by decide) (by decide) (by decide)
      (by decide) (by decide) (by decide) (by decide) (by decide) (by decide) (by decide)
      (by decide) ⟨some 2, by decide⟩,
    by decide, by decide⟩

/-- Counterexample to claim C15 as stated: on the horizontal workspace 2 with
the views A, B, C (3, 4, 5) and a single output, the view C is the last child,
at index 2; `container_move(C, right)` is without effect and
`container_move(C, left)` then exchanges C and B, so C ends at index 1 and the
children are A, C, B. -/
theorem container_move_right_left_last_child :
    list_find ((views_tree [3, 4, 5]).nodes 2).children 5 = some 2 ∧
    ((container_move (example_env WRAP_NO no_adjacent_output) (views_tree [3, 4, 5]) 5
        MOVE_RIGHT).bind fun t =>
          container_move (example_env WRAP_NO no_adjacent_output) t 5 MOVE_LEFT).map
        (fun t => ((t.nodes 2).children, list_find (t.nodes 2).children 5))
      = some ([3, 5, 4], some 1) := by
  decide

/-- Claim C15, amended: for a workspace `W` in horizontal layout with at least
3 children, all of them views with parent `W` and distinct, and a child view
`v` at index `i` that is not fullscreen and is not the last child,
`container_move(v, right)` followed by `container_move(v, left)` returns `v` to
the index `i` and the child sequence of `W` to its original order; every
other child sequence and every parent pointer are as before as well. -/
theorem container_move_right_left (env : Env) (s : State) (W v : Nat) (i : Nat)
    (hWt : (s.nodes W).type = C_WORKSPACE) (hlay : (s.nodes W).layout = L_HORIZ)
    (hlen : 3 ≤ (s.nodes W).children.length)
    (hviews : ∀ c ∈ (s.nodes W).children,
      (s.nodes c).type = C_VIEW ∧ (s.nodes c).parent = some W)
    (hnd : (s.nodes W).children.Nodup)
    (hidx : list_find (s.nodes W).children v = some i)
    (hlast : i + 1 < (s.nodes W).children.length)
    (hfs : (s.nodes v).is_fullscreen = false)
    (hv0 : v ≠ root_container) :
    ∃ s1 s2, container_move env s v MOVE_RIGHT = some s1 ∧
      container_move env s1 v MOVE_LEFT = some s2 ∧
      (s2.nodes W).children = (s.nodes W).children ∧
      list_find (s2.nodes W).children v = some i ∧
      (∀ m, (s2.nodes m).children = (s.nodes m).children) ∧
      (∀ m, (s2.nodes m).parent = (s.nodes m).parent) := by
  obtain ⟨hvi, hbefore⟩ := (list_find_iff_index _ _ _).1 hidx
  have hilt : i < (s.nodes W).children.length := by omega
  have hvmem : v ∈ (s.nodes W).children := List.getElem?_mem hvi
  obtain ⟨hvt, hvp⟩ := hviews v hvmem
  -- the sibling to the right
  have hsib : (s.nodes W).children[i + 1]? = some ((s.nodes W).children[i + 1]) :=
    List.getElem?_eq_getElem hlast
  generalize (s.nodes W).children[i + 1] = sib at hsib
  obtain ⟨hst, hsp⟩ := hviews sib (List.getElem?_mem hsib)
  have hne : sib ≠ v := by
    intro e
    rw [e] at hsib
    have h1 : (s.nodes W).children[i + 1] = (s.nodes W).children[i] := by
      have a := List.getElem?_eq_getElem hlast
      have b := List.getElem?_eq_getElem hilt
      rw [a] at hsib
      rw [b] at hvi
      exact (Option.some.inj hsib).trans (Option.some.inj hvi).symm
    have := (List.Nodup.getElem_inj_iff hnd).1 h1
    omega
  have hfc : ∀ t, same_links s t → container_is_fullscreen_or_child t v = some false := by
    intro t ht
    rw [container_is_fullscreen_or_child_links ht]
    simp [container_is_fullscreen_or_child, container_is_fullscreen_or_child_loop, hfs, hvp, hWt]
  have hfl : ∀ t, same_links s t → container_is_floating_or_child t v = some false := by
    intro t ht
    rw [container_is_floating_or_child_links ht]
    simp [container_is_floating_or_child, container_is_floating_or_child_loop, hvp, hWt, hlay]
  have hws : ∀ t, same_links s t → ∃ w, workspace_of t W = some w := by
    intro t ht
    rw [workspace_of_links ht]
    exact ⟨some W, by simp [workspace_of, hWt]⟩
  -- the move to the right
  have h1 := container_move_sibling env s v W sib MOVE_RIGHT i (i + 1) (Or.inl hvt) hfs
    (hfc s (same_links_refl s)) (hfl s (same_links_refl s)) hv0 hvp (by omega)
    (by rw [hlay]; rfl) hidx (by simp [move_offs]) hsib hst hsp (hws s (same_links_refl s))
  have hl := siblings_swapped_links s W v sib i (i + 1)
  have hch := siblings_swapped_children s W v sib i (i + 1)
  generalize siblings_swapped s W v sib i (i + 1) = s1 at h1 hl hch
  have hch1 : (s1.nodes W).children = ((s.nodes W).children.set (i + 1) v).set i sib := by
    rw [hch, if_pos rfl]
  -- the move to the left
  have hidx1 : list_find (s1.nodes W).children v = some (i + 1) := by
    rw [hch1, list_find_iff_index]
    refine ⟨by simp [List.getElem?_set, hlast], fun k hk => ?_⟩
    by_cases hki : k = i
    · subst hki
      simp [List.getElem?_set, hilt, hne]
    · have := hbefore k (by omega)
      simp only [List.getElem?_set, List.length_set]
      rw [if_neg (by omega), if_neg (by omega)]
      exact this
  have h2 := container_move_sibling env s1 v W sib MOVE_LEFT (i + 1) i
    (Or.inl (by rw [(hl.2 v).1]; exact hvt)) (by rw [(hl.2 v).2.2.2]; exact hfs)
    (hfc s1 hl) (hfl s1 hl) hv0 (by rw [(hl.2 v).2.1]; exact hvp)
    (by rw [hch1]; simp; omega)
    (by rw [(hl.2 W).2.2.1, hlay]; rfl) hidx1 (by simp [move_offs])
    (by rw [hch1]; simp [List.getElem?_set, hilt])
    (by rw [(hl.2 sib).1]; exact hst) (by rw [(hl.2 sib).2.1]; exact hsp) (hws s1 hl)
  have hl2 := siblings_swapped_links s1 W v sib (i + 1) i
  have hch2 := siblings_swapped_children s1 W v sib (i + 1) i
  generalize siblings_swapped s1 W v sib (i + 1) i = s2 at h2 hl2 hch2
  have hW2 : (s2.nodes W).children = (s.nodes W).children := by
    rw [hch2, if_pos rfl, hch1]
    exact swap_back _ i v sib hvi hsib
  refine ⟨s1, s2, h1, h2, hW2, by rw [hW2]; exact hidx, fun m => ?_, fun m => ?_⟩
  · by_cases hm : m = W
    · rw [hm]; exact hW2
    · rw [hch2, if_neg hm, hch, if_neg hm]
  · rw [(hl2.2 m).2.1, (hl.2 m).2.1]

/-- Witness of `container_move_right_left`: on the horizontal workspace 2 with
the views A, B, C (3, 4, 5), the view B, at index 1, is moved right and then
left. -/
theorem container_move_right_left_witness :
    ∃ s1 s2, container_move (example_env WRAP_NO no_adjacent_output) (views_tree [3, 4, 5]) 4
        MOVE_RIGHT = some s1 ∧
      container_move (example_env WRAP_NO no_adjacent_output) s1 4 MOVE_LEFT = some s2 ∧
      (s2.nodes 2).children = ((views_tree [3, 4, 5]).nodes 2).children ∧
      list_find (s2.nodes 2).children 4 = some 1 ∧
      (∀ m, (s2.nodes m).children = ((views_tree [3, 4, 5]).nodes m).children) ∧
      (∀ m, (s2.nodes m).parent = ((views_tree [3, 4, 5]).nodes m).parent) :=
  container_move_right_left (example_env WRAP_NO no_adjacent_output) (views_tree [3, 4, 5]) 2 4 1
    (by decide) (by decide) (by decide) (by decide) (by decide) (by decide) (by decide)
    (by decide) (by decide)


/-! ## Split of a container or view -/

/-- The function `container_split` on a node that is not a workspace. -/
theorem split_node_unfold (s : State) (n : Nat) (l : sway_container_layout)
    (hty : (s.nodes n).type ≠ C_WORKSPACE) (hn : n ≠ s.next_id) :
    container_split s n l =
      match container_replace_child ((split_start s n).upd s.next_id fun m => set_layout m l) n
          s.next_id with
      | none => none
      | some (t2, _) =>
        match container_add_child t2 s.next_id n with
        | none => none
        | some s5 =>
          some (split_finish s5 n s.next_id (decide (seat_get_focus (split_start s n) = some n)),
            s.next_id) := by
  have h0 : ((split_start s n).nodes n) = s.nodes n := by
    simp [split_start, container_create, remove_gaps, add_gaps, State.set, hn]
  unfold container_split
  rw [if_neg (by simp [hty])]
  show (match (if ((split_start s n).nodes n).type = C_WORKSPACE then _
      else
        (match container_replace_child ((split_start s n).upd s.next_id fun m => set_layout m l)
            n s.next_id with
          | none => none
          | some (t2, _) => container_add_child t2 s.next_id n) : Option State) with
    | none => none
    | some s5 => some (split_finish s5 n s.next_id
        (decide (seat_get_focus (split_start s n) = some n)), s.next_id)) = _
  rw [h0, if_neg hty]
  cases container_replace_child ((split_start s n).upd s.next_id fun m => set_layout m l) n
      s.next_id with
  | none => rfl
  | some r => rfl

/-- The function `container_replace_child` when the new child is unattached. -/
theorem container_replace_child_unattached (t : State) (child new_child P : Nat) (i : Nat)
    (hP : (t.nodes child).parent = some P)
    (hidx : list_find (t.nodes P).children child = some i)
    (hnew : (t.nodes new_child).parent = none) :
    container_replace_child t child new_child
      = some (replaced t child new_child P ((t.nodes P).children.set i new_child), some P) := by
  have hi : index_child t child = some (i : Int) := by rw [index_child_eq t child P hP, hidx]
  have hilt : i < (t.nodes P).children.length := by
    have h := (list_find_some_iff _ _ _ hidx).1
    by_contra hc
    rw [List.getElem?_eq_none (by omega)] at h
    cases h
  unfold container_replace_child
  simp only [hP, hi, hnew, list_store_eq _ i new_child hilt]
  rfl

/-- The heap of `container_split` on a node that is not a workspace, when the
new container `k` has taken the slot of `n` under `P` and `n` has become its
child, before the fullscreen bookkeeping. -/
theorem split_node_fields (t1 : State) (n k P : Nat) (l2 : List Nat) (hnk : n ≠ k)
    (hPk : P ≠ k) (m : Nat) :
    ((replaced t1 n k P l2).nodes n).parent = none ∧
    ((adopted (replaced t1 n k P l2) k n).nodes m).children
        = (if m = k then (t1.nodes k).children ++ [n] else if m = P then l2
          else (t1.nodes m).children) ∧
    ((adopted (replaced t1 n k P l2) k n).nodes m).parent
        = (if m = n then some k else if m = k then some P else (t1.nodes m).parent) ∧
    ((adopted (replaced t1 n k P l2) k n).nodes m).layout = (t1.nodes m).layout ∧
    ((adopted (replaced t1 n k P l2) k n).nodes m).prev_layout = (t1.nodes m).prev_layout ∧
    ((adopted (replaced t1 n k P l2) k n).nodes m).type = (t1.nodes m).type ∧
    ((adopted (replaced t1 n k P l2) k n).nodes m).is_fullscreen = (t1.nodes m).is_fullscreen ∧
    ((adopted (replaced t1 n k P l2) k n).nodes m).fullscreen = (t1.nodes m).fullscreen ∧
    ((adopted (replaced t1 n k P l2) k n).nodes k).x = (t1.nodes n).x ∧
    ((adopted (replaced t1 n k P l2) k n).nodes k).y = (t1.nodes n).y ∧
    ((adopted (replaced t1 n k P l2) k n).nodes k).width = (t1.nodes n).width ∧
    ((adopted (replaced t1 n k P l2) k n).nodes k).height = (t1.nodes n).height ∧
    (adopted (replaced t1 n k P l2) k n).next_id = t1.next_id := by
  have hkn := Ne.symm hnk
  have hkP := Ne.symm hPk
  have hgeo : ((adopted (replaced t1 n k P l2) k n).nodes k).x = (t1.nodes n).x ∧
      ((adopted (replaced t1 n k P l2) k n).nodes k).y = (t1.nodes n).y ∧
      ((adopted (replaced t1 n k P l2) k n).nodes k).width = (t1.nodes n).width ∧
      ((adopted (replaced t1 n k P l2) k n).nodes k).height = (t1.nodes n).height := by
    rcases eq_or_ne n P with rfl | h3
    · simp [adopted, replaced, set_size, set_geometry, set_parent, set_children, list_add, *]
    · have h3' := Ne.symm h3
      simp [adopted, replaced, set_size, set_geometry, set_parent, set_children, list_add, *]
  refine ⟨?_, ?_, ?_, ?_, ?_, ?_, ?_, ?_, hgeo.1, hgeo.2.1, hgeo.2.2.1, hgeo.2.2.2, rfl⟩
  · simp [replaced, set_size, set_geometry, set_parent, set_children, *]
  all_goals
    rcases eq_or_ne m k with rfl | h1 <;> rcases eq_or_ne m n with rfl | h2 <;>
      rcases eq_or_ne m P with rfl | h3
  all_goals try contradiction
  all_goals try have h1' := Ne.symm h1
  all_goals try have h2' := Ne.symm h2
  all_goals try have h3' := Ne.symm h3
  all_goals simp [adopted, replaced, set_size, set_geometry, set_parent, set_children, list_add, *]

/-- The function `container_add_child` of an unattached node, as the adoption followed by
the fullscreen bookkeeping. -/
theorem container_add_child_of_unattached (t : State) (P c : Nat)
    (hc : (t.nodes c).parent = none) :
    container_add_child t P c =
      match container_handle_fullscreen_reparent (adopted t P c) c none with
      | none => none
      | some s3 => some (container_set_dirty s3 c) := by
  unfold container_add_child
  simp only [hc]
  rfl

theorem container_set_dirty_fields (s : State) (c m : Nat) :
    ((container_set_dirty s c).nodes m).children = (s.nodes m).children ∧
    ((container_set_dirty s c).nodes m).parent = (s.nodes m).parent ∧
    ((container_set_dirty s c).nodes m).layout = (s.nodes m).layout ∧
    ((container_set_dirty s c).nodes m).prev_layout = (s.nodes m).prev_layout ∧
    ((container_set_dirty s c).nodes m).type = (s.nodes m).type ∧
    ((container_set_dirty s c).nodes m).x = (s.nodes m).x ∧
    ((container_set_dirty s c).nodes m).y = (s.nodes m).y ∧
    ((container_set_dirty s c).nodes m).width = (s.nodes m).width ∧
    ((container_set_dirty s c).nodes m).height = (s.nodes m).height := by
  rcases eq_or_ne m c with rfl | h <;> simp [container_set_dirty, set_dirty, *]

/-- The fullscreen bookkeeping of a reparented node leaves the geometry of
every other node that no fullscreen slot holds. -/
theorem reparent_geometry_other (v : State) (con : Nat) (op : Option Nat) (s' : State)
    (h : container_handle_fullscreen_reparent v con op = some s') (m : Nat) (hm : m ≠ con)
    (hslot : (v.nodes con).is_fullscreen = true → ∀ nw,
      container_parent v con C_WORKSPACE = some (some nw) → (v.nodes nw).fullscreen ≠ some m) :
    (s'.nodes m).x = (v.nodes m).x ∧ (s'.nodes m).y = (v.nodes m).y ∧
    (s'.nodes m).width = (v.nodes m).width ∧ (s'.nodes m).height = (v.nodes m).height := by
  by_cases hfs : (v.nodes con).is_fullscreen = true
  · rw [container_handle_fullscreen_reparent_eq v con op hfs] at h
    cases how : old_workspace_of v op with
    | none => simp [how] at h
    | some ow =>
      cases hnw : container_parent v con C_WORKSPACE with
      | none => simp [how, hnw] at h
      | some new_workspace =>
        simp only [how, hnw] at h
        by_cases he : ow = new_workspace
        · rw [if_pos he] at h
          cases h
          exact ⟨rfl, rfl, rfl, rfl⟩
        · rw [if_neg he] at h
          cases new_workspace with
          | none => simp at h
          | some nw =>
            simp only at h
            cases hp : ((cross_slots v con ow nw).nodes nw).parent with
            | none => simp [hp] at h
            | some output =>
              simp only [hp, Option.some.injEq] at h
              subst h
              obtain ⟨_, _, r1, r2, r3, r4⟩ := resized_fields (cross_slots v con ow nw) con output m
              obtain ⟨c1, c2, c3, c4⟩ :=
                cross_slots_geometry v con ow nw he m (hslot hfs nw hnw)
              rw [r1, r2, r3, r4, if_neg hm, if_neg hm, if_neg hm, if_neg hm]
              exact ⟨c1, c2, c3, c4⟩
  · rw [container_handle_fullscreen_reparent_of_not_fullscreen v con op (by simpa using hfs)] at h
    cases h
    exact ⟨rfl, rfl, rfl, rfl⟩

/-- The fullscreen bookkeeping of a node that had no parent returns when the
node now lies in a workspace that has a parent. -/
theorem reparent_from_nowhere (v : State) (n W O : Nat)
    (hW : container_parent v n C_WORKSPACE = some (some W))
    (hO : (v.nodes W).parent = some O) :
    ∃ s3, container_handle_fullscreen_reparent v n none = some s3 := by
  by_cases hfs : (v.nodes n).is_fullscreen = true
  · rw [container_handle_fullscreen_reparent_eq v n none hfs]
    have how : old_workspace_of v none = some none := rfl
    have hp : ((cross_slots v n none W).nodes W).parent = some O := by
      rw [((cross_slots_same_tree v n none W).2.2 W).2.1, hO]
    simp only [how, hW, hp]
    simp
  · exact ⟨v, container_handle_fullscreen_reparent_of_not_fullscreen v n none
      (by simpa using hfs)⟩

/-- Claim C11: for a container or view `n` at index `i` of a parent `P` and a
layout `l`, `container_split(n, l)` returns a new container `k`, the node
allocated by the call; afterwards the child of `P` at index `i` is `k` and the
other children of `P` are unchanged, the parent of `k` is `P`, the only child
of `k` is `n`, the parent of `n` is `k`, the layout of `k` is `l`, its
previous layout is none, and `k` has the x, y, width and height `n` had
before the call.  The id of the new node is fresh (`n` and `P` are allocated);
when `n` is fullscreen, its workspace exists and has a parent, `n` is not an
ancestor of `P`, and neither the ancestors of `P` nor the fullscreen slot of
the workspace refer to the fresh id. -/
theorem container_split_node (s : State) (n P : Nat) (l : sway_container_layout) (i : Nat)
    (hty : (s.nodes n).type = C_CONTAINER ∨ (s.nodes n).type = C_VIEW)
    (hP : (s.nodes n).parent = some P)
    (hidx : list_find (s.nodes P).children n = some i)
    (hnk : n ≠ s.next_id) (hPk : P ≠ s.next_id)
    (hfs : (s.nodes n).is_fullscreen = true →
      n ∉ ancestors s s.next_id (some P) ∧ s.next_id ∉ ancestors s s.next_id (some P) ∧
      ∃ W O, container_parent_loop s C_WORKSPACE s.next_id (some P) = some (some W) ∧
        (s.nodes W).parent = some O ∧ (s.nodes W).fullscreen ≠ some s.next_id) :
    ∃ s', container_split s n l = some (s', s.next_id) ∧
      (s'.nodes P).children = (s.nodes P).children.set i s.next_id ∧
      (s'.nodes P).children[i]? = some s.next_id ∧
      (∀ j, j ≠ i → (s'.nodes P).children[j]? = (s.nodes P).children[j]?) ∧
      (s'.nodes s.next_id).type = C_CONTAINER ∧
      (s'.nodes s.next_id).parent = some P ∧
      (s'.nodes s.next_id).children = [n] ∧
      (s'.nodes n).parent = some s.next_id ∧
      (s'.nodes s.next_id).layout = l ∧
      (s'.nodes s.next_id).prev_layout = L_NONE ∧
      (s'.nodes s.next_id).x = (s.nodes n).x ∧ (s'.nodes s.next_id).y = (s.nodes n).y ∧
      (s'.nodes s.next_id).width = (s.nodes n).width ∧
      (s'.nodes s.next_id).height = (s.nodes n).height := by
  have hnw : (s.nodes n).type ≠ C_WORKSPACE := by
    rcases hty with h | h <;> rw [h] <;> decide
  obtain ⟨g1, g2, g3, g4, g5, g6⟩ := split_start_fields s n
  have hkn : s.next_id ≠ n := Ne.symm hnk
  have hkP : s.next_id ≠ P := Ne.symm hPk
  -- the heap in which the new container has its layout
  have t1o : ∀ m, m ≠ s.next_id →
      ((split_start s n).upd s.next_id fun m => set_layout m l).nodes m = s.nodes m := by
    intro m hm
    rw [State.upd_nodes, if_neg hm, g1 m hm]
  have t1k : (((split_start s n).upd s.next_id fun m => set_layout m l).nodes s.next_id).children
        = [] ∧
      (((split_start s n).upd s.next_id fun m => set_layout m l).nodes s.next_id).parent = none ∧
      (((split_start s n).upd s.next_id fun m => set_layout m l).nodes s.next_id).type
        = C_CONTAINER ∧
      (((split_start s n).upd s.next_id fun m => set_layout m l).nodes s.next_id).layout = l ∧
      (((split_start s n).upd s.next_id fun m => set_layout m l).nodes s.next_id).prev_layout
        = L_NONE := by
    simp [split_start, container_create, remove_gaps, add_gaps, State.set, set_prev_layout,
      set_geometry, set_layout, blank_node]
  have t1id : ((split_start s n).upd s.next_id fun m => set_layout m l).next_id
      = s.next_id + 1 := g6
  have hcall := split_node_unfold s n l hnw hnk
  generalize ((split_start s n).upd s.next_id fun m => set_layout m l) = t1
    at t1o t1k t1id hcall
  obtain ⟨k1, k2, k3, k4, k5⟩ := t1k
  have hilt : i < (s.nodes P).children.length := by
    have h := (list_find_some_iff _ _ _ hidx).1
    by_contra hc
    rw [List.getElem?_eq_none (by omega)] at h
    cases h
  -- the replacement of `n` by the new container
  have hrep := container_replace_child_unattached t1 n s.next_id P i
    (by rw [t1o n hnk]; exact hP) (by rw [t1o P hPk]; exact hidx) k2
  rw [t1o P hPk] at hrep
  have hf := split_node_fields t1 n s.next_id P ((s.nodes P).children.set i s.next_id) hnk hPk
  -- the addition of `n` to the new container
  have hadd := container_add_child_of_unattached
    (replaced t1 n s.next_id P ((s.nodes P).children.set i s.next_id)) s.next_id n (hf n).1
  generalize adopted (replaced t1 n s.next_id P ((s.nodes P).children.set i s.next_id))
    s.next_id n = v at hadd hf
  have hex : ∃ s3, container_handle_fullscreen_reparent v n none = some s3 := by
    by_cases hfull : (s.nodes n).is_fullscreen = true
    · obtain ⟨ha, hb, W, O, hW, hO, _⟩ := hfs hfull
      obtain ⟨hWm, _⟩ := container_parent_loop_found s C_WORKSPACE _ _ _ hW
      have hWn : W ≠ n := fun e => ha (e ▸ hWm)
      have hWk : W ≠ s.next_id := fun e => hb (e ▸ hWm)
      have hlook : container_parent v n C_WORKSPACE = some (some W) := by
        unfold container_parent
        rw [(hf n).2.2.1, if_pos rfl, (hf n).2.2.2.2.2.2.2.2.2.2.2.2, t1id]
        rw [container_parent_loop, (hf s.next_id).2.2.2.2.2.1, k3, if_neg (by decide),
          (hf s.next_id).2.2.1, if_neg hkn, if_pos rfl]
        refine container_parent_loop_transfer s v C_WORKSPACE _ _ _ _ hW (fun m hm => ?_)
          (Nat.le_refl _)
        have hmn : m ≠ n := fun e => ha (e ▸ hm)
        have hmk : m ≠ s.next_id := fun e => hb (e ▸ hm)
        rw [(hf m).2.2.2.2.2.1, (hf m).2.2.1, if_neg hmn, if_neg hmk, t1o m hmk]
        exact ⟨rfl, rfl⟩
      exact reparent_from_nowhere v n W O hlook
        (by rw [(hf W).2.2.1, if_neg hWn, if_neg hWk, t1o W hWk]; exact hO)
    · refine ⟨v, container_handle_fullscreen_reparent_of_not_fullscreen v n none ?_⟩
      rw [(hf n).2.2.2.2.2.2.1, t1o n hnk]
      simpa using hfull
  obtain ⟨s3, hs3⟩ := hex
  have hsame := container_handle_fullscreen_reparent_same_tree v n none s3 hs3
  have hgeo := reparent_geometry_other v n none s3 hs3 s.next_id hkn (by
    intro hfull nw hnwl
    rw [(hf n).2.2.2.2.2.2.1, t1o n hnk] at hfull
    obtain ⟨ha, hb, W, O, hW, hO, hsl⟩ := hfs hfull
    obtain ⟨hWm, _⟩ := container_parent_loop_found s C_WORKSPACE _ _ _ hW
    have hWk : W ≠ s.next_id := fun e => hb (e ▸ hWm)
    have hlook : container_parent v n C_WORKSPACE = some (some W) := by
      unfold container_parent
      rw [(hf n).2.2.1, if_pos rfl, (hf n).2.2.2.2.2.2.2.2.2.2.2.2, t1id]
      rw [container_parent_loop, (hf s.next_id).2.2.2.2.2.1, k3, if_neg (by decide),
        (hf s.next_id).2.2.1, if_neg hkn, if_pos rfl]
      refine container_parent_loop_transfer s v C_WORKSPACE _ _ _ _ hW (fun m hm => ?_)
        (Nat.le_refl _)
      have hmn : m ≠ n := fun e => ha (e ▸ hm)
      have hmk : m ≠ s.next_id := fun e => hb (e ▸ hm)
      rw [(hf m).2.2.2.2.2.1, (hf m).2.2.1, if_neg hmn, if_neg hmk, t1o m hmk]
      exact ⟨rfl, rfl⟩
    have e : W = nw := by
      rw [hlook] at hnwl
      simpa using hnwl
    rw [← e, (hf W).2.2.2.2.2.2.2.1, t1o W hWk]
    exact hsl)
  -- the call
  rw [hrep] at hcall
  simp only [hadd, hs3] at hcall
  obtain ⟨e1, _⟩ := split_finish_nodes (container_set_dirty s3 n) n s.next_id
    (decide (seat_get_focus (split_start s n) = some n))
  generalize split_finish (container_set_dirty s3 n) n s.next_id _ = sfin at hcall e1
  have hfield : ∀ m, (sfin.nodes m).children = (v.nodes m).children ∧
      (sfin.nodes m).parent = (v.nodes m).parent ∧ (sfin.nodes m).layout = (v.nodes m).layout ∧
      (sfin.nodes m).prev_layout = (v.nodes m).prev_layout ∧
      (sfin.nodes m).type = (v.nodes m).type := by
    intro m
    obtain ⟨d1, d2, d3, d4, d5, _⟩ := container_set_dirty_fields s3 n m
    obtain ⟨a1, a2, a3, a4, a5, _⟩ := hsame.2.2 m
    rw [e1]
    exact ⟨d1.trans a3, d2.trans a2, d3.trans a4, d4.trans a5, d5.trans a1⟩
  have hgk : (sfin.nodes s.next_id).x = (s3.nodes s.next_id).x ∧
      (sfin.nodes s.next_id).y = (s3.nodes s.next_id).y ∧
      (sfin.nodes s.next_id).width = (s3.nodes s.next_id).width ∧
      (sfin.nodes s.next_id).height = (s3.nodes s.next_id).height := by
    obtain ⟨_, _, _, _, _, d6, d7, d8, d9⟩ := container_set_dirty_fields s3 n s.next_id
    rw [e1]
    exact ⟨d6, d7, d8, d9⟩
  have hPc : (sfin.nodes P).children = (s.nodes P).children.set i s.next_id := by
    rw [(hfield P).1, (hf P).2.1, if_neg hPk, if_pos rfl]
  refine ⟨sfin, hcall, hPc, ?_, ?_, ?_, ?_, ?_, ?_, ?_, ?_, ?_, ?_, ?_, ?_⟩
  · rw [hPc]; simp [List.getElem?_set, hilt]
  · intro j hj
    rw [hPc]; simp [List.getElem?_set, Ne.symm hj]
  · rw [(hfield _).2.2.2.2, (hf _).2.2.2.2.2.1, k3]
  · rw [(hfield _).2.1, (hf _).2.2.1, if_neg hkn, if_pos rfl]
  · rw [(hfield _).1, (hf _).2.1, if_pos rfl, k1]; rfl
  · rw [(hfield _).2.1, (hf _).2.2.1, if_pos rfl]
  · rw [(hfield _).2.2.1, (hf _).2.2.2.1, k4]
  · rw [(hfield _).2.2.2.1, (hf _).2.2.2.2.1, k5]
  · rw [hgk.1, hgeo.1, (hf n).2.2.2.2.2.2.2.2.1, t1o n hnk]
  · rw [hgk.2.1, hgeo.2.1, (hf n).2.2.2.2.2.2.2.2.2.1, t1o n hnk]
  · rw [hgk.2.2.1, hgeo.2.2.1, (hf n).2.2.2.2.2.2.2.2.2.2.1, t1o n hnk]
  · rw [hgk.2.2.2, hgeo.2.2.2, (hf n).2.2.2.2.2.2.2.2.2.2.2.1, t1o n hnk]

/-- Witness of `container_split_node`: the fullscreen view 8, at index 0 of the
container 7 of `example_tree`, is split horizontally. -/
theorem container_split_node_witness :
    ∃ s', container_split example_tree 8 L_HORIZ = some (s', example_tree.next_id) ∧
      (s'.nodes 7).children = (example_tree.nodes 7).children.set 0 example_tree.next_id ∧
      (s'.nodes 7).children[0]? = some example_tree.next_id ∧
      (∀ j, j ≠ 0 → (s'.nodes 7).children[j]? = (example_tree.nodes 7).children[j]?) ∧
      (s'.nodes example_tree.next_id).type = C_CONTAINER ∧
      (s'.nodes example_tree.next_id).parent = some 7 ∧
      (s'.nodes example_tree.next_id).children = [8] ∧
      (s'.nodes 8).parent = some example_tree.next_id ∧
      (s'.nodes example_tree.next_id).layout = L_HORIZ ∧
      (s'.nodes example_tree.next_id).prev_layout = L_NONE ∧
      (s'.nodes example_tree.next_id).x = (example_tree.nodes 8).x ∧
      (s'.nodes example_tree.next_id).y = (example_tree.nodes 8).y ∧
      (s'.nodes example_tree.next_id).width = (example_tree.nodes 8).width ∧
      (s'.nodes example_tree.next_id).height = (example_tree.nodes 8).height :=
  container_split_node example_tree 8 7 L_HORIZ 0 (by decide) (by decide) (by decide)
    (by decide) (by decide)
    (fun _ => ⟨by decide, by decide, 3, 1, by decide, by decide, by decide⟩)


/-! ## Child sequences under an exchange of two nodes -/

theorem splice_getElem_all (l : List Nat) (i c k : Nat) (hi : i ≤ l.length) :
    (l.take i ++ c :: l.drop i)[k]? =
      if k < i then l[k]? else if k = i then some c else l[k - 1]? := by
  have hlen : (l.take i).length = i := by simp [hi]
  by_cases h1 : k < i
  · rw [if_pos h1, List.getElem?_append_left (by omega)]
    simp [List.getElem?_take, h1]
  · rw [if_neg h1, List.getElem?_append_right (by omega), hlen]
    by_cases h2 : k = i
    · subst h2; simp
    · rw [if_neg h2]
      obtain ⟨d, hd⟩ : ∃ d, k - i = d + 1 := ⟨k - i - 1, by omega⟩
      rw [hd, List.getElem?_cons_succ, List.getElem?_drop]
      congr 1
      omega

theorem splice_length (l : List Nat) (i c : Nat) :
    (l.take i ++ c :: l.drop i).length = l.length + 1 := by
  have h := List.take_append_drop i l
  have : (l.take i).length + (l.drop i).length = l.length := by
    rw [← List.length_append, h]
  simp only [List.length_append, List.length_cons]
  omega

theorem erase_of_list_find (l : List Nat) (c i : Nat) (h : list_find l c = some i) :
    l.erase c = l.eraseIdx i := by
  have := list_find_del l c
  rw [h] at this
  exact this.symm

theorem list_find_lt (l : List Nat) (c i : Nat) (h : list_find l c = some i) : i < l.length := by
  have h1 := (list_find_some_iff _ _ _ h).1
  by_contra hc
  rw [List.getElem?_eq_none (by omega)] at h1
  cases h1

/-- Erasing `a` at its index `i` and storing `b` there. -/
theorem swap_in (l : List Nat) (i a b : Nat) (hi : list_find l a = some i) :
    (l.erase a).take i ++ b :: (l.erase a).drop i = l.set i b := by
  have hlt := list_find_lt l a i hi
  rw [erase_of_list_find l a i hi]
  apply List.ext_getElem?
  intro k
  rw [splice_getElem_all _ _ _ _ (by rw [List.length_eraseIdx, if_pos hlt]; omega)]
  simp only [List.getElem?_eraseIdx, List.getElem?_set]
  by_cases h1 : k < i
  · rw [if_pos h1, if_pos h1, if_neg (by omega)]
  · rw [if_neg h1]
    by_cases h2 : k = i
    · subst h2; simp [hlt]
    · rw [if_neg h2, if_neg (by omega), if_neg (by omega)]
      congr 1
      omega

/-- The index of `b` once `a` has been put in front of it. -/
theorem list_find_splice_before (l : List Nat) (j a b : Nat) (hj : list_find l b = some j)
    (hab : a ≠ b) : list_find (l.take j ++ a :: l.drop j) b = some (j + 1) := by
  have hlt := list_find_lt l b j hj
  obtain ⟨h1, h2⟩ := (list_find_iff_index l b j).1 hj
  rw [list_find_iff_index]
  refine ⟨?_, fun k hk => ?_⟩
  · rw [splice_getElem_all _ _ _ _ (by omega), if_neg (by omega), if_neg (by omega)]
    simpa using h1
  · rw [splice_getElem_all _ _ _ _ (by omega)]
    by_cases h3 : k < j
    · rw [if_pos h3]; exact h2 k h3
    · have : k = j := by omega
      rw [if_neg h3, if_pos this]
      simpa using hab

/-- Putting `a` before `b`, which stands at `j`, and erasing `b`. -/
theorem swap_out (l : List Nat) (j a b : Nat) (hj : list_find l b = some j) (hab : a ≠ b) :
    (l.take j ++ a :: l.drop j).erase b = l.set j a := by
  have hlt := list_find_lt l b j hj
  rw [erase_of_list_find _ b (j + 1) (list_find_splice_before l j a b hj hab)]
  apply List.ext_getElem?
  intro k
  simp only [List.getElem?_eraseIdx, splice_getElem_all _ _ _ _ (Nat.le_of_lt hlt),
    List.getElem?_set]
  by_cases h1 : k < j
  · rw [if_pos (by omega), if_pos h1, if_neg (by omega)]
  · by_cases h2 : k = j
    · subst h2; simp [hlt]
    · rw [if_neg (by omega), if_neg (by omega), if_neg (by omega), if_neg (by omega)]
      congr 1

/-- The index of `b` once `a`, which stood at `i`, has been erased and put back
at the index `j` that `b` had. -/
theorem list_find_after_reinsert (l : List Nat) (i j a b : Nat) (hi : list_find l a = some i)
    (hj : list_find l b = some j) (hab : a ≠ b) :
    list_find ((l.erase a).take j ++ a :: (l.erase a).drop j) b
      = some (if i < j then j - 1 else j + 1) := by
  have hilt := list_find_lt l a i hi
  have hjlt := list_find_lt l b j hj
  obtain ⟨a1, _⟩ := (list_find_iff_index l a i).1 hi
  obtain ⟨b1, b2⟩ := (list_find_iff_index l b j).1 hj
  have hij : i ≠ j := by
    intro e
    rw [e, b1] at a1
    exact hab (Option.some.inj a1).symm
  have hle : j ≤ (l.eraseIdx i).length := by
    rw [List.length_eraseIdx, if_pos hilt]; omega
  rw [erase_of_list_find l a i hi, list_find_iff_index]
  by_cases h : i < j
  · rw [if_pos h]
    refine ⟨?_, fun k hk => ?_⟩
    · rw [splice_getElem_all _ _ _ _ hle, if_pos (by omega), List.getElem?_eraseIdx,
        if_neg (by omega)]
      rw [show j - 1 + 1 = j by omega]
      exact b1
    · rw [splice_getElem_all _ _ _ _ hle, if_pos (by omega), List.getElem?_eraseIdx]
      by_cases h3 : k < i
      · rw [if_pos h3]; exact b2 k (by omega)
      · rw [if_neg h3]; exact b2 (k + 1) (by omega)
  · rw [if_neg h]
    refine ⟨?_, fun k hk => ?_⟩
    · rw [splice_getElem_all _ _ _ _ hle, if_neg (by omega), if_neg (by omega),
        List.getElem?_eraseIdx, if_pos (by omega)]
      simpa using b1
    · rw [splice_getElem_all _ _ _ _ hle]
      by_cases h3 : k < j
      · rw [if_pos h3, List.getElem?_eraseIdx, if_pos (by omega)]
        exact b2 k h3
      · have : k = j := by omega
        rw [if_neg h3, if_pos this]
        simpa using hab

/-- The child sequence of a common parent after `swap_places`: `a`, at index
`i`, is erased and put at the index `j` of `b`; then `b` is erased and put at
`i`.  The outcome is the sequence with `b` stored at `i` and `a` at `j`. -/
theorem swap_same (l : List Nat) (i j a b : Nat) (hi : list_find l a = some i)
    (hj : list_find l b = some j) (hab : a ≠ b) :
    (((l.erase a).take j ++ a :: (l.erase a).drop j).erase b).take i ++
        b :: (((l.erase a).take j ++ a :: (l.erase a).drop j).erase b).drop i
      = (l.set i b).set j a := by
  have hilt := list_find_lt l a i hi
  have hjlt := list_find_lt l b j hj
  obtain ⟨a1, _⟩ := (list_find_iff_index l a i).1 hi
  obtain ⟨b1, _⟩ := (list_find_iff_index l b j).1 hj
  have hij : i ≠ j := by
    intro e
    rw [e, b1] at a1
    exact hab (Option.some.inj a1).symm
  have hle : j ≤ (l.eraseIdx i).length := by
    rw [List.length_eraseIdx, if_pos hilt]; omega
  have hfind := list_find_after_reinsert l i j a b hi hj hab
  rw [erase_of_list_find _ b _ hfind]
  rw [erase_of_list_find l a i hi]
  have hlen2 : (((l.eraseIdx i).take j ++ a :: (l.eraseIdx i).drop j).eraseIdx
      (if i < j then j - 1 else j + 1)).length = l.length - 1 := by
    rw [List.length_eraseIdx, splice_length, List.length_eraseIdx, if_pos hilt]
    split <;> split <;> omega
  apply List.ext_getElem?
  intro k
  rw [splice_getElem_all _ _ _ _ (by rw [hlen2]; omega)]
  simp only [List.getElem?_eraseIdx, splice_getElem_all _ _ _ _ hle, List.getElem?_set,
    List.length_set]
  by_cases h : i < j
  · simp only [if_pos h]
    split_ifs <;> first | rfl | omega | (congr 1; omega)
  · simp only [if_neg h]
    split_ifs <;> first | rfl | omega | (congr 1; omega)

/-! ## The exchange made by `swap_places` -/

theorem reattached_layout (s : State) (P c : Nat) (l : List Nat) (n : Nat) :
    ((reattached s P c l).nodes n).layout = (s.nodes n).layout := by
  have hd' : ∀ k, ((detached s c).nodes k).layout = (s.nodes k).layout := by
    intro k
    unfold detached
    split <;> rfl
  unfold reattached
  rcases eq_or_ne n c with rfl | h1 <;> rcases eq_or_ne n P with rfl | h2 <;>
    simp [set_children, set_parent, hd', *]

theorem reattached_focus_stack (s : State) (P c : Nat) (l : List Nat) :
    (reattached s P c l).focus_stack = s.focus_stack := by
  have hd' : (detached s c).focus_stack = s.focus_stack := by
    unfold detached
    split <;> rfl
  simp [reattached, hd']

/-- The function `container_insert_child` of a node that is not fullscreen. -/
theorem container_insert_child_not_fullscreen (s : State) (P c : Nat) (i : Nat)
    (hfs : (s.nodes c).is_fullscreen = false)
    (hi : i ≤ ((detached s c).nodes P).children.length) :
    container_insert_child s P c (i : Int) =
      some (reattached s P c (((detached s c).nodes P).children.take i ++
          c :: ((detached s c).nodes P).children.drop i)) := by
  rw [container_insert_child_eq s P c i (by simp [hfs]) hi]
  exact container_handle_fullscreen_reparent_of_not_fullscreen _ _ _
    (by rw [reattached_is_fullscreen]; exact hfs)

theorem geometry_swapped_fields (s : State) (a b : Nat) (hab : a ≠ b) (m : Nat) :
    ((geometry_swapped s a b).nodes m).parent = (s.nodes m).parent ∧
    ((geometry_swapped s a b).nodes m).children = (s.nodes m).children ∧
    ((geometry_swapped s a b).nodes m).type = (s.nodes m).type ∧
    ((geometry_swapped s a b).nodes m).layout = (s.nodes m).layout ∧
    ((geometry_swapped s a b).nodes m).is_fullscreen = (s.nodes m).is_fullscreen ∧
    ((geometry_swapped s a b).nodes m).fullscreen = (s.nodes m).fullscreen ∧
    ((geometry_swapped s a b).nodes m).x
      = (if m = a then (s.nodes b).x else if m = b then (s.nodes a).x else (s.nodes m).x) ∧
    ((geometry_swapped s a b).nodes m).y
      = (if m = a then (s.nodes b).y else if m = b then (s.nodes a).y else (s.nodes m).y) ∧
    ((geometry_swapped s a b).nodes m).width
      = (if m = a then (s.nodes b).width else if m = b then (s.nodes a).width
        else (s.nodes m).width) ∧
    ((geometry_swapped s a b).nodes m).height
      = (if m = a then (s.nodes b).height else if m = b then (s.nodes a).height
        else (s.nodes m).height) := by
  have hba := Ne.symm hab
  unfold geometry_swapped
  rcases eq_or_ne m a with rfl | h1 <;> rcases eq_or_ne m b with rfl | h2
  all_goals try contradiction
  all_goals simp [set_geometry, *]

/-- The function `swap_places` as two insertions into the heap with the geometry
exchanged. -/
theorem swap_places_unfold (s : State) (a b P1 P2 : Nat) (i j : Nat) (hab : a ≠ b)
    (hP1 : (s.nodes a).parent = some P1) (hP2 : (s.nodes b).parent = some P2)
    (hi : list_find (s.nodes P1).children a = some i)
    (hj : list_find (s.nodes P2).children b = some j) :
    swap_places s a b =
      match container_insert_child (geometry_swapped s a b) P2 a (j : Int) with
      | none => none
      | some s3 => container_insert_child s3 P1 b (i : Int) := by
  have hf := geometry_swapped_fields s a b hab
  have h1 : index_child (geometry_swapped s a b) a = some (i : Int) := by
    rw [index_child_eq _ a P1 (by rw [(hf a).1, hP1]), (hf P1).2.1, hi]
  have h2 : index_child (geometry_swapped s a b) b = some (j : Int) := by
    rw [index_child_eq _ b P2 (by rw [(hf b).1, hP2]), (hf P2).2.1, hj]
  have h3 : ((geometry_swapped s a b).nodes b).parent = some P2 := by rw [(hf b).1, hP2]
  unfold swap_places
  change (match index_child (geometry_swapped s a b) a,
      ((geometry_swapped s a b).nodes b).parent, index_child (geometry_swapped s a b) b with
    | some temp_index, some p2, some i2 =>
      match container_insert_child (geometry_swapped s a b) p2 a i2 with
      | none => none
      | some s3 =>
        match (s.nodes a).parent with
        | none => none
        | some p1 => container_insert_child s3 p1 b temp_index
    | _, _, _ => none) = _
  rw [h1, h2, h3]
  simp only [hP1]

/-- The heap built by `swap_places(a, b)` for two nodes that are not
fullscreen: `a` has taken the index of `b` under the parent of `b`, `b` the
index of `a` under the parent of `a`, and the two nodes have exchanged x, y,
width and height.  The parents may be distinct or the same. -/
theorem swap_places_spec (s : State) (a b P1 P2 : Nat) (i j : Nat) (hab : a ≠ b)
    (hP1 : (s.nodes a).parent = some P1) (hP2 : (s.nodes b).parent = some P2)
    (hi : list_find (s.nodes P1).children a = some i)
    (hj : list_find (s.nodes P2).children b = some j)
    (hfa : (s.nodes a).is_fullscreen = false) (hfb : (s.nodes b).is_fullscreen = false) :
    ∃ s4, swap_places s a b = some s4 ∧ s4.next_id = s.next_id ∧
      s4.focus_stack = s.focus_stack ∧
      ∀ m,
        (s4.nodes m).parent
          = (if m = b then some P1 else if m = a then some P2 else (s.nodes m).parent) ∧
        (s4.nodes m).children
          = (if m = P1 then
              (if P1 = P2 then ((s.nodes P1).children.set i b).set j a
                else (s.nodes P1).children.set i b)
            else if m = P2 then (s.nodes P2).children.set j a else (s.nodes m).children) ∧
        (s4.nodes m).type = (s.nodes m).type ∧
        (s4.nodes m).layout = (s.nodes m).layout ∧
        (s4.nodes m).is_fullscreen = (s.nodes m).is_fullscreen ∧
        (s4.nodes m).x
          = (if m = a then (s.nodes b).x else if m = b then (s.nodes a).x else (s.nodes m).x) ∧
        (s4.nodes m).y
          = (if m = a then (s.nodes b).y else if m = b then (s.nodes a).y else (s.nodes m).y) ∧
        (s4.nodes m).width
          = (if m = a then (s.nodes b).width else if m = b then (s.nodes a).width
            else (s.nodes m).width) ∧
        (s4.nodes m).height
          = (if m = a then (s.nodes b).height else if m = b then (s.nodes a).height
            else (s.nodes m).height) := by
  have hba := Ne.symm hab
  have hilt := list_find_lt _ _ _ hi
  have hjlt := list_find_lt _ _ _ hj
  have hcall := swap_places_unfold s a b P1 P2 i j hab hP1 hP2 hi hj
  have hf := geometry_swapped_fields s a b hab
  have hid2 : (geometry_swapped s a b).next_id = s.next_id := rfl
  have hfoc2 : (geometry_swapped s a b).focus_stack = s.focus_stack := rfl
  generalize geometry_swapped s a b = s2 at hcall hf hid2 hfoc2
  have hpa2 : (s2.nodes a).parent = some P1 := by rw [(hf a).1, hP1]
  have hpb2 : (s2.nodes b).parent = some P2 := by rw [(hf b).1, hP2]
  -- the children of the parent of `b` once `a` is detached
  have hD : ((detached s2 a).nodes P2).children
      = if P1 = P2 then (s.nodes P2).children.erase a else (s.nodes P2).children := by
    rw [detached_children, hpa2, (hf P2).2.1]
    by_cases h : P1 = P2
    · rw [if_pos (by rw [h]), if_pos h]
    · rw [if_neg (by simpa using h), if_neg h]
  have hjD : j ≤ ((detached s2 a).nodes P2).children.length := by
    rw [hD]
    by_cases h : P1 = P2
    · rw [if_pos h]
      subst h
      rw [erase_of_list_find _ _ _ hi, List.length_eraseIdx, if_pos hilt]
      omega
    · rw [if_neg h]; omega
  have hins1 := container_insert_child_not_fullscreen s2 P2 a j
    (by rw [(hf a).2.2.2.2.1]; exact hfa) hjD
  rw [hD] at hins1
  rw [hins1] at hcall
  simp only at hcall
  -- the heap after the first insertion
  have r1 := reattached_parent s2 P2 a
    ((if P1 = P2 then (s.nodes P2).children.erase a else (s.nodes P2).children).take j ++
      a :: (if P1 = P2 then (s.nodes P2).children.erase a else (s.nodes P2).children).drop j)
  have r2 := reattached_children s2 P2 a
    ((if P1 = P2 then (s.nodes P2).children.erase a else (s.nodes P2).children).take j ++
      a :: (if P1 = P2 then (s.nodes P2).children.erase a else (s.nodes P2).children).drop j)
  have r3 := reattached_type s2 P2 a
    ((if P1 = P2 then (s.nodes P2).children.erase a else (s.nodes P2).children).take j ++
      a :: (if P1 = P2 then (s.nodes P2).children.erase a else (s.nodes P2).children).drop j)
  have r4 := reattached_layout s2 P2 a
    ((if P1 = P2 then (s.nodes P2).children.erase a else (s.nodes P2).children).take j ++
      a :: (if P1 = P2 then (s.nodes P2).children.erase a else (s.nodes P2).children).drop j)
  have r5 := reattached_is_fullscreen s2 P2 a
    ((if P1 = P2 then (s.nodes P2).children.erase a else (s.nodes P2).children).take j ++
      a :: (if P1 = P2 then (s.nodes P2).children.erase a else (s.nodes P2).children).drop j)
  have r6 := reattached_geometry s2 P2 a
    ((if P1 = P2 then (s.nodes P2).children.erase a else (s.nodes P2).children).take j ++
      a :: (if P1 = P2 then (s.nodes P2).children.erase a else (s.nodes P2).children).drop j)
  have r7 := reattached_next_id s2 P2 a
    ((if P1 = P2 then (s.nodes P2).children.erase a else (s.nodes P2).children).take j ++
      a :: (if P1 = P2 then (s.nodes P2).children.erase a else (s.nodes P2).children).drop j)
  have r8 := reattached_focus_stack s2 P2 a
    ((if P1 = P2 then (s.nodes P2).children.erase a else (s.nodes P2).children).take j ++
      a :: (if P1 = P2 then (s.nodes P2).children.erase a else (s.nodes P2).children).drop j)
  generalize reattached s2 P2 a
    ((if P1 = P2 then (s.nodes P2).children.erase a else (s.nodes P2).children).take j ++
      a :: (if P1 = P2 then (s.nodes P2).children.erase a else (s.nodes P2).children).drop j)
    = s3 at hcall r1 r2 r3 r4 r5 r6 r7 r8
  have hpb3 : (s3.nodes b).parent = some P2 := by rw [r1, if_neg hba, hpb2]
  -- the children of the parent of `a` once `b` is detached
  have hD' : ((detached s3 b).nodes P1).children
      = if P1 = P2 then
          (((s.nodes P2).children.erase a).take j ++
            a :: ((s.nodes P2).children.erase a).drop j).erase b
        else (s.nodes P1).children.erase a := by
    rw [detached_children, hpb3, r2, hpa2, (hf P1).2.1]
    by_cases h : P1 = P2
    · rw [if_pos (by rw [h]), if_pos h, if_pos h, if_pos h]
    · rw [if_neg (by simpa using Ne.symm h), if_neg h, if_pos rfl, if_neg h]
  have hiD : i ≤ ((detached s3 b).nodes P1).children.length := by
    rw [hD']
    by_cases h : P1 = P2
    · rw [if_pos h]
      subst h
      rw [erase_of_list_find _ b _ (list_find_after_reinsert _ i j a b hi hj hab),
        List.length_eraseIdx, splice_length, erase_of_list_find _ _ _ hi, List.length_eraseIdx,
        if_pos hilt]
      split <;> split <;> omega
    · rw [if_neg h, erase_of_list_find _ _ _ hi, List.length_eraseIdx, if_pos hilt]
      omega
  have hins2 := container_insert_child_not_fullscreen s3 P1 b i
    (by rw [r5, (hf b).2.2.2.2.1]; exact hfb) hiD
  have hM' : ((detached s3 b).nodes P1).children.take i ++
      b :: ((detached s3 b).nodes P1).children.drop i
      = if P1 = P2 then ((s.nodes P1).children.set i b).set j a
        else (s.nodes P1).children.set i b := by
    rw [hD']
    by_cases h : P1 = P2
    · rw [if_pos h, if_pos h]
      subst h
      exact swap_same _ i j a b hi hj hab
    · rw [if_neg h, if_neg h]
      exact swap_in _ i a b hi
  rw [hM'] at hins2
  rw [hins2] at hcall
  have q1 := reattached_parent s3 P1 b
    (if P1 = P2 then ((s.nodes P1).children.set i b).set j a else (s.nodes P1).children.set i b)
  have q2 := reattached_children s3 P1 b
    (if P1 = P2 then ((s.nodes P1).children.set i b).set j a else (s.nodes P1).children.set i b)
  have q3 := reattached_type s3 P1 b
    (if P1 = P2 then ((s.nodes P1).children.set i b).set j a else (s.nodes P1).children.set i b)
  have q4 := reattached_layout s3 P1 b
    (if P1 = P2 then ((s.nodes P1).children.set i b).set j a else (s.nodes P1).children.set i b)
  have q5 := reattached_is_fullscreen s3 P1 b
    (if P1 = P2 then ((s.nodes P1).children.set i b).set j a else (s.nodes P1).children.set i b)
  have q6 := reattached_geometry s3 P1 b
    (if P1 = P2 then ((s.nodes P1).children.set i b).set j a else (s.nodes P1).children.set i b)
  have q7 := reattached_next_id s3 P1 b
    (if P1 = P2 then ((s.nodes P1).children.set i b).set j a else (s.nodes P1).children.set i b)
  have q8 := reattached_focus_stack s3 P1 b
    (if P1 = P2 then ((s.nodes P1).children.set i b).set j a else (s.nodes P1).children.set i b)
  generalize reattached s3 P1 b
    (if P1 = P2 then ((s.nodes P1).children.set i b).set j a else (s.nodes P1).children.set i b)
    = s4 at hcall q1 q2 q3 q4 q5 q6 q7 q8
  refine ⟨s4, hcall, by rw [q7, r7, hid2], by rw [q8, r8, hfoc2], fun m => ?_⟩
  refine ⟨?_, ?_, by rw [q3, r3, (hf m).2.2.1], by rw [q4, r4, (hf m).2.2.2.1],
    by rw [q5, r5, (hf m).2.2.2.2.1], ?_, ?_, ?_, ?_⟩
  · rw [q1, r1, (hf m).1]
  · rw [q2, hpb3]
    by_cases h1 : m = P1
    · rw [if_pos h1, if_pos h1]
    · rw [if_neg h1, if_neg h1, r2]
      by_cases h2 : m = P2
      · subst h2
        rw [if_pos rfl, if_pos rfl, if_pos rfl, if_neg (Ne.symm h1)]
        exact swap_out _ j a b hj hab
      · rw [if_neg (by simpa using Ne.symm h2), if_neg h2, if_neg h2, hpa2,
          if_neg (by simpa using Ne.symm h1), (hf m).2.1]
  · rw [(q6 m).1, (r6 m).1, (hf m).2.2.2.2.2.2.1]
  · rw [(q6 m).2.1, (r6 m).2.1, (hf m).2.2.2.2.2.2.2.1]
  · rw [(q6 m).2.2.1, (r6 m).2.2.1, (hf m).2.2.2.2.2.2.2.2.1]
  · rw [(q6 m).2.2.2, (r6 m).2.2.2, (hf m).2.2.2.2.2.2.2.2.2]


/-! ## The focus bookkeeping of `container_swap` -/

theorem seat_set_focus_ptr_nodes (s : State) (c : Option Nat) :
    (seat_set_focus_ptr s c).nodes = s.nodes ∧ (seat_set_focus_ptr s c).next_id = s.next_id := by
  cases c <;> exact ⟨rfl, rfl⟩

theorem refocus_hidden_some (env : Env) (s : State) (v : Nat) :
    ∃ t, refocus_hidden env s (some v) = some t ∧ t.nodes = s.nodes ∧
      t.next_id = s.next_id := by
  unfold refocus_hidden
  split
  · exact ⟨s, rfl, rfl, rfl⟩
  · exact ⟨_, rfl, (seat_set_focus_ptr_nodes _ _).1, (seat_set_focus_ptr_nodes _ _).2⟩

/-- The function `swap_focus` returns when the workspaces of the two nodes can be looked up
and both have a parent; it changes the focus stack only. -/
theorem swap_focus_some (env : Env) (s : State) (a b : Nat) (focus : Option Nat)
    (h1 : ∃ r, container_parent s a C_WORKSPACE = some r)
    (h2 : ∃ r, container_parent s b C_WORKSPACE = some r)
    (hpa : ∃ p, (s.nodes a).parent = some p) (hpb : ∃ p, (s.nodes b).parent = some p) :
    ∃ t, swap_focus env s a b focus = some t ∧ t.nodes = s.nodes ∧ t.next_id = s.next_id := by
  obtain ⟨r1, h1⟩ := h1
  obtain ⟨r2, h2⟩ := h2
  obtain ⟨p1, hpa⟩ := hpa
  obtain ⟨p2, hpb⟩ := hpb
  unfold swap_focus
  split
  · simp only [h1, h2, parent_is_tabbed_or_stacked, hpa, hpb]
    split
    · rename_i hx
      split at hx <;> simp at hx
    · split <;> exact ⟨_, rfl, rfl, rfl⟩
    · split
      · rename_i hx
        split at hx <;> simp at hx
      · split <;> exact ⟨_, rfl, rfl, rfl⟩
      · split
        · exact ⟨_, rfl, rfl, rfl⟩
        · exact ⟨_, rfl, (seat_set_focus_ptr_nodes _ _).1, (seat_set_focus_ptr_nodes _ _).2⟩
  · exact ⟨_, rfl, (seat_set_focus_ptr_nodes _ _).1, (seat_set_focus_ptr_nodes _ _).2⟩

/-- The function `container_swap` past its guards, for two nodes that are not fullscreen. -/
theorem container_swap_unfold (env : Env) (s : State) (a b : Nat) (v1 v2 : Nat)
    (hta : (s.nodes a).type = C_CONTAINER ∨ (s.nodes a).type = C_VIEW)
    (htb : (s.nodes b).type = C_CONTAINER ∨ (s.nodes b).type = C_VIEW)
    (hab : container_has_ancestor s a b = some false)
    (hba : container_has_ancestor s b a = some false)
    (hla : (s.nodes a).layout ≠ L_FLOATING) (hlb : (s.nodes b).layout ≠ L_FLOATING)
    (hfa : (s.nodes a).is_fullscreen = false) (hfb : (s.nodes b).is_fullscreen = false)
    (hv1 : visible_workspace env s a = some (some v1))
    (hv2 : visible_workspace env s b = some (some v2)) :
    container_swap env s a b =
      match swap_places s a b with
      | none => none
      | some s3 =>
        match refocus_hidden env s3 (some v1) with
        | none => none
        | some s4 =>
          match refocus_hidden env s4 (some v2) with
          | none => none
          | some s5 => swap_focus env s5 a b (seat_get_focus s) := by
  unfold container_swap
  rw [if_neg (by simp [hta, htb])]
  simp only [hab, hba]
  rw [if_neg (by simp [hla, hlb])]
  simp only [hfa, hfb, Bool.false_eq_true, if_false, hv1, hv2]
  cases swap_places s a b with
  | none => rfl
  | some s3 =>
    simp only
    cases refocus_hidden env s3 (some v1) with
    | none => rfl
    | some s4 =>
      simp only
      cases refocus_hidden env s4 (some v2) with
      | none => rfl
      | some s5 =>
        simp only
        cases swap_focus env s5 a b (seat_get_focus s) <;> rfl

/-- The heap after `container_swap(a, b)` for two nodes that pass the guards
and are not fullscreen: the call returns, the nodes have exchanged their
places and their x, y, width and height, and the types, layouts and
fullscreen flags are as before. -/
theorem container_swap_core (env : Env) (s : State) (a b P1 P2 : Nat) (i j : Nat) (v1 v2 : Nat)
    (hne : a ≠ b)
    (hta : (s.nodes a).type = C_CONTAINER ∨ (s.nodes a).type = C_VIEW)
    (htb : (s.nodes b).type = C_CONTAINER ∨ (s.nodes b).type = C_VIEW)
    (hab : container_has_ancestor s a b = some false)
    (hba : container_has_ancestor s b a = some false)
    (hla : (s.nodes a).layout ≠ L_FLOATING) (hlb : (s.nodes b).layout ≠ L_FLOATING)
    (hfa : (s.nodes a).is_fullscreen = false) (hfb : (s.nodes b).is_fullscreen = false)
    (hP1 : (s.nodes a).parent = some P1) (hP2 : (s.nodes b).parent = some P2)
    (hi : list_find (s.nodes P1).children a = some i)
    (hj : list_find (s.nodes P2).children b = some j)
    (hanc1 : a ∉ ancestors s s.next_id (some P1) ∧ b ∉ ancestors s s.next_id (some P1))
    (hanc2 : a ∉ ancestors s s.next_id (some P2) ∧ b ∉ ancestors s s.next_id (some P2))
    (hwa : ∃ r, container_parent s a C_WORKSPACE = some r)
    (hwb : ∃ r, container_parent s b C_WORKSPACE = some r)
    (hv1 : visible_workspace env s a = some (some v1))
    (hv2 : visible_workspace env s b = some (some v2)) :
    ∃ s', container_swap env s a b = some s' ∧ s'.next_id = s.next_id ∧
      ∀ m,
        (s'.nodes m).parent
          = (if m = b then some P1 else if m = a then some P2 else (s.nodes m).parent) ∧
        (s'.nodes m).children
          = (if m = P1 then
              (if P1 = P2 then ((s.nodes P1).children.set i b).set j a
                else (s.nodes P1).children.set i b)
            else if m = P2 then (s.nodes P2).children.set j a else (s.nodes m).children) ∧
        (s'.nodes m).type = (s.nodes m).type ∧
        (s'.nodes m).layout = (s.nodes m).layout ∧
        (s'.nodes m).is_fullscreen = (s.nodes m).is_fullscreen ∧
        (s'.nodes m).x
          = (if m = a then (s.nodes b).x else if m = b then (s.nodes a).x else (s.nodes m).x) ∧
        (s'.nodes m).y
          = (if m = a then (s.nodes b).y else if m = b then (s.nodes a).y else (s.nodes m).y) ∧
        (s'.nodes m).width
          = (if m = a then (s.nodes b).width else if m = b then (s.nodes a).width
            else (s.nodes m).width) ∧
        (s'.nodes m).height
          = (if m = a then (s.nodes b).height else if m = b then (s.nodes a).height
            else (s.nodes m).height) := by
  have hne' := Ne.symm hne
  obtain ⟨s4, hsp, hid4, _, hf⟩ := swap_places_spec s a b P1 P2 i j hne hP1 hP2 hi hj hfa hfb
  obtain ⟨s5, e5, n5, i5⟩ := refocus_hidden_some env s4 v1
  obtain ⟨s6, e6, n6, i6⟩ := refocus_hidden_some env s5 v2
  have hnodes : s6.nodes = s4.nodes := n6.trans n5
  have hid6 : s6.next_id = s.next_id := by rw [i6, i5, hid4]
  -- the lookups of the workspaces after the exchange
  have hagree : ∀ P, a ∉ ancestors s s.next_id (some P) → b ∉ ancestors s s.next_id (some P) →
      ∀ m ∈ ancestors s s.next_id (some P),
        (s6.nodes m).type = (s.nodes m).type ∧ (s6.nodes m).parent = (s.nodes m).parent := by
    intro P h1 h2 m hm
    have hma : m ≠ a := fun e => h1 (e ▸ hm)
    have hmb : m ≠ b := fun e => h2 (e ▸ hm)
    rw [hnodes, (hf m).2.2.1, (hf m).1, if_neg hmb, if_neg hma]
    exact ⟨rfl, rfl⟩
  have hl1 : ∃ r, container_parent s6 a C_WORKSPACE = some r := by
    obtain ⟨r, hr⟩ := hwb
    refine ⟨r, ?_⟩
    unfold container_parent at hr ⊢
    rw [hP2] at hr
    rw [hnodes, (hf a).1, if_neg hne, if_pos rfl, hid6]
    exact container_parent_loop_transfer s s6 C_WORKSPACE _ _ _ _ hr
      (hagree P2 hanc2.1 hanc2.2) (Nat.le_refl _)
  have hl2 : ∃ r, container_parent s6 b C_WORKSPACE = some r := by
    obtain ⟨r, hr⟩ := hwa
    refine ⟨r, ?_⟩
    unfold container_parent at hr ⊢
    rw [hP1] at hr
    rw [hnodes, (hf b).1, if_pos rfl, hid6]
    exact container_parent_loop_transfer s s6 C_WORKSPACE _ _ _ _ hr
      (hagree P1 hanc1.1 hanc1.2) (Nat.le_refl _)
  obtain ⟨s7, e7, n7, i7⟩ := swap_focus_some env s6 a b (seat_get_focus s) hl1 hl2
    ⟨P2, by rw [hnodes, (hf a).1, if_neg hne, if_pos rfl]⟩
    ⟨P1, by rw [hnodes, (hf b).1, if_pos rfl]⟩
  refine ⟨s7, ?_, by rw [i7, hid6], fun m => ?_⟩
  · rw [container_swap_unfold env s a b v1 v2 hta htb hab hba hla hlb hfa hfb hv1 hv2, hsp]
    simp only [e5, e6, e7]
  · rw [n7, hnodes]
    exact hf m

/-- Claim C16: for two distinct nodes `a` and `b` of class container or view,
neither an ancestor of the other, neither fullscreen nor in floating layout,
`a` at index `i` of its parent `P1` and `b` at index `j` of its parent `P2`,
`container_swap(a, b)` returns, and afterwards `a` has the former x, y, width
and height of `b` and is the child of `P2` at index `j`, `b` has the former
geometry of `a` and is the child of `P1` at index `i`, every other child of
`P1` and `P2` keeps its index, and the child sequences of all other nodes,
those inside the subtrees of `a` and `b` among them, are unchanged.  The
parents may be distinct or the same, with the nodes in either order.  The
tree is taken to be well formed around the two nodes: no parent chain from
`P1` or `P2` meets `a` or `b`, the workspaces of `a` and `b` can be looked up,
and the seat names the workspace shown on the output of each node. -/
theorem container_swap_exchanges (env : Env) (s : State) (a b P1 P2 : Nat) (i j : Nat)
    (v1 v2 : Nat)
    (hne : a ≠ b)
    (hta : (s.nodes a).type = C_CONTAINER ∨ (s.nodes a).type = C_VIEW)
    (htb : (s.nodes b).type = C_CONTAINER ∨ (s.nodes b).type = C_VIEW)
    (hab : container_has_ancestor s a b = some false)
    (hba : container_has_ancestor s b a = some false)
    (hla : (s.nodes a).layout ≠ L_FLOATING) (hlb : (s.nodes b).layout ≠ L_FLOATING)
    (hfa : (s.nodes a).is_fullscreen = false) (hfb : (s.nodes b).is_fullscreen = false)
    (hP1 : (s.nodes a).parent = some P1) (hP2 : (s.nodes b).parent = some P2)
    (hi : list_find (s.nodes P1).children a = some i)
    (hj : list_find (s.nodes P2).children b = some j)
    (hanc1 : a ∉ ancestors s s.next_id (some P1) ∧ b ∉ ancestors s s.next_id (some P1))
    (hanc2 : a ∉ ancestors s s.next_id (some P2) ∧ b ∉ ancestors s s.next_id (some P2))
    (hwa : ∃ r, container_parent s a C_WORKSPACE = some r)
    (hwb : ∃ r, container_parent s b C_WORKSPACE = some r)
    (hv1 : visible_workspace env s a = some (some v1))
    (hv2 : visible_workspace env s b = some (some v2)) :
    ∃ s', container_swap env s a b = some s' ∧
      (s'.nodes a).x = (s.nodes b).x ∧ (s'.nodes a).y = (s.nodes b).y ∧
      (s'.nodes a).width = (s.nodes b).width ∧ (s'.nodes a).height = (s.nodes b).height ∧
      (s'.nodes b).x = (s.nodes a).x ∧ (s'.nodes b).y = (s.nodes a).y ∧
      (s'.nodes b).width = (s.nodes a).width ∧ (s'.nodes b).height = (s.nodes a).height ∧
      (s'.nodes a).parent = some P2 ∧ (s'.nodes P2).children[j]? = some a ∧
      (s'.nodes b).parent = some P1 ∧ (s'.nodes P1).children[i]? = some b ∧
      (∀ k, k ≠ i → (P1 = P2 → k ≠ j) →
        (s'.nodes P1).children[k]? = (s.nodes P1).children[k]?) ∧
      (∀ k, k ≠ j → (P1 = P2 → k ≠ i) →
        (s'.nodes P2).children[k]? = (s.nodes P2).children[k]?) ∧
      (∀ m, m ≠ P1 → m ≠ P2 → (s'.nodes m).children = (s.nodes m).children) ∧
      (∀ m, m ≠ a → m ≠ b → (s'.nodes m).parent = (s.nodes m).parent) := by
  have hne' := Ne.symm hne
  have hilt := list_find_lt _ _ _ hi
  have hjlt := list_find_lt _ _ _ hj
  obtain ⟨s', hcall, _, hf⟩ := container_swap_core env s a b P1 P2 i j v1 v2 hne hta htb hab hba
    hla hlb hfa hfb hP1 hP2 hi hj hanc1 hanc2 hwa hwb hv1 hv2
  have hij : P1 = P2 → i ≠ j := by
    intro e hij
    subst e
    subst hij
    have h1 := (list_find_iff_index _ a i).1 hi
    have h2 := (list_find_iff_index _ b i).1 hj
    rw [h1.1] at h2
    exact hne (Option.some.inj h2.1)
  refine ⟨s', hcall, ?_, ?_, ?_, ?_, ?_, ?_, ?_, ?_, ?_, ?_, ?_, ?_, ?_, ?_, ?_, ?_⟩
  · rw [(hf a).2.2.2.2.2.1, if_pos rfl]
  · rw [(hf a).2.2.2.2.2.2.1, if_pos rfl]
  · rw [(hf a).2.2.2.2.2.2.2.1, if_pos rfl]
  · rw [(hf a).2.2.2.2.2.2.2.2, if_pos rfl]
  · rw [(hf b).2.2.2.2.2.1, if_neg hne', if_pos rfl]
  · rw [(hf b).2.2.2.2.2.2.1, if_neg hne', if_pos rfl]
  · rw [(hf b).2.2.2.2.2.2.2.1, if_neg hne', if_pos rfl]
  · rw [(hf b).2.2.2.2.2.2.2.2, if_neg hne', if_pos rfl]
  · rw [(hf a).1, if_neg hne, if_pos rfl]
  · rw [(hf P2).2.1]
    by_cases h : P1 = P2
    · subst h
      rw [if_pos rfl, if_pos rfl]
      simp [List.getElem?_set, hjlt]
    · rw [if_neg (Ne.symm h), if_pos rfl]
      simp [List.getElem?_set, hjlt]
  · rw [(hf b).1, if_pos rfl]
  · rw [(hf P1).2.1, if_pos rfl]
    by_cases h : P1 = P2
    · rw [if_pos h]
      simp [List.getElem?_set, hilt, Ne.symm (hij h)]
    · rw [if_neg h]
      simp [List.getElem?_set, hilt]
  · intro k hk1 hk2
    rw [(hf P1).2.1, if_pos rfl]
    by_cases h : P1 = P2
    · rw [if_pos h]
      simp [List.getElem?_set, Ne.symm hk1, Ne.symm (hk2 h)]
    · rw [if_neg h]
      simp [List.getElem?_set, Ne.symm hk1]
  · intro k hk1 hk2
    rw [(hf P2).2.1]
    by_cases h : P1 = P2
    · subst h
      rw [if_pos rfl, if_pos rfl]
      simp [List.getElem?_set, Ne.symm hk1, Ne.symm (hk2 rfl)]
    · rw [if_neg (Ne.symm h), if_pos rfl]
      simp [List.getElem?_set, Ne.symm hk1]
  · intro m h1 h2
    rw [(hf m).2.1, if_neg h1, if_neg h2]
  · intro m h1 h2
    rw [(hf m).1, if_neg h2, if_neg h1]

/-- Witness of `container_swap_exchanges`: in `example_tree` the view 4 of
workspace 2 and the view 9 of the container 7 have different parents; in
`views_tree` the views 3 and 5 have the same parent, and are swapped in either
order. -/
theorem container_swap_exchanges_witness :
    (∃ s', container_swap (example_env WRAP_NO no_adjacent_output) example_tree 4 9 = some s' ∧
      (s'.nodes 4).x = (example_tree.nodes 9).x ∧ (s'.nodes 4).y = (example_tree.nodes 9).y ∧
      (s'.nodes 4).width = (example_tree.nodes 9).width ∧
      (s'.nodes 4).height = (example_tree.nodes 9).height ∧
      (s'.nodes 9).x = (example_tree.nodes 4).x ∧ (s'.nodes 9).y = (example_tree.nodes 4).y ∧
      (s'.nodes 9).width = (example_tree.nodes 4).width ∧
      (s'.nodes 9).height = (example_tree.nodes 4).height ∧
      (s'.nodes 4).parent = some 7 ∧ (s'.nodes 7).children[1]? = some 4 ∧
      (s'.nodes 9).parent = some 2 ∧ (s'.nodes 2).children[0]? = some 9 ∧
      (∀ k, k ≠ 0 → (2 = 7 → k ≠ 1) →
        (s'.nodes 2).children[k]? = (example_tree.nodes 2).children[k]?) ∧
      (∀ k, k ≠ 1 → (2 = 7 → k ≠ 0) →
        (s'.nodes 7).children[k]? = (example_tree.nodes 7).children[k]?) ∧
      (∀ m, m ≠ 2 → m ≠ 7 → (s'.nodes m).children = (example_tree.nodes m).children) ∧
      (∀ m, m ≠ 4 → m ≠ 9 → (s'.nodes m).parent = (example_tree.nodes m).parent)) ∧
    (∃ s', container_swap (example_env WRAP_NO no_adjacent_output) (views_tree [3, 4, 5]) 3 5
        = some s' ∧
      (s'.nodes 3).x = ((views_tree [3, 4, 5]).nodes 5).x ∧
      (s'.nodes 3).y = ((views_tree [3, 4, 5]).nodes 5).y ∧
      (s'.nodes 3).width = ((views_tree [3, 4, 5]).nodes 5).width ∧
      (s'.nodes 3).height = ((views_tree [3, 4, 5]).nodes 5).height ∧
      (s'.nodes 5).x = ((views_tree [3, 4, 5]).nodes 3).x ∧
      (s'.nodes 5).y = ((views_tree [3, 4, 5]).nodes 3).y ∧
      (s'.nodes 5).width = ((views_tree [3, 4, 5]).nodes 3).width ∧
      (s'.nodes 5).height = ((views_tree [3, 4, 5]).nodes 3).height ∧
      (s'.nodes 3).parent = some 2 ∧ (s'.nodes 2).children[2]? = some 3 ∧
      (s'.nodes 5).parent = some 2 ∧ (s'.nodes 2).children[0]? = some 5 ∧
      (∀ k, k ≠ 0 → (2 = 2 → k ≠ 2) →
        (s'.nodes 2).children[k]? = ((views_tree [3, 4, 5]).nodes 2).children[k]?) ∧
      (∀ k, k ≠ 2 → (2 = 2 → k ≠ 0) →
        (s'.nodes 2).children[k]? = ((views_tree [3, 4, 5]).nodes 2).children[k]?) ∧
      (∀ m, m ≠ 2 → m ≠ 2 →
        (s'.nodes m).children = ((views_tree [3, 4, 5]).nodes m).children) ∧
      (∀ m, m ≠ 3 → m ≠ 5 → (s'.nodes m).parent = ((views_tree [3, 4, 5]).nodes m).parent)) ∧
    (∃ s', container_swap (example_env WRAP_NO no_adjacent_output) (views_tree [3, 4, 5]) 5 3
        = some s' ∧
      (s'.nodes 5).x = ((views_tree [3, 4, 5]).nodes 3).x ∧
      (s'.nodes 5).y = ((views_tree [3, 4, 5]).nodes 3).y ∧
      (s'.nodes 5).width = ((views_tree [3, 4, 5]).nodes 3).width ∧
      (s'.nodes 5).height = ((views_tree [3, 4, 5]).nodes 3).height ∧
      (s'.nodes 3).x = ((views_tree [3, 4, 5]).nodes 5).x ∧
      (s'.nodes 3).y = ((views_tree [3, 4, 5]).nodes 5).y ∧
      (s'.nodes 3).width = ((views_tree [3, 4, 5]).nodes 5).width ∧
      (s'.nodes 3).height = ((views_tree [3, 4, 5]).nodes 5).height ∧
      (s'.nodes 5).parent = some 2 ∧ (s'.nodes 2).children[0]? = some 5 ∧
      (s'.nodes 3).parent = some 2 ∧ (s'.nodes 2).children[2]? = some 3 ∧
      (∀ k, k ≠ 2 → (2 = 2 → k ≠ 0) →
        (s'.nodes 2).children[k]? = ((views_tree [3, 4, 5]).nodes 2).children[k]?) ∧
      (∀ k, k ≠ 0 → (2 = 2 → k ≠ 2) →
        (s'.nodes 2).children[k]? = ((views_tree [3, 4, 5]).nodes 2).children[k]?) ∧
      (∀ m, m ≠ 2 → m ≠ 2 →
        (s'.nodes m).children = ((views_tree [3, 4, 5]).nodes m).children) ∧
      (∀ m, m ≠ 5 → m ≠ 3 → (s'.nodes m).parent = ((views_tree [3, 4, 5]).nodes m).parent)) :=
  ⟨container_swap_exchanges (example_env WRAP_NO no_adjacent_output) example_tree 4 9 2 7 0 1 2 2
      (by decide) (by decide) (by decide) (by decide) (by decide) (by decide) (by decide)
      (by decide) (by decide) (by decide) (by decide) (by decide) (by decide) (by decide)
      (by decide) ⟨_, rfl⟩ ⟨_, rfl⟩ (by decide) (by decide),
    container_swap_exchanges (example_env WRAP_NO no_adjacent_output) (views_tree [3, 4, 5])
      3 5 2 2 0 2 2 2
      (by decide) (by decide) (by decide) (by decide) (by decide) (by decide) (by decide)
      (by decide) (by decide) (by decide) (by decide) (by decide) (by decide) (by decide)
      (by decide) ⟨_, rfl⟩ ⟨_, rfl⟩ (by decide) (by decide),
    container_swap_exchanges (example_env WRAP_NO no_adjacent_output) (views_tree [3, 4, 5])
      5 3 2 2 2 0 2 2
      (by decide) (by decide) (by decide) (by decide) (by decide) (by decide) (by decide)
      (by decide) (by decide) (by decide) (by decide) (by decide) (by decide) (by decide)
      (by decide) ⟨_, rfl⟩ ⟨_, rfl⟩ (by decide) (by decide)⟩

/-! ## Parent chains after an exchange -/

theorem ancestors_transfer (s t : State) :
    ∀ (f : Nat) (p : Option Nat),
      (∀ m ∈ ancestors s f p, (t.nodes m).parent = (s.nodes m).parent) →
      ancestors t f p = ancestors s f p := by
  intro f
  induction f with
  | zero => intro p _; rfl
  | succ f ih =>
    intro p h
    cases p with
    | none => rfl
    | some p =>
      simp only [ancestors] at h ⊢
      rw [h p (List.mem_cons_self _ _)]
      rw [ih _ (fun m hm => h m (List.mem_cons_of_mem _ hm))]

theorem container_has_ancestor_loop_transfer (s t : State) (x : Nat) :
    ∀ (f : Nat) (p : Nat),
      (∀ m ∈ ancestors s f (some p),
        (t.nodes m).type = (s.nodes m).type ∧ (t.nodes m).parent = (s.nodes m).parent) →
      container_has_ancestor_loop t x f p = container_has_ancestor_loop s x f p := by
  intro f
  induction f with
  | zero => intro p _; rfl
  | succ f ih =>
    intro p h
    simp only [ancestors] at h
    obtain ⟨h1, h2⟩ := h p (List.mem_cons_self _ _)
    simp only [container_has_ancestor_loop, h1, h2]
    cases hq : (s.nodes p).parent with
    | none => rfl
    | some q =>
      simp only
      rw [ih q (fun m hm => h m (by rw [hq]; exact List.mem_cons_of_mem _ hm))]

/-- A walk to the root that does not meet `x` does not meet a node `y` outside
the chain either. -/
theorem container_has_ancestor_loop_other (s : State) (x y : Nat) :
    ∀ (f : Nat) (p : Nat),
      container_has_ancestor_loop s x f p = some false →
      y ∉ ancestors s f (some p) →
      container_has_ancestor_loop s y f p = some false := by
  intro f
  induction f with
  | zero => intro p h _; cases h
  | succ f ih =>
    intro p h hy
    simp only [container_has_ancestor_loop] at h ⊢
    by_cases hr : (s.nodes p).type = C_ROOT
    · rw [if_pos hr]
    · rw [if_neg hr] at h ⊢
      cases hq : (s.nodes p).parent with
      | none => rw [hq] at h; cases h
      | some q =>
        rw [hq] at h
        simp only at h ⊢
        by_cases hqx : q = x
        · rw [if_pos hqx] at h; cases h
        · rw [if_neg hqx] at h
          simp only [ancestors, hq, List.mem_cons, not_or] at hy
          have hf : f ≠ 0 := by
            intro e
            rw [e] at h
            cases h
          obtain ⟨g, hg⟩ : ∃ g, f = g + 1 := ⟨f - 1, by omega⟩
          have hqy : q ≠ y := by
            intro e
            apply hy.2
            rw [hg, e]
            simp [ancestors]
          rw [if_neg hqy]
          exact ih q h hy.2

theorem container_has_ancestor_step (s : State) (c x P : Nat)
    (hty : (s.nodes c).type ≠ C_ROOT) (hP : (s.nodes c).parent = some P) :
    container_has_ancestor s c x
      = if P = x then some true else container_has_ancestor_loop s x s.next_id P := by
  unfold container_has_ancestor
  simp only [container_has_ancestor_loop, if_neg hty, hP]

theorem nodup_index_unique (l : List Nat) (hnd : l.Nodup) (i k x : Nat)
    (h1 : l[i]? = some x) (h2 : l[k]? = some x) : k = i := by
  have hi : i < l.length := by
    by_contra hc
    rw [List.getElem?_eq_none (by omega)] at h1
    cases h1
  have hk : k < l.length := by
    by_contra hc
    rw [List.getElem?_eq_none (by omega)] at h2
    cases h2
  rw [List.getElem?_eq_getElem hi] at h1
  rw [List.getElem?_eq_getElem hk] at h2
  exact (List.Nodup.getElem_inj_iff hnd).1 ((Option.some.inj h2).trans (Option.some.inj h1).symm)

theorem set_restore (l : List Nat) (i a b : Nat) (h : l[i]? = some a) :
    (l.set i b).set i a = l := by
  apply List.ext_getElem?
  intro k
  simp only [List.getElem?_set, List.length_set]
  by_cases hk : i = k
  · subst hk
    have hi : i < l.length := by
      by_contra hc
      rw [List.getElem?_eq_none (by omega)] at h
      cases h
    simp [hi, h]
  · simp [hk]

theorem set_set_restore (l : List Nat) (i j a b : Nat) (ha : l[i]? = some a)
    (hb : l[j]? = some b) :
    (((l.set i b).set j a).set j b).set i a = l := by
  apply List.ext_getElem?
  intro k
  have hi : i < l.length := by
    by_contra hc
    rw [List.getElem?_eq_none (by omega)] at ha
    cases ha
  have hj : j < l.length := by
    by_contra hc
    rw [List.getElem?_eq_none (by omega)] at hb
    cases hb
  simp only [List.getElem?_set, List.length_set]
  by_cases hk : i = k
  · subst hk; simp [hi, ha]
  · by_cases hk2 : j = k
    · subst hk2; simp [hj, hb, hk]
    · simp [hk, hk2]


/-- Claim C17: for two nodes `a` and `b` that satisfy the preconditions of the
swap and are not fullscreen, `container_swap(a, b)` returns, and a second
`container_swap(a, b)` on the heap it leaves returns as well and restores the
x, y, width and height of both nodes, their parents and indices, and every
child sequence and parent pointer of the tree.  The tree is well formed around
the two nodes as in `container_swap_exchanges`, each of the two nodes is
listed once (the child sequence of a common parent has no duplicates, and with
distinct parents neither node is listed under the parent of the other), and
after the first swap the seat again names the workspaces shown on the outputs
of the two nodes. -/
theorem container_swap_twice (env : Env) (s : State) (a b P1 P2 : Nat) (i j : Nat)
    (v1 v2 : Nat)
    (hne : a ≠ b)
    (hta : (s.nodes a).type = C_CONTAINER ∨ (s.nodes a).type = C_VIEW)
    (htb : (s.nodes b).type = C_CONTAINER ∨ (s.nodes b).type = C_VIEW)
    (hab : container_has_ancestor s a b = some false)
    (hba : container_has_ancestor s b a = some false)
    (hla : (s.nodes a).layout ≠ L_FLOATING) (hlb : (s.nodes b).layout ≠ L_FLOATING)
    (hfa : (s.nodes a).is_fullscreen = false) (hfb : (s.nodes b).is_fullscreen = false)
    (hP1 : (s.nodes a).parent = some P1) (hP2 : (s.nodes b).parent = some P2)
    (hi : list_find (s.nodes P1).children a = some i)
    (hj : list_find (s.nodes P2).children b = some j)
    (hanc1 : a ∉ ancestors s s.next_id (some P1) ∧ b ∉ ancestors s s.next_id (some P1))
    (hanc2 : a ∉ ancestors s s.next_id (some P2) ∧ b ∉ ancestors s s.next_id (some P2))
    (hwa : ∃ r, container_parent s a C_WORKSPACE = some r)
    (hwb : ∃ r, container_parent s b C_WORKSPACE = some r)
    (hv1 : visible_workspace env s a = some (some v1))
    (hv2 : visible_workspace env s b = some (some v2))
    (hnd : P1 = P2 → (s.nodes P1).children.Nodup)
    (hx : P1 ≠ P2 → a ∉ (s.nodes P2).children ∧ b ∉ (s.nodes P1).children) :
    ∃ s1, container_swap env s a b = some s1 ∧
      ∀ w1 w2, visible_workspace env s1 a = some (some w1) →
        visible_workspace env s1 b = some (some w2) →
        ∃ s2, container_swap env s1 a b = some s2 ∧
          (s2.nodes a).x = (s.nodes a).x ∧ (s2.nodes a).y = (s.nodes a).y ∧
          (s2.nodes a).width = (s.nodes a).width ∧ (s2.nodes a).height = (s.nodes a).height ∧
          (s2.nodes b).x = (s.nodes b).x ∧ (s2.nodes b).y = (s.nodes b).y ∧
          (s2.nodes b).width = (s.nodes b).width ∧ (s2.nodes b).height = (s.nodes b).height ∧
          (s2.nodes a).parent = some P1 ∧ list_find (s2.nodes P1).children a = some i ∧
          (s2.nodes b).parent = some P2 ∧ list_find (s2.nodes P2).children b = some j ∧
          (∀ m, (s2.nodes m).children = (s.nodes m).children) ∧
          (∀ m, (s2.nodes m).parent = (s.nodes m).parent) := by
  have hne' := Ne.symm hne
  have hilt := list_find_lt _ _ _ hi
  have hjlt := list_find_lt _ _ _ hj
  obtain ⟨ai, abefore⟩ := (list_find_iff_index _ a i).1 hi
  obtain ⟨bj, bbefore⟩ := (list_find_iff_index _ b j).1 hj
  have hra : (s.nodes a).type ≠ C_ROOT := by rcases hta with h | h <;> rw [h] <;> decide
  have hrb : (s.nodes b).type ≠ C_ROOT := by rcases htb with h | h <;> rw [h] <;> decide
  -- the walks to the root made by the guards
  have hab' := hab
  rw [container_has_ancestor_step s a b P1 hra hP1] at hab'
  have hP1b : P1 ≠ b := by
    intro e
    rw [if_pos e] at hab'
    cases hab'
  rw [if_neg hP1b] at hab'
  have hba' := hba
  rw [container_has_ancestor_step s b a P2 hrb hP2] at hba'
  have hP2a : P2 ≠ a := by
    intro e
    rw [if_pos e] at hba'
    cases hba'
  rw [if_neg hP2a] at hba'
  have hid : s.next_id ≠ 0 := by
    intro e
    rw [e] at hab'
    cases hab'
  obtain ⟨g, hg⟩ : ∃ g, s.next_id = g + 1 := ⟨s.next_id - 1, by omega⟩
  have hP2b : P2 ≠ b := by
    intro e
    apply hanc2.2
    rw [hg, e]
    simp [ancestors]
  have hP1a : P1 ≠ a := by
    intro e
    apply hanc1.1
    rw [hg, e]
    simp [ancestors]
  have hij : P1 = P2 → i ≠ j := by
    intro e h
    subst e
    subst h
    rw [ai] at bj
    exact hne (Option.some.inj bj)
  -- the first swap
  obtain ⟨s1, hcall1, hid1, hf⟩ := container_swap_core env s a b P1 P2 i j v1 v2 hne hta htb hab
    hba hla hlb hfa hfb hP1 hP2 hi hj hanc1 hanc2 hwa hwb hv1 hv2
  refine ⟨s1, hcall1, fun w1 w2 hw1 hw2 => ?_⟩
  have hagree : ∀ P, a ∉ ancestors s s.next_id (some P) → b ∉ ancestors s s.next_id (some P) →
      ∀ m ∈ ancestors s s.next_id (some P),
        (s1.nodes m).type = (s.nodes m).type ∧ (s1.nodes m).parent = (s.nodes m).parent := by
    intro P h1 h2 m hm
    have hma : m ≠ a := fun e => h1 (e ▸ hm)
    have hmb : m ≠ b := fun e => h2 (e ▸ hm)
    rw [(hf m).2.2.1, (hf m).1, if_neg hmb, if_neg hma]
    exact ⟨rfl, rfl⟩
  have hpa1 : (s1.nodes a).parent = some P2 := by rw [(hf a).1, if_neg hne, if_pos rfl]
  have hpb1 : (s1.nodes b).parent = some P1 := by rw [(hf b).1, if_pos rfl]
  have hab1 : container_has_ancestor s1 a b = some false := by
    rw [container_has_ancestor_step s1 a b P2 (by rw [(hf a).2.2.1]; exact hra) hpa1,
      if_neg hP2b, hid1,
      container_has_ancestor_loop_transfer s s1 b _ _ (hagree P2 hanc2.1 hanc2.2)]
    exact container_has_ancestor_loop_other s a b _ _ hba' hanc2.2
  have hba1 : container_has_ancestor s1 b a = some false := by
    rw [container_has_ancestor_step s1 b a P1 (by rw [(hf b).2.2.1]; exact hrb) hpb1,
      if_neg hP1a, hid1,
      container_has_ancestor_loop_transfer s s1 a _ _ (hagree P1 hanc1.1 hanc1.2)]
    exact container_has_ancestor_loop_other s b a _ _ hab' hanc1.1
  have hA1 : ancestors s1 s1.next_id (some P1) = ancestors s s.next_id (some P1) := by
    rw [hid1]
    exact ancestors_transfer s s1 _ _ (fun m hm => (hagree P1 hanc1.1 hanc1.2 m hm).2)
  have hA2 : ancestors s1 s1.next_id (some P2) = ancestors s s.next_id (some P2) := by
    rw [hid1]
    exact ancestors_transfer s s1 _ _ (fun m hm => (hagree P2 hanc2.1 hanc2.2 m hm).2)
  have hwa1 : ∃ r, container_parent s1 a C_WORKSPACE = some r := by
    obtain ⟨r, hr⟩ := hwb
    refine ⟨r, ?_⟩
    unfold container_parent at hr ⊢
    rw [hP2] at hr
    rw [hpa1, hid1]
    exact container_parent_loop_transfer s s1 C_WORKSPACE _ _ _ _ hr
      (hagree P2 hanc2.1 hanc2.2) (Nat.le_refl _)
  have hwb1 : ∃ r, container_parent s1 b C_WORKSPACE = some r := by
    obtain ⟨r, hr⟩ := hwa
    refine ⟨r, ?_⟩
    unfold container_parent at hr ⊢
    rw [hP1] at hr
    rw [hpb1, hid1]
    exact container_parent_loop_transfer s s1 C_WORKSPACE _ _ _ _ hr
      (hagree P1 hanc1.1 hanc1.2) (Nat.le_refl _)
  -- the child sequences after the first swap
  have hc1 : (s1.nodes P1).children
      = if P1 = P2 then ((s.nodes P1).children.set i b).set j a
        else (s.nodes P1).children.set i b := by
    rw [(hf P1).2.1, if_pos rfl]
  have hc2 : (s1.nodes P2).children
      = if P1 = P2 then ((s.nodes P1).children.set i b).set j a
        else (s.nodes P2).children.set j a := by
    rw [(hf P2).2.1]
    by_cases h : P1 = P2
    · rw [if_pos h.symm, if_pos h, if_pos h]
    · rw [if_neg (Ne.symm h), if_pos rfl, if_neg h]
  have hi1 : list_find (s1.nodes P2).children a = some j := by
    rw [hc2, list_find_iff_index]
    by_cases h : P1 = P2
    · subst h
      rw [if_pos rfl]
      refine ⟨by simp [List.getElem?_set, hjlt], fun k hk => ?_⟩
      simp only [List.getElem?_set, List.length_set]
      rw [if_neg (by omega)]
      by_cases hki : i = k
      · rw [if_pos hki, if_pos hilt]
        simpa using hne'
      · rw [if_neg hki]
        intro hka
        exact hki (nodup_index_unique _ (hnd rfl) i k a ai hka).symm
    · rw [if_neg h]
      refine ⟨by simp [List.getElem?_set, hjlt], fun k hk => ?_⟩
      simp only [List.getElem?_set]
      rw [if_neg (by omega)]
      intro hka
      exact (hx h).1 (List.getElem?_mem hka)
  have hj1 : list_find (s1.nodes P1).children b = some i := by
    rw [hc1, list_find_iff_index]
    by_cases h : P1 = P2
    · have hij' := hij h
      subst h
      rw [if_pos rfl]
      refine ⟨by simp [List.getElem?_set, hilt, Ne.symm hij'], fun k hk => ?_⟩
      simp only [List.getElem?_set, List.length_set]
      by_cases hkj : j = k
      · rw [if_pos hkj, if_pos hjlt]
        simpa using hne
      · rw [if_neg hkj, if_neg (by omega)]
        intro hkb
        exact hkj (nodup_index_unique _ (hnd rfl) j k b bj hkb).symm
    · rw [if_neg h]
      refine ⟨by simp [List.getElem?_set, hilt], fun k hk => ?_⟩
      simp only [List.getElem?_set]
      rw [if_neg (by omega)]
      intro hkb
      exact (hx h).2 (List.getElem?_mem hkb)
  -- the second swap
  obtain ⟨s2, hcall2, _, hg2⟩ := container_swap_core env s1 a b P2 P1 j i w1 w2 hne
    (by rw [(hf a).2.2.1]; exact hta) (by rw [(hf b).2.2.1]; exact htb) hab1 hba1
    (by rw [(hf a).2.2.2.1]; exact hla) (by rw [(hf b).2.2.2.1]; exact hlb)
    (by rw [(hf a).2.2.2.2.1]; exact hfa) (by rw [(hf b).2.2.2.2.1]; exact hfb)
    hpa1 hpb1 hi1 hj1 (by rw [hA2]; exact hanc2) (by rw [hA1]; exact hanc1) hwa1 hwb1 hw1 hw2
  have hchildren : ∀ m, (s2.nodes m).children = (s.nodes m).children := by
    intro m
    rw [(hg2 m).2.1]
    by_cases h : P1 = P2
    · subst h
      by_cases hm : m = P1
      · subst hm
        rw [if_pos rfl, if_pos rfl, hc1, if_pos rfl]
        exact set_set_restore _ i j a b ai bj
      · rw [if_neg hm, if_neg hm, (hf m).2.1, if_neg hm, if_neg hm]
    · by_cases hm2 : m = P2
      · subst hm2
        rw [if_pos rfl, if_neg (Ne.symm h), hc2, if_neg h]
        exact set_restore _ j b a bj
      · rw [if_neg hm2]
        by_cases hm1 : m = P1
        · subst hm1
          rw [if_pos rfl, hc1, if_neg h]
          exact set_restore _ i a b ai
        · rw [if_neg hm1, (hf m).2.1, if_neg hm1, if_neg hm2]
  have hparent : ∀ m, (s2.nodes m).parent = (s.nodes m).parent := by
    intro m
    rw [(hg2 m).1]
    by_cases hmb : m = b
    · rw [if_pos hmb, hmb, hP2]
    · rw [if_neg hmb]
      by_cases hma : m = a
      · rw [if_pos hma, hma, hP1]
      · rw [if_neg hma, (hf m).1, if_neg hmb, if_neg hma]
  refine ⟨s2, hcall2, ?_, ?_, ?_, ?_, ?_, ?_, ?_, ?_, ?_, ?_, ?_, ?_, hchildren, hparent⟩
  · rw [(hg2 a).2.2.2.2.2.1, if_pos rfl, (hf b).2.2.2.2.2.1, if_neg hne', if_pos rfl]
  · rw [(hg2 a).2.2.2.2.2.2.1, if_pos rfl, (hf b).2.2.2.2.2.2.1, if_neg hne', if_pos rfl]
  · rw [(hg2 a).2.2.2.2.2.2.2.1, if_pos rfl, (hf b).2.2.2.2.2.2.2.1, if_neg hne', if_pos rfl]
  · rw [(hg2 a).2.2.2.2.2.2.2.2, if_pos rfl, (hf b).2.2.2.2.2.2.2.2, if_neg hne', if_pos rfl]
  · rw [(hg2 b).2.2.2.2.2.1, if_neg hne', if_pos rfl, (hf a).2.2.2.2.2.1, if_pos rfl]
  · rw [(hg2 b).2.2.2.2.2.2.1, if_neg hne', if_pos rfl, (hf a).2.2.2.2.2.2.1, if_pos rfl]
  · rw [(hg2 b).2.2.2.2.2.2.2.1, if_neg hne', if_pos rfl, (hf a).2.2.2.2.2.2.2.1, if_pos rfl]
  · rw [(hg2 b).2.2.2.2.2.2.2.2, if_neg hne', if_pos rfl, (hf a).2.2.2.2.2.2.2.2, if_pos rfl]
  · rw [hparent a, hP1]
  · rw [hchildren P1]; exact hi
  · rw [hparent b, hP2]
  · rw [hchildren P2]; exact hj

/-- Witness of `container_swap_twice`: in `example_tree` the view 4 of
workspace 2 and the view 9 of the container 7 are swapped twice; the two calls
are evaluated as well. -/
theorem container_swap_twice_witness :
    (∃ s1, container_swap (example_env WRAP_NO no_adjacent_output) example_tree 4 9 = some s1 ∧
      ∀ w1 w2, visible_workspace (example_env WRAP_NO no_adjacent_output) s1 4 = some (some w1) →
        visible_workspace (example_env WRAP_NO no_adjacent_output) s1 9 = some (some w2) →
        ∃ s2, container_swap (example_env WRAP_NO no_adjacent_output) s1 4 9 = some s2 ∧
          (s2.nodes 4).x = (example_tree.nodes 4).x ∧ (s2.nodes 4).y = (example_tree.nodes 4).y ∧
          (s2.nodes 4).width = (example_tree.nodes 4).width ∧
          (s2.nodes 4).height = (example_tree.nodes 4).height ∧
          (s2.nodes 9).x = (example_tree.nodes 9).x ∧ (s2.nodes 9).y = (example_tree.nodes 9).y ∧
          (s2.nodes 9).width = (example_tree.nodes 9).width ∧
          (s2.nodes 9).height = (example_tree.nodes 9).height ∧
          (s2.nodes 4).parent = some 2 ∧ list_find (s2.nodes 2).children 4 = some 0 ∧
          (s2.nodes 9).parent = some 7 ∧ list_find (s2.nodes 7).children 9 = some 1 ∧
          (∀ m, (s2.nodes m).children = (example_tree.nodes m).children) ∧
          (∀ m, (s2.nodes m).parent = (example_tree.nodes m).parent)) ∧
    ((container_swap (example_env WRAP_NO no_adjacent_output) example_tree 4 9).bind fun t =>
        container_swap (example_env WRAP_NO no_adjacent_output) t 4 9).map
        (fun t => ((t.nodes 2).children, (t.nodes 7).children, (t.nodes 4).parent,
          (t.nodes 9).parent, (t.nodes 4).width, (t.nodes 9).y))
      = some ([4, 5, 6], [8, 9], some 2, some 7, 640, 540) :=
  ⟨container_swap_twice (example_env WRAP_NO no_adjacent_output) example_tree 4 9 2 7 0 1 2 2
      (by decide) (by decide) (by decide) (by decide) (by decide) (by decide) (by decide)
      (by decide) (by decide) (by decide) (by decide) (by decide) (by decide) (by decide)
      (by decide) ⟨_, rfl⟩ ⟨_, rfl⟩ (by decide) (by decide) (by decide) (by decide),
    by decide⟩


/-! ## Addition of a child and re-insertion of a fullscreen node -/

/-- The fullscreen bookkeeping returns when the old workspace can be looked up
and the node lies in a workspace that has a parent. -/
theorem reparent_returns (t : State) (c : Nat) (op : Option Nat) (W O : Nat)
    (h1 : ∃ ow, old_workspace_of t op = some ow)
    (h2 : container_parent t c C_WORKSPACE = some (some W))
    (h3 : (t.nodes W).parent = some O) :
    ∃ s', container_handle_fullscreen_reparent t c op = some s' := by
  by_cases hfs : (t.nodes c).is_fullscreen = true
  · rw [container_handle_fullscreen_reparent_eq t c op hfs]
    obtain ⟨ow, how⟩ := h1
    have hp : ((cross_slots t c ow W).nodes W).parent = some O := by
      rw [((cross_slots_same_tree t c ow W).2.2 W).2.1, h3]
    simp only [how, h2, hp]
    split <;> exact ⟨_, rfl⟩
  · exact ⟨t, container_handle_fullscreen_reparent_of_not_fullscreen t c op
      (by simpa using hfs)⟩

theorem adopted_fields (s : State) (P c : Nat) (m : Nat) :
    ((adopted s P c).nodes m).children
        = (if m = P then (s.nodes P).children ++ [c] else (s.nodes m).children) ∧
    ((adopted s P c).nodes m).parent = (if m = c then some P else (s.nodes m).parent) ∧
    ((adopted s P c).nodes m).type = (s.nodes m).type ∧
    ((adopted s P c).nodes m).is_fullscreen = (s.nodes m).is_fullscreen := by
  unfold adopted
  rcases eq_or_ne m c with rfl | h1 <;> rcases eq_or_ne m P with rfl | h2 <;>
    simp [set_children, set_parent, list_add, *]

/-- Claim C30: `container_add_child(P, c)` only appends.  It returns, and
afterwards the child sequence of `P` is the former one followed by `c`, the
parent of `c` is `P`, every other child sequence is unchanged, and so is every
other parent pointer; in particular `c` is not detached: when it was listed
under another parent `Q` it is still listed there, and is then listed under
both `Q` and `P`.  For a fullscreen `c` the workspaces involved must exist
(`fullscreen_reparent_ready`). -/
theorem container_add_child_appends (s : State) (P c : Nat)
    (hfs : (s.nodes c).is_fullscreen = true → fullscreen_reparent_ready s P c) :
    ∃ s', container_add_child s P c = some s' ∧
      (s'.nodes P).children = (s.nodes P).children ++ [c] ∧
      (s'.nodes c).parent = some P ∧
      (∀ q, q ≠ P → (s'.nodes q).children = (s.nodes q).children) ∧
      (∀ n, n ≠ c → (s'.nodes n).parent = (s.nodes n).parent) ∧
      (∀ Q, Q ≠ P → c ∈ (s.nodes Q).children →
        c ∈ (s'.nodes Q).children ∧ c ∈ (s'.nodes P).children) := by
  have hf := adopted_fields s P c
  have hex : ∃ s3, container_handle_fullscreen_reparent (adopted s P c) c (s.nodes c).parent
      = some s3 := by
    by_cases hfull : (s.nodes c).is_fullscreen = true
    · obtain ⟨ha, hb, hc, W2, O, hW2, hO⟩ := hfs hfull
      obtain ⟨hnew, hW2c⟩ := new_workspace_after s (adopted s P c) P c W2 rfl
        (fun n => (hf n).2.2.1) (fun n hn => by rw [(hf n).2.1, if_neg hn])
        (by rw [(hf c).2.1, if_pos rfl]) ha hW2
      refine reparent_returns _ c _ W2 O ?_ hnew (by rw [(hf W2).2.1, if_neg hW2c]; exact hO)
      cases hQ : (s.nodes c).parent with
      | none => exact ⟨none, rfl⟩
      | some Q =>
        obtain ⟨W1, hW1⟩ := hc (by rw [hQ]; simp)
        exact ⟨some W1, old_workspace_after s (adopted s P c) c Q W1 rfl
          (fun n => (hf n).2.2.1) (fun n hn => by rw [(hf n).2.1, if_neg hn]) hQ
          (by rw [← hQ]; exact hb) hW1⟩
    · exact ⟨_, container_handle_fullscreen_reparent_of_not_fullscreen _ c _
        (by rw [(hf c).2.2.2]; simpa using hfull)⟩
  obtain ⟨s3, hs3⟩ := hex
  have hsame := container_handle_fullscreen_reparent_same_tree _ c _ s3 hs3
  have hcall : container_add_child s P c
      = some (container_set_dirty
          (match (s.nodes c).parent with
            | some op => container_set_dirty s3 op
            | none => s3) c) := by
    unfold container_add_child
    change (match container_handle_fullscreen_reparent (adopted s P c) c (s.nodes c).parent with
      | none => none
      | some s3 => some (container_set_dirty
          (match (s.nodes c).parent with
            | some op => container_set_dirty s3 op
            | none => s3) c)) = _
    rw [hs3]
  have hfin : ∀ m, ((container_set_dirty
          (match (s.nodes c).parent with
            | some op => container_set_dirty s3 op
            | none => s3) c).nodes m).children = ((adopted s P c).nodes m).children ∧
      ((container_set_dirty
          (match (s.nodes c).parent with
            | some op => container_set_dirty s3 op
            | none => s3) c).nodes m).parent = ((adopted s P c).nodes m).parent := by
    intro m
    obtain ⟨d1, d2, _⟩ := container_set_dirty_fields
      (match (s.nodes c).parent with
        | some op => container_set_dirty s3 op
        | none => s3) c m
    rw [d1, d2]
    cases (s.nodes c).parent with
    | none => exact ⟨(hsame.2.2 m).2.2.1, (hsame.2.2 m).2.1⟩
    | some op =>
      obtain ⟨e1, e2, _⟩ := container_set_dirty_fields s3 op m
      simp only
      rw [e1, e2]
      exact ⟨(hsame.2.2 m).2.2.1, (hsame.2.2 m).2.1⟩
  generalize container_set_dirty
      (match (s.nodes c).parent with
        | some op => container_set_dirty s3 op
        | none => s3) c = s' at hcall hfin
  have hPc : (s'.nodes P).children = (s.nodes P).children ++ [c] := by
    rw [(hfin P).1, (hf P).1, if_pos rfl]
  refine ⟨s', hcall, hPc, ?_, ?_, ?_, ?_⟩
  · rw [(hfin c).2, (hf c).2.1, if_pos rfl]
  · intro q hq
    rw [(hfin q).1, (hf q).1, if_neg hq]
  · intro n hn
    rw [(hfin n).2, (hf n).2.1, if_neg hn]
  · intro Q hQ hmem
    refine ⟨?_, ?_⟩
    · rw [(hfin Q).1, (hf Q).1, if_neg hQ]; exact hmem
    · rw [hPc]; simp

/-- Witness of `container_add_child_appends`: in `example_tree` the fullscreen
view 5 of workspace 2 is added to the container 7 of workspace 3 without being
removed from workspace 2. -/
theorem container_add_child_appends_witness :
    ∃ s', container_add_child example_tree 7 5 = some s' ∧
      (s'.nodes 7).children = (example_tree.nodes 7).children ++ [5] ∧
      (s'.nodes 5).parent = some 7 ∧
      (∀ q, q ≠ 7 → (s'.nodes q).children = (example_tree.nodes q).children) ∧
      (∀ n, n ≠ 5 → (s'.nodes n).parent = (example_tree.nodes n).parent) ∧
      (∀ Q, Q ≠ 7 → 5 ∈ (example_tree.nodes Q).children →
        5 ∈ (s'.nodes Q).children ∧ 5 ∈ (s'.nodes 7).children) :=
  container_add_child_appends example_tree 7 5
    (fun _ => ⟨by decide, by decide, fun _ => ⟨2, by decide⟩, 3, 1, by decide, by decide⟩)

/-- Claim C28, the code on a failing input: in `example_tree` the view 5 is
fullscreen and occupies the fullscreen slot of its workspace 2.  After
`container_insert_child(2, 5, 0)`, and after `container_add_sibling(6, 5)`,
which put it back into the same workspace, the view 5 still has the fullscreen
flag and lies in workspace 2, but the slot of workspace 2 is empty:
`container_remove_child` has emptied it, and the fullscreen bookkeeping
returns early because the old and the new workspace are the same. -/
theorem reinsert_same_workspace_empties_slot :
    (example_tree.nodes 5).is_fullscreen = true ∧
    (example_tree.nodes 2).fullscreen = some 5 ∧
    container_parent example_tree 5 C_WORKSPACE = some (some 2) ∧
    (container_insert_child example_tree 2 5 0).map
        (fun t => (container_parent t 5 C_WORKSPACE, (t.nodes 2).fullscreen,
          (t.nodes 5).is_fullscreen))
      = some (some (some 2), none, true) ∧
    (container_add_sibling example_tree 6 5).map
        (fun r => (container_parent r.1 5 C_WORKSPACE, (r.1.nodes 2).fullscreen,
          (r.1.nodes 5).is_fullscreen))
      = some (some (some 2), none, true) := by
  decide


/-! ## Forced wrapping of the focus -/

/-- Claim C26: with the wrap policy forced, for a node `n` that is not
fullscreen, at index `i` of a parent `P` that is not the root, has more than
one child and a layout parallel to the direction `d`:
`container_get_in_direction(n, seat, d)` returns the focus-inactive view of the
first child of `P` when `n` is the last child and `d` is right or down, and the
focus-inactive view of the last child of `P` when `n` is the first child and
`d` is left or up.  The result is given by the first round of the loop: no
ancestor of `P` and no adjacent output is consulted. -/
theorem container_get_in_direction_forced_wrap (env : Env) (s : State) (n P : Nat)
    (d : movement_direction) (i first last : Nat)
    (hwrap : env.focus_wrapping = WRAP_FORCE)
    (hfs : (s.nodes n).is_fullscreen = false)
    (hP : (s.nodes n).parent = some P) (hroot : (s.nodes P).type ≠ C_ROOT)
    (hidx : list_find (s.nodes P).children n = some i)
    (hlen : 1 < (s.nodes P).children.length)
    (hpar : is_parallel (s.nodes P).layout d = true)
    (hfirst : (s.nodes P).children[0]? = some first)
    (hlast : (s.nodes P).children[(s.nodes P).children.length - 1]? = some last) :
    (i + 1 = (s.nodes P).children.length → move_offs d > 0 →
      container_get_in_direction env s n d = some (env.seat_get_focus_inactive_view s first)) ∧
    (i = 0 → move_offs d < 0 →
      container_get_in_direction env s n d = some (env.seat_get_focus_inactive_view s last)) := by
  have hi : index_child s n = some (i : Int) := by rw [index_child_eq s n P hP, hidx]
  have hg0 : list_get (s.nodes P).children 0 = some first := by
    unfold list_get
    rw [if_pos (by omega)]
    simpa using hfirst
  have hg1 : list_get (s.nodes P).children (((s.nodes P).children.length : Int) - 1)
      = some last := by
    unfold list_get
    rw [if_pos (by omega)]
    have : (((s.nodes P).children.length : Int) - 1).toNat = (s.nodes P).children.length - 1 := by
      omega
    rw [this]
    exact hlast
  have hne : (i : Int) ≠ -1 := by omega
  constructor
  · intro hedge hoffs
    cases d <;> simp [move_offs] at hoffs <;>
      cases hl : (s.nodes P).layout <;> simp [is_parallel, hl] at hpar <;>
      simp [container_get_in_direction, container_get_in_direction_loop, hfs, hP, hi, hne, hroot,
        hl, hwrap, hlen] <;>
      rw [if_pos (Or.inr (by omega)), if_neg (by omega), hg0]
  · intro hedge hoffs
    subst hedge
    cases d <;> simp [move_offs] at hoffs <;>
      cases hl : (s.nodes P).layout <;> simp [is_parallel, hl] at hpar <;>
      simp [container_get_in_direction, container_get_in_direction_loop, hfs, hP, hi, hroot,
        hl, hwrap, hlen, hg1]

/-- Witness of `container_get_in_direction_forced_wrap`: on the horizontal
workspace 2 with the views 4, 5, 3, the focus moves right from the last view 3
and wraps to the first view 4. -/
theorem container_get_in_direction_forced_wrap_witness :
    ((2 + 1 = ((views_tree [4, 5, 3]).nodes 2).children.length → move_offs MOVE_RIGHT > 0 →
      container_get_in_direction (example_env WRAP_FORCE no_adjacent_output)
          (views_tree [4, 5, 3]) 3 MOVE_RIGHT
        = some ((example_env WRAP_FORCE no_adjacent_output).seat_get_focus_inactive_view
            (views_tree [4, 5, 3]) 4)) ∧
    (2 = 0 → move_offs MOVE_RIGHT < 0 →
      container_get_in_direction (example_env WRAP_FORCE no_adjacent_output)
          (views_tree [4, 5, 3]) 3 MOVE_RIGHT
        = some ((example_env WRAP_FORCE no_adjacent_output).seat_get_focus_inactive_view
            (views_tree [4, 5, 3]) 3))) ∧
    container_get_in_direction (example_env WRAP_FORCE no_adjacent_output)
      (views_tree [4, 5, 3]) 3 MOVE_RIGHT = some (some 4) ∧
    container_get_in_direction (example_env WRAP_NO no_adjacent_output)
      (views_tree [4, 5, 3]) 3 MOVE_RIGHT = some none :=
  ⟨container_get_in_direction_forced_wrap (example_env WRAP_FORCE no_adjacent_output)
      (views_tree [4, 5, 3]) 3 2 MOVE_RIGHT 2 4 3 rfl (by decide) (by decide) (by decide)
      (by decide) (by decide) (by decide) (by decide) (by decide),
    by decide, by decide⟩


/-! ## The two parts of `container_move` -/

/-- The function `container_move` as its search followed by the relocation. -/
theorem container_move_phases (env : Env) (s : State) (n : Nat) (d : movement_direction) :
    container_move env s n d =
      match container_move_phase_one env s n d with
      | none => none
      | some (s2, none) => some s2
      | some (s2, some sibling) =>
        match index_child s2 n with
        | none => none
        | some index =>
          match container_move_relocate env n d (move_offs d) index (s2.next_id + 1) s2
              sibling with
          | none => none
          | some (s3, false) => some s3
          | some (s3, true) => container_move_finish s3 n (s2.nodes n).parent := by
  unfold container_move
  rw [if_neg (not_not.mpr (entry_assertion_holds _))]
  unfold container_move_phase_one
  change (match container_move_start s n with
    | none => none
    | some (current, top) =>
      match container_flatten s (s.nodes n).parent with
      | none => none
      | some (s1, new_parent) =>
        if some new_parent ≠ (s.nodes n).parent then some s1
        else
          match container_move_search env n d (move_offs d) top (s1.next_id + 1) s1
              current with
          | none => none
          | some (s2, none) => some s2
          | some (s2, some sibling) =>
            match index_child s2 n with
            | none => none
            | some index =>
              match container_move_relocate env n d (move_offs d) index (s2.next_id + 1)
                  s2 sibling with
              | none => none
              | some (s3, false) => some s3
              | some (s3, true) => container_move_finish s3 n (s2.nodes n).parent) = _
  cases container_move_start s n with
  | none => rfl
  | some r =>
    obtain ⟨current, top⟩ := r
    simp only
    cases container_flatten s (s.nodes n).parent with
    | none => rfl
    | some q =>
      obtain ⟨s1, new_parent⟩ := q
      simp only
      split
      · rfl
      · rfl

theorem workspace_of_congr (s t : State) (h1 : t.nodes = s.nodes) (h2 : t.next_id = s.next_id)
    (c : Nat) : workspace_of t c = workspace_of s c :=
  workspace_of_links ⟨h2, fun n => by rw [h1]; exact ⟨rfl, rfl, rfl, rfl⟩⟩ c

/-- The end of `container_move` returns when the workspaces of the former and
of the new parent can be looked up; it changes the focus stack only. -/
theorem container_move_finish_returns (s3 : State) (n : Nat) (op : Option Nat)
    (h1 : ∀ o, op = some o → ∃ w, workspace_of s3 o = some w)
    (h2 : ∀ np, (s3.nodes n).parent = some np → ∃ w, workspace_of s3 np = some w) :
    ∃ s', container_move_finish s3 n op = some s' ∧ s'.nodes = s3.nodes ∧
      s'.next_id = s3.next_id := by
  unfold container_move_finish
  simp only [notify_external]
  cases op with
  | none =>
    simp only
    cases hp : (s3.nodes n).parent with
    | none => exact ⟨s3, rfl, rfl, rfl⟩
    | some np =>
      obtain ⟨w, hw⟩ := h2 np hp
      simp only [hw]
      exact ⟨s3, rfl, rfl, rfl⟩
  | some o =>
    obtain ⟨w, hw⟩ := h1 o rfl
    have e1 : workspace_of (seat_set_focus (seat_set_focus s3 o) n) o = some w := by
      rw [workspace_of_congr s3 (seat_set_focus (seat_set_focus s3 o) n) rfl rfl, hw]
    have e0 : ((seat_set_focus (seat_set_focus s3 o) n).nodes n).parent = (s3.nodes n).parent :=
      rfl
    simp only [e1, e0]
    cases hp : (s3.nodes n).parent with
    | none => exact ⟨_, rfl, rfl, rfl⟩
    | some np =>
      obtain ⟨w2, hw2⟩ := h2 np hp
      have e2 : workspace_of (seat_set_focus (seat_set_focus s3 o) n) np = some w2 := by
        rw [workspace_of_congr s3 (seat_set_focus (seat_set_focus s3 o) n) rfl rfl, hw2]
      simp only [e2]
      exact ⟨_, rfl, rfl, rfl⟩

/-- A lookup of the workspace of `c` gives the same result in a heap that
agrees on types and parents except at a node `x` outside the parent chain of
`c`. -/
theorem workspace_of_transfer (s t : State) (c x : Nat) (w : Option Nat)
    (hid : t.next_id = s.next_id)
    (hagree : ∀ m, m ≠ x →
      (t.nodes m).type = (s.nodes m).type ∧ (t.nodes m).parent = (s.nodes m).parent)
    (hx : x ∉ ancestors s (s.next_id + 1) (some c))
    (h : workspace_of s c = some w) : workspace_of t c = some w := by
  simp only [ancestors, List.mem_cons, not_or] at hx
  have hc : c ≠ x := fun e => hx.1 e.symm
  unfold workspace_of at h ⊢
  rw [(hagree c hc).1]
  by_cases hty : (s.nodes c).type ≠ C_WORKSPACE
  · rw [if_pos hty] at h ⊢
    unfold container_parent at h ⊢
    rw [hid, (hagree c hc).2]
    exact container_parent_loop_transfer s t C_WORKSPACE _ _ _ _ h
      (fun m hm => hagree m (fun e => hx.2 (e ▸ hm))) (Nat.le_refl _)
  · rw [if_neg hty] at h ⊢
    exact h

/-- The function `container_insert_child` returns and changes the links of the tree at the
inserted node only. -/
theorem container_insert_child_links (s : State) (P c : Nat) (i : Nat)
    (hi : i ≤ ((detached s c).nodes P).children.length)
    (hfs : (s.nodes c).is_fullscreen = true → fullscreen_reparent_ready s P c) :
    ∃ s', container_insert_child s P c (i : Int) = some s' ∧ s'.next_id = s.next_id ∧
      ∀ m, (s'.nodes m).type = (s.nodes m).type ∧
        (s'.nodes m).parent = (if m = c then some P else (s.nodes m).parent) ∧
        (s'.nodes m).children
          = (if m = P then ((detached s c).nodes P).children.take i ++
                c :: ((detached s c).nodes P).children.drop i
            else if (s.nodes c).parent = some m then (s.nodes m).children.erase c
            else (s.nodes m).children) ∧
        (s'.nodes m).layout = (s.nodes m).layout := by
  have hok : (s.nodes c).is_fullscreen = true → (s.nodes c).parent ≠ none →
      ∃ W1, container_parent s c C_WORKSPACE = some (some W1) :=
    fun h1 h2 => (hfs h1).2.2.1 h2
  obtain ⟨s', hs', htree⟩ := reparent_defined s P c
    (((detached s c).nodes P).children.take i ++ c :: ((detached s c).nodes P).children.drop i)
    hfs
  refine ⟨s', ?_, ?_, fun m => ⟨?_, ?_, ?_, ?_⟩⟩
  · rw [container_insert_child_eq s P c i hok hi]
    exact hs'
  · rw [htree.1, reattached_next_id]
  · rw [(htree.2.2 m).1, reattached_type]
  · rw [(htree.2.2 m).2.1, reattached_parent]
  · rw [(htree.2.2 m).2.2.1, reattached_children]
  · rw [(htree.2.2 m).2.2.2.1, reattached_layout]


theorem upd_nodes_same (s : State) (n : Nat) (f : sway_container → sway_container) :
    ((s.upd n f).nodes n) = f (s.nodes n) := by
  simp [State.upd, State.set]

theorem upd_nodes_other (s : State) (n m : Nat) (f : sway_container → sway_container)
    (h : m ≠ n) : ((s.upd n f).nodes m) = s.nodes m := by
  simp [State.upd, State.set, h]

theorem container_limit_invert (s : State) (sib : Nat) (d : movement_direction)
    (hpar : is_parallel (s.nodes sib).layout d = true) :
    container_limit s sib (invert_movement d)
      = (((if d = MOVE_RIGHT ∨ d = MOVE_DOWN then 0 else (s.nodes sib).children.length : Nat)) :
          Int) := by
  cases d <;> cases hl : (s.nodes sib).layout <;>
    simp [is_parallel, hl] at hpar <;>
    simp [container_limit, invert_movement, move_offs]

/-- The end of the relocation by an insertion: once `container_insert_child`
has put `n` under `P`, the size of `n` is cleared and the rest of
`container_move` returns that heap with another focus stack. -/
theorem relocation_finish (s2 t : State) (n Q P : Nat)
    (hQ : (s2.nodes n).parent = some Q)
    (hid : t.next_id = s2.next_id)
    (hlinks : ∀ m, (t.nodes m).type = (s2.nodes m).type ∧
      (t.nodes m).parent = (if m = n then some P else (s2.nodes m).parent))
    (hwQ : workspace_lookup_ready s2 n Q) (hwP : workspace_lookup_ready s2 n P) :
    ∃ s', container_move_finish (t.upd n fun x => set_size x 0 0) n (s2.nodes n).parent
        = some s' ∧
      s'.nodes = (t.upd n fun x => set_size x 0 0).nodes := by
  have hagree : ∀ m, m ≠ n →
      (((t.upd n fun x => set_size x 0 0).nodes m).type = (s2.nodes m).type ∧
       ((t.upd n fun x => set_size x 0 0).nodes m).parent = (s2.nodes m).parent) := by
    intro m hm
    rw [upd_nodes_other _ _ _ _ hm, (hlinks m).1, (hlinks m).2, if_neg hm]
    exact ⟨rfl, rfl⟩
  have look : ∀ x, workspace_lookup_ready s2 n x →
      ∃ w, workspace_of (t.upd n fun x => set_size x 0 0) x = some w := by
    intro x hx
    obtain ⟨w, hw⟩ := Option.ne_none_iff_exists'.1 hx.1
    exact ⟨w, workspace_of_transfer s2 _ x n w hid hagree hx.2 hw⟩
  have hpn : ((t.upd n fun x => set_size x 0 0).nodes n).parent = some P := by
    rw [upd_nodes_same]
    simp [set_size, (hlinks n).2]
  obtain ⟨s', hs', hn, _⟩ := container_move_finish_returns (t.upd n fun x => set_size x 0 0) n
    (s2.nodes n).parent
    (fun o ho => by
      rw [hQ] at ho
      cases ho
      exact look Q hwQ)
    (fun np hnp => by
      rw [hpn] at hnp
      cases hnp
      exact look P hwP)
  exact ⟨s', hs', hn⟩

/-- Claim C23: when the search of `container_move(n, d)` ends at a container or
workspace `sib` whose layout is parallel to `d`, the call returns; `n` has left
its former parent `Q` and is the first child of `sib` for `d` right or down and
the last one for `d` left or up, the other children of `sib` are the former ones
in their order, and the width and height of `n` are 0. -/
theorem container_move_into_parallel (env : Env) (s s2 : State) (n sib Q : Nat)
    (d : movement_direction)
    (hphase : container_move_phase_one env s n d = some (s2, some sib))
    (hty : (s2.nodes sib).type = C_CONTAINER ∨ (s2.nodes sib).type = C_WORKSPACE)
    (hpar : is_parallel (s2.nodes sib).layout d = true)
    (hQ : (s2.nodes n).parent = some Q) (hQs : Q ≠ sib)
    (hfs : (s2.nodes n).is_fullscreen = true → fullscreen_reparent_ready s2 sib n)
    (hwQ : workspace_lookup_ready s2 n Q) (hws : workspace_lookup_ready s2 n sib) :
    ∃ s', container_move env s n d = some s' ∧
      (s'.nodes sib).children
        = (if d = MOVE_RIGHT ∨ d = MOVE_DOWN then n :: (s2.nodes sib).children
           else (s2.nodes sib).children ++ [n]) ∧
      (s'.nodes n).parent = some sib ∧
      (s'.nodes Q).children = (s2.nodes Q).children.erase n ∧
      (s'.nodes n).width = 0 ∧ (s'.nodes n).height = 0 := by
  have hdc : ((detached s2 n).nodes sib).children = (s2.nodes sib).children := by
    rw [detached_children, hQ, if_neg (fun e => hQs (Option.some.inj e))]
  have hns : n ≠ sib := by
    intro e
    have := hws.2
    simp [ancestors, e] at this
  have hnQ : n ≠ Q := by
    intro e
    have := hwQ.2
    simp [ancestors, e] at this
  obtain ⟨t, ht, hid, hlinks⟩ := container_insert_child_links s2 sib n
    (if d = MOVE_RIGHT ∨ d = MOVE_DOWN then 0 else (s2.nodes sib).children.length)
    (by rw [hdc]; split <;> omega) hfs
  obtain ⟨s', hs', hn⟩ := relocation_finish s2 t n Q sib hQ hid
    (fun m => ⟨(hlinks m).1, (hlinks m).2.1⟩) hwQ hws
  obtain ⟨index, hindex⟩ : ∃ index, index_child s2 n = some index := by
    rw [index_child_eq s2 n Q hQ]
    cases list_find (s2.nodes Q).children n with
    | none => exact ⟨_, rfl⟩
    | some i => exact ⟨_, rfl⟩
  have hrel : container_move_relocate env n d (move_offs d) index (s2.next_id + 1) s2 sib
      = some (t.upd n fun x => set_size x 0 0, true) := by
    rw [container_move_relocate]
    rcases hty with h | h
    · simp only [h, hpar, if_true, container_limit_invert s2 sib d hpar, ht]
    · simp only [h, hpar, if_true, container_limit_invert s2 sib d hpar, ht]
  refine ⟨s', ?_, ?_, ?_, ?_, ?_, ?_⟩
  · rw [container_move_phases, hphase]
    simp only [hindex, hrel]
    exact hs'
  · rw [hn, upd_nodes_other _ _ _ _ (Ne.symm hns), (hlinks sib).2.2.1, if_pos rfl, hdc]
    split
    · rfl
    · simp
  · rw [hn, upd_nodes_same]
    simp [set_size, (hlinks n).2.1]
  · rw [hn, upd_nodes_other _ _ _ _ (Ne.symm hnQ), (hlinks Q).2.2.1, if_neg hQs, hQ, if_pos rfl]
  · rw [hn, upd_nodes_same]
    rfl
  · rw [hn, upd_nodes_same]
    rfl

theorem container_move_into_parallel_witness :
    ∃ s', container_move (example_env WRAP_NO no_adjacent_output) (nested_tree L_HORIZ) 3
        MOVE_RIGHT = some s' ∧
      (s'.nodes 6).children
        = (if MOVE_RIGHT = MOVE_RIGHT ∨ MOVE_RIGHT = MOVE_DOWN
           then 3 :: ((nested_tree L_HORIZ).nodes 6).children
           else ((nested_tree L_HORIZ).nodes 6).children ++ [3]) ∧
      (s'.nodes 3).parent = some 6 ∧
      (s'.nodes 2).children = ((nested_tree L_HORIZ).nodes 2).children.erase 3 ∧
      (s'.nodes 3).width = 0 ∧ (s'.nodes 3).height = 0 :=
  container_move_into_parallel (example_env WRAP_NO no_adjacent_output) (nested_tree L_HORIZ)
    (nested_tree L_HORIZ) 3 6 2 MOVE_RIGHT rfl (by decide) (by decide) (by decide) (by decide)
    (fun h => absurd h (by decide)) ⟨by decide, by decide⟩ ⟨by decide, by decide⟩


/-- Claim C24: when the search of `container_move(n, d)` ends at a view `sib`
whose parent `SP` is not the parent `Q` of `n`, the call returns; `n` has left
`Q` and is a child of `SP`, listed immediately before `sib` for `d` right or
down and immediately after `sib` for `d` left or up, with the other children
of `SP` in their former order around them. -/
theorem container_move_beside_view (env : Env) (s s2 : State) (n sib Q SP : Nat) (j : Nat)
    (d : movement_direction)
    (hphase : container_move_phase_one env s n d = some (s2, some sib))
    (hty : (s2.nodes sib).type = C_VIEW)
    (hSP : (s2.nodes sib).parent = some SP)
    (hQ : (s2.nodes n).parent = some Q) (hQs : Q ≠ SP)
    (hj : list_find (s2.nodes SP).children sib = some j)
    (hfs : (s2.nodes n).is_fullscreen = true → fullscreen_reparent_ready s2 SP n)
    (hwQ : workspace_lookup_ready s2 n Q) (hws : workspace_lookup_ready s2 n SP) :
    ∃ s', container_move env s n d = some s' ∧
      (s'.nodes SP).children
        = (if d = MOVE_LEFT ∨ d = MOVE_UP
           then (s2.nodes SP).children.take (j + 1) ++ n :: (s2.nodes SP).children.drop (j + 1)
           else (s2.nodes SP).children.take j ++ n :: (s2.nodes SP).children.drop j) ∧
      (if d = MOVE_LEFT ∨ d = MOVE_UP
       then (s'.nodes SP).children[j]? = some sib ∧ (s'.nodes SP).children[j + 1]? = some n
       else (s'.nodes SP).children[j]? = some n ∧ (s'.nodes SP).children[j + 1]? = some sib) ∧
      (s'.nodes n).parent = some SP ∧
      (s'.nodes Q).children = (s2.nodes Q).children.erase n := by
  have hdc : ((detached s2 n).nodes SP).children = (s2.nodes SP).children := by
    rw [detached_children, hQ, if_neg (fun e => hQs (Option.some.inj e))]
  have hns : n ≠ SP := by
    intro e
    have := hws.2
    simp [ancestors, e] at this
  have hnQ : n ≠ Q := by
    intro e
    have := hwQ.2
    simp [ancestors, e] at this
  have hjl := list_find_lt _ _ _ hj
  have hjs := (list_find_some_iff _ _ _ hj).1
  obtain ⟨t, ht, hid, hlinks⟩ := container_insert_child_links s2 SP n
    (if d = MOVE_LEFT ∨ d = MOVE_UP then j + 1 else j)
    (by rw [hdc]; split <;> omega) hfs
  obtain ⟨s', hs', hn⟩ := relocation_finish s2 t n Q SP hQ hid
    (fun m => ⟨(hlinks m).1, (hlinks m).2.1⟩) hwQ hws
  obtain ⟨index, hindex⟩ : ∃ index, index_child s2 n = some index := by
    rw [index_child_eq s2 n Q hQ]
    cases list_find (s2.nodes Q).children n with
    | none => exact ⟨_, rfl⟩
    | some i => exact ⟨_, rfl⟩
  have hoffs : ((j : Int) + (if move_offs d > 0 then 0 else 1))
      = (((if d = MOVE_LEFT ∨ d = MOVE_UP then j + 1 else j : Nat)) : Int) := by
    unfold move_offs
    by_cases h : d = MOVE_LEFT ∨ d = MOVE_UP
    · simp [h]
    · simp [h]
  have hrel : container_move_relocate env n d (move_offs d) index (s2.next_id + 1) s2 sib
      = some (t.upd n fun x => set_size x 0 0, true) := by
    rw [container_move_relocate]
    have hpne : ¬ (some SP = some Q) := fun e => hQs (Option.some.inj e).symm
    simp only [hty, hSP, hQ, if_neg hpne, index_child_eq s2 sib SP hSP, hj, hoffs, ht]
  have hch : (s'.nodes SP).children
        = (if d = MOVE_LEFT ∨ d = MOVE_UP
           then (s2.nodes SP).children.take (j + 1) ++ n :: (s2.nodes SP).children.drop (j + 1)
           else (s2.nodes SP).children.take j ++ n :: (s2.nodes SP).children.drop j) := by
    rw [hn, upd_nodes_other _ _ _ _ (Ne.symm hns), (hlinks SP).2.2.1, if_pos rfl, hdc]
    split <;> rfl
  refine ⟨s', ?_, hch, ?_, ?_, ?_⟩
  · rw [container_move_phases, hphase]
    simp only [hindex, hrel]
    exact hs'
  · rw [hch]
    split
    · constructor
      · rw [List.getElem?_append_left (by simp; omega), List.getElem?_take_of_lt (by omega), hjs]
      · rw [List.getElem?_append_right (by simp)]
        simp [Nat.min_eq_left (show j + 1 ≤ (s2.nodes SP).children.length by omega)]
    · constructor
      · rw [List.getElem?_append_right (by simp)]
        simp [Nat.min_eq_left (show j ≤ (s2.nodes SP).children.length by omega)]
      · rw [List.getElem?_append_right (by simp)]
        simp [Nat.min_eq_left (show j ≤ (s2.nodes SP).children.length by omega), hjs]
  · rw [hn, upd_nodes_same]
    simp [set_size, (hlinks n).2.1]
  · rw [hn, upd_nodes_other _ _ _ _ (Ne.symm hnQ), (hlinks Q).2.2.1, if_neg hQs, hQ, if_pos rfl]

theorem container_move_beside_view_witness :
    ∃ s', container_move (example_env WRAP_NO no_adjacent_output) (nested_tree L_VERT) 4
        MOVE_LEFT = some s' ∧
      (s'.nodes 2).children
        = (if MOVE_LEFT = MOVE_LEFT ∨ MOVE_LEFT = MOVE_UP
           then ((nested_tree L_VERT).nodes 2).children.take (0 + 1) ++
             4 :: ((nested_tree L_VERT).nodes 2).children.drop (0 + 1)
           else ((nested_tree L_VERT).nodes 2).children.take 0 ++
             4 :: ((nested_tree L_VERT).nodes 2).children.drop 0) ∧
      (if MOVE_LEFT = MOVE_LEFT ∨ MOVE_LEFT = MOVE_UP
       then (s'.nodes 2).children[0]? = some 3 ∧ (s'.nodes 2).children[0 + 1]? = some 4
       else (s'.nodes 2).children[0]? = some 4 ∧ (s'.nodes 2).children[0 + 1]? = some 3) ∧
      (s'.nodes 4).parent = some 2 ∧
      (s'.nodes 6).children = ((nested_tree L_VERT).nodes 6).children.erase 4 :=
  container_move_beside_view (example_env WRAP_NO no_adjacent_output) (nested_tree L_VERT)
    (nested_tree L_VERT) 4 3 6 2 0 MOVE_LEFT rfl (by decide) (by decide) (by decide) (by decide)
    (by decide) (fun h => absurd h (by decide)) ⟨by decide, by decide⟩ ⟨by decide, by decide⟩


/-! ## The search of `container_move` above the moving node -/

theorem search_climbs_step (env : Env) (s : State) (n cur p : Nat) (d : movement_direction)
    (top : Option Nat) (fuel : Nat)
    (h : search_climbs s n d top cur = true) (hp : (s.nodes cur).parent = some p) :
    container_move_search env n d (move_offs d) top (fuel + 1) s (some cur)
      = container_move_search env n d (move_offs d) top fuel s (some p) := by
  unfold search_climbs at h
  simp only [Bool.and_eq_true, decide_eq_true_eq, Bool.or_eq_true] at h
  obtain ⟨⟨htop, hty⟩, hrest⟩ := h
  rw [container_move_search, if_neg htop]
  obtain ⟨index, hindex⟩ : ∃ index, index_child s cur = some index := by
    rw [index_child_eq s cur p hp]
    cases list_find (s.nodes p).children cur <;> exact ⟨_, rfl⟩
  simp only [hindex, hp] at hrest ⊢
  cases hpp : (s.nodes p).parent with
  | none => simp [hpp] at hrest
  | some pp =>
    simp only [hpp] at hrest
    cases hpar : is_parallel (s.nodes p).layout d with
    | true =>
      rw [hpar, if_pos rfl] at hrest
      simp only [Bool.and_eq_true, decide_eq_true_eq, Bool.not_eq_true',
        decide_eq_false_iff_not] at hrest
      obtain ⟨⟨⟨hedge, hsame⟩, hfl⟩, htab⟩ := hrest
      rcases hty with hty | hty <;>
        simp only [hty, if_true, if_pos hedge, if_pos hsame, if_neg hfl, if_neg htab]
    | false =>
      rw [hpar, if_neg (by simp)] at hrest
      simp only [Bool.and_eq_true, decide_eq_true_eq, Bool.not_eq_true',
        decide_eq_false_iff_not] at hrest
      obtain ⟨htab, hfl⟩ := hrest
      rcases hty with hty | hty <;>
        simp only [hty, Bool.false_eq_true, if_false, if_neg hfl, if_neg htab]

theorem search_reaches_spec (env : Env) (s : State) (n : Nat) (d : movement_direction)
    (top : Option Nat) (fuel : Nat) :
    ∀ (k cur c : Nat), search_reaches s n d top k cur c = true →
      container_move_search env n d (move_offs d) top (fuel + k) s (some cur)
        = container_move_search env n d (move_offs d) top fuel s (some c) := by
  intro k
  induction k with
  | zero =>
    intro cur c h
    simp only [search_reaches, decide_eq_true_eq] at h
    rw [h]
    rfl
  | succ k ih =>
    intro cur c h
    simp only [search_reaches, Bool.and_eq_true] at h
    cases hp : (s.nodes cur).parent with
    | none => simp [hp] at h
    | some p =>
      simp only [hp] at h
      rw [show fuel + (k + 1) = (fuel + k) + 1 by omega, search_climbs_step env s n cur p d top _ h.1 hp]
      exact ih p c h.2


theorem upd_set_size_links (t : State) (n m : Nat) (w h : Int) :
    ((t.upd n fun x => set_size x w h).nodes m).type = (t.nodes m).type ∧
    ((t.upd n fun x => set_size x w h).nodes m).parent = (t.nodes m).parent ∧
    ((t.upd n fun x => set_size x w h).nodes m).children = (t.nodes m).children ∧
    ((t.upd n fun x => set_size x w h).nodes m).layout = (t.nodes m).layout := by
  rcases eq_or_ne m n with rfl | hm
  · rw [upd_nodes_same]
    exact ⟨rfl, rfl, rfl, rfl⟩
  · rw [upd_nodes_other _ _ _ _ hm]
    exact ⟨rfl, rfl, rfl, rfl⟩

/-- One round of the search at a node `c` that stands at the edge of a parent
`P` parallel to the direction, when `P` is not the parent of the moving node:
the moving node is inserted into `P` beside `c` and the search is over. -/
theorem search_step_promote (env : Env) (s t : State) (n c P : Nat) (d : movement_direction)
    (top : Option Nat) (fuel : Nat) (i : Nat)
    (htop : some c ≠ top)
    (hty : (s.nodes c).type = C_CONTAINER ∨ (s.nodes c).type = C_VIEW)
    (hP : (s.nodes c).parent = some P) (hnP : (s.nodes n).parent ≠ some P)
    (hidx : list_find (s.nodes P).children c = some i)
    (hpar : is_parallel (s.nodes P).layout d = true)
    (hedge : (i + 1 = (s.nodes P).children.length ∧ move_offs d > 0) ∨
      (i = 0 ∧ move_offs d < 0))
    (ht : container_insert_child s P n
      (((if move_offs d < 0 then i else i + 1 : Nat)) : Int) = some t) :
    container_move_search env n d (move_offs d) top (fuel + 1) s (some c)
      = some (t.upd n fun x => set_size x 0 0, none) := by
  have hi : index_child s c = some (i : Int) := by rw [index_child_eq s c P hP, hidx]
  have hedge' : ((i : Int) = ((s.nodes P).children.length : Int) - 1 ∧ move_offs d > 0) ∨
      ((i : Int) = 0 ∧ move_offs d < 0) := by
    rcases hedge with ⟨h1, h2⟩ | ⟨h1, h2⟩
    · exact Or.inl ⟨by omega, h2⟩
    · exact Or.inr ⟨by omega, h2⟩
  have hidx2 : ((i : Int) + (if move_offs d < 0 then 0 else 1))
      = (((if move_offs d < 0 then i else i + 1 : Nat)) : Int) := by
    split <;> simp
  have hne : ¬ (some P = (s.nodes n).parent) := fun e => hnP e.symm
  rw [container_move_search, if_neg htop]
  rcases hty with hty | hty <;>
    simp only [hi, hP, hty, hpar, if_true, if_pos hedge', if_neg hne, hidx2, ht]

/-- Claim C29: when the search of `container_move(n, d)` goes from `n` up to an
ancestor `c` that stands at the edge, in the direction `d`, of a parent `P`
whose layout is parallel to `d` (and `P` is not the parent `Q` of `n`), the
call returns; `n` has left `Q` and is the child of `P` right after `c` for `d`
right or down and right before `c` for left or up, the width and height of
`n` are 0, no other node has changed its parent, and the focus stack is the
former one: the code after the search has not been run. -/
theorem container_move_promotes_descendant (env : Env) (s : State) (n c P Q : Nat)
    (d : movement_direction) (top : Option Nat) (k i : Nat)
    (hnf : (s.nodes n).is_fullscreen = false)
    (hstart : container_move_start s n = some (some n, top))
    (hQ : (s.nodes n).parent = some Q)
    (hflat : ¬ ((s.nodes Q).type = C_CONTAINER ∧ (s.nodes Q).children.length = 1))
    (hk : k ≤ s.next_id)
    (hreach : search_reaches s n d top k n c = true)
    (htop : some c ≠ top)
    (hty : (s.nodes c).type = C_CONTAINER ∨ (s.nodes c).type = C_VIEW)
    (hP : (s.nodes c).parent = some P) (hQP : Q ≠ P)
    (hidx : list_find (s.nodes P).children c = some i)
    (hpar : is_parallel (s.nodes P).layout d = true)
    (hedge : (i + 1 = (s.nodes P).children.length ∧ (d = MOVE_RIGHT ∨ d = MOVE_DOWN)) ∨
      (i = 0 ∧ (d = MOVE_LEFT ∨ d = MOVE_UP))) :
    ∃ s', container_move env s n d = some s' ∧
      (s'.nodes P).children
        = (if d = MOVE_LEFT ∨ d = MOVE_UP then n :: (s.nodes P).children
           else (s.nodes P).children ++ [n]) ∧
      (s'.nodes n).parent = some P ∧
      (s'.nodes Q).children = (s.nodes Q).children.erase n ∧
      (s'.nodes n).width = 0 ∧ (s'.nodes n).height = 0 ∧
      (∀ m, m ≠ n → (s'.nodes m).parent = (s.nodes m).parent) ∧
      s'.focus_stack = s.focus_stack := by
  have hdc : ((detached s n).nodes P).children = (s.nodes P).children := by
    rw [detached_children, hQ, if_neg (fun e => hQP (Option.some.inj e))]
  have hedge' : (i + 1 = (s.nodes P).children.length ∧ move_offs d > 0) ∨
      (i = 0 ∧ move_offs d < 0) := by
    rcases hedge with ⟨h1, h2 | h2⟩ | ⟨h1, h2 | h2⟩ <;> subst h2
    · exact Or.inl ⟨h1, by decide⟩
    · exact Or.inl ⟨h1, by decide⟩
    · exact Or.inr ⟨h1, by decide⟩
    · exact Or.inr ⟨h1, by decide⟩
  have hfsn : (s.nodes n).is_fullscreen = true → fullscreen_reparent_ready s P n := by
    intro h
    rw [hnf] at h
    cases h
  obtain ⟨t, ht, _, hlinks⟩ := container_insert_child_links s P n
    (if move_offs d < 0 then i else i + 1)
    (by
      rw [hdc]
      have := list_find_lt _ _ _ hidx
      split <;> omega) hfsn
  have hfocus : t.focus_stack = s.focus_stack := by
    obtain ⟨t2, ht2, htree⟩ := reparent_defined s P n
      (((detached s n).nodes P).children.take (if move_offs d < 0 then i else i + 1) ++
        n :: ((detached s n).nodes P).children.drop (if move_offs d < 0 then i else i + 1)) hfsn
    rw [container_insert_child_eq s P n _ (fun h1 h2 => (hfsn h1).2.2.1 h2)
      (by
        rw [hdc]
        have := list_find_lt _ _ _ hidx
        split <;> omega), ht2] at ht
    cases ht
    rw [htree.2.1, reattached_focus_stack]
  have hsearch : container_move_search env n d (move_offs d) top (s.next_id + 1) s (some n)
      = some (t.upd n fun x => set_size x 0 0, none) := by
    rw [show s.next_id + 1 = (s.next_id - k + 1) + k by omega,
      search_reaches_spec env s n d top (s.next_id - k + 1) k n c hreach]
    exact search_step_promote env s t n c P d top (s.next_id - k) i htop hty hP
      (by rw [hQ]; exact fun e => hQP (Option.some.inj e)) hidx hpar hedge' ht
  have hphase : container_move_phase_one env s n d
      = some (t.upd n fun x => set_size x 0 0, none) := by
    unfold container_move_phase_one
    simp only [hstart, hQ, container_flatten_of_not_single s Q hflat, ne_eq, not_true_eq_false,
      if_false]
    exact hsearch
  have hoffs : (move_offs d < 0) ↔ (d = MOVE_LEFT ∨ d = MOVE_UP) := by
    unfold move_offs
    split <;> simp [*]
  refine ⟨t.upd n fun x => set_size x 0 0, ?_, ?_, ?_, ?_, ?_, ?_, ?_, ?_⟩
  · rw [container_move_phases, hphase]
  · rw [(upd_set_size_links t n P 0 0).2.2.1, (hlinks P).2.2.1, if_pos rfl, hdc]
    rcases hedge with ⟨h1, h2⟩ | ⟨h1, h2⟩
    · have h3 : ¬ (d = MOVE_LEFT ∨ d = MOVE_UP) := by
        rcases h2 with h2 | h2 <;> subst h2 <;> decide
      rw [if_neg (fun h => h3 (hoffs.1 h)), if_neg h3, h1, List.take_length, List.drop_length]
    · rw [if_pos (hoffs.2 h2), if_pos h2, h1]
      rfl
  · rw [(upd_set_size_links t n n 0 0).2.1, (hlinks n).2.1, if_pos rfl]
  · rw [(upd_set_size_links t n Q 0 0).2.2.1, (hlinks Q).2.2.1, if_neg hQP, hQ, if_pos rfl]
  · rw [upd_nodes_same]
    rfl
  · rw [upd_nodes_same]
    rfl
  · intro m hm
    rw [(upd_set_size_links t n m 0 0).2.1, (hlinks m).2.1, if_neg hm]
  · exact hfocus

theorem container_move_promotes_descendant_witness :
    ∃ s', container_move (example_env WRAP_NO no_adjacent_output) (nested_tree L_VERT) 4
        MOVE_RIGHT = some s' ∧
      (s'.nodes 2).children
        = (if MOVE_RIGHT = MOVE_LEFT ∨ MOVE_RIGHT = MOVE_UP
           then 4 :: ((nested_tree L_VERT).nodes 2).children
           else ((nested_tree L_VERT).nodes 2).children ++ [4]) ∧
      (s'.nodes 4).parent = some 2 ∧
      (s'.nodes 6).children = ((nested_tree L_VERT).nodes 6).children.erase 4 ∧
      (s'.nodes 4).width = 0 ∧ (s'.nodes 4).height = 0 ∧
      (∀ m, m ≠ 4 → (s'.nodes m).parent = ((nested_tree L_VERT).nodes m).parent) ∧
      s'.focus_stack = (nested_tree L_VERT).focus_stack :=
  container_move_promotes_descendant (example_env WRAP_NO no_adjacent_output)
    (nested_tree L_VERT) 4 6 2 6 MOVE_RIGHT (some root_container) 1 1 (by decide) (by decide)
    (by decide) (by decide) (by decide) (by decide) (by decide) (by decide) (by decide)
    (by decide) (by decide) (by decide) (by decide)


/-! ## The rejigger of a workspace -/

theorem split_tail_fullscreen (t1 : State) (w k : Nat) (l : sway_container_layout)
    (foc : Bool) (n : Nat) :
    let t2 := container_set_dirty
      ((t1.upd w fun n => set_children n (list_add n.children k)).upd k fun n =>
        set_parent n (some w)) k
    let s' := split_finish
      ((t2.upd w fun n => set_layout n l).upd k fun n => set_layout n (t2.nodes w).layout)
      w k foc
    (s'.nodes n).is_fullscreen = (t1.nodes n).is_fullscreen := by
  intro t2 s'
  have e : s'.nodes = ((t2.upd w fun n => set_layout n l).upd k fun n =>
      set_layout n (t2.nodes w).layout).nodes := (split_finish_nodes _ _ _ _).1
  rw [e]
  rcases eq_or_ne n k with rfl | h1 <;> rcases eq_or_ne n w with rfl | h2
  all_goals simp [t2, container_set_dirty, set_dirty, set_children, set_parent, set_layout,
    list_add, *]

/-- The function `container_split(w, l)` on a workspace `w` with children, node by node: the
new container `k` is the only child of `w` and has taken its children and its
layout; the nodes other than `w`, `k` and the children are as before. -/
theorem container_split_workspace_links (s : State) (w : Nat) (l : sway_container_layout)
    (hty : (s.nodes w).type = C_WORKSPACE) (hne : (s.nodes w).children ≠ [])
    (hnd : (s.nodes w).children.Nodup)
    (hpar : ∀ c ∈ (s.nodes w).children, (s.nodes c).parent = some w)
    (hfresh : ∀ c ∈ (s.nodes w).children, c ≠ s.next_id) (hw : w ≠ s.next_id) :
    ∃ s', container_split s w l = some (s', s.next_id) ∧
      s'.next_id = s.next_id + 1 ∧
      ∀ m, (s'.nodes m).type = (if m = s.next_id then C_CONTAINER else (s.nodes m).type) ∧
        (s'.nodes m).parent
          = (if m = s.next_id then some w
             else if m ∈ (s.nodes w).children then some s.next_id else (s.nodes m).parent) ∧
        (s'.nodes m).children
          = (if m = w then [s.next_id]
             else if m = s.next_id then (s.nodes w).children else (s.nodes m).children) ∧
        (s'.nodes m).layout
          = (if m = s.next_id then (s.nodes w).layout
             else if m = w then l else (s.nodes m).layout) ∧
        (s'.nodes m).is_fullscreen
          = (if m = s.next_id then false else (s.nodes m).is_fullscreen) := by
  obtain ⟨g1, g2, g3, g4, g5, g6⟩ := split_start_fields s w
  have hkw : s.next_id ≠ w := Ne.symm hw
  obtain ⟨t1, h1, h2, h3, h4, h5, h6, h7, h8⟩ :=
    container_split_loop_spec w s.next_id hkw (s.nodes w).children (split_start s w) []
      (by rw [g1 w hw]; exact hty) (by rw [g1 w hw]) g2 g3 g4 hnd
      (fun c hc => ⟨by rw [g1 c (hfresh c hc)]; exact hpar c hc, hfresh c hc⟩)
      (by rw [g6]; omega)
  have hkfs : (t1.nodes s.next_id).is_fullscreen = false := by rw [(h6 _).2.2]; exact g5
  have hkpar : (t1.nodes s.next_id).parent = none := by
    rw [h5 _ (fun h => hfresh _ h rfl)]; exact g3
  have hadd := container_add_child_of_not_fullscreen t1 w s.next_id hkfs
  rw [hkpar] at hadd
  simp only at hadd
  have hf := split_tail_fields t1 w s.next_id l hkw
    (decide (seat_get_focus (split_start s w) = some w))
  have hf2 := split_tail_fullscreen t1 w s.next_id l
    (decide (seat_get_focus (split_start s w) = some w))
  simp only at hf hf2
  have hcall := split_workspace_unfold s w l hty hne hw
  rw [h1] at hcall
  simp only [hadd] at hcall
  generalize split_finish _ w s.next_id _ = sfin at hcall hf hf2
  refine ⟨sfin, hcall, ?_, fun m => ⟨?_, ?_, ?_, ?_, ?_⟩⟩
  · rw [(hf w).2.2.2.2, h8, g6]
  · rw [(hf m).2.2.2.1, (h6 m).1]
    split
    · rename_i e
      rw [e]
      exact g4
    · rename_i e
      rw [g1 m e]
  · rw [(hf m).2.1]
    split
    · rfl
    · rename_i e
      split
      · rename_i hm
        exact h4 m hm
      · rename_i hm
        rw [h5 m hm, g1 m e]
  · rw [(hf m).1]
    split
    · rename_i e
      rw [h2]
      rfl
    · rename_i e
      split
      · rename_i e2
        rw [e2, h3]
        rfl
      · rename_i e2
        rw [h7 m e e2, g1 m e2]
  · rw [(hf m).2.2.1]
    split
    · rw [(h6 w).2.1, g1 w hw]
    · rename_i e
      split
      · rfl
      · rw [(h6 m).2.1, g1 m e]
  · rw [hf2 m, (h6 m).2.2]
    split
    · rename_i e
      rw [e]
      exact g5
    · rename_i e
      rw [g1 m e]


theorem detach_layout (s : State) (c P : Nat) (ws : Option Nat) (n : Nat) :
    ((detach s c P ws).nodes n).layout = (s.nodes n).layout := rfl

theorem detached_of_no_parent (s : State) (c : Nat) (h : (s.nodes c).parent = none) :
    detached s c = s := by
  unfold detached
  rw [h]

/-- The function `container_reap_empty_recursive` leaves the heap as it is when the node is
not to be removed: it has a child, or it is neither a container nor a
workspace. -/
theorem container_reap_empty_recursive_keep (s : State) (Q : Nat)
    (h : (s.nodes Q).children ≠ [] ∨
      ((s.nodes Q).type ≠ C_CONTAINER ∧ (s.nodes Q).type ≠ C_WORKSPACE)) :
    container_reap_empty_recursive s (some Q) = some s := by
  have hr : container_reap_empty s Q = some (s, false) := by
    unfold container_reap_empty
    rcases h with h | h
    · have hl : (s.nodes Q).children.length ≠ 0 := by
        intro e
        exact h (List.length_eq_zero.1 e)
      cases hty : (s.nodes Q).type <;> simp [hl]
    · cases hty : (s.nodes Q).type <;> simp_all
  unfold container_reap_empty_recursive
  rw [container_reap_empty_recursive_loop]
  simp only [hr]

theorem upd_set_layout_links (t : State) (n m : Nat) (l : sway_container_layout) :
    ((t.upd n fun x => set_layout x l).nodes m).type = (t.nodes m).type ∧
    ((t.upd n fun x => set_layout x l).nodes m).parent = (t.nodes m).parent ∧
    ((t.upd n fun x => set_layout x l).nodes m).children = (t.nodes m).children := by
  rcases eq_or_ne m n with rfl | hm
  · rw [upd_nodes_same]
    exact ⟨rfl, rfl, rfl⟩
  · rw [upd_nodes_other _ _ _ _ hm]
    exact ⟨rfl, rfl, rfl⟩

theorem workspace_rejigger_loop_single (env : Env) (s2 : State) (w k : Nat)
    (h : (s2.nodes w).children = [k]) :
    workspace_rejigger_loop env w k (s2.next_id + 1) 0 s2 = some s2 := by
  rw [workspace_rejigger_loop]
  simp only [h, List.getElem?_cons_zero, container_move_to, if_true]
  cases s2.next_id with
  | zero => simp [workspace_rejigger_loop, h]
  | succ f =>
    rw [workspace_rejigger_loop]
    simp [h]

/-- The function `workspace_rejigger(w, n, d)`, node by node: the children of `w` are
wrapped in a new container `k`, from which `n` is taken out and put beside `k`
under `w`, and `w` takes the layout of the direction. -/
theorem workspace_rejigger_spec (env : Env) (s : State) (w n Q : Nat) (d : movement_direction)
    (hty : (s.nodes w).type = C_WORKSPACE) (hne : (s.nodes w).children ≠ [])
    (hnd : (s.nodes w).children.Nodup)
    (hpar : ∀ c ∈ (s.nodes w).children, (s.nodes c).parent = some w)
    (hfresh : ∀ c ∈ (s.nodes w).children, c ≠ s.next_id) (hw : w ≠ s.next_id)
    (hnf : (s.nodes n).is_fullscreen = false)
    (hQ : (s.nodes n).parent = some Q)
    (hnk : n ≠ s.next_id) (hQk : Q ≠ s.next_id) (hnw : n ≠ w)
    (hkeep : Q = w ∨ (s.nodes Q).type = C_VIEW ∨
      ((s.nodes Q).type = C_CONTAINER ∧ 2 ≤ (s.nodes Q).children.length)) :
    ∃ s', workspace_rejigger env s w n d = some s' ∧
      (s'.nodes w).layout = split_layout_of d ∧
      (s'.nodes w).children
        = (if move_offs d < 0 then [n, s.next_id] else [s.next_id, n]) ∧
      (s'.nodes s.next_id).type = C_CONTAINER ∧
      (s'.nodes s.next_id).layout = (s.nodes w).layout ∧
      (s'.nodes s.next_id).children = (s.nodes w).children.erase n ∧
      (s'.nodes s.next_id).parent = some w ∧
      (s'.nodes n).parent = some w ∧
      (∀ c ∈ (s.nodes w).children, c ≠ n → (s'.nodes c).parent = some s.next_id) ∧
      (Q ≠ w → (s'.nodes Q).children = (s.nodes Q).children.erase n) := by
  obtain ⟨s1, hs1, hid1, hl1⟩ :=
    container_split_workspace_links s w (s.nodes w).layout hty hne hnd hpar hfresh hw
  have hkw : s.next_id ≠ w := Ne.symm hw
  have hkn : s.next_id ≠ n := Ne.symm hnk
  have hwn : w ≠ n := Ne.symm hnw
  have hQw_of_mem : n ∈ (s.nodes w).children → Q = w := by
    intro h
    have := hpar n h
    rw [hQ] at this
    exact Option.some.inj this
  obtain ⟨P1, hP1def⟩ : ∃ P1, P1 = (if n ∈ (s.nodes w).children then s.next_id else Q) :=
    ⟨_, rfl⟩
  have hP1 : (s1.nodes n).parent = some P1 := by
    rw [(hl1 n).2.1, if_neg hnk, hP1def]
    split
    · rfl
    · exact hQ
  have hfs1 : (s1.nodes n).is_fullscreen = false := by
    rw [(hl1 n).2.2.2.2, if_neg hnk, hnf]
  have hrem : container_remove_child s1 n = some (detach s1 n P1 none, P1) :=
    container_remove_child_eq s1 n P1 none hP1 (by simp [hfs1])
  have h2w : ((detach s1 n P1 none).nodes w).children = [s.next_id] := by
    rw [detach_children, (hl1 w).2.2.1, if_pos rfl]
    split
    · exact List.erase_of_not_mem (by simp [hnk])
    · rfl
  have hp2 : ((detach s1 n P1 none).nodes n).parent = none := by
    rw [detach_parent, if_pos rfl]
  have hloop := workspace_rejigger_loop_single env (detach s1 n P1 none) w s.next_id h2w
  obtain ⟨s4, hs4, _, hl4⟩ := container_insert_child_links (detach s1 n P1 none) w n
    (if move_offs d < 0 then 0 else 1)
    (by
      rw [detached_of_no_parent _ _ hp2, h2w]
      split <;> simp)
    (fun h => by
      rw [detach_is_fullscreen, hfs1] at h
      cases h)
  have hidx : (if move_offs d < 0 then (0 : Int) else 1)
      = (((if move_offs d < 0 then 0 else 1 : Nat)) : Int) := by
    split <;> simp
  have hflat : container_flatten (s4.upd w fun x => set_layout x (split_layout_of d)) (some w)
      = some (s4.upd w fun x => set_layout x (split_layout_of d), w) := by
    apply container_flatten_of_not_single
    rw [upd_nodes_same]
    intro h
    have h1 := h.1
    simp only [set_layout] at h1
    rw [(hl4 w).1, detach_type, (hl1 w).1, if_neg hw, hty] at h1
    cases h1
  have hchQ : Q ≠ w →
      ((s4.upd w fun x => set_layout x (split_layout_of d)).nodes Q).children
        = (s.nodes Q).children.erase n := by
    intro hQw
    have hnotmem : n ∉ (s.nodes w).children := fun h => hQw (hQw_of_mem h)
    have hP1Q : P1 = Q := by rw [hP1def, if_neg hnotmem]
    rw [upd_nodes_other _ _ _ _ hQw, (hl4 Q).2.2.1, if_neg hQw, hp2,
      if_neg (by simp), detach_children, hP1Q, if_pos rfl, (hl1 Q).2.2.1, if_neg hQw,
      if_neg hQk]
  have hchw : ((s4.upd w fun x => set_layout x (split_layout_of d)).nodes w).children
      = (if move_offs d < 0 then [n, s.next_id] else [s.next_id, n]) := by
    rw [upd_nodes_same]
    simp only [set_layout]
    rw [(hl4 w).2.2.1, if_pos rfl, detached_of_no_parent _ _ hp2, h2w]
    split <;> rfl
  have hreap : container_reap_empty_recursive
      (s4.upd w fun x => set_layout x (split_layout_of d)) (some Q)
      = some (s4.upd w fun x => set_layout x (split_layout_of d)) := by
    apply container_reap_empty_recursive_keep
    rcases hkeep with h | h | h
    · left
      rw [h, hchw]
      split <;> simp
    · right
      have hQw : Q ≠ w := by
        intro e
        rw [e, hty] at h
        cases h
      rw [upd_nodes_other _ _ _ _ hQw, (hl4 Q).1, detach_type, (hl1 Q).1, if_neg hQk, h]
      exact ⟨by decide, by decide⟩
    · left
      have hQw : Q ≠ w := by
        intro e
        rw [e, hty] at h
        cases h.1
      rw [hchQ hQw]
      intro e
      have hlen := List.length_erase_le n (s.nodes Q).children
      have := List.length_erase_add_one (a := n) (l := (s.nodes Q).children)
      by_cases hm : n ∈ (s.nodes Q).children
      · have := List.length_erase_of_mem hm
        rw [e] at this
        simp at this
        omega
      · rw [List.erase_of_not_mem hm] at e
        rw [e] at h
        simp at h
  refine ⟨s4.upd w fun x => set_layout x (split_layout_of d), ?_, ?_, hchw, ?_, ?_, ?_, ?_, ?_,
    ?_, hchQ⟩
  · unfold workspace_rejigger
    simp only [hs1, hrem, hloop, hidx, hs4, hflat, hQ, hreap, notify_external]
  · rw [upd_nodes_same]
    rfl
  · rw [upd_nodes_other _ _ _ _ hkw, (hl4 _).1, detach_type, (hl1 _).1, if_pos rfl]
  · rw [upd_nodes_other _ _ _ _ hkw, (hl4 _).2.2.2, detach_layout, (hl1 _).2.2.2.1, if_pos rfl]
  · rw [upd_nodes_other _ _ _ _ hkw, (hl4 _).2.2.1, if_neg hkw, hp2, if_neg (by simp),
      detach_children, (hl1 _).2.2.1, if_neg hkw, if_pos rfl]
    by_cases hm : n ∈ (s.nodes w).children
    · rw [hP1def, if_pos hm, if_pos rfl]
    · rw [hP1def, if_neg hm, if_neg (Ne.symm hQk), List.erase_of_not_mem hm]
  · rw [upd_nodes_other _ _ _ _ hkw, (hl4 _).2.1, if_neg hkn, detach_parent, if_neg hkn,
      (hl1 _).2.1, if_pos rfl]
  · rw [upd_nodes_other _ _ _ _ hnw, (hl4 _).2.1, if_pos rfl]
  · intro c hc hcn
    rw [(upd_set_layout_links s4 w c _).2.1, (hl4 c).2.1, if_neg hcn, detach_parent, if_neg hcn,
      (hl1 c).2.1, if_neg (hfresh c hc), if_pos hc]


theorem search_reaches_succ (s : State) (n : Nat) (d : movement_direction) (top : Option Nat)
    (k cur c : Nat) (h : search_reaches s n d top (k + 1) cur c = true) :
    ((s.nodes cur).type = C_CONTAINER ∨ (s.nodes cur).type = C_VIEW) ∧
      ∃ p, (s.nodes cur).parent = some p ∧ search_reaches s n d top k p c = true := by
  simp only [search_reaches, Bool.and_eq_true] at h
  obtain ⟨h1, h2⟩ := h
  constructor
  · unfold search_climbs at h1
    simp only [Bool.and_eq_true, decide_eq_true_eq, Bool.or_eq_true] at h1
    exact h1.1.2
  · cases hp : (s.nodes cur).parent with
    | none => simp [hp] at h2
    | some p =>
      simp only [hp] at h2
      exact ⟨p, rfl, h2⟩

/-- One round of the search at a workspace that is not parallel to the
direction and has two children or more: the workspace is rejiggered and the
search is over. -/
theorem search_step_rejigger (env : Env) (s : State) (n W O : Nat) (d : movement_direction)
    (top : Option Nat) (fuel : Nat)
    (htop : some W ≠ top)
    (hty : (s.nodes W).type = C_WORKSPACE)
    (hO : (s.nodes W).parent = some O)
    (hpar : is_parallel (s.nodes W).layout d = false)
    (h2 : 2 ≤ (s.nodes W).children.length) :
    container_move_search env n d (move_offs d) top (fuel + 1) s (some W)
      = (workspace_rejigger env s W n d).map fun t => (t, none) := by
  obtain ⟨i, hi⟩ : ∃ i, index_child s W = some i := by
    rw [index_child_eq s W O hO]
    cases hf : list_find (s.nodes O).children W with
    | none => exact ⟨_, rfl⟩
    | some i => exact ⟨_, rfl⟩
  rw [container_move_search]
  rw [if_neg htop]
  simp only [hi, hO, hty, hpar, if_true, ge_iff_le, if_pos h2]

/-- Claim C22: for a workspace `w` with two children or more whose layout is
not parallel to `d`, and a node `n` that is not fullscreen and from which the
search of `container_move(n, d)` goes up to `w`, the call returns; afterwards
the layout of `w` is horizontal for `d` left or right and vertical otherwise,
the children of `w` are `n` and a new container `k`, with `n` first for `d`
left or up and second otherwise, and `k` has the former layout of `w` and its
former children in their order, without `n`, which has also left its former
parent when that was not `w`. -/
theorem container_move_rejiggers (env : Env) (s : State) (n w Q O : Nat)
    (d : movement_direction) (top : Option Nat) (k : Nat)
    (hnf : (s.nodes n).is_fullscreen = false)
    (hstart : container_move_start s n = some (some n, top))
    (hQ : (s.nodes n).parent = some Q)
    (hflat : ¬ ((s.nodes Q).type = C_CONTAINER ∧ (s.nodes Q).children.length = 1))
    (hmem : n ∈ (s.nodes Q).children)
    (hk1 : 1 ≤ k) (hk : k ≤ s.next_id)
    (hreach : search_reaches s n d top k n w = true)
    (htop : some w ≠ top)
    (hty : (s.nodes w).type = C_WORKSPACE) (hO : (s.nodes w).parent = some O)
    (hpar : is_parallel (s.nodes w).layout d = false)
    (h2 : 2 ≤ (s.nodes w).children.length)
    (hnd : (s.nodes w).children.Nodup)
    (hch : ∀ c ∈ (s.nodes w).children, (s.nodes c).parent = some w)
    (hfresh : ∀ c ∈ (s.nodes w).children, c ≠ s.next_id) (hw : w ≠ s.next_id)
    (hnk : n ≠ s.next_id) (hQk : Q ≠ s.next_id) :
    ∃ s', container_move env s n d = some s' ∧
      (s'.nodes w).layout = (if d = MOVE_LEFT ∨ d = MOVE_RIGHT then L_HORIZ else L_VERT) ∧
      (s'.nodes w).children
        = (if d = MOVE_LEFT ∨ d = MOVE_UP then [n, s.next_id] else [s.next_id, n]) ∧
      (s'.nodes s.next_id).type = C_CONTAINER ∧
      (s'.nodes s.next_id).layout = (s.nodes w).layout ∧
      (s'.nodes s.next_id).children = (s.nodes w).children.erase n ∧
      (s'.nodes s.next_id).parent = some w ∧
      (s'.nodes n).parent = some w ∧
      (∀ c ∈ (s.nodes w).children, c ≠ n → (s'.nodes c).parent = some s.next_id) ∧
      (Q ≠ w → (s'.nodes Q).children = (s.nodes Q).children.erase n) := by
  obtain ⟨j, rfl⟩ : ∃ j, k = j + 1 := ⟨k - 1, by omega⟩
  obtain ⟨hnty, p, hp, hrest⟩ := search_reaches_succ s n d top j n w hreach
  rw [hQ] at hp
  cases hp
  have hnw : n ≠ w := by
    intro e
    rw [e, hty] at hnty
    rcases hnty with h | h <;> cases h
  have hkeep : Q = w ∨ (s.nodes Q).type = C_VIEW ∨
      ((s.nodes Q).type = C_CONTAINER ∧ 2 ≤ (s.nodes Q).children.length) := by
    cases j with
    | zero =>
      left
      simpa [search_reaches] using hrest
    | succ i =>
      right
      rcases (search_reaches_succ s n d top i Q w hrest).1 with h | h
      · right
        refine ⟨h, ?_⟩
        have h1 : (s.nodes Q).children.length ≠ 1 := fun e => hflat ⟨h, e⟩
        have h0 : 0 < (s.nodes Q).children.length := List.length_pos_of_mem hmem
        omega
      · exact Or.inl h
  have hne : (s.nodes w).children ≠ [] := by
    intro e
    rw [e] at h2
    simp at h2
  obtain ⟨s', hs', r1, r2, r3, r4, r5, r6, r7, r8, r9⟩ :=
    workspace_rejigger_spec env s w n Q d hty hne hnd hch hfresh hw hnf hQ hnk hQk hnw hkeep
  have hsearch : container_move_search env n d (move_offs d) top (s.next_id + 1) s (some n)
      = some (s', none) := by
    rw [show s.next_id + 1 = (s.next_id - (j + 1) + 1) + (j + 1) by omega,
      search_reaches_spec env s n d top (s.next_id - (j + 1) + 1) (j + 1) n w hreach,
      search_step_rejigger env s n w O d top _ htop hty hO hpar h2, hs']
    rfl
  have hphase : container_move_phase_one env s n d = some (s', none) := by
    unfold container_move_phase_one
    simp only [hstart, hQ, container_flatten_of_not_single s Q hflat, ne_eq, not_true_eq_false,
      if_false]
    exact hsearch
  have hoffs : (move_offs d < 0) ↔ (d = MOVE_LEFT ∨ d = MOVE_UP) := by
    unfold move_offs
    split <;> simp [*]
  refine ⟨s', ?_, ?_, ?_, r3, r4, r5, r6, r7, r8, r9⟩
  · rw [container_move_phases, hphase]
  · rw [r1]
    rfl
  · rw [r2]
    by_cases h : d = MOVE_LEFT ∨ d = MOVE_UP
    · rw [if_pos h, if_pos (hoffs.2 h)]
    · rw [if_neg h, if_neg (fun e => h (hoffs.1 e))]

theorem container_move_rejiggers_witness :
    ∃ s', container_move (example_env WRAP_NO no_adjacent_output) (views_tree [3, 4, 5]) 3
        MOVE_UP = some s' ∧
      (s'.nodes 2).layout = (if MOVE_UP = MOVE_LEFT ∨ MOVE_UP = MOVE_RIGHT then L_HORIZ
        else L_VERT) ∧
      (s'.nodes 2).children
        = (if MOVE_UP = MOVE_LEFT ∨ MOVE_UP = MOVE_UP then [3, (views_tree [3, 4, 5]).next_id]
           else [(views_tree [3, 4, 5]).next_id, 3]) ∧
      (s'.nodes (views_tree [3, 4, 5]).next_id).type = C_CONTAINER ∧
      (s'.nodes (views_tree [3, 4, 5]).next_id).layout = ((views_tree [3, 4, 5]).nodes 2).layout ∧
      (s'.nodes (views_tree [3, 4, 5]).next_id).children
        = ((views_tree [3, 4, 5]).nodes 2).children.erase 3 ∧
      (s'.nodes (views_tree [3, 4, 5]).next_id).parent = some 2 ∧
      (s'.nodes 3).parent = some 2 ∧
      (∀ c ∈ ((views_tree [3, 4, 5]).nodes 2).children, c ≠ 3 →
        (s'.nodes c).parent = some (views_tree [3, 4, 5]).next_id) ∧
      (2 ≠ 2 → (s'.nodes 2).children = ((views_tree [3, 4, 5]).nodes 2).children.erase 3) :=
  container_move_rejiggers (example_env WRAP_NO no_adjacent_output) (views_tree [3, 4, 5])
    3 2 2 1 MOVE_UP (some root_container) 1 (by decide) (by decide) (by decide) (by decide)
    (by decide) (by decide) (by decide) (by decide) (by decide) (by decide) (by decide)
    (by decide) (by decide) (by decide) (by decide) (by decide) (by decide) (by decide)
    (by decide)


/-! ## Promotion out of a tabbed or stacked parent -/

/-- The function `container_split(n, l)` on a node `n` that is neither a workspace nor
fullscreen, node by node: the new container `k` has the slot of `n` under its
parent `P` and the layout `l`, and `n` is the only child of `k`. -/
theorem container_split_node_links (s : State) (n P : Nat) (l : sway_container_layout) (i : Nat)
    (hnw : (s.nodes n).type ≠ C_WORKSPACE)
    (hP : (s.nodes n).parent = some P)
    (hidx : list_find (s.nodes P).children n = some i)
    (hnk : n ≠ s.next_id) (hPk : P ≠ s.next_id)
    (hnf : (s.nodes n).is_fullscreen = false) :
    ∃ s', container_split s n l = some (s', s.next_id) ∧
      s'.next_id = s.next_id + 1 ∧
      ∀ m, (s'.nodes m).type = (if m = s.next_id then C_CONTAINER else (s.nodes m).type) ∧
        (s'.nodes m).parent
          = (if m = n then some s.next_id
             else if m = s.next_id then some P else (s.nodes m).parent) ∧
        (s'.nodes m).children
          = (if m = s.next_id then [n]
             else if m = P then (s.nodes P).children.set i s.next_id
             else (s.nodes m).children) ∧
        (s'.nodes m).layout = (if m = s.next_id then l else (s.nodes m).layout) ∧
        (s'.nodes m).is_fullscreen
          = (if m = s.next_id then false else (s.nodes m).is_fullscreen) := by
  obtain ⟨g1, g2, g3, g4, g5, g6⟩ := split_start_fields s n
  have hkn : s.next_id ≠ n := Ne.symm hnk
  have hkP : s.next_id ≠ P := Ne.symm hPk
  have t1o : ∀ m, m ≠ s.next_id →
      ((split_start s n).upd s.next_id fun m => set_layout m l).nodes m = s.nodes m := by
    intro m hm
    rw [State.upd_nodes, if_neg hm, g1 m hm]
  have t1k : (((split_start s n).upd s.next_id fun m => set_layout m l).nodes s.next_id).children
        = [] ∧
      (((split_start s n).upd s.next_id fun m => set_layout m l).nodes s.next_id).parent = none ∧
      (((split_start s n).upd s.next_id fun m => set_layout m l).nodes s.next_id).type
        = C_CONTAINER ∧
      (((split_start s n).upd s.next_id fun m => set_layout m l).nodes s.next_id).layout = l ∧
      (((split_start s n).upd s.next_id fun m => set_layout m l).nodes s.next_id).is_fullscreen
        = false := by
    simp [split_start, container_create, remove_gaps, add_gaps, State.set, set_prev_layout,
      set_geometry, set_layout, blank_node]
  have t1id : ((split_start s n).upd s.next_id fun m => set_layout m l).next_id
      = s.next_id + 1 := g6
  have hcall := split_node_unfold s n l hnw hnk
  generalize ((split_start s n).upd s.next_id fun m => set_layout m l) = t1
    at t1o t1k t1id hcall
  obtain ⟨k1, k2, k3, k4, k5⟩ := t1k
  have hrep := container_replace_child_unattached t1 n s.next_id P i
    (by rw [t1o n hnk]; exact hP) (by rw [t1o P hPk]; exact hidx) k2
  rw [t1o P hPk] at hrep
  have hf := split_node_fields t1 n s.next_id P ((s.nodes P).children.set i s.next_id) hnk hPk
  have hadd := container_add_child_of_unattached
    (replaced t1 n s.next_id P ((s.nodes P).children.set i s.next_id)) s.next_id n (hf n).1
  generalize adopted (replaced t1 n s.next_id P ((s.nodes P).children.set i s.next_id))
    s.next_id n = v at hadd hf
  have hs3 : container_handle_fullscreen_reparent v n none = some v := by
    apply container_handle_fullscreen_reparent_of_not_fullscreen
    rw [(hf n).2.2.2.2.2.2.1, t1o n hnk]
    exact hnf
  rw [hrep] at hcall
  simp only [hadd, hs3] at hcall
  have hfin := split_finish_nodes (container_set_dirty v n) n s.next_id
    (decide (seat_get_focus (split_start s n) = some n))
  generalize split_finish (container_set_dirty v n) n s.next_id _ = sfin at hcall hfin
  have hd := container_set_dirty_fields v n
  refine ⟨sfin, hcall, ?_, fun m => ⟨?_, ?_, ?_, ?_, ?_⟩⟩
  · rw [hfin.2]
    show v.next_id = _
    rw [(hf n).2.2.2.2.2.2.2.2.2.2.2.2, t1id]
  · rw [hfin.1, (hd m).2.2.2.2.1, (hf m).2.2.2.2.2.1]
    split
    · rename_i e
      rw [e, k3]
    · rename_i e
      rw [t1o m e]
  · rw [hfin.1, (hd m).2.1, (hf m).2.2.1]
    split
    · rfl
    · split
      · rfl
      · rename_i e
        rw [t1o m e]
  · rw [hfin.1, (hd m).1, (hf m).2.1]
    split
    · rw [k1]
      rfl
    · rename_i e
      split
      · rfl
      · rw [t1o m e]
  · rw [hfin.1, (hd m).2.2.1, (hf m).2.2.2.1]
    split
    · rename_i e
      rw [e, k4]
    · rename_i e
      rw [t1o m e]
  · rcases eq_or_ne m n with rfl | hmn
    · rw [hfin.1, if_neg hnk]
      simp only [container_set_dirty, State.upd_nodes, if_true, set_dirty]
      rw [(hf m).2.2.2.2.2.2.1, t1o m hnk]
    · rw [hfin.1]
      simp only [container_set_dirty, State.upd_nodes, if_neg hmn]
      rw [(hf m).2.2.2.2.2.2.1]
      split
      · rename_i e
        rw [e, k5]
      · rename_i e
        rw [t1o m e]


/-- One round of the search at the moving node `n` when its parent `T` is
tabbed or stacked, not fullscreen, below a node that is not floating, and `n`
stands at the edge of `T` or `T` is not parallel to the direction: `n` is
promoted out of `T` and the search is over. -/
theorem search_step_tabs (env : Env) (s : State) (n T G : Nat) (d : movement_direction)
    (top : Option Nat) (fuel : Nat) (i : Nat)
    (htop : some n ≠ top)
    (hty : (s.nodes n).type = C_CONTAINER ∨ (s.nodes n).type = C_VIEW)
    (hT : (s.nodes n).parent = some T)
    (hidx : list_find (s.nodes T).children n = some i)
    (hTfs : (s.nodes T).is_fullscreen = false)
    (htab : (s.nodes T).layout = L_TABBED ∨ (s.nodes T).layout = L_STACKED)
    (hG : (s.nodes T).parent = some G) (hGfl : (s.nodes G).layout ≠ L_FLOATING)
    (hedge : is_parallel (s.nodes T).layout d = false ∨
      (i + 1 = (s.nodes T).children.length ∧ move_offs d > 0) ∨ (i = 0 ∧ move_offs d < 0)) :
    container_move_search env n d (move_offs d) top (fuel + 1) s (some n)
      = (move_out_of_tabs_stacks s n n d (move_offs d)).map fun t => (t, none) := by
  have hi : index_child s n = some (i : Int) := by rw [index_child_eq s n T hT, hidx]
  rw [container_move_search, if_neg htop]
  cases hpar : is_parallel (s.nodes T).layout d with
  | false =>
    rcases hty with hty | hty <;>
      simp only [hi, hT, hty, hpar, Bool.false_eq_true, if_false, hG,
        if_pos (show (s.nodes T).is_fullscreen = false ∧ (s.nodes G).layout ≠ L_FLOATING ∧
          ((s.nodes T).layout = L_TABBED ∨ (s.nodes T).layout = L_STACKED) from
          ⟨hTfs, hGfl, htab⟩)]
  | true =>
    rw [hpar] at hedge
    have hedge' : ((i : Int) = ((s.nodes T).children.length : Int) - 1 ∧ move_offs d > 0) ∨
        ((i : Int) = 0 ∧ move_offs d < 0) := by
      rcases hedge with h | ⟨h1, h2⟩ | ⟨h1, h2⟩
      · cases h
      · exact Or.inl ⟨by omega, h2⟩
      · exact Or.inr ⟨by omega, h2⟩
    rcases hty with hty | hty <;>
      simp only [hi, hT, hty, hpar, if_true, if_pos hedge', hG, if_neg hGfl,
        if_pos (show (s.nodes T).is_fullscreen = false ∧
          ((s.nodes T).layout = L_TABBED ∨ (s.nodes T).layout = L_STACKED) from ⟨hTfs, htab⟩)]

/-- The function `move_out_of_tabs_stacks(n, n, d, offs)` for a child `n` of a workspace
`T` with two children or more: the children of `T` are wrapped in a new
container `k` that takes the layout of `T`, `T` takes the layout of the
direction, and `n` is put beside `k` under `T`. -/
theorem move_out_of_tabs_stacks_workspace (s : State) (n T : Nat) (d : movement_direction)
    (hT : (s.nodes n).parent = some T)
    (hty : (s.nodes T).type = C_WORKSPACE)
    (h2 : 2 ≤ (s.nodes T).children.length)
    (hnd : (s.nodes T).children.Nodup)
    (hch : ∀ c ∈ (s.nodes T).children, (s.nodes c).parent = some T)
    (hfresh : ∀ c ∈ (s.nodes T).children, c ≠ s.next_id) (hTk : T ≠ s.next_id)
    (hmem : n ∈ (s.nodes T).children)
    (hnf : (s.nodes n).is_fullscreen = false) :
    ∃ s', move_out_of_tabs_stacks s n n d (move_offs d) = some s' ∧
      (s'.nodes n).parent = some T ∧
      (s'.nodes T).layout = split_layout_of d ∧
      (s'.nodes T).children
        = (if move_offs d < 0 then [n, s.next_id] else [s.next_id, n]) ∧
      (s'.nodes s.next_id).layout = (s.nodes T).layout ∧
      (s'.nodes s.next_id).children = (s.nodes T).children.erase n := by
  have hne : (s.nodes T).children ≠ [] := by
    intro e
    rw [e] at h2
    simp at h2
  have hnk : n ≠ s.next_id := hfresh n hmem
  have hkT : s.next_id ≠ T := Ne.symm hTk
  obtain ⟨s1, hs1, hid1, hl1⟩ :=
    container_split_workspace_links s T (split_layout_of d) hty hne hnd hch hfresh hTk
  have hp1 : (s1.nodes n).parent = some s.next_id := by
    rw [(hl1 n).2.1, if_neg hnk, if_pos hmem]
  have hdc : ((detached s1 n).nodes T).children = [s.next_id] := by
    rw [detached_children, hp1, if_neg (fun e => hkT (Option.some.inj e)), (hl1 T).2.2.1,
      if_pos rfl]
  obtain ⟨s2, hs2, _, hl2⟩ := container_insert_child_links s1 T n
    (if move_offs d < 0 then 0 else 1)
    (by
      rw [hdc]
      split <;> simp)
    (fun h => by
      rw [(hl1 n).2.2.2.2, if_neg hnk, hnf] at h
      cases h)
  have hidx : (if move_offs d < 0 then (0 : Int) else 1)
      = (((if move_offs d < 0 then 0 else 1 : Nat)) : Int) := by
    split <;> simp
  refine ⟨s2, ?_, ?_, ?_, ?_, ?_, ?_⟩
  · unfold move_out_of_tabs_stacks
    simp only [hT, hs1, hty, decide_True, if_true, (hl1 s.next_id).2.1, hidx,
      hs2, notify_external, container_notify_subtree_changed]
    rw [if_neg (by omega)]
  · rw [(hl2 n).2.1, if_pos rfl]
  · rw [(hl2 T).2.2.2, (hl1 T).2.2.2.1, if_neg hTk, if_pos rfl]
  · rw [(hl2 T).2.2.1, if_pos rfl, hdc]
    split <;> rfl
  · rw [(hl2 _).2.2.2, (hl1 _).2.2.2.1, if_pos rfl]
  · rw [(hl2 _).2.2.1, if_neg hkT, hp1, if_pos rfl, (hl1 _).2.2.1, if_neg hkT, if_pos rfl]


/-- The function `move_out_of_tabs_stacks(n, n, d, offs)` for a child `n` of a container
`T` with two children or more, whose parent `G` is a workspace or has two
children or more: a new container `k` with the layout of the direction takes
the slot of `T` under `G` and holds `T` and `n`. -/
theorem move_out_of_tabs_stacks_container (s : State) (n T G : Nat) (d : movement_direction)
    (j : Nat)
    (hT : (s.nodes n).parent = some T)
    (hty : (s.nodes T).type = C_CONTAINER)
    (h2 : 2 ≤ (s.nodes T).children.length)
    (hG : (s.nodes T).parent = some G)
    (hj : list_find (s.nodes G).children T = some j)
    (hTk : T ≠ s.next_id) (hGk : G ≠ s.next_id) (hnk : n ≠ s.next_id)
    (hnT : n ≠ T) (hTG : T ≠ G)
    (hTfs : (s.nodes T).is_fullscreen = false)
    (hnf : (s.nodes n).is_fullscreen = false)
    (hGkeep : (s.nodes G).type = C_WORKSPACE ∨ 2 ≤ (s.nodes G).children.length) :
    ∃ s', move_out_of_tabs_stacks s n n d (move_offs d) = some s' ∧
      (s'.nodes n).parent = some s.next_id ∧
      (s'.nodes s.next_id).layout = split_layout_of d ∧
      (s'.nodes s.next_id).children
        = (if move_offs d < 0 then [n, T] else [T, n]) ∧
      (s'.nodes T).layout = (s.nodes T).layout ∧
      (s'.nodes T).children = (s.nodes T).children.erase n := by
  have hkT : s.next_id ≠ T := Ne.symm hTk
  have hkn : s.next_id ≠ n := Ne.symm hnk
  have hkG : s.next_id ≠ G := Ne.symm hGk
  have hnw : (s.nodes T).type ≠ C_WORKSPACE := by
    rw [hty]
    decide
  obtain ⟨s1, hs1, hid1, hl1⟩ :=
    container_split_node_links s T G (split_layout_of d) j hnw hG hj hTk hGk hTfs
  have hp1 : (s1.nodes n).parent = some T := by
    rw [(hl1 n).2.1, if_neg hnT, if_neg hnk, hT]
  have hdc : ((detached s1 n).nodes s.next_id).children = [T] := by
    rw [detached_children, hp1, if_neg (fun e => hkT (Option.some.inj e).symm), (hl1 _).2.2.1,
      if_pos rfl]
  obtain ⟨s2, hs2, _, hl2⟩ := container_insert_child_links s1 s.next_id n
    (if move_offs d < 0 then 0 else 1)
    (by
      rw [hdc]
      split <;> simp)
    (fun h => by
      rw [(hl1 n).2.2.2.2, if_neg hnk, hnf] at h
      cases h)
  have hidx : (if move_offs d < 0 then (0 : Int) else 1)
      = (((if move_offs d < 0 then 0 else 1 : Nat)) : Int) := by
    split <;> simp
  have hjlt := list_find_lt _ _ _ hj
  have hpk : (s2.nodes s.next_id).parent = some G := by
    rw [(hl2 _).2.1, if_neg hkn, (hl1 _).2.1, if_neg hkT, if_pos rfl]
  have hchG : (s2.nodes G).children = (s.nodes G).children.set j s.next_id := by
    rw [(hl2 G).2.2.1, if_neg hGk, hp1, if_neg (fun e => hTG (Option.some.inj e)),
      (hl1 G).2.2.1, if_neg hGk, if_pos rfl]
  have htyG : (s2.nodes G).type = (s.nodes G).type := by
    rw [(hl2 G).1, (hl1 G).1, if_neg hGk]
  have hreap : container_reap_empty_recursive s2 (some G) = some s2 := by
    apply container_reap_empty_recursive_keep
    left
    rw [hchG]
    intro e
    have h0 : ((s.nodes G).children.set j s.next_id).length = 0 := by
      rw [e]
      rfl
    rw [List.length_set] at h0
    omega
  have hflat : container_flatten s2 (some G) = some (s2, G) := by
    apply container_flatten_of_not_single
    rw [htyG, hchG, List.length_set]
    rintro ⟨h1, h3⟩
    rcases hGkeep with h | h
    · rw [h] at h1
      cases h1
    · omega
  have hdec : decide ((s.nodes T).type = C_WORKSPACE) = false := by
    rw [hty]
    rfl
  refine ⟨s2, ?_, ?_, ?_, ?_, ?_, ?_⟩
  · unfold move_out_of_tabs_stacks
    simp only [hT, hs1, hdec, Bool.false_eq_true, if_false, hidx, hs2, hpk, hreap, hflat,
      Option.map_some', notify_external, container_notify_subtree_changed]
    rw [if_neg (by omega)]
  · rw [(hl2 n).2.1, if_pos rfl]
  · rw [(hl2 _).2.2.2, (hl1 _).2.2.2.1, if_pos rfl]
  · rw [(hl2 _).2.2.1, if_pos rfl, hdc]
    split <;> rfl
  · rw [(hl2 T).2.2.2, (hl1 T).2.2.2.1, if_neg hTk]
  · rw [(hl2 T).2.2.1, if_neg hTk, hp1, if_pos rfl, (hl1 T).2.2.1, if_neg hTk, if_neg hTG]


/-- Claim C25, amended: for a tabbed or stacked parent `T` (a workspace, or a
container whose parent `G` is a workspace or has two children or more) that is
not fullscreen, has two children or more and lies below a node that is not
floating, and a child `n` of `T` that is not fullscreen and stands at the edge
of `T` in the direction `d`, or for which `d` is not parallel to the layout of
`T`: `container_move(n, d)` returns, and afterwards the parent of `n` is a
node `S` whose layout is horizontal for `d` left or right and vertical
otherwise and whose children are `n` and the group, `n` first for `d` left or
up and second otherwise; the group has the layout `T` had and the children `T`
had, in their order, without `n`.  When `T` is a workspace, `S` is `T` and the
group is the new container; when `T` is a container, `S` is the new container
and the group is `T`. -/
theorem container_move_out_of_tabs (env : Env) (s : State) (n T G S grp : Nat)
    (d : movement_direction) (top : Option Nat) (i j : Nat)
    (hnf : (s.nodes n).is_fullscreen = false)
    (hstart : container_move_start s n = some (some n, top)) (htop : some n ≠ top)
    (hnty : (s.nodes n).type = C_CONTAINER ∨ (s.nodes n).type = C_VIEW)
    (hT : (s.nodes n).parent = some T)
    (hidx : list_find (s.nodes T).children n = some i)
    (hTty : (s.nodes T).type = C_WORKSPACE ∨ (s.nodes T).type = C_CONTAINER)
    (hTfs : (s.nodes T).is_fullscreen = false)
    (htab : (s.nodes T).layout = L_TABBED ∨ (s.nodes T).layout = L_STACKED)
    (h2 : 2 ≤ (s.nodes T).children.length)
    (hG : (s.nodes T).parent = some G) (hGfl : (s.nodes G).layout ≠ L_FLOATING)
    (hedge : is_parallel (s.nodes T).layout d = false ∨
      (i + 1 = (s.nodes T).children.length ∧ (d = MOVE_RIGHT ∨ d = MOVE_DOWN)) ∨
      (i = 0 ∧ (d = MOVE_LEFT ∨ d = MOVE_UP)))
    (hTk : T ≠ s.next_id)
    (hws : (s.nodes T).type = C_WORKSPACE → (s.nodes T).children.Nodup ∧
      ∀ c ∈ (s.nodes T).children, (s.nodes c).parent = some T ∧ c ≠ s.next_id)
    (hct : (s.nodes T).type = C_CONTAINER →
      list_find (s.nodes G).children T = some j ∧ T ≠ G ∧ G ≠ s.next_id ∧ n ≠ s.next_id ∧
      n ≠ T ∧ ((s.nodes G).type = C_WORKSPACE ∨ 2 ≤ (s.nodes G).children.length))
    (hS : S = if (s.nodes T).type = C_WORKSPACE then T else s.next_id)
    (hgrp : grp = if (s.nodes T).type = C_WORKSPACE then s.next_id else T) :
    ∃ s', container_move env s n d = some s' ∧
      (s'.nodes n).parent = some S ∧
      (s'.nodes S).layout = (if d = MOVE_LEFT ∨ d = MOVE_RIGHT then L_HORIZ else L_VERT) ∧
      (s'.nodes S).children = (if d = MOVE_LEFT ∨ d = MOVE_UP then [n, grp] else [grp, n]) ∧
      (s'.nodes grp).layout = (s.nodes T).layout ∧
      (s'.nodes grp).children = (s.nodes T).children.erase n := by
  have hedge' : is_parallel (s.nodes T).layout d = false ∨
      (i + 1 = (s.nodes T).children.length ∧ move_offs d > 0) ∨ (i = 0 ∧ move_offs d < 0) := by
    rcases hedge with h | ⟨h1, h2 | h2⟩ | ⟨h1, h2 | h2⟩
    · exact Or.inl h
    all_goals subst h2
    · exact Or.inr (Or.inl ⟨h1, by decide⟩)
    · exact Or.inr (Or.inl ⟨h1, by decide⟩)
    · exact Or.inr (Or.inr ⟨h1, by decide⟩)
    · exact Or.inr (Or.inr ⟨h1, by decide⟩)
  have hoffs : (move_offs d < 0) ↔ (d = MOVE_LEFT ∨ d = MOVE_UP) := by
    unfold move_offs
    split <;> simp [*]
  have hflat : ¬ ((s.nodes T).type = C_CONTAINER ∧ (s.nodes T).children.length = 1) := by
    intro h
    omega
  have hmem : n ∈ (s.nodes T).children :=
    List.getElem?_mem (list_find_some_iff _ _ _ hidx).1
  have hmove : ∀ s', move_out_of_tabs_stacks s n n d (move_offs d) = some s' →
      container_move env s n d = some s' := by
    intro s' hs'
    have hsearch : container_move_search env n d (move_offs d) top (s.next_id + 1) s (some n)
        = some (s', none) := by
      rw [search_step_tabs env s n T G d top s.next_id i htop hnty hT hidx hTfs htab hG hGfl
        hedge', hs']
      rfl
    have hphase : container_move_phase_one env s n d = some (s', none) := by
      unfold container_move_phase_one
      simp only [hstart, hT, container_flatten_of_not_single s T hflat, ne_eq, not_true_eq_false,
        if_false]
      exact hsearch
    rw [container_move_phases, hphase]
  have hlay : split_layout_of d = (if d = MOVE_LEFT ∨ d = MOVE_RIGHT then L_HORIZ else L_VERT) :=
    rfl
  have hord : ∀ a b : Nat, (if move_offs d < 0 then [a, b] else [b, a])
      = (if d = MOVE_LEFT ∨ d = MOVE_UP then [a, b] else [b, a]) := by
    intro a b
    by_cases h : d = MOVE_LEFT ∨ d = MOVE_UP
    · rw [if_pos h, if_pos (hoffs.2 h)]
    · rw [if_neg h, if_neg (fun e => h (hoffs.1 e))]
  rcases hTty with hty | hty
  · rw [if_pos hty] at hS hgrp
    subst hS hgrp
    obtain ⟨hnd, hch⟩ := hws hty
    obtain ⟨s', hs', r1, r2, r3, r4, r5⟩ := move_out_of_tabs_stacks_workspace s n S d hT hty h2
      hnd (fun c hc => (hch c hc).1) (fun c hc => (hch c hc).2) hTk hmem hnf
    exact ⟨s', hmove s' hs', r1, by rw [r2, hlay], by rw [r3, hord], r4, r5⟩
  · have hnw : ¬ ((s.nodes T).type = C_WORKSPACE) := by
      rw [hty]
      decide
    rw [if_neg hnw] at hS hgrp
    subst hS hgrp
    obtain ⟨hj, hTG, hGk, hnk, hnT, hGkeep⟩ := hct hty
    obtain ⟨s', hs', r1, r2, r3, r4, r5⟩ := move_out_of_tabs_stacks_container s n grp G d j hT
      hty h2 hG hj hTk hGk hnk hnT hTG hTfs hnf hGkeep
    exact ⟨s', hmove s' hs', r1, by rw [r2, hlay], by rw [r3, hord], r4, r5⟩

theorem container_move_out_of_tabs_witness :
    ∃ s', container_move (example_env WRAP_NO no_adjacent_output) (nested_tree L_TABBED) 4
        MOVE_LEFT = some s' ∧
      (s'.nodes 4).parent = some 7 ∧
      (s'.nodes 7).layout = (if MOVE_LEFT = MOVE_LEFT ∨ MOVE_LEFT = MOVE_RIGHT then L_HORIZ
        else L_VERT) ∧
      (s'.nodes 7).children = (if MOVE_LEFT = MOVE_LEFT ∨ MOVE_LEFT = MOVE_UP then [4, 6]
        else [6, 4]) ∧
      (s'.nodes 6).layout = ((nested_tree L_TABBED).nodes 6).layout ∧
      (s'.nodes 6).children = ((nested_tree L_TABBED).nodes 6).children.erase 4 :=
  container_move_out_of_tabs (example_env WRAP_NO no_adjacent_output) (nested_tree L_TABBED)
    4 6 2 7 6 MOVE_LEFT (some root_container) 0 1 (by decide) (by decide) (by decide)
    (by decide) (by decide) (by decide) (by decide) (by decide) (by decide) (by decide)
    (by decide) (by decide) (by decide) (by decide) (fun h => absurd h (by decide))
    (fun _ => by decide) (by decide) (by decide)

/-- Claim C25 as stated fails for a fullscreen child: the view 3 is the first
child of the tabbed workspace 2 of `tabbed_tree true`, which has three
children, is not fullscreen and lies below the output 1, which is not
floating; the view is fullscreen, so the search of `container_move(3,
MOVE_LEFT)` starts at the output, which has no neighbour, and the call leaves
the view under the workspace, still tabbed, with its three children. -/
theorem container_move_fullscreen_stays_in_tabs :
    ((tabbed_tree true).nodes 3).parent = some 2 ∧
    ((tabbed_tree true).nodes 2).type = C_WORKSPACE ∧
    ((tabbed_tree true).nodes 2).is_fullscreen = false ∧
    ((tabbed_tree true).nodes 2).layout = L_TABBED ∧
    ((tabbed_tree true).nodes 2).children = [3, 4, 5] ∧
    ((tabbed_tree true).nodes 2).parent = some 1 ∧
    ((tabbed_tree true).nodes 1).layout ≠ L_FLOATING ∧
    ((tabbed_tree true).nodes 3).is_fullscreen = true ∧
    (container_move (example_env WRAP_NO no_adjacent_output) (tabbed_tree true) 3
        MOVE_LEFT).map (fun s' => ((s'.nodes 3).parent, (s'.nodes 2).layout,
          (s'.nodes 2).children))
      = some (some 2, L_TABBED, [3, 4, 5]) := by
  decide


/-! ## The search of `container_move` on a tabbed workspace -/

/-- Claim C27, the code on a failing input: the entry assertion of
`container_move` rejects no node, so the tabbed workspace 2 of `tabbed_tree
false` is moved to the left.  The search starts at the workspace; its first
round rejiggers the workspace around itself, which makes the workspace its own
parent, and goes on; every later round, at the workspace, goes on to its
parent: the workspace, in the same heap.  The loop makes no progress, and on no
amount of fuel does the search, or `container_move`, give a result. -/
theorem container_move_workspace_loops :
    ((tabbed_tree false).nodes 2).type = C_WORKSPACE ∧
    container_move_start (tabbed_tree false) 2 = some (some 2, some root_container) ∧
    (∃ t, workspace_rejigger (example_env WRAP_NO no_adjacent_output) (tabbed_tree false) 2 2
        MOVE_LEFT = some t ∧
      (t.nodes 2).parent = some 2 ∧
      (∀ fuel, container_move_search (example_env WRAP_NO no_adjacent_output) 2 MOVE_LEFT
          (move_offs MOVE_LEFT) (some root_container) (fuel + 1) (tabbed_tree false) (some 2)
        = container_move_search (example_env WRAP_NO no_adjacent_output) 2 MOVE_LEFT
          (move_offs MOVE_LEFT) (some root_container) fuel t (some 2)) ∧
      (∀ fuel, container_move_search (example_env WRAP_NO no_adjacent_output) 2 MOVE_LEFT
          (move_offs MOVE_LEFT) (some root_container) (fuel + 1) t (some 2)
        = container_move_search (example_env WRAP_NO no_adjacent_output) 2 MOVE_LEFT
          (move_offs MOVE_LEFT) (some root_container) fuel t (some 2))) ∧
    (∀ fuel, container_move_search (example_env WRAP_NO no_adjacent_output) 2 MOVE_LEFT
        (move_offs MOVE_LEFT) (some root_container) fuel (tabbed_tree false) (some 2) = none) ∧
    container_move (example_env WRAP_NO no_adjacent_output) (tabbed_tree false) 2 MOVE_LEFT
      = none := by
  have hfields : (workspace_rejigger (example_env WRAP_NO no_adjacent_output)
      (tabbed_tree false) 2 2 MOVE_LEFT).map
        (fun t => ((t.nodes 2).parent, (t.nodes 2).type, (t.nodes 2).layout))
      = some (some 2, C_WORKSPACE, L_HORIZ) := by
    decide
  cases hr : workspace_rejigger (example_env WRAP_NO no_adjacent_output) (tabbed_tree false) 2 2
      MOVE_LEFT with
  | none =>
    rw [hr] at hfields
    cases hfields
  | some t =>
    rw [hr] at hfields
    simp only [Option.map_some', Option.some.injEq, Prod.mk.injEq] at hfields
    obtain ⟨hp, hty, hlay⟩ := hfields
    have hfirst : ∀ fuel, container_move_search (example_env WRAP_NO no_adjacent_output) 2
        MOVE_LEFT (move_offs MOVE_LEFT) (some root_container) (fuel + 1) (tabbed_tree false)
        (some 2)
        = container_move_search (example_env WRAP_NO no_adjacent_output) 2 MOVE_LEFT
          (move_offs MOVE_LEFT) (some root_container) fuel t (some 2) := by
      intro fuel
      rw [container_move_search, if_neg (by decide)]
      have h1 : index_child (tabbed_tree false) 2 = some 0 := by decide
      have h2 : ((tabbed_tree false).nodes 2).parent = some 1 := by decide
      have h3 : ((tabbed_tree false).nodes 2).type = C_WORKSPACE := by decide
      have h4 : ((tabbed_tree false).nodes 2).layout = L_TABBED := by decide
      simp only [h1, h2, h3, h4, hr]
      rfl
    have hloop : ∀ fuel, container_move_search (example_env WRAP_NO no_adjacent_output) 2
        MOVE_LEFT (move_offs MOVE_LEFT) (some root_container) (fuel + 1) t (some 2)
        = container_move_search (example_env WRAP_NO no_adjacent_output) 2 MOVE_LEFT
          (move_offs MOVE_LEFT) (some root_container) fuel t (some 2) :=
      fun fuel => search_step_workspace _ t 2 2 2 MOVE_LEFT (some root_container) fuel
        (by decide) hty hp (by rw [hlay]; decide) (by rw [hlay]; decide)
    have hnone_t : ∀ fuel, container_move_search (example_env WRAP_NO no_adjacent_output) 2
        MOVE_LEFT (move_offs MOVE_LEFT) (some root_container) fuel t (some 2) = none := by
      intro fuel
      induction fuel with
      | zero => rfl
      | succ f ih => rw [hloop f, ih]
    have hnone : ∀ fuel, container_move_search (example_env WRAP_NO no_adjacent_output) 2
        MOVE_LEFT (move_offs MOVE_LEFT) (some root_container) fuel (tabbed_tree false) (some 2)
        = none := by
      intro fuel
      cases fuel with
      | zero => rfl
      | succ f => rw [hfirst f, hnone_t f]
    refine ⟨by decide, by decide, ⟨t, rfl, hp, hfirst, hloop⟩, hnone, ?_⟩
    rw [container_move_phases]
    have hph : container_move_phase_one (example_env WRAP_NO no_adjacent_output)
        (tabbed_tree false) 2 MOVE_LEFT
        = container_move_search (example_env WRAP_NO no_adjacent_output) 2 MOVE_LEFT
          (move_offs MOVE_LEFT) (some root_container) ((tabbed_tree false).next_id + 1)
          (tabbed_tree false) (some 2) := by
      unfold container_move_phase_one
      have h0 : container_move_start (tabbed_tree false) 2 = some (some 2, some root_container) :=
        by decide
      have h1 : ((tabbed_tree false).nodes 2).parent = some 1 := by decide
      rw [h0]
      simp only [h1]
      rw [container_flatten_of_not_single (tabbed_tree false) 1 (by decide)]
      simp
    rw [hph, hnone]


/-! ## Tree integrity -/

/-- The links agree in both directions exactly when the tree has its integrity
and the unallocated memory is fresh. -/
theorem tree_links_ok_iff (s : State) :
    tree_links_ok s ↔ tree_integrity s ∧ unallocated_unlinked s := by
  constructor
  · intro h
    refine ⟨fun c hc => ?_, h.2.2⟩
    have key : ∀ P, (s.nodes c).parent = some P → ∃ P, (s.nodes c).parent = some P ∧
        (s.nodes P).children.count c = 1 ∧ ∀ Q, Q ≠ P → c ∉ (s.nodes Q).children := by
      intro P hP
      refine ⟨P, hP, List.count_eq_one_of_mem (h.2.1 P) ((h.1 c P).1 hP), fun Q hQ hm => ?_⟩
      have := (h.1 c Q).2 hm
      rw [hP] at this
      exact hQ (Option.some.inj this).symm
    rcases hc with hc | ⟨Q, hQ⟩
    · have hex : ∃ P, (s.nodes c).parent = some P := by
        cases hP : (s.nodes c).parent with
        | none => exact absurd hP hc
        | some P => exact ⟨P, rfl⟩
      obtain ⟨P, hP⟩ := hex
      exact key P hP
    · exact key Q ((h.1 c Q).2 hQ)
  · rintro ⟨h, hf⟩
    have hlisted : ∀ c P, c ∈ (s.nodes P).children →
        (s.nodes c).parent = some P ∧ (s.nodes P).children.count c = 1 := by
      intro c P hm
      obtain ⟨P2, h1, h2, h3⟩ := h c (Or.inr ⟨P, hm⟩)
      have e : P = P2 := by
        by_contra hne
        exact h3 P hne hm
      subst e
      exact ⟨h1, h2⟩
    refine ⟨fun c P => ⟨fun hP => ?_, fun hm => (hlisted c P hm).1⟩, fun P => ?_, hf⟩
    · obtain ⟨P2, h1, h2, _⟩ := h c (Or.inl (by rw [hP]; exact fun e => by cases e))
      rw [hP] at h1
      cases h1
      exact List.count_pos_iff.1 (by omega)
    · rw [List.nodup_iff_count_le_one]
      intro a
      by_cases ha : a ∈ (s.nodes P).children
      · exact le_of_eq (hlisted a P ha).2
      · rw [List.count_eq_zero_of_not_mem ha]
        exact Nat.zero_le 1

theorem links_agree_refl (s : State) : links_agree s s := ⟨rfl, fun _ => ⟨rfl, rfl⟩⟩

theorem links_agree_trans {s t u : State} (h1 : links_agree s t) (h2 : links_agree t u) :
    links_agree s u :=
  ⟨h2.1.trans h1.1, fun n => ⟨(h2.2 n).1.trans (h1.2 n).1, (h2.2 n).2.trans (h1.2 n).2⟩⟩

theorem links_agree_of_same_tree {s t : State} (h : same_tree s t) : links_agree s t :=
  ⟨h.1, fun n => ⟨(h.2.2 n).2.1, (h.2.2 n).2.2.1⟩⟩

theorem tree_links_ok_congr {s t : State} (h : links_agree s t) (hs : tree_links_ok s) :
    tree_links_ok t := by
  obtain ⟨h1, h2, h3⟩ := hs
  refine ⟨fun c P => ?_, fun P => ?_, fun m hm => ?_⟩
  · rw [(h.2 c).1, (h.2 P).2]
    exact h1 c P
  · rw [(h.2 P).2]
    exact h2 P
  · rw [(h.2 m).1, (h.2 m).2]
    exact h3 m (by rw [← h.1]; exact hm)

/-- A heap whose links are those of `s` except that `c` has left the children
of its parent `P` and has no parent. -/
theorem tree_links_ok_detach (s : State) (c P : Nat) (ws : Option Nat)
    (hs : tree_links_ok s) (hP : (s.nodes c).parent = some P) :
    tree_links_ok (detach s c P ws) := by
  obtain ⟨h1, h2, h3⟩ := hs
  refine ⟨fun c' P' => ?_, fun Q => ?_, fun m hm => ?_⟩
  · rw [detach_parent, detach_children]
    constructor
    · intro h
      by_cases hc : c' = c
      · rw [if_pos hc] at h
        cases h
      · rw [if_neg hc] at h
        have hm := (h1 c' P').1 h
        split
        · exact (List.mem_erase_of_ne hc).2 hm
        · exact hm
    · intro h
      by_cases hQ : P' = P
      · rw [if_pos hQ] at h
        have hne : c' ≠ c := by
          intro e
          rw [e] at h
          exact (List.Nodup.not_mem_erase (h2 P')) h
        rw [if_neg hne]
        exact (h1 c' P').2 (List.mem_of_mem_erase h)
      · rw [if_neg hQ] at h
        have hp := (h1 c' P').2 h
        have hne : c' ≠ c := by
          intro e
          rw [e, hP] at hp
          exact hQ (Option.some.inj hp).symm
        rw [if_neg hne]
        exact hp
  · rw [detach_children]
    split
    · exact (h2 Q).erase c
    · exact h2 Q
  · rw [detach_parent, detach_children]
    have := h3 m hm
    constructor
    · split
      · rfl
      · exact this.1
    · split
      · rw [this.2]
        rfl
      · exact this.2

theorem tree_links_ok_detached (s : State) (c : Nat) (hs : tree_links_ok s) :
    tree_links_ok (detached s c) := by
  unfold detached
  cases hP : (s.nodes c).parent with
  | none => exact hs
  | some P => exact tree_links_ok_detach s c P _ hs hP

/-- A heap whose links are those of `s0` except that the unattached node `c`
has been spliced into the children of `P` and has the parent `P`. -/
theorem tree_links_ok_attach (s0 : State) (P c : Nat) (i : Nat)
    (hs : tree_links_ok s0) (hc : (s0.nodes c).parent = none)
    (hca : c < s0.next_id) (hPa : P < s0.next_id) :
    tree_links_ok ((s0.upd P fun n => set_children n
      ((s0.nodes P).children.take i ++ c :: (s0.nodes P).children.drop i)).upd c fun n =>
        set_parent n (some P)) := by
  obtain ⟨h1, h2, h3⟩ := hs
  have hcl : ∀ Q, c ∉ (s0.nodes Q).children := by
    intro Q hm
    have := (h1 c Q).2 hm
    rw [hc] at this
    cases this
  have hpar : ∀ n, (((s0.upd P fun n => set_children n
      ((s0.nodes P).children.take i ++ c :: (s0.nodes P).children.drop i)).upd c fun n =>
        set_parent n (some P)).nodes n).parent = if n = c then some P else (s0.nodes n).parent := by
    intro n
    rcases eq_or_ne n c with rfl | h1 <;> rcases eq_or_ne n P with rfl | h2 <;>
      simp [set_children, set_parent, *]
  have hch : ∀ n, (((s0.upd P fun n => set_children n
      ((s0.nodes P).children.take i ++ c :: (s0.nodes P).children.drop i)).upd c fun n =>
        set_parent n (some P)).nodes n).children
      = if n = P then (s0.nodes P).children.take i ++ c :: (s0.nodes P).children.drop i
        else (s0.nodes n).children := by
    intro n
    rcases eq_or_ne n c with rfl | h1 <;> rcases eq_or_ne n P with rfl | h2 <;>
      simp [set_children, set_parent, *]
  have hmem : ∀ x, x ∈ (s0.nodes P).children.take i ++ c :: (s0.nodes P).children.drop i ↔
      x = c ∨ x ∈ (s0.nodes P).children := by
    intro x
    constructor
    · intro h
      rcases List.mem_append.1 h with h | h
      · exact Or.inr (List.mem_of_mem_take h)
      · rcases List.mem_cons.1 h with h | h
        · exact Or.inl h
        · exact Or.inr (List.mem_of_mem_drop h)
    · intro h
      rcases h with h | h
      · rw [h]
        exact List.mem_append_right _ (List.mem_cons_self _ _)
      · have : x ∈ (s0.nodes P).children.take i ++ (s0.nodes P).children.drop i := by
          rw [List.take_append_drop]
          exact h
        rcases List.mem_append.1 this with h | h
        · exact List.mem_append_left _ h
        · exact List.mem_append_right _ (List.mem_cons_of_mem _ h)
  refine ⟨fun c' P' => ?_, fun Q => ?_, fun m hm => ?_⟩
  · rw [hpar, hch]
    by_cases hcc : c' = c
    · rw [if_pos hcc]
      by_cases hPP : P' = P
      · rw [if_pos hPP, hmem, hPP]
        simp [hcc]
      · rw [if_neg hPP, hcc]
        constructor
        · intro h
          exact absurd (Option.some.inj h).symm hPP
        · intro h
          exact absurd h (hcl P')
    · rw [if_neg hcc]
      by_cases hPP : P' = P
      · rw [if_pos hPP, hmem, hPP, h1 c' P]
        simp [hcc]
      · rw [if_neg hPP]
        exact h1 c' P'
  · rw [hch]
    split
    · have hnd : ((s0.nodes P).children.take i ++ (s0.nodes P).children.drop i).Nodup := by
        rw [List.take_append_drop]
        exact h2 P
      rw [List.nodup_append] at hnd ⊢
      refine ⟨hnd.1, ?_, ?_⟩
      · rw [List.nodup_cons]
        exact ⟨fun h => hcl P (List.mem_of_mem_drop h), hnd.2.1⟩
      · intro a ha hb
        rcases List.mem_cons.1 hb with hb | hb
        · rw [hb] at ha
          exact hcl P (List.mem_of_mem_take ha)
        · exact hnd.2.2 ha hb
    · exact h2 Q
  · have hmn : s0.next_id ≤ m := hm
    have := h3 m hmn
    rw [hpar, hch, if_neg (by omega), if_neg (by omega)]
    exact this

/-! ## The mutators, read backwards from their result -/

/-- A call of `container_remove_child` that returns has detached the node from its
parent. -/
theorem container_remove_child_inv (s : State) (c : Nat) (r : State × Nat)
    (h : container_remove_child s c = some r) :
    ∃ P ws, (s.nodes c).parent = some P ∧ r = (detach s c P ws, P) := by
  cases hP : (s.nodes c).parent with
  | none =>
    exfalso
    unfold container_remove_child at h
    by_cases hfs : (s.nodes c).is_fullscreen = true
    · simp only [hfs, if_true] at h
      cases hw : container_parent s c C_WORKSPACE with
      | none => simp [hw] at h
      | some w =>
        cases w with
        | none => simp [hw] at h
        | some W =>
          have hp1 : ((s.upd W fun n => set_slot n none).nodes c).parent = none := by
            have := (same_tree_upd_slot s W none).2.2 c
            rw [this.2.1, hP]
          simp only [hw] at h
          rw [hp1] at h
          cases h
    · simp [hfs, hP] at h
  | some P =>
    by_cases hfs : (s.nodes c).is_fullscreen = true
    · cases hw : container_parent s c C_WORKSPACE with
      | none =>
        exfalso
        unfold container_remove_child at h
        simp [hfs, hw] at h
      | some w =>
        cases w with
        | none =>
          exfalso
          unfold container_remove_child at h
          simp [hfs, hw] at h
        | some W =>
          refine ⟨P, some W, rfl, ?_⟩
          rw [container_remove_child_eq s c P (some W) hP (by rw [if_pos hfs]; exact ⟨W, hw, rfl⟩)]
            at h
          exact (Option.some.inj h).symm
    · refine ⟨P, none, rfl, ?_⟩
      rw [container_remove_child_eq s c P none hP (by rw [if_neg hfs])] at h
      exact (Option.some.inj h).symm

/-- The step that opens `container_insert_child` and `container_add_sibling`,
when it returns, gives the heap `detached`. -/
theorem detach_first_inv (s : State) (c : Nat) (s1 : State)
    (h : detach_first s c = some s1) : s1 = detached s c := by
  rcases detach_step_cases s c with hX | hX
  · cases hX.symm.trans h
  · exact (Option.some.inj (hX.symm.trans h)).symm

theorem container_insert_child_unfold (s : State) (P c : Nat) (i : Int) :
    container_insert_child s P c i =
      match detach_first s c with
      | none => none
      | some s1 =>
        match list_insert (s1.nodes P).children i c with
        | none => none
        | some l =>
          container_handle_fullscreen_reparent
            ((s1.upd P fun n => set_children n l).upd c fun n => set_parent n (some P)) c
            (s.nodes c).parent := rfl

theorem list_insert_inv (l : List Nat) (i : Int) (c : Nat) (l' : List Nat)
    (h : list_insert l i c = some l') :
    ∃ j : Nat, i = (j : Int) ∧ j ≤ l.length ∧ l' = l.take j ++ c :: l.drop j := by
  unfold list_insert at h
  split at h
  · rename_i hi
    refine ⟨i.toNat, (Int.toNat_of_nonneg hi.1).symm, by omega, ?_⟩
    exact (Option.some.inj h).symm
  · cases h

/-- A call of `container_insert_child` that returns has detached the node and spliced it
into the children of the new parent. -/
theorem container_insert_child_inv (s : State) (P c : Nat) (i : Int) (s' : State)
    (h : container_insert_child s P c i = some s') :
    ∃ j : Nat, i = (j : Int) ∧ j ≤ ((detached s c).nodes P).children.length ∧
      same_tree (reattached s P c (((detached s c).nodes P).children.take j ++
        c :: ((detached s c).nodes P).children.drop j)) s' := by
  rw [container_insert_child_unfold] at h
  cases h1 : detach_first s c with
  | none =>
    rw [h1] at h
    cases h
  | some s1 =>
    rw [h1] at h
    have e := detach_first_inv s c s1 h1
    subst e
    simp only at h
    cases h2 : list_insert ((detached s c).nodes P).children i c with
    | none =>
      rw [h2] at h
      cases h
    | some l =>
      rw [h2] at h
      obtain ⟨j, hj, hjl, hl⟩ := list_insert_inv _ _ _ _ h2
      subst hl
      exact ⟨j, hj, hjl, container_handle_fullscreen_reparent_same_tree _ _ _ _ h⟩

theorem tree_links_ok_reattached (s : State) (P c : Nat) (j : Nat)
    (hs : tree_links_ok s) (hca : c < s.next_id) (hPa : P < s.next_id) :
    tree_links_ok (reattached s P c (((detached s c).nodes P).children.take j ++
      c :: ((detached s c).nodes P).children.drop j)) := by
  have hd := tree_links_ok_detached s c hs
  have hid : (detached s c).next_id = s.next_id := by
    unfold detached
    split <;> rfl
  exact tree_links_ok_attach (detached s c) P c j hd (by rw [detached_parent, if_pos rfl])
    (by rw [hid]; exact hca) (by rw [hid]; exact hPa)

/-- The function `container_insert_child` keeps the links of the tree in order. -/
theorem container_insert_child_links_ok (s : State) (P c : Nat) (i : Int) (s' : State)
    (hs : tree_links_ok s) (hca : c < s.next_id) (hPa : P < s.next_id)
    (h : container_insert_child s P c i = some s') : tree_links_ok s' := by
  obtain ⟨j, _, _, htree⟩ := container_insert_child_inv s P c i s' h
  exact tree_links_ok_congr (links_agree_of_same_tree htree)
    (tree_links_ok_reattached s P c j hs hca hPa)

/-- The function `container_remove_child` keeps the links of the tree in order, and the
removed node is listed nowhere and has no parent. -/
theorem container_remove_child_links_ok (s : State) (c : Nat) (r : State × Nat)
    (hs : tree_links_ok s) (h : container_remove_child s c = some r) :
    tree_links_ok r.1 ∧ (r.1.nodes c).parent = none ∧ (∀ Q, c ∉ (r.1.nodes Q).children) ∧
      r.1.next_id = s.next_id ∧ (s.nodes c).parent = some r.2 := by
  obtain ⟨P, ws, hP, hr⟩ := container_remove_child_inv s c r h
  subst hr
  have hok := tree_links_ok_detach s c P ws hs hP
  refine ⟨hok, by simp, fun Q hm => ?_, rfl, hP⟩
  have := (hok.1 c Q).2 hm
  simp at this

theorem allocated_of_parent (s : State) (hs : tree_links_ok s) (c P : Nat)
    (h : (s.nodes c).parent = some P) : c < s.next_id ∧ P < s.next_id := by
  constructor
  · by_contra hc
    have := (hs.2.2 c (by omega)).1
    rw [h] at this
    cases this
  · by_contra hc
    have := (hs.2.2 P (by omega)).2
    have hm := (hs.1 c P).1 h
    rw [this] at hm
    cases hm

theorem detached_next_id_eq (s : State) (c : Nat) : (detached s c).next_id = s.next_id := by
  unfold detached
  split <;> rfl

theorem container_add_sibling_unfold (s : State) (f a : Nat) :
    container_add_sibling s f a =
      match detach_first s a with
      | none => none
      | some s1 =>
        match (s1.nodes f).parent, index_child s1 f with
        | some parent, some i =>
          match list_insert (s1.nodes parent).children (i + 1) a with
          | none => none
          | some l =>
            match container_handle_fullscreen_reparent
                ((s1.upd parent fun n => set_children n l).upd a fun n =>
                  set_parent n (some parent)) a (s.nodes a).parent with
            | none => none
            | some s4 => some (s4, (s4.nodes a).parent)
        | _, _ => none := rfl

/-- The function `container_add_sibling` keeps the links of the tree in order. -/
theorem container_add_sibling_links_ok (s : State) (f a : Nat) (r : State × Option Nat)
    (hs : tree_links_ok s) (ha : a < s.next_id)
    (h : container_add_sibling s f a = some r) :
    tree_links_ok r.1 ∧ r.1.next_id = s.next_id := by
  rw [container_add_sibling_unfold] at h
  cases h1 : detach_first s a with
  | none =>
    rw [h1] at h
    cases h
  | some s1 =>
    rw [h1] at h
    have e := detach_first_inv s a s1 h1
    subst e
    simp only at h
    have hd := tree_links_ok_detached s a hs
    cases hP : ((detached s a).nodes f).parent with
    | none =>
      rw [hP] at h
      cases h
    | some P =>
      cases hi : index_child (detached s a) f with
      | none =>
        rw [hP, hi] at h
        cases h
      | some i =>
        rw [hP, hi] at h
        simp only at h
        cases h2 : list_insert ((detached s a).nodes P).children (i + 1) a with
        | none =>
          rw [h2] at h
          cases h
        | some l =>
          rw [h2] at h
          simp only at h
          obtain ⟨j, _, _, hl⟩ := list_insert_inv _ _ _ _ h2
          subst hl
          cases h3 : container_handle_fullscreen_reparent
              (((detached s a).upd P fun n => set_children n
                (((detached s a).nodes P).children.take j ++
                  a :: ((detached s a).nodes P).children.drop j)).upd a fun n =>
                set_parent n (some P)) a (s.nodes a).parent with
          | none =>
            rw [h3] at h
            cases h
          | some s4 =>
            rw [h3] at h
            cases h
            have htree := container_handle_fullscreen_reparent_same_tree _ _ _ _ h3
            have hPa := (allocated_of_parent _ hd f P hP).2
            have hok := tree_links_ok_attach (detached s a) P a j hd
              (by rw [detached_parent, if_pos rfl])
              (by rw [detached_next_id_eq]; exact ha) hPa
            exact ⟨tree_links_ok_congr (links_agree_of_same_tree htree) hok,
              by rw [htree.1]; exact detached_next_id_eq s a⟩

theorem links_agree_set_dirty (s : State) (c : Nat) : links_agree s (container_set_dirty s c) :=
  ⟨rfl, fun m => ⟨(container_set_dirty_fields s c m).2.1, (container_set_dirty_fields s c m).1⟩⟩

/-- The function `container_add_child` on a node without a parent keeps the links of the
tree in order. -/
theorem container_add_child_links_ok (s : State) (P c : Nat) (s' : State)
    (hs : tree_links_ok s) (hc : (s.nodes c).parent = none)
    (hca : c < s.next_id) (hPa : P < s.next_id)
    (h : container_add_child s P c = some s') :
    tree_links_ok s' ∧ s'.next_id = s.next_id ∧
      (∀ m, (s'.nodes m).parent = (if m = c then some P else (s.nodes m).parent)) ∧
      (∀ m, (s'.nodes m).children
        = (if m = P then (s.nodes P).children ++ [c] else (s.nodes m).children)) := by
  rw [container_add_child_of_unattached s P c hc] at h
  cases h1 : container_handle_fullscreen_reparent (adopted s P c) c none with
  | none =>
    rw [h1] at h
    cases h
  | some s3 =>
    rw [h1] at h
    cases h
    have htree := container_handle_fullscreen_reparent_same_tree _ _ _ _ h1
    have hag : links_agree (adopted s P c) (container_set_dirty s3 c) :=
      links_agree_trans (links_agree_of_same_tree htree) (links_agree_set_dirty s3 c)
    have hok := tree_links_ok_attach s P c (s.nodes P).children.length hs hc hca hPa
    rw [List.take_length, List.drop_length] at hok
    have had : adopted s P c = ((s.upd P fun n => set_children n ((s.nodes P).children ++ [c])).upd
        c fun n => set_parent n (some P)) := by
      unfold adopted list_add
      rfl
    rw [← had] at hok
    refine ⟨tree_links_ok_congr hag hok, hag.1, fun m => ?_, fun m => ?_⟩
    · rw [(hag.2 m).1, had]
      rcases eq_or_ne m c with rfl | h1 <;> rcases eq_or_ne m P with rfl | h2 <;>
        simp [set_children, set_parent, *]
    · rw [(hag.2 m).2, had]
      rcases eq_or_ne m c with rfl | h1 <;> rcases eq_or_ne m P with rfl | h2 <;>
        simp [set_children, set_parent, *]

theorem list_store_inv (l : List Nat) (i : Int) (c : Nat) (l' : List Nat)
    (h : list_store l i c = some l') :
    ∃ j : Nat, i = (j : Int) ∧ j < l.length ∧ l' = l.set j c := by
  unfold list_store at h
  split at h
  · rename_i hi
    refine ⟨i.toNat, (Int.toNat_of_nonneg hi.1).symm, by omega, ?_⟩
    exact (Option.some.inj h).symm
  · cases h

theorem container_replace_child_unfold (s : State) (child new_child parent : Nat)
    (hP : (s.nodes child).parent = some parent) :
    container_replace_child s child new_child =
      match index_child s child with
      | none => none
      | some i =>
        match detach_first s new_child with
        | none => none
        | some s1 =>
          match list_store (s1.nodes parent).children i new_child with
          | none => none
          | some l =>
            some (replaced s1 child new_child parent l, some parent) := by
  unfold container_replace_child
  rw [hP]
  rfl

theorem replaced_fields (t : State) (child new_child P : Nat) (l : List Nat)
    (hne : new_child ≠ child) (m : Nat) :
    ((replaced t child new_child P l).nodes m).parent
      = (if m = child then none else if m = new_child then some P else (t.nodes m).parent) ∧
    ((replaced t child new_child P l).nodes m).children
      = (if m = P then l else (t.nodes m).children) ∧
    ((replaced t child new_child P l).nodes m).type = (t.nodes m).type ∧
    ((replaced t child new_child P l).nodes m).layout = (t.nodes m).layout ∧
    ((replaced t child new_child P l).nodes m).is_fullscreen = (t.nodes m).is_fullscreen := by
  have hne' := Ne.symm hne
  refine ⟨?_, ?_, ?_, ?_, ?_⟩
  all_goals
    rcases eq_or_ne m child with rfl | h1 <;> rcases eq_or_ne m new_child with rfl | h2 <;>
      rcases eq_or_ne m P with rfl | h3
  all_goals try contradiction
  all_goals try have h1' := Ne.symm h1
  all_goals try have h2' := Ne.symm h2
  all_goals try have h3' := Ne.symm h3
  all_goals simp [replaced, set_size, set_geometry, set_parent, set_children, *]

/-- The function `container_replace_child(child, new_child)` keeps the links of the tree
in order when `new_child` is another node, allocated, and not a sibling of
`child`; afterwards `child` has no parent. -/
theorem container_replace_child_links_ok (s : State) (child new_child P : Nat)
    (r : State × Option Nat)
    (hs : tree_links_ok s) (hP : (s.nodes child).parent = some P)
    (hnew : new_child < s.next_id) (hne : new_child ≠ child)
    (hpp : (s.nodes new_child).parent ≠ some P)
    (h : container_replace_child s child new_child = some r) :
    tree_links_ok r.1 ∧ r.1.next_id = s.next_id ∧ (r.1.nodes child).parent = none ∧
      (r.1.nodes new_child).parent = some P ∧
      (∀ m, m ≠ child → m ≠ new_child → (r.1.nodes m).parent = (s.nodes m).parent) ∧
      (∀ m, (r.1.nodes m).type = (s.nodes m).type) := by
  rw [container_replace_child_unfold s child new_child P hP] at h
  obtain ⟨j, hj, hjl⟩ := list_find_of_mem _ _ ((hs.1 child P).1 hP)
  have hi : index_child s child = some (j : Int) := by rw [index_child_eq s child P hP, hj]
  rw [hi] at h
  simp only at h
  cases h1 : detach_first s new_child with
  | none =>
    rw [h1] at h
    cases h
  | some s1 =>
    rw [h1] at h
    have e := detach_first_inv s new_child s1 h1
    subst e
    simp only at h
    have hd := tree_links_ok_detached s new_child hs
    have hchP : ((detached s new_child).nodes P).children = (s.nodes P).children := by
      rw [detached_children, if_neg hpp]
    rw [hchP, list_store_eq _ j new_child hjl] at h
    cases h
    have hcp : ((detached s new_child).nodes child).parent = some P := by
      rw [detached_parent, if_neg (Ne.symm hne), hP]
    have h2 := tree_links_ok_detach (detached s new_child) child P none hd hcp
    have h3 := tree_links_ok_attach (detach (detached s new_child) child P none) P new_child j h2
      (by
        rw [detach_parent, if_neg hne, detached_parent, if_pos rfl])
      (by
        rw [detach_next_id, detached_next_id_eq]
        exact hnew)
      (by
        rw [detach_next_id, detached_next_id_eq]
        exact (allocated_of_parent s hs child P hP).2)
    have hl : ((detach (detached s new_child) child P none).nodes P).children.take j ++
        new_child :: ((detach (detached s new_child) child P none).nodes P).children.drop j
        = (s.nodes P).children.set j new_child := by
      rw [detach_children, if_pos rfl, hchP]
      exact swap_in _ j child new_child hj
    rw [hl] at h3
    have hf := replaced_fields (detached s new_child) child new_child P
      ((s.nodes P).children.set j new_child) hne
    have hag : links_agree
        (((detach (detached s new_child) child P none).upd P fun n =>
          set_children n ((s.nodes P).children.set j new_child)).upd new_child fun n =>
            set_parent n (some P))
        (replaced (detached s new_child) child new_child P
          ((s.nodes P).children.set j new_child)) := by
      refine ⟨rfl, fun m => ⟨?_, ?_⟩⟩
      · rw [(hf m).1]
        rcases eq_or_ne m child with rfl | h1 <;> rcases eq_or_ne m new_child with rfl | h2 <;>
          rcases eq_or_ne m P with rfl | h3
        all_goals try contradiction
        all_goals try have h1' := Ne.symm h1
        all_goals try have h2' := Ne.symm h2
        all_goals try have h3' := Ne.symm h3
        all_goals simp [set_parent, set_children, *]
      · rw [(hf m).2.1]
        rcases eq_or_ne m child with rfl | h1 <;> rcases eq_or_ne m new_child with rfl | h2 <;>
          rcases eq_or_ne m P with rfl | h3
        all_goals try contradiction
        all_goals try have h1' := Ne.symm h1
        all_goals try have h2' := Ne.symm h2
        all_goals try have h3' := Ne.symm h3
        all_goals simp [set_parent, set_children, *]
    refine ⟨tree_links_ok_congr hag h3, ?_, ?_, ?_, ?_, ?_⟩
    · show (detached s new_child).next_id = s.next_id
      exact detached_next_id_eq s new_child
    · show ((replaced _ _ _ _ _).nodes child).parent = none
      rw [(hf child).1, if_pos rfl]
    · show ((replaced _ _ _ _ _).nodes new_child).parent = some P
      rw [(hf new_child).1, if_neg hne, if_pos rfl]
    · intro m h1 h2
      show ((replaced _ _ _ _ _).nodes m).parent = _
      rw [(hf m).1, if_neg h1, if_neg h2, detached_parent, if_neg h2]
    · intro m
      show ((replaced _ _ _ _ _).nodes m).type = _
      rw [(hf m).2.2.1]
      unfold detached
      split
      · rfl
      · rfl

/-! ## Tree integrity: `container_split` -/

theorem tree_links_ok_split_start (s : State) (w : Nat) (hs : tree_links_ok s) :
    tree_links_ok (split_start s w) := by
  obtain ⟨g1, g2, g3, _, _, g6⟩ := split_start_fields s w
  obtain ⟨h1, h2, h3⟩ := hs
  have hk := h3 s.next_id (Nat.le_refl _)
  have hkl : ∀ Q, s.next_id ∉ (s.nodes Q).children := by
    intro Q hm
    have := (h1 _ Q).2 hm
    rw [hk.1] at this
    cases this
  have hch : ∀ m, ((split_start s w).nodes m).children = (s.nodes m).children := by
    intro m
    rcases eq_or_ne m s.next_id with rfl | hm
    · rw [g2, hk.2]
    · rw [g1 m hm]
  have hpa : ∀ m, ((split_start s w).nodes m).parent = (s.nodes m).parent := by
    intro m
    rcases eq_or_ne m s.next_id with rfl | hm
    · rw [g3, hk.1]
    · rw [g1 m hm]
  refine ⟨fun c P => ?_, fun P => ?_, fun m hm => ?_⟩
  · rw [hpa, hch]
    exact h1 c P
  · rw [hch]
    exact h2 P
  · rw [hpa, hch]
    exact h3 m (by rw [g6] at hm; omega)

theorem container_split_loop_links_ok (w k : Nat) :
    ∀ (fuel : Nat) (s s' : State), tree_links_ok s → (s.nodes k).parent = none →
      k < s.next_id → container_split_loop w k fuel s = some s' →
      tree_links_ok s' ∧ (s'.nodes k).parent = none ∧ s'.next_id = s.next_id ∧
        (s'.nodes w).children = [] := by
  intro fuel
  induction fuel with
  | zero =>
    intro s s' hs hk _ h
    unfold container_split_loop at h
    split at h
    · rename_i he
      cases h
      exact ⟨hs, hk, rfl, he⟩
    · cases h
  | succ fuel ih =>
    intro s s' hs hk hka h
    rw [container_split_loop] at h
    cases hch : (s.nodes w).children with
    | nil =>
      rw [hch] at h
      cases h
      exact ⟨hs, hk, rfl, hch⟩
    | cons c rest =>
      rw [hch] at h
      simp only at h
      cases hr : container_remove_child s c with
      | none =>
        rw [hr] at h
        cases h
      | some r =>
        rw [hr] at h
        simp only at h
        obtain ⟨r1, r2, r3, r4, r5⟩ := container_remove_child_links_ok s c r hs hr
        have hcw : (s.nodes c).parent = some w := by
          apply (hs.1 c w).2
          rw [hch]
          exact List.mem_cons_self _ _
        have hck : c ≠ k := by
          intro e
          rw [e, hk] at hcw
          cases hcw
        obtain ⟨P, ws, hP, hr'⟩ := container_remove_child_inv s c r hr
        have hk1 : (r.1.nodes k).parent = none := by
          rw [hr']
          show ((detach s c P ws).nodes k).parent = none
          rw [detach_parent, if_neg (Ne.symm hck), hk]
        cases ha : container_add_child r.1 k c with
        | none =>
          rw [ha] at h
          cases h
        | some s2 =>
          rw [ha] at h
          simp only at h
          obtain ⟨a1, a2, a3, _⟩ := container_add_child_links_ok r.1 k c s2 r1 r2
            (by rw [r4]; exact (allocated_of_parent s hs c w hcw).1) (by rw [r4]; exact hka) ha
          obtain ⟨b1, b2, b3, b4⟩ := ih s2 s' a1 (by rw [a3, if_neg (Ne.symm hck), hk1])
            (by rw [a2, r4]; exact hka) h
          exact ⟨b1, b2, by rw [b3, a2, r4], b4⟩

theorem links_agree_upd_layout (s : State) (a : Nat) (l : sway_container_layout) :
    links_agree s (s.upd a fun n => set_layout n l) :=
  ⟨rfl, fun m => ⟨(upd_set_layout_links s a m l).2.1, (upd_set_layout_links s a m l).2.2⟩⟩

theorem links_agree_upd_prev_layout (s : State) (a : Nat) (l : sway_container_layout) :
    links_agree s (s.upd a fun n => set_prev_layout n l) := by
  refine ⟨rfl, fun m => ?_⟩
  rcases eq_or_ne m a with rfl | h <;> simp [set_prev_layout, *]

theorem links_agree_split_finish (s5 : State) (child cont : Nat) (foc : Bool) :
    links_agree s5 (split_finish s5 child cont foc) := by
  have := split_finish_nodes s5 child cont foc
  exact ⟨this.2, fun m => by rw [this.1]; exact ⟨rfl, rfl⟩⟩

/-- The function `container_split` keeps the links of the tree in order; the node it
returns is allocated, and when the split node is a workspace the returned node
is its only child, if it has one. -/
theorem container_split_links_ok (s : State) (child : Nat) (layout : sway_container_layout)
    (r : State × Nat) (hs : tree_links_ok s) (hc : child < s.next_id)
    (h : container_split s child layout = some r) :
    tree_links_ok r.1 ∧ s.next_id ≤ r.1.next_id ∧ r.2 < r.1.next_id ∧
      ((s.nodes child).type = C_WORKSPACE → ∀ c ∈ (r.1.nodes child).children, c = r.2) := by
  have hck : child ≠ s.next_id := by omega
  by_cases hty : (s.nodes child).type = C_WORKSPACE
  · by_cases hne : (s.nodes child).children = []
    · -- the empty workspace
      unfold container_split at h
      rw [if_pos ⟨hty, by rw [hne]; rfl⟩] at h
      cases h
      have hag : links_agree s ((s.upd child fun n => set_prev_layout n n.layout).upd child
          fun n => set_layout n layout) :=
        links_agree_trans (links_agree_upd_prev_layout s child _) (links_agree_upd_layout _ _ _)
      refine ⟨tree_links_ok_congr hag hs, Nat.le_refl _, hc, fun _ c hm => ?_⟩
      rw [(hag.2 child).2, hne] at hm
      cases hm
    · rw [split_workspace_unfold s child layout hty hne hck] at h
      have h0 := tree_links_ok_split_start s child hs
      obtain ⟨g1, g2, g3, _, _, g6⟩ := split_start_fields s child
      cases hl : container_split_loop child s.next_id (s.nodes child).children.length
          (split_start s child) with
      | none =>
        rw [hl] at h
        cases h
      | some t1 =>
        rw [hl] at h
        simp only at h
        obtain ⟨l1, l2, l3, l4⟩ := container_split_loop_links_ok child s.next_id _ _ _ h0 g3
          (by rw [g6]; omega) hl
        cases ha : container_add_child t1 child s.next_id with
        | none =>
          rw [ha] at h
          cases h
        | some t2 =>
          rw [ha] at h
          cases h
          obtain ⟨a1, a2, a3, a4⟩ := container_add_child_links_ok t1 child s.next_id t2 l1 l2
            (by rw [l3, g6]; omega) (by rw [l3, g6]; omega) ha
          have hag : links_agree t2 (split_finish
              ((t2.upd child fun n => set_layout n layout).upd s.next_id fun n =>
                set_layout n (t2.nodes child).layout) child s.next_id
              (decide (seat_get_focus (split_start s child) = some child))) :=
            links_agree_trans (links_agree_trans (links_agree_upd_layout _ _ _)
              (links_agree_upd_layout _ _ _)) (links_agree_split_finish _ _ _ _)
          refine ⟨tree_links_ok_congr hag a1, ?_, ?_, fun _ c hm => ?_⟩
          · rw [hag.1, a2, l3, g6]
            omega
          · rw [hag.1, a2, l3, g6]
            show s.next_id < s.next_id + 1
            omega
          · rw [(hag.2 child).2, a4, if_pos rfl, l4] at hm
            simpa using hm
  · rw [split_node_unfold s child layout hty hck] at h
    have h0 := tree_links_ok_split_start s child hs
    obtain ⟨g1, g2, g3, _, _, g6⟩ := split_start_fields s child
    have h1 : tree_links_ok ((split_start s child).upd s.next_id fun m => set_layout m layout) :=
      tree_links_ok_congr (links_agree_upd_layout _ _ _) h0
    have hkp : (((split_start s child).upd s.next_id fun m => set_layout m layout).nodes
        s.next_id).parent = none := by
      rw [(upd_set_layout_links _ _ _ _).2.1, g3]
    have hid : ((split_start s child).upd s.next_id fun m => set_layout m layout).next_id
        = s.next_id + 1 := g6
    have hcp : (((split_start s child).upd s.next_id fun m => set_layout m layout).nodes
        child).parent = (s.nodes child).parent := by
      rw [(upd_set_layout_links _ _ _ _).2.1, g1 child hck]
    generalize ((split_start s child).upd s.next_id fun m => set_layout m layout) = t1
      at h h1 hkp hid hcp
    cases hr : container_replace_child t1 child s.next_id with
    | none =>
      rw [hr] at h
      cases h
    | some r2 =>
      rw [hr] at h
      simp only at h
      have hrep : tree_links_ok r2.1 ∧ r2.1.next_id = t1.next_id ∧
          (r2.1.nodes child).parent = none := by
        cases hP : (t1.nodes child).parent with
        | none =>
          unfold container_replace_child at hr
          rw [hP] at hr
          cases hr
          exact ⟨h1, rfl, hP⟩
        | some P =>
          obtain ⟨q1, q2, q3, _⟩ := container_replace_child_links_ok t1 child s.next_id P r2 h1 hP
            (by rw [hid]; omega) (Ne.symm hck) (by rw [hkp]; exact fun e => by cases e) hr
          exact ⟨q1, q2, q3⟩
      obtain ⟨q1, q2, q3⟩ := hrep
      cases ha : container_add_child r2.1 s.next_id child with
      | none =>
        rw [ha] at h
        cases h
      | some s5 =>
        rw [ha] at h
        cases h
        obtain ⟨a1, a2, _, _⟩ := container_add_child_links_ok r2.1 s.next_id child s5 q1 q3
          (by rw [q2, hid]; omega) (by rw [q2, hid]; omega) ha
        have hag := links_agree_split_finish s5 child s.next_id
          (decide (seat_get_focus (split_start s child) = some child))
        refine ⟨tree_links_ok_congr hag a1, ?_, ?_, fun e => absurd e hty⟩
        · rw [hag.1, a2, q2, hid]
          omega
        · rw [hag.1, a2, q2, hid]
          show s.next_id < s.next_id + 1
          omega

/-! ## Tree integrity: `container_swap` -/

theorem links_agree_of_nodes {s t : State} (h1 : t.nodes = s.nodes) (h2 : t.next_id = s.next_id) :
    links_agree s t :=
  ⟨h2, fun m => by rw [h1]; exact ⟨rfl, rfl⟩⟩

theorem refocus_hidden_inv (env : Env) (s : State) (vis : Option Nat) (t : State)
    (h : refocus_hidden env s vis = some t) : t.nodes = s.nodes ∧ t.next_id = s.next_id := by
  unfold refocus_hidden at h
  split at h
  · cases h
    exact ⟨rfl, rfl⟩
  · cases vis with
    | none => cases h
    | some v =>
      cases h
      exact seat_set_focus_ptr_nodes _ _

theorem swap_focus_inv (env : Env) (s : State) (a b : Nat) (focus : Option Nat) (t : State)
    (h : swap_focus env s a b focus = some t) : t.nodes = s.nodes ∧ t.next_id = s.next_id := by
  unfold swap_focus at h
  by_cases hf : focus = some a ∨ focus = some b
  · rw [if_pos hf] at h
    cases h1 : container_parent s a C_WORKSPACE with
    | none => simp [h1] at h
    | some ws1 =>
      cases h2 : container_parent s b C_WORKSPACE with
      | none => simp [h1, h2] at h
      | some ws2 =>
        simp only [h1, h2] at h
        cases h3 : (if focus = some a then parent_is_tabbed_or_stacked s b else some false) with
        | none => simp [h3] at h
        | some first =>
          cases first with
          | true =>
            simp only [h3, Option.some.injEq] at h
            subst h
            split <;> exact ⟨rfl, rfl⟩
          | false =>
            simp only [h3] at h
            cases h4 : (if focus = some b then parent_is_tabbed_or_stacked s a else some false) with
            | none => simp [h4] at h
            | some second =>
              cases second with
              | true =>
                simp only [h4, Option.some.injEq] at h
                subst h
                split <;> exact ⟨rfl, rfl⟩
              | false =>
                simp only [h4] at h
                by_cases hw : ws1 ≠ ws2
                · rw [if_pos hw] at h
                  cases h
                  exact ⟨rfl, rfl⟩
                · rw [if_neg hw] at h
                  cases h
                  exact seat_set_focus_ptr_nodes _ _
  · rw [if_neg hf] at h
    cases h
    exact seat_set_focus_ptr_nodes _ _

theorem swap_places_links_ok (s : State) (a b : Nat) (s' : State) (hs : tree_links_ok s)
    (h : swap_places s a b = some s') : tree_links_ok s' := by
  unfold swap_places at h
  simp only at h
  have hag : links_agree s ((s.upd a fun n =>
      set_geometry n (s.nodes b).x (s.nodes b).y (s.nodes b).width (s.nodes b).height).upd b
      fun n => set_geometry n (s.nodes a).x (s.nodes a).y (s.nodes a).width (s.nodes a).height) :=
    links_agree_trans (links_agree_of_same_tree (same_tree_upd_geometry _ _ _ _ _ _))
      (links_agree_of_same_tree (same_tree_upd_geometry _ _ _ _ _ _))
  have h2 := tree_links_ok_congr hag hs
  generalize ((s.upd a fun n =>
      set_geometry n (s.nodes b).x (s.nodes b).y (s.nodes b).width (s.nodes b).height).upd b
      fun n => set_geometry n (s.nodes a).x (s.nodes a).y (s.nodes a).width (s.nodes a).height)
    = s2 at h hag h2
  cases hi1 : index_child s2 a with
  | none =>
    rw [hi1] at h
    cases h
  | some ti =>
    cases hp2 : (s2.nodes b).parent with
    | none =>
      rw [hi1, hp2] at h
      cases h
    | some p2 =>
      cases hi2 : index_child s2 b with
      | none =>
        rw [hi1, hp2, hi2] at h
        cases h
      | some i2 =>
        rw [hi1, hp2, hi2] at h
        simp only at h
        cases h3 : container_insert_child s2 p2 a i2 with
        | none =>
          rw [h3] at h
          cases h
        | some s3 =>
          rw [h3] at h
          simp only at h
          cases hp1 : (s.nodes a).parent with
          | none =>
            rw [hp1] at h
            cases h
          | some p1 =>
            rw [hp1] at h
            simp only at h
            have hp1' : (s2.nodes a).parent = some p1 := by rw [(hag.2 a).1, hp1]
            have al1 := allocated_of_parent s2 h2 a p1 hp1'
            have al2 := allocated_of_parent s2 h2 b p2 hp2
            have h4 := container_insert_child_links_ok s2 p2 a i2 s3 h2 al1.1 al2.2 h3
            obtain ⟨j, _, _, htree⟩ := container_insert_child_inv s2 p2 a i2 s3 h3
            have hid : s3.next_id = s2.next_id := by
              rw [htree.1, reattached_next_id]
            exact container_insert_child_links_ok s3 p1 b ti s' h4 (by rw [hid]; exact al2.1)
              (by rw [hid]; exact al1.2) h

/-- The function `container_swap` keeps the links of the tree in order. -/
theorem container_swap_links_ok (env : Env) (s : State) (a b : Nat) (s' : State)
    (hs : tree_links_ok s) (h : container_swap env s a b = some s') : tree_links_ok s' := by
  unfold container_swap at h
  by_cases hg1 : ¬ ((s.nodes a).type = C_CONTAINER ∨ (s.nodes a).type = C_VIEW) ∨
      ¬ ((s.nodes b).type = C_CONTAINER ∨ (s.nodes b).type = C_VIEW)
  · rw [if_pos hg1] at h
    cases h
    exact hs
  rw [if_neg hg1] at h
  simp only at h
  have hrel : ∀ rel : Option Bool,
      (match rel with
        | none => none
        | some true => some s
        | some false =>
          if ¬ ((s.nodes a).layout ≠ L_FLOATING ∧ (s.nodes b).layout ≠ L_FLOATING) then some s
          else
            match visible_workspace env
                (if (s.nodes b).is_fullscreen = true then
                  container_set_fullscreen
                    (if (s.nodes a).is_fullscreen = true then container_set_fullscreen s a false
                      else s) b false
                else if (s.nodes a).is_fullscreen = true then container_set_fullscreen s a false
                else s) a,
              visible_workspace env
                (if (s.nodes b).is_fullscreen = true then
                  container_set_fullscreen
                    (if (s.nodes a).is_fullscreen = true then container_set_fullscreen s a false
                      else s) b false
                else if (s.nodes a).is_fullscreen = true then container_set_fullscreen s a false
                else s) b with
            | some vis1, some vis2 =>
              match swap_places
                  (if (s.nodes b).is_fullscreen = true then
                    container_set_fullscreen
                      (if (s.nodes a).is_fullscreen = true then container_set_fullscreen s a false
                        else s) b false
                  else if (s.nodes a).is_fullscreen = true then container_set_fullscreen s a false
                  else s) a b with
              | none => none
              | some s3 =>
                match refocus_hidden env s3 vis1 with
                | none => none
                | some s4 =>
                  match refocus_hidden env s4 vis2 with
                  | none => none
                  | some s5 =>
                    match swap_focus env s5 a b
                        (seat_get_focus
                          (if (s.nodes b).is_fullscreen = true then
                            container_set_fullscreen
                              (if (s.nodes a).is_fullscreen = true then
                                container_set_fullscreen s a false else s) b false
                          else if (s.nodes a).is_fullscreen = true then
                            container_set_fullscreen s a false
                          else s)) with
                    | none => none
                    | some s6 =>
                      some (if (s.nodes b).is_fullscreen = true then
                        container_set_fullscreen
                          (if (s.nodes a).is_fullscreen = true then
                            container_set_fullscreen s6 b true else s6) a true
                        else if (s.nodes a).is_fullscreen = true then
                          container_set_fullscreen s6 b true
                        else s6)
            | _, _ => none) = some s' → tree_links_ok s' := by
    intro rel h
    cases rel with
    | none => cases h
    | some r =>
      cases r with
      | true =>
        cases h
        exact hs
      | false =>
        simp only at h
        by_cases hg2 : ¬ ((s.nodes a).layout ≠ L_FLOATING ∧ (s.nodes b).layout ≠ L_FLOATING)
        · rw [if_pos hg2] at h
          cases h
          exact hs
        rw [if_neg hg2] at h
        have hs2 : tree_links_ok
            (if (s.nodes b).is_fullscreen = true then
              container_set_fullscreen
                (if (s.nodes a).is_fullscreen = true then container_set_fullscreen s a false else s)
                b false
            else if (s.nodes a).is_fullscreen = true then container_set_fullscreen s a false
            else s) := by
          have h1 : tree_links_ok
              (if (s.nodes a).is_fullscreen = true then container_set_fullscreen s a false
                else s) := by
            split
            · exact tree_links_ok_congr
                (links_agree_of_same_tree (container_set_fullscreen_same_tree _ _ _)) hs
            · exact hs
          split
          · exact tree_links_ok_congr
              (links_agree_of_same_tree (container_set_fullscreen_same_tree _ _ _)) h1
          · exact h1
        generalize (if (s.nodes b).is_fullscreen = true then
              container_set_fullscreen
                (if (s.nodes a).is_fullscreen = true then container_set_fullscreen s a false else s)
                b false
            else if (s.nodes a).is_fullscreen = true then container_set_fullscreen s a false
            else s) = s2 at h hs2
        cases hv1 : visible_workspace env s2 a with
        | none => simp [hv1] at h
        | some vis1 =>
          cases hv2 : visible_workspace env s2 b with
          | none => simp [hv1, hv2] at h
          | some vis2 =>
            simp only [hv1, hv2] at h
            cases h3 : swap_places s2 a b with
            | none => simp [h3] at h
            | some s3 =>
              simp only [h3] at h
              have hs3 := swap_places_links_ok s2 a b s3 hs2 h3
              cases h4 : refocus_hidden env s3 vis1 with
              | none => simp [h4] at h
              | some s4 =>
                simp only [h4] at h
                have e4 := refocus_hidden_inv env s3 vis1 s4 h4
                cases h5 : refocus_hidden env s4 vis2 with
                | none => simp [h5] at h
                | some s5 =>
                  simp only [h5] at h
                  have e5 := refocus_hidden_inv env s4 vis2 s5 h5
                  cases h6 : swap_focus env s5 a b (seat_get_focus s2) with
                  | none => simp [h6] at h
                  | some s6 =>
                    simp only [h6, Option.some.injEq] at h
                    have e6 := swap_focus_inv env s5 a b _ s6 h6
                    subst h
                    have hs6 : tree_links_ok s6 :=
                      tree_links_ok_congr (links_agree_of_nodes e6.1 e6.2)
                        (tree_links_ok_congr (links_agree_of_nodes e5.1 e5.2)
                          (tree_links_ok_congr (links_agree_of_nodes e4.1 e4.2) hs3))
                    have hs7 : tree_links_ok
                        (if (s.nodes a).is_fullscreen = true then container_set_fullscreen s6 b true
                          else s6) := by
                      split
                      · exact tree_links_ok_congr
                          (links_agree_of_same_tree (container_set_fullscreen_same_tree _ _ _)) hs6
                      · exact hs6
                    split
                    · exact tree_links_ok_congr
                        (links_agree_of_same_tree (container_set_fullscreen_same_tree _ _ _)) hs7
                    · exact hs7
  exact hrel _ h

/-! ## Tree integrity: destruction, flattening and reaping -/

theorem container_destroy_inv (s : State) (con : Nat) (t : State)
    (h : container_destroy s con = some t) :
    t.nodes = (detached s con).nodes ∧ t.next_id = s.next_id := by
  have e : container_destroy s con
      = (detach_first s con).map fun t =>
          { t with focus_stack := t.focus_stack.filter fun n => n != con } := rfl
  rw [e] at h
  cases h1 : detach_first s con with
  | none =>
    rw [h1] at h
    cases h
  | some s1 =>
    rw [h1] at h
    have e1 := detach_first_inv s con s1 h1
    subst e1
    cases h
    exact ⟨rfl, detached_next_id_eq s con⟩

theorem container_destroy_links_ok (s : State) (con : Nat) (t : State) (hs : tree_links_ok s)
    (h : container_destroy s con = some t) : tree_links_ok t ∧ t.next_id = s.next_id := by
  obtain ⟨h1, h2⟩ := container_destroy_inv s con t h
  exact ⟨tree_links_ok_congr
    (links_agree_of_nodes h1 (by rw [h2, detached_next_id_eq])) (tree_links_ok_detached s con hs),
    h2⟩

/-- One step of `container_flatten` at a container `c` with a single child:
when the replacement of `c` by its child returns, `c` has a parent other than
itself, and the links are in order afterwards. -/
theorem flatten_step_links_ok (s : State) (c x : Nat) (r : State × Option Nat)
    (hs : tree_links_ok s) (hx : (s.nodes c).children = [x])
    (h : container_replace_child s c x = some r) :
    tree_links_ok r.1 ∧ r.1.next_id = s.next_id ∧
      (∀ P, (s.nodes c).parent = some P →
        (r.1.nodes c).parent = none ∧
        ∀ m, m ≠ c → m ≠ x → (r.1.nodes m).parent = (s.nodes m).parent) := by
  have hxc : (s.nodes x).parent = some c := by
    apply (hs.1 x c).2
    rw [hx]
    exact List.mem_singleton_self x
  cases hP : (s.nodes c).parent with
  | none =>
    unfold container_replace_child at h
    rw [hP] at h
    cases h
    exact ⟨hs, rfl, fun P hP' => by cases hP'⟩
  | some P =>
    by_cases hPc : P = c
    · -- a node that is its own parent and only child: the store is outside the list
      exfalso
      subst hPc
      have hmem : P ∈ (s.nodes P).children := (hs.1 P P).1 hP
      rw [hx] at hmem
      have hxP : x = P := (List.mem_singleton.1 hmem).symm
      subst hxP
      rw [container_replace_child_unfold s x x x hP] at h
      have hi : index_child s x = some ((0 : Nat) : Int) := by
        rw [index_child_eq s x x hP, hx]
        simp [list_find]
      rw [hi] at h
      simp only at h
      cases h1 : detach_first s x with
      | none =>
        rw [h1] at h
        cases h
      | some s1 =>
        rw [h1] at h
        have e := detach_first_inv s x s1 h1
        subst e
        simp only at h
        have hch : ((detached s x).nodes x).children = [] := by
          rw [detached_children, if_pos hP, hx]
          simp
        rw [hch] at h
        simp [list_store] at h
    · have hxne : x ≠ c := by
        intro e
        rw [e, hP] at hxc
        exact hPc (Option.some.inj hxc)
      obtain ⟨q1, q2, q3, _, q5, _⟩ := container_replace_child_links_ok s c x P r hs hP
        (allocated_of_parent s hs x c hxc).1 hxne
        (by rw [hxc]; exact fun e => hPc (Option.some.inj e).symm) h
      exact ⟨q1, q2, fun P' _ => ⟨q3, q5⟩⟩

/-- The function `container_flatten` keeps the links of the tree in order. -/
theorem container_flatten_loop_links_ok :
    ∀ (fuel : Nat) (s : State) (c : Nat) (r : State × Nat), tree_links_ok s →
      container_flatten_loop fuel s c = some r → tree_links_ok r.1 ∧ r.1.next_id = s.next_id := by
  intro fuel
  induction fuel with
  | zero =>
    intro s c r hs h
    unfold container_flatten_loop at h
    split at h
    · cases h
    · cases h
      exact ⟨hs, rfl⟩
  | succ fuel ih =>
    intro s c r hs h
    rw [container_flatten_loop] at h
    by_cases hc : (s.nodes c).type = C_CONTAINER ∧ (s.nodes c).children.length = 1
    · rw [if_pos hc] at h
      obtain ⟨x, hx⟩ : ∃ x, (s.nodes c).children = [x] := List.length_eq_one.1 hc.2
      have hhead : (s.nodes c).children.head? = some x := by rw [hx]; rfl
      rw [hhead] at h
      simp only at h
      cases hr : container_replace_child s c x with
      | none =>
        rw [hr] at h
        cases h
      | some r1 =>
        rw [hr] at h
        simp only at h
        obtain ⟨q1, q2, _⟩ := flatten_step_links_ok s c x r1 hs hx hr
        cases hd : container_destroy r1.1 c with
        | none =>
          rw [hd] at h
          cases h
        | some s2 =>
          rw [hd] at h
          simp only at h
          obtain ⟨d1, d2⟩ := container_destroy_links_ok r1.1 c s2 q1 hd
          cases hp : (s.nodes c).parent with
          | none =>
            rw [hp] at h
            cases h
          | some p =>
            rw [hp] at h
            simp only at h
            obtain ⟨i1, i2⟩ := ih s2 p r d1 h
            exact ⟨i1, by rw [i2, d2, q2]⟩
    · rw [if_neg hc] at h
      cases h
      exact ⟨hs, rfl⟩

theorem container_flatten_links_ok (s : State) (c : Option Nat) (r : State × Nat)
    (hs : tree_links_ok s) (h : container_flatten s c = some r) :
    tree_links_ok r.1 ∧ r.1.next_id = s.next_id := by
  cases c with
  | none => cases h
  | some c => exact container_flatten_loop_links_ok _ s c r hs h

theorem container_reap_empty_links_ok (s : State) (con : Nat) (r : State × Bool)
    (hs : tree_links_ok s) (h : container_reap_empty s con = some r) :
    tree_links_ok r.1 ∧ r.1.next_id = s.next_id := by
  unfold container_reap_empty at h
  have key : ∀ o : Option State, o.map (fun t => (t, true)) = some r →
      o = container_destroy s con → tree_links_ok r.1 ∧ r.1.next_id = s.next_id := by
    intro o ho hd
    cases o with
    | none => cases ho
    | some t =>
      cases ho
      exact container_destroy_links_ok s con t hs hd.symm
  cases hty : (s.nodes con).type with
  | C_CONTAINER =>
    rw [hty] at h
    simp only at h
    split at h
    · exact key _ h rfl
    · cases h
      exact ⟨hs, rfl⟩
  | C_WORKSPACE =>
    rw [hty] at h
    simp only at h
    split at h
    · exact key _ h rfl
    · cases h
      exact ⟨hs, rfl⟩
  | C_ROOT =>
    rw [hty] at h
    cases h
    exact ⟨hs, rfl⟩
  | C_OUTPUT =>
    rw [hty] at h
    cases h
    exact ⟨hs, rfl⟩
  | C_VIEW =>
    rw [hty] at h
    cases h
    exact ⟨hs, rfl⟩

theorem container_reap_empty_recursive_loop_links_ok :
    ∀ (fuel : Nat) (s : State) (con : Option Nat) (t : State), tree_links_ok s →
      container_reap_empty_recursive_loop fuel s con = some t →
      tree_links_ok t ∧ t.next_id = s.next_id := by
  intro fuel
  induction fuel with
  | zero =>
    intro s con t hs h
    cases con with
    | none =>
      rw [container_reap_empty_recursive_loop] at h
      cases h
      exact ⟨hs, rfl⟩
    | some c =>
      rw [container_reap_empty_recursive_loop] at h
      cases h
  | succ fuel ih =>
    intro s con t hs h
    cases con with
    | none =>
      rw [container_reap_empty_recursive_loop] at h
      cases h
      exact ⟨hs, rfl⟩
    | some c =>
      rw [container_reap_empty_recursive_loop] at h
      cases hr : container_reap_empty s c with
      | none =>
        rw [hr] at h
        cases h
      | some r =>
        obtain ⟨r1, r2⟩ := container_reap_empty_links_ok s c r hs hr
        obtain ⟨t1, b⟩ := r
        rw [hr] at h
        cases b with
        | true =>
          simp only at h
          obtain ⟨i1, i2⟩ := ih t1 _ t r1 h
          exact ⟨i1, by rw [i2, r2]⟩
        | false =>
          simp only at h
          cases h
          exact ⟨r1, r2⟩

theorem container_reap_empty_recursive_links_ok (s : State) (con : Option Nat) (t : State)
    (hs : tree_links_ok s) (h : container_reap_empty_recursive s con = some t) :
    tree_links_ok t ∧ t.next_id = s.next_id :=
  container_reap_empty_recursive_loop_links_ok _ s con t hs h

/-! ## Tree integrity: rejigger and promotion out of tabs -/

theorem workspace_rejigger_loop_inv (env : Env) (ws np : Nat) :
    ∀ (fuel i : Nat) (s t : State), (∀ c ∈ (s.nodes ws).children, c = np) →
      workspace_rejigger_loop env ws np fuel i s = some t → t = s := by
  intro fuel
  induction fuel with
  | zero =>
    intro i s t _ h
    rw [workspace_rejigger_loop] at h
    split at h
    · cases h
    · exact (Option.some.inj h).symm
  | succ fuel ih =>
    intro i s t hch h
    rw [workspace_rejigger_loop] at h
    cases hc : (s.nodes ws).children[i]? with
    | none =>
      rw [hc] at h
      exact (Option.some.inj h).symm
    | some child =>
      rw [hc] at h
      simp only at h
      have e : child = np := hch child (List.getElem?_mem hc)
      subst e
      have hm : container_move_to env s child child = some s := by
        unfold container_move_to
        rw [if_pos rfl]
      rw [hm] at h
      exact ih (i + 1) s t hch h

/-- The function `workspace_rejigger` on a workspace keeps the links of the tree in
order. -/
theorem workspace_rejigger_links_ok (env : Env) (s : State) (ws n : Nat)
    (d : movement_direction) (t : State)
    (hs : tree_links_ok s) (hws : ws < s.next_id) (hn : n < s.next_id)
    (hty : (s.nodes ws).type = C_WORKSPACE)
    (h : workspace_rejigger env s ws n d = some t) : tree_links_ok t := by
  unfold workspace_rejigger at h
  simp only at h
  cases h1 : container_split s ws (s.nodes ws).layout with
  | none =>
    rw [h1] at h
    cases h
  | some r1 =>
    obtain ⟨p1, p2, p3, p4⟩ := container_split_links_ok s ws _ r1 hs hws h1
    obtain ⟨s1, np⟩ := r1
    rw [h1] at h
    simp only at h p1 p2 p3 p4
    cases h2 : container_remove_child s1 n with
    | none =>
      rw [h2] at h
      cases h
    | some r2 =>
      obtain ⟨q1, _, _, q4, _⟩ := container_remove_child_links_ok s1 n r2 p1 h2
      obtain ⟨P, ws', _, hr2⟩ := container_remove_child_inv s1 n r2 h2
      obtain ⟨s2, x⟩ := r2
      rw [h2] at h
      simp only at h q1 q4
      have hs2 : s2 = detach s1 n P ws' := congrArg Prod.fst hr2
      have hch : ∀ c ∈ (s2.nodes ws).children, c = np := by
        intro c hc
        rw [hs2, detach_children] at hc
        split at hc
        · exact p4 hty c (List.mem_of_mem_erase hc)
        · exact p4 hty c hc
      cases h3 : workspace_rejigger_loop env ws np (s2.next_id + 1) 0 s2 with
      | none =>
        rw [h3] at h
        cases h
      | some s3 =>
        rw [h3] at h
        simp only at h
        have e3 := workspace_rejigger_loop_inv env ws np _ _ s2 s3 hch h3
        subst e3
        cases h4 : container_insert_child s3 ws n (if move_offs d < 0 then 0 else 1) with
        | none =>
          rw [h4] at h
          cases h
        | some s4 =>
          rw [h4] at h
          simp only at h
          have hs4 := container_insert_child_links_ok s3 ws n _ s4 q1 (by omega) (by omega) h4
          have hs5 : tree_links_ok (s4.upd ws fun n => set_layout n (split_layout_of d)) :=
            tree_links_ok_congr (links_agree_upd_layout _ _ _) hs4
          cases h6 : container_flatten (s4.upd ws fun n => set_layout n (split_layout_of d))
              (some ws) with
          | none =>
            rw [h6] at h
            cases h
          | some r6 =>
            obtain ⟨f1, _⟩ := container_flatten_links_ok _ _ r6 hs5 h6
            obtain ⟨s6, y⟩ := r6
            rw [h6] at h
            simp only at h f1
            cases h7 : container_reap_empty_recursive s6 (s.nodes n).parent with
            | none =>
              rw [h7] at h
              cases h
            | some s7 =>
              rw [h7] at h
              cases h
              exact (container_reap_empty_recursive_links_ok s6 _ s7 f1 h7).1

/-- The function `move_out_of_tabs_stacks` keeps the links of the tree in order. -/
theorem move_out_of_tabs_stacks_links_ok (s : State) (n cur : Nat) (d : movement_direction)
    (offs : Int) (t : State) (hs : tree_links_ok s) (hn : n < s.next_id)
    (h : move_out_of_tabs_stacks s n cur d offs = some t) : tree_links_ok t := by
  unfold move_out_of_tabs_stacks at h
  cases hcp : (s.nodes cur).parent with
  | none =>
    rw [hcp] at h
    cases h
  | some cp =>
    rw [hcp] at h
    simp only at h
    by_cases h0 : (s.nodes n).parent = some cp ∧ (s.nodes cp).children.length = 1
    · rw [if_pos h0] at h
      cases h
      exact tree_links_ok_congr (links_agree_upd_layout _ _ _) hs
    · rw [if_neg h0] at h
      cases h1 : container_split s cp (split_layout_of d) with
      | none =>
        rw [h1] at h
        cases h
      | some r1 =>
        obtain ⟨p1, p2, p3, _⟩ := container_split_links_ok s cp _ r1 hs
          (allocated_of_parent s hs cur cp hcp).2 h1
        obtain ⟨s1, np⟩ := r1
        rw [h1] at h
        simp only at h p1 p2 p3
        have key : ∀ o : Option State,
            (match o with
              | none => none
              | some s2 => some (container_notify_subtree_changed (notify_external s2) np))
              = some t →
            (∀ s2, o = some s2 → tree_links_ok s2) → tree_links_ok t := by
          intro o ho hall
          cases o with
          | none => cases ho
          | some s2 =>
            cases ho
            exact hall s2 rfl
        refine key _ h (fun s2 hs2 => ?_)
        by_cases hw : decide ((s.nodes cp).type = C_WORKSPACE) = true
        · rw [if_pos hw] at hs2
          cases hnp : (s1.nodes np).parent with
          | none =>
            rw [hnp] at hs2
            cases hs2
          | some npp =>
            rw [hnp] at hs2
            exact container_insert_child_links_ok s1 npp n _ s2 p1 (by omega)
              (allocated_of_parent s1 p1 np npp hnp).2 hs2
        · rw [if_neg hw] at hs2
          cases h4 : container_insert_child s1 np n (if offs < 0 then 0 else 1) with
          | none =>
            rw [h4] at hs2
            cases hs2
          | some t1 =>
            rw [h4] at hs2
            simp only at hs2
            have ht1 := container_insert_child_links_ok s1 np n _ t1 p1 (by omega) p3 h4
            cases h5 : container_reap_empty_recursive t1 (t1.nodes np).parent with
            | none =>
              rw [h5] at hs2
              cases hs2
            | some t2 =>
              rw [h5] at hs2
              simp only at hs2
              have ht2 := (container_reap_empty_recursive_links_ok t1 _ t2 ht1 h5).1
              cases h6 : container_flatten t2 (t2.nodes np).parent with
              | none =>
                rw [h6] at hs2
                cases hs2
              | some r6 =>
                rw [h6] at hs2
                cases hs2
                exact (container_flatten_links_ok t2 _ r6 ht2 h6).1

/-! ## Ancestors -/

theorem parent_of_unique (s : State) : Relator.RightUnique (parent_of s) := by
  intro c p q hp hq
  unfold parent_of at hp hq
  rw [hp] at hq
  exact Option.some.inj hq

theorem above_total (s : State) (c x y : Nat) (hx : above s c x) (hy : above s c y) :
    above s x y ∨ above s y x :=
  Relation.ReflTransGen.total_of_right_unique (parent_of_unique s) hx hy

theorem above_parent (s : State) (c p x : Nat) (hp : (s.nodes c).parent = some p)
    (h : above s p x) : above s c x :=
  Relation.ReflTransGen.head hp h

theorem above_step (s : State) (c x p : Nat) (h : above s c x)
    (hp : (s.nodes x).parent = some p) : above s c p :=
  Relation.ReflTransGen.tail h hp

/-- In a tree without cycles, a node is not above its parent. -/
theorem not_above_of_parent (s : State) (hac : acyclic_tree s) (c p : Nat)
    (hp : (s.nodes c).parent = some p) : ¬ above s p c := by
  intro h
  exact hac c (Relation.TransGen.head' hp h)

/-- Above a node, strictly: through its parent. -/
theorem above_cases (s : State) (c x : Nat) (h : above s c x) :
    x = c ∨ ∃ p, (s.nodes c).parent = some p ∧ above s p x := by
  rcases Relation.ReflTransGen.cases_head h with h | ⟨p, hp, hpx⟩
  · exact Or.inl h.symm
  · exact Or.inr ⟨p, hp, hpx⟩

/-- Two different children of one node: neither is above the other, and no node
lies below both. -/
theorem siblings_not_both_above (s : State) (hac : acyclic_tree s) (a b Y c : Nat)
    (ha : (s.nodes a).parent = some Y) (hb : (s.nodes b).parent = some Y) (hab : a ≠ b)
    (hca : above s c a) (hcb : above s c b) : False := by
  have key : ∀ u v, (s.nodes u).parent = some Y → (s.nodes v).parent = some Y → u ≠ v →
      above s u v → False := by
    intro u v hu hv huv h
    rcases above_cases s u v h with h | ⟨p, hp, hpv⟩
    · exact huv h.symm
    · rw [hu] at hp
      cases hp
      exact not_above_of_parent s hac v Y hv hpv
  rcases above_total s c a b hca hcb with h | h
  · exact key a b ha hb hab h
  · exact key b a hb ha (Ne.symm hab) h

/-! ## The sibling swap of the relocation -/

theorem swap_entries_getElem (l : List Nat) (i j a b : Nat) (hi : l[i]? = some a)
    (hj : l[j]? = some b) (k : Nat) :
    ((l.set j a).set i b)[k]? = l[if k = i then j else if k = j then i else k]? := by
  obtain ⟨hil, _⟩ := List.getElem?_eq_some_iff.1 hi
  obtain ⟨hjl, _⟩ := List.getElem?_eq_some_iff.1 hj
  simp only [List.getElem?_set, List.length_set]
  by_cases h1 : k = i
  · subst h1
    simp [hil, hj]
  · by_cases h2 : k = j
    · subst h2
      simp [h1, Ne.symm h1, hjl, hi]
    · simp [h1, h2, Ne.symm h1, Ne.symm h2]

/-- The two stores of the sibling swap, on a sequence without repetition that
holds `a` at index `i` and `b` at index `j`: the result has the same elements
and no repetition. -/
theorem swap_entries (l : List Nat) (hnd : l.Nodup) (i j a b : Nat) (hi : l[i]? = some a)
    (hj : l[j]? = some b) :
    (∀ x, x ∈ (l.set j a).set i b ↔ x ∈ l) ∧ ((l.set j a).set i b).Nodup := by
  obtain ⟨hil, _⟩ := List.getElem?_eq_some_iff.1 hi
  obtain ⟨hjl, _⟩ := List.getElem?_eq_some_iff.1 hj
  have hg := swap_entries_getElem l i j a b hi hj
  have hinv : ∀ k, (if (if k = i then j else if k = j then i else k) = i then j
      else if (if k = i then j else if k = j then i else k) = j then i
      else (if k = i then j else if k = j then i else k)) = k := by
    intro k
    split_ifs <;> omega
  constructor
  · intro x
    rw [List.mem_iff_getElem?, List.mem_iff_getElem?]
    constructor
    · rintro ⟨k, hk⟩
      rw [hg] at hk
      exact ⟨_, hk⟩
    · rintro ⟨k, hk⟩
      refine ⟨if k = i then j else if k = j then i else k, ?_⟩
      rw [hg, hinv]
      exact hk
  · rw [List.nodup_iff_getElem?_ne_getElem?] at hnd ⊢
    intro k1 k2 hlt hk2
    simp only [List.length_set] at hk2
    rw [hg, hg]
    have hne : (if k1 = i then j else if k1 = j then i else k1)
        ≠ (if k2 = i then j else if k2 = j then i else k2) := by
      split_ifs <;> omega
    have hb1 : (if k1 = i then j else if k1 = j then i else k1) < l.length := by
      split_ifs <;> omega
    have hb2 : (if k2 = i then j else if k2 = j then i else k2) < l.length := by
      split_ifs <;> omega
    rcases Nat.lt_or_gt_of_ne hne with h | h
    · exact hnd _ _ h hb2
    · exact fun e => hnd _ _ h hb1 e.symm

/-! ## Tree integrity: the relocation of `container_move` -/

theorem tree_links_ok_upd_children (s : State) (P : Nat) (l : List Nat) (hs : tree_links_ok s)
    (hmem : ∀ x, x ∈ l ↔ x ∈ (s.nodes P).children) (hnd : l.Nodup) :
    tree_links_ok (s.upd P fun n => set_children n l) := by
  obtain ⟨h1, h2, h3⟩ := hs
  have hpa : ∀ m, ((s.upd P fun n => set_children n l).nodes m).parent = (s.nodes m).parent := by
    intro m
    rcases eq_or_ne m P with rfl | h <;> simp [set_children, *]
  have hch : ∀ m, ((s.upd P fun n => set_children n l).nodes m).children
      = if m = P then l else (s.nodes m).children := by
    intro m
    rcases eq_or_ne m P with rfl | h <;> simp [set_children, *]
  refine ⟨fun c Q => ?_, fun Q => ?_, fun m hm => ?_⟩
  · rw [hpa, hch]
    split
    · rename_i e
      rw [hmem, e]
      exact h1 c P
    · exact h1 c Q
  · rw [hch]
    split
    · exact hnd
    · exact h2 Q
  · rw [hpa, hch]
    have := h3 m hm
    refine ⟨this.1, ?_⟩
    split
    · rename_i e
      rw [e] at this
      cases hl : l with
      | nil => rfl
      | cons a t =>
        have : a ∈ (s.nodes P).children := (hmem a).1 (by rw [hl]; exact List.mem_cons_self _ _)
        rw [‹(s.nodes P).parent = none ∧ (s.nodes P).children = []›.2] at this
        cases this
    · exact this.2

theorem links_agree_upd_size (s : State) (a : Nat) (w h : Int) :
    links_agree s (s.upd a fun n => set_size n w h) :=
  ⟨rfl, fun m => ⟨(upd_set_size_links s a m w h).2.1, (upd_set_size_links s a m w h).2.2.1⟩⟩

theorem focus_inactive_child_inv (s : State) (sibling : Nat) :
    ∀ (fuel f child : Nat), focus_inactive_child s sibling fuel f = some child →
      (s.nodes child).parent = some sibling := by
  intro fuel
  induction fuel with
  | zero =>
    intro f child h
    cases h
  | succ fuel ih =>
    intro f child h
    rw [focus_inactive_child] at h
    cases hp : (s.nodes f).parent with
    | none =>
      rw [hp] at h
      cases h
    | some p =>
      rw [hp] at h
      simp only at h
      by_cases e : p = sibling
      · rw [if_pos e] at h
        cases h
        rw [hp, e]
      · rw [if_neg e] at h
        exact ih p child h

theorem list_get_inv (l : List Nat) (i : Int) (x : Nat) (h : list_get l i = some x) :
    ∃ j : Nat, i = (j : Int) ∧ l[j]? = some x := by
  unfold list_get at h
  split at h
  · rename_i hi
    exact ⟨i.toNat, (Int.toNat_of_nonneg hi.1).symm, h⟩
  · cases h

/-- The second loop of `container_move` keeps the links of the tree in order
when its destination is safe. -/
theorem container_move_relocate_links_ok (env : Env) (n : Nat) (d : movement_direction)
    (offs index : Int) :
    ∀ (fuel : Nat) (s : State) (sib : Nat) (r : State × Bool), tree_links_ok s →
      n < s.next_id → sib < s.next_id → index_child s n = some index →
      relocation_safe s n index offs sib →
      container_move_relocate env n d offs index fuel s sib = some r → tree_links_ok r.1 := by
  intro fuel
  induction fuel with
  | zero =>
    intro s sib r _ _ _ _ _ h
    cases h
  | succ fuel ih =>
    intro s sib r hs hn hsib hidx hsafe h
    rw [container_move_relocate] at h
    -- the destination is a container or a workspace
    have body : (if is_parallel (s.nodes sib).layout d = true then
          match container_insert_child s sib n (container_limit s sib (invert_movement d)) with
          | none => none
          | some t => some (t.upd n fun x => set_size x 0 0, true)
        else
          if env.seat_get_focus_inactive s sib ≠ none ∧
              env.seat_get_focus_inactive s sib ≠ some sib then
            match env.seat_get_focus_inactive s sib with
            | none => none
            | some fi =>
              match focus_inactive_child s sib (s.next_id + 1) fi with
              | none => none
              | some child => container_move_relocate env n d offs index fuel s child
          else
            (match (s.nodes sib).children.head? with
              | some first =>
                match container_remove_child s n with
                | none => none
                | some (t, _) =>
                  (container_add_sibling t first n).map fun (r : State × Option Nat) => r.1
              | none =>
                match container_remove_child s n with
                | none => none
                | some (t, _) => container_add_child t sib n).map fun (t : State) =>
                  (t.upd n fun x => set_size x 0 0, true)) = some r →
        (s.nodes sib).type ≠ C_VIEW → tree_links_ok r.1 := by
      intro h hnv
      by_cases hpar : is_parallel (s.nodes sib).layout d = true
      · rw [if_pos hpar] at h
        cases h1 : container_insert_child s sib n (container_limit s sib (invert_movement d)) with
        | none =>
          rw [h1] at h
          cases h
        | some t =>
          rw [h1] at h
          cases h
          exact tree_links_ok_congr (links_agree_upd_size _ _ _ _)
            (container_insert_child_links_ok s sib n _ t hs hn hsib h1)
      · rw [if_neg hpar] at h
        by_cases hfi : env.seat_get_focus_inactive s sib ≠ none ∧
            env.seat_get_focus_inactive s sib ≠ some sib
        · rw [if_pos hfi] at h
          cases hf : env.seat_get_focus_inactive s sib with
          | none => exact absurd hf hfi.1
          | some fi =>
            rw [hf] at h
            simp only at h
            cases hc : focus_inactive_child s sib (s.next_id + 1) fi with
            | none =>
              rw [hc] at h
              cases h
            | some child =>
              rw [hc] at h
              simp only at h
              have hcp := focus_inactive_child_inv s sib _ fi child hc
              refine ih s child r hs hn (allocated_of_parent s hs child sib hcp).1 hidx ?_ h
              intro Q hQ
              have hsq := (hsafe Q hQ).2 hnv
              constructor
              · intro _ hcq
                exfalso
                rw [hcp] at hcq
                cases hcq
                exact hsq Relation.ReflTransGen.refl
              · intro _ hab
                exact hsq (above_step s Q child sib hab hcp)
        · rw [if_neg hfi] at h
          cases hrem : container_remove_child s n with
          | none =>
            rw [hrem] at h
            cases hh : (s.nodes sib).children.head? <;> rw [hh] at h <;> cases h
          | some rr =>
            obtain ⟨q1, q2, _, q4, _⟩ := container_remove_child_links_ok s n rr hs hrem
            obtain ⟨t, x⟩ := rr
            rw [hrem] at h
            simp only at h q1 q2 q4
            cases hh : (s.nodes sib).children.head? with
            | some first =>
              rw [hh] at h
              simp only at h
              cases ha : container_add_sibling t first n with
              | none =>
                rw [ha] at h
                cases h
              | some ra =>
                rw [ha] at h
                cases h
                exact tree_links_ok_congr (links_agree_upd_size _ _ _ _)
                  (container_add_sibling_links_ok t first n ra q1 (by rw [q4]; exact hn) ha).1
            | none =>
              rw [hh] at h
              simp only at h
              cases ha : container_add_child t sib n with
              | none =>
                rw [ha] at h
                cases h
              | some t2 =>
                rw [ha] at h
                cases h
                exact tree_links_ok_congr (links_agree_upd_size _ _ _ _)
                  (container_add_child_links_ok t sib n t2 q1 q2 (by rw [q4]; exact hn)
                    (by rw [q4]; exact hsib) ha).1
    cases hty : (s.nodes sib).type with
    | C_ROOT =>
      rw [hty] at h
      cases h
      exact hs
    | C_OUTPUT =>
      rw [hty] at h
      cases h
      exact hs
    | C_WORKSPACE =>
      rw [hty] at h
      exact body h (by rw [hty]; decide)
    | C_CONTAINER =>
      rw [hty] at h
      exact body h (by rw [hty]; decide)
    | C_VIEW =>
      rw [hty] at h
      simp only at h
      by_cases hsame : (s.nodes sib).parent = (s.nodes n).parent
      · rw [if_pos hsame] at h
        cases hsp : (s.nodes sib).parent with
        | none =>
          rw [hsp] at h
          cases h
        | some sp =>
          rw [hsp] at h
          simp only at h
          have hnp : (s.nodes n).parent = some sp := by rw [← hsame, hsp]
          cases h1 : list_store (s.nodes sp).children (index + offs) n with
          | none =>
            rw [h1] at h
            cases h
          | some l1 =>
            rw [h1] at h
            simp only at h
            cases h2 : list_store l1 index sib with
            | none =>
              rw [h2] at h
              cases h
            | some l2 =>
              rw [h2] at h
              cases h
              obtain ⟨j', hj', hj'l, hl1⟩ := list_store_inv _ _ _ _ h1
              obtain ⟨j, hj, hjl, hl2⟩ := list_store_inv _ _ _ _ h2
              subst hl1 hl2
              -- the index of `n`
              obtain ⟨k, hk, _⟩ := list_find_of_mem _ _ ((hs.1 n sp).1 hnp)
              have hik : index = (k : Int) := by
                rw [index_child_eq s n sp hnp, hk] at hidx
                exact (Option.some.inj hidx).symm
              have hkj : k = j := by omega
              subst hkj
              have hgn : (s.nodes sp).children[k]? = some n := (list_find_some_iff _ _ _ hk).1
              -- the neighbour
              obtain ⟨j2, hj2, hg2⟩ := list_get_inv _ _ _ ((hsafe sp hnp).1 hty hsp)
              have hjj : j2 = j' := by omega
              subst hjj
              obtain ⟨m1, m2⟩ := swap_entries (s.nodes sp).children (hs.2.1 sp) k j2 n sib hgn hg2
              exact tree_links_ok_upd_children s sp _ hs m1 m2
      · rw [if_neg hsame] at h
        cases hsp : (s.nodes sib).parent with
        | none =>
          rw [hsp] at h
          cases h
        | some sp =>
          cases hi : index_child s sib with
          | none =>
            rw [hsp, hi] at h
            cases h
          | some i =>
            rw [hsp, hi] at h
            simp only at h
            cases h1 : container_insert_child s sp n (i + (if offs > 0 then 0 else 1)) with
            | none =>
              rw [h1] at h
              cases h
            | some t =>
              rw [h1] at h
              cases h
              exact tree_links_ok_congr (links_agree_upd_size _ _ _ _)
                (container_insert_child_links_ok s sp n _ t hs hn
                  (allocated_of_parent s hs sib sp hsp).2 h1)

/-! ## Tree integrity: the search of `container_move` -/

theorem ancestors_above (s : State) :
    ∀ (f : Nat) (p w : Nat), w ∈ ancestors s f (some p) → above s p w := by
  intro f
  induction f with
  | zero =>
    intro p w h
    simp [ancestors] at h
  | succ f ih =>
    intro p w h
    simp only [ancestors, List.mem_cons] at h
    rcases h with h | h
    · rw [h]
      exact Relation.ReflTransGen.refl
    · cases hp : (s.nodes p).parent with
      | none =>
        rw [hp] at h
        cases f <;> simp [ancestors] at h
      | some q =>
        rw [hp] at h
        exact above_parent s p q w hp (ih q w h)

theorem workspace_of_type (s : State) (f W : Nat) (h : workspace_of s f = some (some W)) :
    (s.nodes W).type = C_WORKSPACE := by
  unfold workspace_of at h
  by_cases hty : (s.nodes f).type ≠ C_WORKSPACE
  · rw [if_pos hty] at h
    exact (container_parent_loop_found s C_WORKSPACE _ _ W h).2
  · rw [if_neg hty] at h
    cases h
    exact not_not.1 hty

/-- The first loop of `container_move` in a tree without cycles whose
workspaces are plain: a result without a destination has its links in order,
and a destination is found in the unchanged heap and is safe for the
relocation. -/
theorem container_move_search_links_ok (env : Env) (n : Nat) (d : movement_direction)
    (top : Option Nat) (s : State) (hs : tree_links_ok s) (hac : acyclic_tree s)
    (hwp : workspaces_plain s) (henv : picks_other_branch env s) (hn : n < s.next_id) :
    ∀ (fuel : Nat) (current : Option Nat) (r : State × Option Nat),
      (∀ cur, current = some cur → above s n cur ∧
        ¬ ((s.nodes cur).type = C_WORKSPACE ∧
          ((s.nodes cur).layout = L_TABBED ∨ (s.nodes cur).layout = L_STACKED))) →
      container_move_search env n d (move_offs d) top fuel s current = some r →
      (r.2 = none → tree_links_ok r.1) ∧
      (∀ sib, r.2 = some sib → r.1 = s ∧ sib < s.next_id ∧
        ∀ index, index_child s n = some index → relocation_safe s n index (move_offs d) sib) := by
  intro fuel
  induction fuel with
  | zero =>
    intro current r _ h
    cases h
  | succ fuel ih =>
    intro current r hcur h
    unfold container_move_search at h
    by_cases htop : current = top
    · rw [if_pos htop] at h
      cases h
      exact ⟨fun _ => hs, fun sib e => by cases e⟩
    rw [if_neg htop] at h
    cases current with
    | none => cases h
    | some cur =>
      obtain ⟨habove, hnt⟩ := hcur cur rfl
      simp only at h
      cases hidx : index_child s cur with
      | none =>
        rw [hidx] at h
        cases h
      | some index =>
        cases hP : (s.nodes cur).parent with
        | none =>
          rw [hidx, hP] at h
          cases h
        | some P =>
          rw [hidx, hP] at h
          simp only at h
          have hnext : ∀ r, ¬ ((s.nodes P).type = C_WORKSPACE ∧
                ((s.nodes P).layout = L_TABBED ∨ (s.nodes P).layout = L_STACKED)) →
              container_move_search env n d (move_offs d) top fuel s (some P) = some r →
              (r.2 = none → tree_links_ok r.1) ∧
              (∀ sib, r.2 = some sib → r.1 = s ∧ sib < s.next_id ∧
                ∀ index, index_child s n = some index →
                  relocation_safe s n index (move_offs d) sib) := by
            intro r hP2 h
            refine ih (some P) r (fun c hc => ?_) h
            cases hc
            exact ⟨above_step s n cur _ habove hP, hP2⟩
          have hmap : ∀ (o : Option State), (o.map fun t => (t, (none : Option Nat))) = some r →
              (∀ t, o = some t → tree_links_ok t) →
              (r.2 = none → tree_links_ok r.1) ∧
              (∀ sib, r.2 = some sib → r.1 = s ∧ sib < s.next_id ∧
                ∀ index, index_child s n = some index →
                  relocation_safe s n index (move_offs d) sib) := by
            intro o ho hall
            cases o with
            | none => cases ho
            | some t =>
              cases ho
              exact ⟨fun _ => hall t rfl, fun sib e => by cases e⟩
          have hstay : (some (s, (none : Option Nat)) = some r) →
              (r.2 = none → tree_links_ok r.1) ∧
              (∀ sib, r.2 = some sib → r.1 = s ∧ sib < s.next_id ∧
                ∀ index, index_child s n = some index →
                  relocation_safe s n index (move_offs d) sib) := by
            intro h
            cases h
            exact ⟨fun _ => hs, fun sib e => by cases e⟩
          have hcura := (allocated_of_parent s hs cur P hP).1
          have hPa := (allocated_of_parent s hs cur P hP).2
          by_cases hR : (s.nodes cur).type = C_ROOT
          · rw [hR] at h
            exact hstay h
          by_cases hO : (s.nodes cur).type = C_OUTPUT
          · rw [hO] at h
            simp only at h
            cases hwd : sway_dir_to_wlr d with
            | none =>
              rw [hwd] at h
              exact hstay h
            | some wd =>
              rw [hwd] at h
              simp only at h
              cases hadj : env.adjacent_output s wd cur with
              | none =>
                rw [hadj] at h
                exact hstay h
              | some next =>
                rw [hadj] at h
                simp only at h
                cases hfo : env.seat_get_focus_inactive s next with
                | none =>
                  rw [hfo] at h
                  cases h
                | some focus =>
                  rw [hfo] at h
                  simp only at h
                  cases hwo : workspace_of s focus with
                  | none =>
                    rw [hwo] at h
                    cases h
                  | some w =>
                    cases w with
                    | none =>
                      rw [hwo] at h
                      simp only at h
                      exact ih none r (fun c hc => by cases hc) h
                    | some W =>
                      rw [hwo] at h
                      cases h
                      obtain ⟨e1, e2, e3⟩ := henv wd cur next focus W hadj hfo hwo
                      refine ⟨fun e => (by cases e), fun sib e => ?_⟩
                      cases e
                      refine ⟨rfl, e1, fun index _ Q hQ => ⟨fun hv _ => ?_, fun _ hab => ?_⟩⟩
                      · rw [workspace_of_type s focus _ hwo] at hv
                        cases hv
                      · rcases above_total s n cur _ habove (above_parent s n Q _ hQ hab) with h | h
                        · exact e2 h
                        · exact e3 h
          by_cases hty : (s.nodes cur).type = C_WORKSPACE
          · rw [hty] at h
            simp only at h
            have hPnw : ¬ ((s.nodes P).type = C_WORKSPACE ∧
                ((s.nodes P).layout = L_TABBED ∨ (s.nodes P).layout = L_STACKED)) :=
              fun e => hwp.2 cur P hty hP e.1
            by_cases hpar : is_parallel (s.nodes cur).layout d = false
            · rw [if_pos hpar] at h
              by_cases h2 : (s.nodes cur).children.length ≥ 2
              · rw [if_pos h2] at h
                exact hmap _ h (fun t ht =>
                  workspace_rejigger_links_ok env s cur n d t hs hcura hn hty ht)
              · rw [if_neg h2] at h
                exact hnext r hPnw h
            · rw [if_neg hpar] at h
              by_cases htab : (s.nodes cur).layout = L_TABBED ∨ (s.nodes cur).layout = L_STACKED
              · exact absurd ⟨hty, htab⟩ hnt
              · rw [if_neg htab] at h
                exact hnext r hPnw h
          cases hty2 : (s.nodes cur).type <;>
            first
            | exact absurd hty2 hR
            | exact absurd hty2 hO
            | exact absurd hty2 hty
            | skip
          all_goals
            rw [hty2] at h
            simp only at h
            by_cases hpar : is_parallel (s.nodes P).layout d = true
            · rw [if_pos hpar] at h
              by_cases hedge : (index = ((s.nodes P).children.length : Int) - 1 ∧ move_offs d > 0)
                  ∨ (index = 0 ∧ move_offs d < 0)
              · rw [if_pos hedge] at h
                by_cases hsame : some P = (s.nodes n).parent
                · rw [if_pos hsame] at h
                  cases hpp : (s.nodes P).parent with
                  | none =>
                    rw [hpp] at h
                    cases h
                  | some pp =>
                    rw [hpp] at h
                    simp only at h
                    by_cases hfl : (s.nodes pp).layout = L_FLOATING
                    · rw [if_pos hfl] at h
                      exact hstay h
                    · rw [if_neg hfl] at h
                      by_cases htab : (s.nodes P).is_fullscreen = false ∧
                          ((s.nodes P).layout = L_TABBED ∨ (s.nodes P).layout = L_STACKED)
                      · rw [if_pos htab] at h
                        exact hmap _ h (fun t ht =>
                          move_out_of_tabs_stacks_links_ok s n cur d _ t hs hn ht)
                      · rw [if_neg htab] at h
                        exact hnext r (fun e => htab ⟨hwp.1 P e.1, e.2⟩) h
                · rw [if_neg hsame] at h
                  cases hins : container_insert_child s P n
                      (index + (if move_offs d < 0 then 0 else 1)) with
                  | none =>
                    rw [hins] at h
                    cases h
                  | some t =>
                    rw [hins] at h
                    cases h
                    exact ⟨fun _ => tree_links_ok_congr (links_agree_upd_size _ _ _ _)
                      (container_insert_child_links_ok s P n _ t hs hn hPa hins),
                      fun sib e => by cases e⟩
              · rw [if_neg hedge] at h
                cases hget : list_get (s.nodes P).children (index + move_offs d) with
                | none =>
                  rw [hget] at h
                  cases h
                | some sib =>
                  rw [hget] at h
                  cases h
                  obtain ⟨j, hj, hgj⟩ := list_get_inv _ _ _ hget
                  have hsibP : (s.nodes sib).parent = some P :=
                    (hs.1 sib P).2 (List.getElem?_mem hgj)
                  -- the index of `cur`
                  obtain ⟨k, hk, _⟩ := list_find_of_mem _ _ ((hs.1 cur P).1 hP)
                  have hik : index = (k : Int) := by
                    rw [index_child_eq s cur P hP, hk] at hidx
                    exact (Option.some.inj hidx).symm
                  have hgk : (s.nodes P).children[k]? = some cur := (list_find_some_iff _ _ _ hk).1
                  have hne : sib ≠ cur := by
                    intro e
                    rw [e] at hgj
                    have hjl := (List.getElem?_eq_some_iff.1 hgj).1
                    have hkl := (List.getElem?_eq_some_iff.1 hgk).1
                    have hjk : j = k := by
                      have h1 := (List.getElem?_eq_some_iff.1 hgj).2
                      have h2 := (List.getElem?_eq_some_iff.1 hgk).2
                      exact (List.Nodup.getElem_inj_iff (hs.2.1 P)).1 (h1.trans h2.symm)
                    rcases move_offs_cases d with ho | ho <;> rw [ho] at hj <;> omega
                  refine ⟨fun e => (by cases e), fun sib2 e => ?_⟩
                  cases e
                  refine ⟨rfl, (allocated_of_parent s hs _ P hsibP).1,
                    fun index' hidx' Q hQ => ⟨fun _ hsQ => ?_, fun _ hab => ?_⟩⟩
                  · -- a view in the parent of `n`: `cur` is `n`
                    rw [hsibP] at hsQ
                    cases hsQ
                    have hcn : cur = n := by
                      rcases above_cases s n cur habove with h | ⟨p, hp, hpc⟩
                      · exact h
                      · rw [hQ] at hp
                        cases hp
                        exact absurd hpc (not_above_of_parent s hac cur _ hP)
                    subst hcn
                    rw [hidx] at hidx'
                    cases hidx'
                    exact hget
                  · exact siblings_not_both_above s hac _ cur P n hsibP hP hne
                      (above_parent s n Q _ hQ hab) habove
            · rw [if_neg hpar] at h
              cases hpp : (s.nodes P).parent with
              | none =>
                rw [hpp] at h
                cases h
              | some pp =>
                rw [hpp] at h
                simp only at h
                by_cases htab : (s.nodes P).is_fullscreen = false ∧
                    (s.nodes pp).layout ≠ L_FLOATING ∧
                    ((s.nodes P).layout = L_TABBED ∨ (s.nodes P).layout = L_STACKED)
                · rw [if_pos htab] at h
                  exact hmap _ h (fun t ht =>
                    move_out_of_tabs_stacks_links_ok s n cur d _ t hs hn ht)
                · rw [if_neg htab] at h
                  by_cases hfl : (s.nodes pp).layout = L_FLOATING
                  · rw [if_pos hfl] at h
                    exact hstay h
                  · rw [if_neg hfl] at h
                    exact hnext r (fun e => htab ⟨hwp.1 P e.1, hfl, e.2⟩) h

/-! ## The whole of `container_move` -/

/-- The loop of `container_flatten` in a heap `t` that agrees with an acyclic
heap `s` on the parents of the nodes above `c`: the node returned is above `c`
in `s`, and it is `c` only when nothing was done. -/
theorem container_flatten_loop_above (s : State) (hac : acyclic_tree s) :
    ∀ (fuel : Nat) (t : State) (c : Nat) (r : State × Nat), tree_links_ok t →
      (∀ a, above s c a → (t.nodes a).parent = (s.nodes a).parent) →
      container_flatten_loop fuel t c = some r → above s c r.2 ∧ (r.2 = c → r.1 = t) := by
  intro fuel
  induction fuel with
  | zero =>
    intro t c r _ _ h
    unfold container_flatten_loop at h
    split at h
    · cases h
    · cases h
      exact ⟨Relation.ReflTransGen.refl, fun _ => rfl⟩
  | succ fuel ih =>
    intro t c r ht hinv h
    rw [container_flatten_loop] at h
    by_cases hc : (t.nodes c).type = C_CONTAINER ∧ (t.nodes c).children.length = 1
    · rw [if_pos hc] at h
      obtain ⟨x, hx⟩ : ∃ x, (t.nodes c).children = [x] := List.length_eq_one.1 hc.2
      have hhead : (t.nodes c).children.head? = some x := by rw [hx]; rfl
      rw [hhead] at h
      simp only at h
      cases hr : container_replace_child t c x with
      | none =>
        rw [hr] at h
        cases h
      | some r1 =>
        rw [hr] at h
        simp only at h
        obtain ⟨q1, q2, q3⟩ := flatten_step_links_ok t c x r1 ht hx hr
        cases hd : container_destroy r1.1 c with
        | none =>
          rw [hd] at h
          cases h
        | some s2 =>
          rw [hd] at h
          simp only at h
          obtain ⟨d1, _⟩ := container_destroy_links_ok r1.1 c s2 q1 hd
          obtain ⟨dn, _⟩ := container_destroy_inv r1.1 c s2 hd
          cases hp : (t.nodes c).parent with
          | none =>
            rw [hp] at h
            cases h
          | some p =>
            rw [hp] at h
            simp only at h
            have hps : (s.nodes c).parent = some p := by
              rw [← hinv c Relation.ReflTransGen.refl]
              exact hp
            have hxt : (t.nodes x).parent = some c := by
              apply (ht.1 x c).2
              rw [hx]
              exact List.mem_singleton_self x
            obtain ⟨_, q4⟩ := q3 p hp
            have hinv2 : ∀ a, above s p a → (s2.nodes a).parent = (s.nodes a).parent := by
              intro a ha
              have hca : above s c a := above_parent s c p a hps ha
              have hac1 : a ≠ c := by
                rintro rfl
                exact not_above_of_parent s hac _ p hps ha
              have hax : a ≠ x := by
                rintro rfl
                have hxs : (s.nodes a).parent = some c := by
                  rw [← hinv a hca]
                  exact hxt
                exact not_above_of_parent s hac a c hxs hca
              rw [dn, detached_parent, if_neg hac1, q4 a hac1 hax]
              exact hinv a hca
            obtain ⟨i1, _⟩ := ih s2 p r d1 hinv2 h
            refine ⟨above_parent s c p _ hps i1, fun e => ?_⟩
            exfalso
            rw [e] at i1
            exact not_above_of_parent s hac c p hps i1
    · rw [if_neg hc] at h
      cases h
      exact ⟨Relation.ReflTransGen.refl, fun _ => rfl⟩

/-- The start of the search of `container_move` for a node that is not a
workspace: the search starts at a node above it that is not a workspace. -/
theorem container_move_start_inv (s : State) (n : Nat) (start : Option Nat × Option Nat)
    (hty : (s.nodes n).type ≠ C_WORKSPACE) (h : container_move_start s n = some start) :
    ∀ cur, start.1 = some cur → above s n cur ∧ (s.nodes cur).type ≠ C_WORKSPACE := by
  have hself : ∀ top : Option Nat, ∀ cur, ((some n, top) : Option Nat × Option Nat).1 = some cur →
      above s n cur ∧ (s.nodes cur).type ≠ C_WORKSPACE := by
    intro top cur e
    cases e
    exact ⟨Relation.ReflTransGen.refl, hty⟩
  unfold container_move_start at h
  by_cases hfs : (s.nodes n).is_fullscreen = true
  · rw [if_pos hfs] at h
    cases hO : container_parent s n C_OUTPUT with
    | none =>
      rw [hO] at h
      cases h
    | some c =>
      rw [hO] at h
      cases h
      intro cur e
      simp only at e
      subst e
      unfold container_parent at hO
      obtain ⟨m1, m2⟩ := container_parent_loop_found s C_OUTPUT _ _ cur hO
      refine ⟨?_, by rw [m2]; decide⟩
      cases hp : (s.nodes n).parent with
      | none =>
        rw [hp] at m1
        cases hf : s.next_id <;> rw [hf] at m1 <;> simp [ancestors] at m1
      | some p =>
        rw [hp] at m1
        exact above_parent s n p cur hp (ancestors_above s _ p cur m1)
  · rw [if_neg hfs] at h
    simp only at h
    split at h
    · cases h
    · split at h
      · cases h
        exact hself _
      · cases h
    · cases h
      exact hself _

/-- The end of `container_move` leaves the nodes as they are. -/
theorem container_move_finish_inv (s3 : State) (n : Nat) (op : Option Nat) (s' : State)
    (h : container_move_finish s3 n op = some s') :
    s'.nodes = s3.nodes ∧ s'.next_id = s3.next_id := by
  unfold container_move_finish at h
  simp only [notify_external] at h
  split at h
  · cases h
    cases op <;> exact ⟨rfl, rfl⟩
  · cases h

/-- The first part of `container_move` on a container or view of an acyclic
tree with plain workspaces: without a destination the links are in order, and
a destination is found in the unchanged heap and is safe for the relocation. -/
theorem container_move_phase_one_links_ok (env : Env) (s : State) (n : Nat)
    (d : movement_direction) (r : State × Option Nat)
    (hs : tree_links_ok s) (hac : acyclic_tree s) (hwp : workspaces_plain s)
    (henv : picks_other_branch env s) (hn : n < s.next_id)
    (hty : (s.nodes n).type ≠ C_WORKSPACE)
    (h : container_move_phase_one env s n d = some r) :
    (r.2 = none → tree_links_ok r.1) ∧
    (∀ sib, r.2 = some sib → r.1 = s ∧ sib < s.next_id ∧
      ∀ index, index_child s n = some index → relocation_safe s n index (move_offs d) sib) := by
  unfold container_move_phase_one at h
  cases hst : container_move_start s n with
  | none =>
    rw [hst] at h
    cases h
  | some start =>
    rw [hst] at h
    simp only at h
    have hstart := container_move_start_inv s n start hty hst
    cases hfl : container_flatten s (s.nodes n).parent with
    | none =>
      rw [hfl] at h
      cases h
    | some f =>
      rw [hfl] at h
      simp only at h
      by_cases hnp : some f.2 ≠ (s.nodes n).parent
      · rw [if_pos hnp] at h
        cases h
        exact ⟨fun _ => (container_flatten_links_ok s _ f hs hfl).1, fun sib e => by cases e⟩
      · rw [if_neg hnp] at h
        have hp : (s.nodes n).parent = some f.2 := (not_not.1 hnp).symm
        have hf1 : f.1 = s := by
          rw [hp] at hfl
          exact (container_flatten_loop_above s hac _ s f.2 f hs (fun _ _ => rfl) hfl).2 rfl
        rw [hf1] at h
        exact container_move_search_links_ok env n d start.2 s hs hac hwp henv hn _ start.1 r
          (fun cur e => ⟨(hstart cur e).1, fun hw => (hstart cur e).2 hw.1⟩) h

/-- The function `container_move` on a container or view of an acyclic tree with
plain workspaces keeps the links of the tree in order. -/
theorem container_move_links_ok (env : Env) (s : State) (n : Nat) (d : movement_direction)
    (s' : State) (hs : tree_links_ok s) (hac : acyclic_tree s) (hwp : workspaces_plain s)
    (henv : picks_other_branch env s) (hn : n < s.next_id)
    (hty : (s.nodes n).type ≠ C_WORKSPACE)
    (h : container_move env s n d = some s') : tree_links_ok s' := by
  rw [container_move_phases] at h
  cases hph : container_move_phase_one env s n d with
  | none =>
    rw [hph] at h
    cases h
  | some r =>
    rw [hph] at h
    obtain ⟨p1, p2⟩ := container_move_phase_one_links_ok env s n d r hs hac hwp henv hn hty hph
    obtain ⟨s2, o⟩ := r
    cases o with
    | none =>
      simp only at h
      cases h
      exact p1 rfl
    | some sib =>
      simp only at h
      obtain ⟨e, hsib, hsafe⟩ := p2 sib rfl
      simp only at e
      subst e
      cases hidx : index_child s2 n with
      | none =>
        rw [hidx] at h
        cases h
      | some index =>
        rw [hidx] at h
        simp only at h
        cases hrel : container_move_relocate env n d (move_offs d) index (s2.next_id + 1) s2
            sib with
        | none =>
          rw [hrel] at h
          cases h
        | some r3 =>
          rw [hrel] at h
          have h3 := container_move_relocate_links_ok env n d (move_offs d) index _ s2 sib r3
            hs hn hsib hidx (hsafe index hidx) hrel
          obtain ⟨s3, b⟩ := r3
          cases b with
          | false =>
            simp only at h
            cases h
            exact h3
          | true =>
            simp only at h
            obtain ⟨f1, f2⟩ := container_move_finish_inv s3 n _ s' h
            exact tree_links_ok_congr (links_agree_of_nodes f1 f2) h3

/-! ## Tree integrity is an invariant of the mutators -/

/-- A heap in which every parent has a smaller identifier than its child has no
cycle. -/
theorem acyclic_of_parent_lt (s : State)
    (h : ∀ c p, (s.nodes c).parent = some p → p < c) : acyclic_tree s := by
  have key : ∀ a b, Relation.TransGen (parent_of s) a b → b < a := by
    intro a b hab
    induction hab with
    | single h1 => exact h _ _ h1
    | tail _ h2 ih => exact lt_trans (h _ _ h2) ih
  intro n hn
  exact lt_irrefl n (key n n hn)

/-- The links of the example tree `views_tree [3, 4, 5]` are in order. -/
theorem views_tree_links_ok : tree_links_ok (views_tree [3, 4, 5]) := by
  refine ⟨fun c P => ?_, fun P => ?_, fun m hm => ?_⟩
  · rcases c with _ | _ | _ | _ | _ | _ | c <;> rcases P with _ | _ | _ | _ | _ | _ | P <;>
      simp [views_tree, blank_node]
  · rcases P with _ | _ | _ | _ | _ | _ | P <;> simp [views_tree, blank_node]
  · rcases m with _ | _ | _ | _ | _ | _ | m
    all_goals first
      | (exfalso; revert hm; simp [views_tree]; done)
      | simp [views_tree, blank_node]

/-- The example tree `views_tree [3, 4, 5]` has no cycle. -/
theorem views_tree_acyclic : acyclic_tree (views_tree [3, 4, 5]) := by
  apply acyclic_of_parent_lt
  intro c p
  rcases c with _ | _ | _ | _ | _ | _ | c <;> simp [views_tree, blank_node] <;> omega

/-- The workspace of the example tree `views_tree [3, 4, 5]` is plain. -/
theorem views_tree_workspaces_plain : workspaces_plain (views_tree [3, 4, 5]) := by
  refine ⟨fun w => ?_, fun w p => ?_⟩
  · rcases w with _ | _ | _ | _ | _ | _ | w <;> simp [views_tree, blank_node]
  · rcases w with _ | _ | _ | _ | _ | _ | w <;> simp [views_tree, blank_node]
    rintro rfl
    simp

/-- Without an adjacent output no workspace is picked on another output. -/
theorem picks_other_branch_of_no_adjacent (wrap : focus_wrapping_mode) (s : State) :
    picks_other_branch (example_env wrap no_adjacent_output) s := by
  intro dir O next focus W h
  cases h

/-- Claim C21: tree integrity is an invariant of the mutation operations.  In a
heap where every attached node is listed exactly once among the children of its
parent and in no other child sequence (and the memory not yet allocated is
fresh), the same holds after every call of `container_insert_child`,
`container_remove_child`, `container_add_sibling`, `container_split`,
`container_swap` and `container_move` that returns, by whichever path it
returns; the node removed by `container_remove_child` has no parent and is
listed nowhere.  The arguments are allocated nodes; for `container_move` the
node is a container or a view, the tree has no cycle, its workspaces are
neither fullscreen nor children of workspaces, and the workspace picked on an
adjacent output lies on another branch of the tree. -/
theorem tree_integrity_preserved (env : Env) (s : State) (hs : tree_integrity s)
    (hfresh : unallocated_unlinked s) :
    (∀ P c i s', P < s.next_id → c < s.next_id →
      container_insert_child s P c i = some s' →
      tree_integrity s' ∧ unallocated_unlinked s') ∧
    (∀ c r, container_remove_child s c = some r →
      tree_integrity r.1 ∧ unallocated_unlinked r.1 ∧
      (r.1.nodes c).parent = none ∧ ∀ Q, c ∉ (r.1.nodes Q).children) ∧
    (∀ fixed active r, active < s.next_id →
      container_add_sibling s fixed active = some r →
      tree_integrity r.1 ∧ unallocated_unlinked r.1) ∧
    (∀ child layout r, child < s.next_id →
      container_split s child layout = some r →
      tree_integrity r.1 ∧ unallocated_unlinked r.1) ∧
    (∀ con1 con2 s', container_swap env s con1 con2 = some s' →
      tree_integrity s' ∧ unallocated_unlinked s') ∧
    (∀ container move_dir s', container < s.next_id →
      ((s.nodes container).type = C_CONTAINER ∨ (s.nodes container).type = C_VIEW) →
      acyclic_tree s → workspaces_plain s → picks_other_branch env s →
      container_move env s container move_dir = some s' →
      tree_integrity s' ∧ unallocated_unlinked s') := by
  have hok : tree_links_ok s := (tree_links_ok_iff s).2 ⟨hs, hfresh⟩
  refine ⟨fun P c i s' hP hc h => ?_, fun c r h => ?_, fun f a r ha h => ?_,
    fun child layout r hc h => ?_, fun a b s' h => ?_,
    fun n d s' hn hty hac hwp henv h => ?_⟩
  · exact (tree_links_ok_iff s').1 (container_insert_child_links_ok s P c i s' hok hc hP h)
  · obtain ⟨h1, h2, h3, _⟩ := container_remove_child_links_ok s c r hok h
    exact ⟨((tree_links_ok_iff r.1).1 h1).1, ((tree_links_ok_iff r.1).1 h1).2, h2, h3⟩
  · exact (tree_links_ok_iff r.1).1 (container_add_sibling_links_ok s f a r hok ha h).1
  · exact (tree_links_ok_iff r.1).1 (container_split_links_ok s child layout r hok hc h).1
  · exact (tree_links_ok_iff s').1 (container_swap_links_ok env s a b s' hok h)
  · refine (tree_links_ok_iff s').1
      (container_move_links_ok env s n d s' hok hac hwp henv hn ?_ h)
    rcases hty with e | e <;> rw [e] <;> decide

/-- Witness for C21 on the workspace with the views 3, 4, 5: the six operations
return, and the tree has its integrity afterwards. -/
theorem tree_integrity_preserved_witness :
    tree_integrity (views_tree [3, 4, 5]) ∧ unallocated_unlinked (views_tree [3, 4, 5]) ∧
    (∃ s', container_insert_child (views_tree [3, 4, 5]) 2 5 0 = some s' ∧
      tree_integrity s') ∧
    (∃ r, container_remove_child (views_tree [3, 4, 5]) 4 = some r ∧ tree_integrity r.1 ∧
      (r.1.nodes 4).parent = none ∧ ∀ Q, 4 ∉ (r.1.nodes Q).children) ∧
    (∃ r, container_add_sibling (views_tree [3, 4, 5]) 3 5 = some r ∧ tree_integrity r.1) ∧
    (∃ r, container_split (views_tree [3, 4, 5]) 4 L_VERT = some r ∧ tree_integrity r.1) ∧
    (∃ s', container_swap (example_env WRAP_NO no_adjacent_output) (views_tree [3, 4, 5]) 3 5
        = some s' ∧ tree_integrity s') ∧
    (∃ s', container_move (example_env WRAP_NO no_adjacent_output) (views_tree [3, 4, 5]) 3
        MOVE_RIGHT = some s' ∧ tree_integrity s') := by
  have hT := (tree_links_ok_iff (views_tree [3, 4, 5])).1 views_tree_links_ok
  have H := tree_integrity_preserved (example_env WRAP_NO no_adjacent_output)
    (views_tree [3, 4, 5]) hT.1 hT.2
  refine ⟨hT.1, hT.2, ?_, ?_, ?_, ?_, ?_, ?_⟩
  · obtain ⟨s', h⟩ := Option.isSome_iff_exists.1
      (by decide : (container_insert_child (views_tree [3, 4, 5]) 2 5 0).isSome = true)
    exact ⟨s', h, (H.1 2 5 0 s' (by decide) (by decide) h).1⟩
  · obtain ⟨r, h⟩ := Option.isSome_iff_exists.1
      (by decide : (container_remove_child (views_tree [3, 4, 5]) 4).isSome = true)
    obtain ⟨h1, _, h3, h4⟩ := H.2.1 4 r h
    exact ⟨r, h, h1, h3, h4⟩
  · obtain ⟨r, h⟩ := Option.isSome_iff_exists.1
      (by decide : (container_add_sibling (views_tree [3, 4, 5]) 3 5).isSome = true)
    exact ⟨r, h, (H.2.2.1 3 5 r (by decide) h).1⟩
  · obtain ⟨r, h⟩ := Option.isSome_iff_exists.1
      (by decide : (container_split (views_tree [3, 4, 5]) 4 L_VERT).isSome = true)
    exact ⟨r, h, (H.2.2.2.1 4 L_VERT r (by decide) h).1⟩
  · obtain ⟨s', h⟩ := Option.isSome_iff_exists.1
      (by decide : (container_swap (example_env WRAP_NO no_adjacent_output)
        (views_tree [3, 4, 5]) 3 5).isSome = true)
    exact ⟨s', h, (H.2.2.2.2.1 3 5 s' h).1⟩
  · obtain ⟨s', h⟩ := Option.isSome_iff_exists.1
      (by decide : (container_move (example_env WRAP_NO no_adjacent_output)
        (views_tree [3, 4, 5]) 3 MOVE_RIGHT).isSome = true)
    exact ⟨s', h, (H.2.2.2.2.2 3 MOVE_RIGHT s' (by decide) (by decide) views_tree_acyclic
      views_tree_workspaces_plain (picks_other_branch_of_no_adjacent WRAP_NO _) h).1⟩

end Sway
